import Mathlib

/-!
# Drunkenfall: tournament bracket engine

A shallow embedding of `player.go`, `match.go` and `tournament.go`.

Conventions of the embedding

* In the bracket engine Go's `int` counters are unbounded integers (`Int`): there
  the counters count game events and stay far from the machine bounds.  The stat
  operations of `player.go` and `Score` are given a second time on Go's 64-bit
  `int`, every arithmetic result wrapped by `wrap64` (the definitions named
  `Wrapping.*`); what is proved of the size of a counter after one operation and
  of the rise of `Score` is proved of those.
* `time.Time` is `Option Nat`: `none` is the zero time, `some n` a clock reading.
  Operations that call `time.Now()` take the reading as the argument `now`.
* The global random source is a finite run of draws `Rand = List Nat`.  Each call
  of `rand.Intn` or `rand.Int` takes the head of the run.  When the run is used
  up the operation stops with `Fault.outOfDraws`: the rejection loop of
  `RandomizeColor` has not exited on the draws supplied.
* A Go method that mutates its receiver returns the new value.  A Go `error`
  result is an `Option String` next to the new state.  A run-time panic
  (index out of range, nil dereference) is `Fault.panic`, `log.Fatal` is
  `Fault.fatal`.
* Pointers are removed: a match lives inside its tournament and is addressed by a
  `MatchRef`; the back-references `Player.Match` and `Match.Tournament` and the
  `Judges` fields (never read by the engine) are dropped.  `Persist` only hands
  the state to the storage collaborator and does not change it.
* `sort.Sort` is the library's insertion sort, which is what the library runs
  on slices of at most 12 elements (every match has 4 slots).  On a longer
  slice (the runner-up queue can be one) the library also returns a sorted
  rearrangement, which may place ties in another order; the properties of the
  queue proved here speak of its members, not of the order of its ties.
-/

namespace Drunkenfall

/-- Abnormal ends of an operation. -/
inductive Fault where
  | panic
  | fatal
  | outOfDraws
deriving DecidableEq, Repr

/-- The draws of the random source still to be consumed. -/
abbrev Rand := List Nat

/-- Clock readings; `none` is Go's zero `time.Time`. -/
abbrev Time := Option Nat

/-- Source: `Time.IsZero`. -/
def Time.IsZero (t : Time) : Bool := t.isNone

/-! ## player.go -/

/-- Source: `Colors`. -/
def Colors : List String :=
  ["green", "blue", "pink", "orange", "white", "yellow", "cyan", "purple", "red"]

/-- Source: `type Player struct` (without the `Match` back-reference). -/
structure Player where
  Name : String
  PreferredColor : String
  Shots : Int
  Sweeps : Int
  Kills : Int
  Self : Int
  Explosions : Int
  Matches : Int
  TotalScore : Int
deriving DecidableEq, Repr

/-- The zero value `Player{}`. -/
def Player.zero : Player :=
  { Name := "", PreferredColor := "", Shots := 0, Sweeps := 0, Kills := 0, Self := 0,
    Explosions := 0, Matches := 0, TotalScore := 0 }

instance : Inhabited Player := ⟨Player.zero⟩

/-- Source: `Player.Score`. -/
def Player.Score (p : Player) : Int :=
  p.Sweeps * 5 + p.Shots * 3 + p.Kills * 2 + p.Self + p.Explosions

/-- Source: `Player.IsPrefill`. -/
def Player.IsPrefill (p : Player) : Bool := p.Name == ""

/-- Source: `Player.AddShot`. -/
def Player.AddShot (p : Player) : Player := { p with Shots := p.Shots + 1 }

/-- Source: `Player.RemoveShot`. -/
def Player.RemoveShot (p : Player) : Player :=
  if p.Shots = 0 then p else { p with Shots := p.Shots - 1 }

/-- Source: `Player.AddKill(kills ...int)`; the variadic argument is a list. -/
def Player.AddKill (p : Player) (kills : List Int) : Player :=
  match kills with
  | k :: _ => { p with Kills := p.Kills + k }
  | [] => { p with Kills := p.Kills + 1 }

/-- Source: `Player.RemoveKill`. -/
def Player.RemoveKill (p : Player) : Player :=
  if p.Kills = 0 then p else { p with Kills := p.Kills - 1 }

/-- Source: `Player.AddSweep`. -/
def Player.AddSweep (p : Player) : Player :=
  let p := { p with Sweeps := p.Sweeps + 1 }
  let p := p.AddShot
  let p := p.AddKill []
  let p := p.AddKill []
  p.AddKill []

/-- Source: `Player.RemoveSweep`. -/
def Player.RemoveSweep (p : Player) : Player :=
  if p.Sweeps = 0 then p else
  let p := { p with Sweeps := p.Sweeps - 1 }
  let p := p.RemoveShot
  let p := p.RemoveKill
  let p := p.RemoveKill
  p.RemoveKill

/-- Source: `Player.AddSelf`. -/
def Player.AddSelf (p : Player) : Player :=
  let p := { p with Self := p.Self + 1 }
  let p := p.RemoveKill
  p.AddShot

/-- Source: `Player.RemoveSelf`. -/
def Player.RemoveSelf (p : Player) : Player :=
  if p.Self = 0 then p else
  let p := { p with Self := p.Self - 1 }
  let p := p.AddKill []
  p.RemoveShot

/-- Source: `Player.AddExplosion`. -/
def Player.AddExplosion (p : Player) : Player :=
  let p := { p with Explosions := p.Explosions + 1 }
  let p := p.AddShot
  p.AddKill []

/-- Source: `Player.RemoveExplosion`. -/
def Player.RemoveExplosion (p : Player) : Player :=
  if p.Explosions = 0 then p else
  let p := { p with Explosions := p.Explosions - 1 }
  let p := p.RemoveShot
  p.RemoveKill

/-- Source: `Player.Reset`.  `TotalScore` and the colour are not reset. -/
def Player.Reset (p : Player) : Player :=
  { p with Shots := 0, Sweeps := 0, Kills := 0, Self := 0, Explosions := 0, Matches := 0 }

/-- Source: `Player.Update`. -/
def Player.Update (p other : Player) : Player :=
  let p := { p with
    Shots := p.Shots + other.Shots
    Sweeps := p.Sweeps + other.Sweeps
    Kills := p.Kills + other.Kills
    Self := p.Self + other.Self
    Explosions := p.Explosions + other.Explosions }
  let p := { p with TotalScore := p.Score }
  { p with Matches := p.Matches + 1 }

/-! ### sort.Sort -/

/-- Inner loop of the library's `insertionSort`: the element `x` standing right of
`pre` is swapped with its left neighbour `y` for as long as `Less(x, y)`. -/
def sinkLeft {α : Type} (less : α → α → Bool) (x : α) (pre : List α) : List α :=
  pre.rdropWhile (less x) ++ x :: pre.rtakeWhile (less x)

/-- Go's `sort.Sort` on a short slice: `insertionSort(data, 0, n)`, which sinks the
elements at positions 1, 2, ... in turn. -/
def sortSort {α : Type} (less : α → α → Bool) (xs : List α) : List α :=
  xs.foldl (fun pre x => sinkLeft less x pre) []

/-- Source: `ByScore.Less`. -/
def ByScore.Less (a b : Player) : Bool := decide (a.Score > b.Score)

/-- Source: `ByKills.Less`. -/
def ByKills.Less (a b : Player) : Bool := decide (a.Kills > b.Kills)

/-- Source: `ByRunnerup.Less`. -/
def ByRunnerup.Less (a b : Player) : Bool :=
  if a.Matches = b.Matches then decide (a.Score > b.Score)
  else decide (a.Matches < b.Matches)

/-- Source: `SortByScore`. -/
def SortByScore (ps : List Player) : List Player := sortSort ByScore.Less ps

/-- Source: `SortByKills`. -/
def SortByKills (ps : List Player) : List Player := sortSort ByKills.Less ps

/-- Source: `SortByRunnerup`. -/
def SortByRunnerup (ps : List Player) : List Player := sortSort ByRunnerup.Less ps

/-- Source: `getRandomPlayerColor`, on the draw `d` of `rand.Int()`. -/
def getRandomPlayerColor (d : Nat) : String :=
  Colors.getD (d % Colors.length) ""

/-- The loop of `RandomizeColor`: draw colours until one is not in `colors`. -/
def drawFree (colors : List String) : Rand → Except Fault (String × Rand)
  | [] => .error Fault.outOfDraws
  | d :: ds =>
    if getRandomPlayerColor d ∈ colors then drawFree colors ds
    else .ok (getRandomPlayerColor d, ds)

/-! ## match.go -/

/-- Source: `type Match struct` (without `Judges` and the `Tournament` pointer). -/
structure Match where
  Players : List Player
  Kind : String
  Index : Int
  Started : Time
  Ended : Time
deriving DecidableEq, Repr

/-- Source: `Player.RandomizeColor`.  `colors` starts as `make([]string, 4)`, four
empty strings, followed by the colour of every slot of the match. -/
def Player.RandomizeColor (p : Player) (r : Rand) (m : Match) :
    Except Fault (Player × Rand) :=
  match drawFree (List.replicate 4 "" ++ m.Players.map Player.PreferredColor) r with
  | .error f => .error f
  | .ok (color, r) => .ok ({ p with PreferredColor := color }, r)

/-- Source: `Match.ActualPlayers`. -/
def Match.ActualPlayers (m : Match) : Nat :=
  (m.Players.filter (fun p => !p.IsPrefill)).length

/-- Source: `Match.UpdatePlayer`: every slot with the name of `p` becomes `p`. -/
def Match.UpdatePlayer (m : Match) (p : Player) : Match :=
  { m with Players := m.Players.map (fun o => if o.Name = p.Name then p else o) }

/-- Body of the inner loop of `CorrectColorConflicts` at index `j`.  The state
carries the outer loop variable `p`, a copy that `p.RandomizeColor` changes. -/
def Match.conflictInner (i : Nat) (st : Rand × Match × Player) (j : Nat) :
    Except Fault (Rand × Match × Player) :=
  if i = j then .ok st else
  match st.2.1.Players[j]? with
  | none => .ok st
  | some p2 =>
    if st.2.2.PreferredColor = p2.PreferredColor then
      if st.2.2.Score ≥ p2.Score then
        match p2.RandomizeColor st.1 st.2.1 with
        | .error f => .error f
        | .ok (q, r) => .ok (r, st.2.1.UpdatePlayer q, st.2.2)
      else
        match st.2.2.RandomizeColor st.1 st.2.1 with
        | .error f => .error f
        | .ok (q, r) => .ok (r, st.2.1.UpdatePlayer q, q)
    else .ok st

/-- Body of the outer loop of `CorrectColorConflicts` at index `i`: `p` is read
from slot `i`, then the inner loop runs over all slots. -/
def Match.conflictOuter (st : Rand × Match) (i : Nat) : Except Fault (Rand × Match) :=
  match st.2.Players[i]? with
  | none => .ok st
  | some p =>
    match (List.range st.2.Players.length).foldlM (Match.conflictInner i) (st.1, st.2, p) with
    | .error f => .error f
    | .ok out => .ok (out.1, out.2.1)

/-- Source: `Match.CorrectColorConflicts`.  Both `range` loops run over the slots
of the match as they are when read; `UpdatePlayer` keeps the number of slots. -/
def Match.CorrectColorConflicts (r : Rand) (m : Match) : Except Fault (Rand × Match) :=
  (List.range m.Players.length).foldlM Match.conflictOuter (r, m)

/-- The loop of `Match.AddPlayer` that replaces the first placeholder by `p`. -/
def replaceFirstPrefill (p : Player) : List Player → List Player
  | [] => []
  | o :: os => if o.IsPrefill then p :: os else o :: replaceFirstPrefill p os

/-- Source: `Match.AddPlayer`. -/
def Match.AddPlayer (r : Rand) (m : Match) (p : Player) :
    Except Fault (Rand × Match × Option String) :=
  if m.ActualPlayers = 4 then .ok (r, m, some "cannot add fifth player") else
  match m.CorrectColorConflicts r with
  | .error f => .error f
  | .ok (r, m) =>
    if m.Players.length = 4 then
      .ok (r, { m with Players := replaceFirstPrefill p.Reset m.Players }, none)
    else
      .ok (r, { m with Players := m.Players ++ [p.Reset] }, none)

/-- One round of the loop of `Match.Prefill`. -/
def Match.prefillStep (st : Rand × Match) (_i : Nat) : Except Fault (Rand × Match) :=
  match st.2.AddPlayer st.1 Player.zero with
  | .error f => .error f
  | .ok (_, _, some _) => .error Fault.fatal
  | .ok (r, m, none) => .ok (r, m)

/-- Source: `Match.Prefill`: `for i := len(m.Players); i < 4; i++`. -/
def Match.Prefill (r : Rand) (m : Match) : Except Fault (Rand × Match) :=
  (List.range (4 - m.Players.length)).foldlM Match.prefillStep (r, m)

/-- Source: `NewMatch`. -/
def NewMatch (r : Rand) (index : Int) (kind : String) : Except Fault (Rand × Match) :=
  Match.Prefill r { Players := [], Kind := kind, Index := index, Started := none, Ended := none }

/-- Access `m.Players[i]` for writing: panics when `i` is out of range. -/
def Match.modPlayer (m : Match) (i : Nat) (f : Player → Player) : Except Fault Match :=
  match m.Players[i]? with
  | none => .error Fault.panic
  | some p => .ok { m with Players := m.Players.set i (f p) }

/-- Body of the first loop of `Match.Commit` for slot `i` and its `score`. -/
def Match.commitScore (m : Match) (i : Nat) (score : List Int) : Except Fault Match :=
  match score with
  | ups :: downs :: _ =>
    match (if ups = 3 then
            match m.modPlayer i Player.AddSweep with
            | .error f => .error f
            | .ok m => if downs = 1 then m.modPlayer i Player.RemoveShot else .ok m
          else if ups > 0 then m.modPlayer i (fun p => p.AddKill [ups])
          else .ok m) with
    | .error f => .error f
    | .ok m => if downs ≠ 0 then m.modPlayer i Player.AddSelf else .ok m
  | _ => .error Fault.panic

/-- Body of the second loop of `Match.Commit`. -/
def Match.commitShot (m : Match) (i : Nat) (shot : Bool) : Except Fault Match :=
  if shot then m.modPlayer i Player.AddShot else .ok m

/-- Source: `Match.Commit`, on the match alone. -/
def Match.Commit (m : Match) (scores : List (List Int)) (shots : List Bool) :
    Except Fault Match :=
  match scores.enum.foldlM (fun m is => Match.commitScore m is.1 is.2) m with
  | .error f => .error f
  | .ok m => shots.enum.foldlM (fun m is => Match.commitShot m is.1 is.2) m

/-- Source: `Match.IsStarted`. -/
def Match.IsStarted (m : Match) : Bool := !m.Started.IsZero

/-- Source: `Match.IsEnded`. -/
def Match.IsEnded (m : Match) : Bool := !m.Ended.IsZero

/-- Source: `Match.CanStart`. -/
def Match.CanStart (m : Match) : Bool := !m.IsStarted && !m.IsEnded

/-- Source: `Match.IsOpen`. -/
def Match.IsOpen (m : Match) : Bool := m.IsStarted && !m.IsEnded

/-- Source: `Match.Length`. -/
def Match.Length (m : Match) : Int := if m.Kind = "final" then 20 else 10

/-- Source: `Match.CanEnd`. -/
def Match.CanEnd (m : Match) : Bool :=
  if !m.IsOpen then false else m.Players.any (fun p => decide (p.Kills ≥ m.Length))

/-! ## tournament.go -/

/-- Source: `type Tournament struct` (without `Judges`, `db`, `server` and the two
unused length fields). -/
structure Tournament where
  Name : String
  ID : String
  Players : List Player
  Winners : List Player
  Runnerups : List String
  Tryouts : List Match
  Semis : List Match
  Final : Match
  Opened : Time
  Started : Time
  Ended : Time
deriving DecidableEq, Repr

/-- A match of a tournament: what a `*Match` taken from the bracket points at. -/
inductive MatchRef where
  | tryout (i : Nat)
  | semi (i : Nat)
  | final
deriving DecidableEq, Repr

/-- Read `t.Tryouts[i]`, `t.Semis[i]` or `t.Final`. -/
def Tournament.getMatch (t : Tournament) : MatchRef → Option Match
  | .tryout i => t.Tryouts[i]?
  | .semi i => t.Semis[i]?
  | .final => some t.Final

/-- Write through the pointer `ref`. -/
def Tournament.setMatch (t : Tournament) (ref : MatchRef) (m : Match) : Tournament :=
  match ref with
  | .tryout i => { t with Tryouts := t.Tryouts.set i m }
  | .semi i => { t with Semis := t.Semis.set i m }
  | .final => { t with Final := m }

/-- One round of the first loop of `NewTournament`. -/
def newTryoutStep (first : Nat) (st : Rand × List Match) (i : Nat) :
    Except Fault (Rand × List Match) :=
  match NewMatch st.1 ((i + first : Nat) : Int) "tryout" with
  | .error f => .error f
  | .ok (r, m) => .ok (r, st.2 ++ [m])

/-- Source: `NewTournament`; `now` is the reading of `time.Now()`. -/
def NewTournament (r : Rand) (name id : String) (now : Nat) : Except Fault (Rand × Tournament) :=
  match (List.range 4).foldlM (newTryoutStep 0) (r, []) with
  | .error f => .error f
  | .ok (r, tryouts) =>
  match NewMatch r 0 "semi" with
  | .error f => .error f
  | .ok (r, s0) =>
  match NewMatch r 1 "semi" with
  | .error f => .error f
  | .ok (r, s1) =>
  match s0.Prefill r with
  | .error f => .error f
  | .ok (r, s0) =>
  match s1.Prefill r with
  | .error f => .error f
  | .ok (r, s1) =>
  match NewMatch r 0 "final" with
  | .error f => .error f
  | .ok (r, fin) =>
  match fin.Prefill r with
  | .error f => .error f
  | .ok (r, fin) =>
    .ok (r, { Name := name, ID := id, Players := [], Winners := [], Runnerups := [],
              Tryouts := tryouts, Semis := [s0, s1], Final := fin,
              Opened := some now, Started := none, Ended := none })

/-- Source: `Tournament.CanJoin`. -/
def Tournament.CanJoin (t : Tournament) (name : String) : Bool :=
  if t.Players.length ≥ 32 then false
  else !(t.Players.any (fun p => p.Name == name))

/-- Exchange the entries at positions `i` and `j`. -/
def swapAt (l : List Player) (i j : Nat) : List Player :=
  match l[i]?, l[j]? with
  | some a, some b => (l.set i b).set j a
  | _, _ => l

/-- One round of the shuffle loop of `ShufflePlayers`: `j := rand.Intn(i + 1)`. -/
def shuffleStep (st : Rand × List Player) (i : Nat) : Except Fault (Rand × List Player) :=
  match st.1 with
  | [] => .error Fault.outOfDraws
  | d :: r => .ok (r, swapAt st.2 i (d % (i + 1)))

/-- One round of the dealing loop of `ShufflePlayers`: `t.Tryouts[i/4].AddPlayer(p)`,
the error result dropped. -/
def dealStep (st : Rand × List Match) (ip : Nat × Player) : Except Fault (Rand × List Match) :=
  match st.2[ip.1 / 4]? with
  | none => .error Fault.panic
  | some m =>
    match m.AddPlayer st.1 ip.2 with
    | .error f => .error f
    | .ok (r, m, _) => .ok (r, st.2.set (ip.1 / 4) m)

/-- The last loop of `ShufflePlayers`: `Prefill` on every tryout in turn. -/
def prefillAll : Rand → List Match → Except Fault (Rand × List Match)
  | r, [] => .ok (r, [])
  | r, m :: ms =>
    match m.Prefill r with
    | .error f => .error f
    | .ok (r, m) =>
      match prefillAll r ms with
      | .error f => .error f
      | .ok (r, ms) => .ok (r, m :: ms)

/-- Source: `Tournament.ShufflePlayers`. -/
def Tournament.ShufflePlayers (r : Rand) (t : Tournament) : Except Fault (Rand × Tournament) :=
  match (List.range t.Players.length).foldlM shuffleStep (r, t.Players) with
  | .error f => .error f
  | .ok (r, slice) =>
    match slice.enum.foldlM dealStep (r, t.Tryouts.map (fun m => { m with Players := [] })) with
    | .error f => .error f
    | .ok (r, tryouts) =>
      match prefillAll r tryouts with
      | .error f => .error f
      | .ok (r, tryouts) => .ok (r, { t with Players := slice, Tryouts := tryouts })

/-- The block `if ts == 4 && ps == 17` of `Tournament.AddPlayer`: four more
tryouts with the indices 4..7. -/
def Tournament.growTryouts (r : Rand) (t : Tournament) : Except Fault (Rand × Tournament) :=
  if t.Tryouts.length = 4 ∧ t.Players.length = 17 then
    match (List.range 4).foldlM (newTryoutStep 4) (r, t.Tryouts) with
    | .error f => .error f
    | .ok (r, tryouts) => .ok (r, { t with Tryouts := tryouts })
  else .ok (r, t)

/-- Source: `Tournament.AddPlayer`. -/
def Tournament.AddPlayer (r : Rand) (t : Tournament) (name color : String) :
    Except Fault (Rand × Tournament × Option String) :=
  if !t.CanJoin name then .ok (r, t, some "player already in match") else
  match Tournament.growTryouts r
      { t with Players := t.Players ++
          [{ Player.zero with Name := name, PreferredColor := color }] } with
  | .error f => .error f
  | .ok (r, t) =>
    match t.ShufflePlayers r with
    | .error f => .error f
    | .ok (r, t) => .ok (r, t, none)

/-- Source: `Tournament.StartTournament`. -/
def Tournament.StartTournament (t : Tournament) (now : Nat) : Tournament × Option String :=
  if t.Players.length < 8 then
    (t, some ("Tournament needs at least 8 players, got " ++ toString t.Players.length))
  else if t.Players.length > 32 then
    (t, some ("Tournament can only host 32 players, got " ++ toString t.Players.length))
  else ({ t with Started := some now }, none)

/-- Source: `Tournament.getPlayer`: the first roster entry with the name, `none`
for the nil pointer returned when there is none. -/
def Tournament.getPlayer (t : Tournament) (name : String) : Option Player :=
  t.Players.find? (fun p => p.Name == name)

/-- Write through the pointer returned by `getPlayer`: `t.getPlayer(name).f()`;
`none` is the nil dereference. -/
def updateFirst (name : String) (f : Player → Player) : List Player → Option (List Player)
  | [] => none
  | q :: qs =>
    if q.Name = name then some (f q :: qs)
    else (updateFirst name f qs).map (fun qs => q :: qs)

/-- Body of the loops of `UpdatePlayers`: `t.getPlayer(p.Name).Update(p)` for a
seated real player. -/
def seatedStep (ro : List Player) (p : Player) : Except Fault (List Player) :=
  if p.IsPrefill then .ok ro
  else match updateFirst p.Name (fun q => q.Update p) ro with
    | none => .error Fault.panic
    | some ro => .ok ro

/-- The loop `for _, p := range m.Players` of `UpdatePlayers` on the roster. -/
def foldSeated (roster : List Player) (seated : List Player) : Except Fault (List Player) :=
  seated.foldlM seatedStep roster

/-- Source: `Tournament.UpdatePlayers` (its error result is always nil). -/
def Tournament.UpdatePlayers (t : Tournament) : Except Fault Tournament :=
  match t.Tryouts.foldlM (fun ro m => foldSeated ro m.Players) (t.Players.map Player.Reset) with
  | .error f => .error f
  | .ok ro =>
    match t.Semis.foldlM (fun ro m => foldSeated ro m.Players) ro with
    | .error f => .error f
    | .ok ro =>
      match foldSeated ro t.Final.Players with
      | .error f => .error f
      | .ok ro => .ok { t with Players := ro }

/-- One round of the loop of `GetRunnerups`: `l := t.getPlayer(r)`, then `*l`. -/
def lookupStep (t : Tournament) (acc : List Player) (name : String) :
    Except Fault (List Player) :=
  match t.getPlayer name with
  | none => .error Fault.panic
  | some l => .ok (acc ++ [l])

/-- Source: `Tournament.GetRunnerups` (its error result is always nil): the ranked
records and the tournament with its roster updated. -/
def Tournament.GetRunnerups (t : Tournament) : Except Fault (List Player × Tournament) :=
  match t.UpdatePlayers with
  | .error f => .error f
  | .ok t =>
    match t.Runnerups.foldlM (lookupStep t) [] with
    | .error f => .error f
    | .ok p => .ok (SortByRunnerup p, t)

/-- The loop of `PopulateRunnerups`: `for i := 0; m.ActualPlayers() < 4; i++`,
reading `r[i]` (a panic once the ranked list is used up). -/
def populateLoop : Rand → Match → List Player → Except Fault (Rand × Match)
  | r, m, [] => if m.ActualPlayers < 4 then .error Fault.panic else .ok (r, m)
  | r, m, p :: ps =>
    if m.ActualPlayers < 4 then
      match m.AddPlayer r p with
      | .error f => .error f
      | .ok (r, m, _) => populateLoop r m ps
    else .ok (r, m)

/-- Source: `Tournament.PopulateRunnerups` (its error result is always nil). -/
def Tournament.PopulateRunnerups (r : Rand) (t : Tournament) (ref : MatchRef) :
    Except Fault (Rand × Tournament) :=
  match t.GetRunnerups with
  | .error f => .error f
  | .ok (ps, t) =>
    match t.getMatch ref with
    | none => .error Fault.panic
    | some m =>
      match populateLoop r m ps with
      | .error f => .error f
      | .ok (r, m) => .ok (r, t.setMatch ref m)

/-- Body of the tryout loop of `MovePlayers` for the finisher `p` of rank `i` of
the match with index `mIndex`.  Go's `%` is the truncated remainder. -/
def advanceStep (mIndex : Int) (st : Rand × Tournament) (ip : Nat × Player) :
    Except Fault (Rand × Tournament) :=
  let t := st.2
  if (t.Tryouts.length = 4 ∧ ip.1 < 2) ∨ ip.1 = 0 then
    let index := Int.tmod ((ip.1 : Int) + mIndex) 2
    if index < 0 then .error Fault.panic else
    match t.Semis[index.toNat]? with
    | none => .error Fault.panic
    | some semi =>
      match semi.AddPlayer st.1 ip.2 with
      | .error f => .error f
      | .ok (r, semi, _) =>
        .ok (r, { t with Semis := t.Semis.set index.toNat semi,
                         Runnerups := t.Runnerups.erase ip.2.Name })
  else
    if ip.2.Name ∈ t.Runnerups then .ok st
    else .ok (st.1, { t with Runnerups := t.Runnerups ++ [ip.2.Name] })

/-- Body of the semi loop of `MovePlayers`. -/
def finalStep (st : Rand × Tournament) (ip : Nat × Player) : Except Fault (Rand × Tournament) :=
  if ip.1 < 2 then
    match st.2.Final.AddPlayer st.1 ip.2 with
    | .error f => .error f
    | .ok (r, fin, _) => .ok (r, { st.2 with Final := fin })
  else .ok st

/-- The block `if m.Kind == "tryout"` of `MovePlayers`.  `SortByKills` sorts the
slots of the match in place; the loop then runs over the sorted slots. -/
def Tournament.moveTryout (r : Rand) (t : Tournament) (ref : MatchRef) (m : Match) :
    Except Fault (Rand × Tournament) :=
  if m.Kind = "tryout" then
    (SortByKills m.Players).enum.foldlM (advanceStep m.Index)
      (r, t.setMatch ref { m with Players := SortByKills m.Players })
  else .ok (r, t)

/-- The block `if m.Kind == "semi"` of `MovePlayers`. -/
def Tournament.moveSemi (r : Rand) (t : Tournament) (ref : MatchRef) (m : Match) :
    Except Fault (Rand × Tournament) :=
  if m.Kind = "semi" then
    (SortByKills m.Players).enum.foldlM finalStep
      (r, t.setMatch ref { m with Players := SortByKills m.Players })
  else .ok (r, t)

/-- Source: `Tournament.MovePlayers` (its error result is always nil). -/
def Tournament.MovePlayers (r : Rand) (t : Tournament) (ref : MatchRef) :
    Except Fault (Rand × Tournament) :=
  match t.getMatch ref with
  | none => .error Fault.panic
  | some m =>
    match t.moveTryout r ref m with
    | .error f => .error f
    | .ok (r, t) =>
      match t.moveSemi r ref m with
      | .error f => .error f
      | .ok (r, t) =>
        match t.GetRunnerups with
        | .error f => .error f
        | .ok (ps, t) => .ok (r, { t with Runnerups := ps.map Player.Name })

/-- Index of the first match of the list that has not ended. -/
def firstNotEnded : List Match → Option Nat
  | [] => none
  | m :: ms => if !m.IsEnded then some 0 else (firstNotEnded ms).map (fun i => i + 1)

/-- Source: `Tournament.NextMatch`: the match returned and the error.  With the
error the match is the last one the loops looked at. -/
def Tournament.NextMatch (t : Tournament) : Option MatchRef × Option String :=
  match firstNotEnded t.Tryouts with
  | some x => (some (.tryout x), none)
  | none =>
    match firstNotEnded t.Semis with
    | some x => (some (.semi x), none)
    | none =>
      if !t.Final.IsEnded then (some .final, none)
      else
        (if t.Semis.length ≠ 0 then some (.semi (t.Semis.length - 1))
         else if t.Tryouts.length ≠ 0 then some (.tryout (t.Tryouts.length - 1))
         else none,
         some "all matches have been played")

/-- Source: `Tournament.AwardMedals`.  `ps[0:3]` needs three slots: with fewer
the operation panics here, as the slice expression does once the capacity is
short as well. -/
def Tournament.AwardMedals (t : Tournament) (ref : MatchRef) (now : Nat) :
    Except Fault (Tournament × Option String) :=
  match t.getMatch ref with
  | none => .error Fault.panic
  | some m =>
    if m.Kind ≠ "final" then .ok (t, some "awarding medals outside of the final") else
    let ps := SortByKills m.Players
    if ps.length < 3 then .error Fault.panic else
    let t := t.setMatch ref { m with Players := ps }
    .ok ({ t with Winners := ps.take 3, Ended := some now }, none)

/-- Source: `Tournament.IsOpen`. -/
def Tournament.IsOpen (t : Tournament) : Bool := !t.Opened.IsZero

/-- Source: `Tournament.IsJoinable`. -/
def Tournament.IsJoinable (t : Tournament) : Bool :=
  if t.Players.length ≥ 32 then false else t.IsOpen && t.Started.IsZero

/-- Source: `Tournament.IsStartable`. -/
def Tournament.IsStartable (t : Tournament) : Bool :=
  t.IsOpen && t.Started.IsZero && decide (t.Players.length ≥ 16) && decide (t.Players.length ≤ 32)

/-- Source: `Tournament.IsRunning`. -/
def Tournament.IsRunning (t : Tournament) : Bool := !t.Started.IsZero && t.Ended.IsZero

/-! ### The match operations that reach into the tournament -/

/-- Source: `Match.Commit` on the match `ref` of the tournament. -/
def Tournament.Commit (t : Tournament) (ref : MatchRef) (scores : List (List Int))
    (shots : List Bool) : Except Fault Tournament :=
  match t.getMatch ref with
  | none => .error Fault.panic
  | some m =>
    match m.Commit scores shots with
    | .error f => .error f
    | .ok m => .ok (t.setMatch ref m)

/-- Source: `Match.Start` on the match `ref` of the tournament. -/
def Tournament.Start (r : Rand) (t : Tournament) (ref : MatchRef) (now : Nat) :
    Except Fault (Rand × Tournament × Option String) :=
  match t.getMatch ref with
  | none => .error Fault.panic
  | some m =>
    if !m.Started.IsZero then .ok (r, t, some "match already started") else
    match (if m.ActualPlayers ≠ 4 then t.PopulateRunnerups r ref else .ok (r, t)) with
    | .error f => .error f
    | .ok (r, t) =>
      match t.getMatch ref with
      | none => .error Fault.panic
      | some m =>
        match m.CorrectColorConflicts r with
        | .error f => .error f
        | .ok (r, m) =>
          .ok (r, t.setMatch ref
            { m with Players := m.Players.map Player.Reset, Started := some now }, none)

/-- The loop of `Match.End` that gives the first slot named `winner` a shot. -/
def addShotFirst (winner : String) : List Player → List Player
  | [] => []
  | p :: ps => if p.Name = winner then p.AddShot :: ps else p :: addShotFirst winner ps

/-- Source: `Match.End` on the match `ref` of the tournament.  `ByScore(m.Players)`
is a conversion, not a sort: `ps[0]` is the player of slot 0.  `now` is the clock
reading stored in the match, `now2` the one `AwardMedals` takes. -/
def Tournament.End (r : Rand) (t : Tournament) (ref : MatchRef) (now now2 : Nat) :
    Except Fault (Rand × Tournament × Option String) :=
  match t.getMatch ref with
  | none => .error Fault.panic
  | some m =>
    if !m.Ended.IsZero then .ok (r, t, some "match already ended") else
    match m.Players with
    | [] => .error Fault.panic
    | w :: _ =>
      let m := { m with Players := addShotFirst w.Name m.Players, Ended := some now }
      let t := t.setMatch ref m
      if m.Kind = "final" then
        match t.AwardMedals ref now2 with
        | .error f => .error f
        | .ok (t, _) => .ok (r, t, none)
      else
        match t.MovePlayers r ref with
        | .error f => .error f
        | .ok (r, t) => .ok (r, t, none)

/-! ## Vocabulary of the properties -/

/-- The names of the slots of a match, in slot order. -/
def Match.names (m : Match) : List String := m.Players.map Player.Name

/-- The names of the real players of a match, in slot order. -/
def Match.realNames (m : Match) : List String := m.names.filter (fun n => n ≠ "")

/-- The match `m'` has the names, kind, index and timestamps of `m`. -/
def Match.sameFrame (m m' : Match) : Prop :=
  m'.names = m.names ∧ m'.Kind = m.Kind ∧ m'.Index = m.Index ∧ m'.Started = m.Started ∧
    m'.Ended = m.Ended

/-- Every colour of the palette is drawn somewhere in the run `pre`. -/
def coversPalette (pre : List Nat) : Prop :=
  ∀ c ∈ Colors, ∃ d ∈ pre, getRandomPlayerColor d = c

/-- The draws `r` start with `n` consecutive runs that each cover the palette:
enough for `n` calls of `RandomizeColor` (or single draws) to return. -/
def Enough : Nat → Rand → Prop
  | 0, _ => True
  | n + 1, r => ∃ pre post, r = pre ++ post ∧ coversPalette pre ∧ Enough n post

/-- The draws 0, 1, ..., 8 repeated `n` times. -/
def cycleDraws (n : Nat) : Rand := (List.replicate n (List.range 9)).flatten

/-! ### Concrete instances -/

/-- A real player with a name, a colour and a number of kills. -/
def mkPlayer (name color : String) (kills : Int) : Player :=
  { Player.zero with Name := name, PreferredColor := color, Kills := kills }

/-- A match of four placeholders. -/
def emptyMatch (kind : String) (index : Int) : Match :=
  { Players := [Player.zero, Player.zero, Player.zero, Player.zero], Kind := kind,
    Index := index, Started := none, Ended := none }

/-- A match with two real players and two placeholders. -/
def halfMatch : Match :=
  { Players := [mkPlayer "ann" "green" 2, Player.zero, mkPlayer "bob" "blue" 1, Player.zero],
    Kind := "semi", Index := 0, Started := none, Ended := none }

/-- Kind, index and timestamps of a match. -/
def Match.header (m : Match) : String × Int × Time × Time :=
  (m.Kind, m.Index, m.Started, m.Ended)

/-- The headers of all matches of the bracket. -/
def Tournament.headers (t : Tournament) :
    List (String × Int × Time × Time) × List (String × Int × Time × Time) ×
      (String × Int × Time × Time) :=
  (t.Tryouts.map Match.header, t.Semis.map Match.header, t.Final.header)

/-- The tournaments differ at most in the roster. -/
def Tournament.sameButRoster (t t' : Tournament) : Prop :=
  t' = { t with Players := t'.Players }

/-- A tryout with four real players, given with their kills. -/
def mkTryout (index : Int) (a b c d : String × Int) : Match :=
  { Players := [mkPlayer a.1 "green" a.2, mkPlayer b.1 "blue" b.2, mkPlayer c.1 "pink" c.2,
                mkPlayer d.1 "red" d.2],
    Kind := "tryout", Index := index, Started := none, Ended := none }

/-- A tournament of 16 players seeded 4 per tryout, no match started, both semis
and the final holding placeholders only, and an empty runnerup queue. -/
def demoTournament : Tournament :=
  { Name := "demo", ID := "demo",
    Players := ["a", "b", "c", "d", "e", "f", "g", "h", "i", "j", "k", "l", "m", "n", "o",
      "p"].map (fun n => mkPlayer n "green" 0),
    Winners := [], Runnerups := [],
    Tryouts := [mkTryout 0 ("a", 3) ("b", 10) ("c", 7) ("d", 1),
                mkTryout 1 ("e", 10) ("f", 2) ("g", 2) ("h", 9),
                mkTryout 2 ("i", 0) ("j", 5) ("k", 10) ("l", 5),
                mkTryout 3 ("m", 4) ("n", 4) ("o", 4) ("p", 10)],
    Semis := [emptyMatch "semi" 0, emptyMatch "semi" 1],
    Final := emptyMatch "final" 0,
    Opened := some 1, Started := none, Ended := none }

/-- No element of the list is `less` than an element standing before it. -/
def SortedBy {α : Type} (less : α → α → Bool) (l : List α) : Prop :=
  l.Pairwise (fun a b => less b a = false)

/-- A final with four real players and their kills. -/
def demoFinal : Match :=
  { Players := [mkPlayer "a" "green" 12, mkPlayer "b" "blue" 20, mkPlayer "c" "pink" 7,
                mkPlayer "d" "red" 15],
    Kind := "final", Index := 0, Started := some 3, Ended := some 4 }

/-- The entries at positions 4k .. 4k+3 of a list (fewer when the list ends). -/
def block {α : Type} (k : Nat) (l : List α) : List α := (l.drop (4 * k)).take 4

/-- State of the dealing loop of `ShufflePlayers` once the players `done` have
been dealt: the tryouts keep their headers and tryout `k` holds the names of
block `k` of `done`. -/
def Dealt (ms0 ms : List Match) (done : List Player) : Prop :=
  ms.map Match.header = ms0.map Match.header ∧
    ∀ k m, ms[k]? = some m → m.names = (block k done).map Player.Name

/-- The tournaments reached from `NewTournament` by calls of
`Tournament.AddPlayer` that returned. -/
inductive Registered : Tournament → Prop where
  | new (r : Rand) (name id : String) (now : Nat) (r' : Rand) (t : Tournament) :
      NewTournament r name id now = .ok (r', t) → Registered t
  | add (r : Rand) (t : Tournament) (name color : String) (r' : Rand) (t' : Tournament)
      (e : Option String) :
      Registered t → t.AddPlayer r name color = .ok (r', t', e) → Registered t'

/-- Every match of the bracket has exactly 4 player slots. -/
def Tournament.fourSlots (t : Tournament) : Prop :=
  (∀ m ∈ t.Tryouts, m.Players.length = 4) ∧ (∀ m ∈ t.Semis, m.Players.length = 4) ∧
    t.Final.Players.length = 4

/-- The tournaments reached from `NewTournament` by calls, in any order and with
any arguments, of `Tournament.AddPlayer`, `Match.AddPlayer` on a match of the
bracket, `Match.Start`, `Match.Commit` and `Match.End` that returned. -/
inductive Reachable : Tournament → Prop where
  | new (r : Rand) (name id : String) (now : Nat) (r' : Rand) (t : Tournament) :
      NewTournament r name id now = .ok (r', t) → Reachable t
  | register (r : Rand) (t : Tournament) (name color : String) (r' : Rand) (t' : Tournament)
      (e : Option String) :
      Reachable t → t.AddPlayer r name color = .ok (r', t', e) → Reachable t'
  | seat (r : Rand) (t : Tournament) (ref : MatchRef) (m : Match) (p : Player) (r' : Rand)
      (m' : Match) (e : Option String) :
      Reachable t → t.getMatch ref = some m → m.AddPlayer r p = .ok (r', m', e) →
      Reachable (t.setMatch ref m')
  | start (r : Rand) (t : Tournament) (ref : MatchRef) (now : Nat) (r' : Rand)
      (t' : Tournament) (e : Option String) :
      Reachable t → t.Start r ref now = .ok (r', t', e) → Reachable t'
  | commit (t : Tournament) (ref : MatchRef) (scores : List (List Int)) (shots : List Bool)
      (t' : Tournament) :
      Reachable t → t.Commit ref scores shots = .ok t' → Reachable t'
  | finish (r : Rand) (t : Tournament) (ref : MatchRef) (now now2 : Nat) (r' : Rand)
      (t' : Tournament) (e : Option String) :
      Reachable t → t.End r ref now now2 = .ok (r', t', e) → Reachable t'

/-- The loop of `MovePlayers` that puts a name into the runnerup queue unless it is
there already. -/
def addAbsent (queue : List String) (n : String) : List String :=
  if n ∈ queue then queue else queue ++ [n]

/-- Every real player seated in a tryout, a semi or the final is in the roster. -/
def Tournament.seatedInRoster (t : Tournament) : Prop :=
  ∀ m ∈ t.Tryouts ++ t.Semis ++ [t.Final], ∀ n ∈ m.realNames, n ∈ t.Players.map Player.Name

/-- Every name in the runnerup queue is in the roster. -/
def Tournament.queuedInRoster (t : Tournament) : Prop :=
  ∀ n ∈ t.Runnerups, n ∈ t.Players.map Player.Name

/-- The name `n` takes the first placeholder slot: `after` is `before` with its
first empty name replaced by `n`. -/
def Seats (before after : List String) (n : String) : Prop :=
  ∃ a b, before = a ++ "" :: b ∧ (∀ x ∈ a, x ≠ "") ∧ after = a ++ n :: b

/-- Replace the first empty name of a list of names by `n`. -/
def seatName (n : String) : List String → List String
  | [] => []
  | x :: xs => if x = "" then n :: xs else x :: seatName n xs

/-- A semi with four real players, given with their kills. -/
def mkSemi (index : Int) (a b c d : String × Int) : Match :=
  { mkTryout index a b c d with Kind := "semi" }

/-- The tournament `demoTournament` once its tryouts have filled both semis. -/
def demoSemis : Tournament :=
  { demoTournament with
    Semis := [mkSemi 0 ("b", 4) ("h", 10) ("k", 6) ("m", 1),
              mkSemi 1 ("c", 10) ("e", 3) ("j", 8) ("p", 8)],
    Runnerups := ["a", "d", "f", "g", "i", "l", "n", "o"] }

/-- What the bracket bookkeeping sees of a match: the names of its slots, its
kind, its index and whether it has ended. -/
def Match.profile (m : Match) : List String × String × Int × Bool :=
  (m.names, m.Kind, m.Index, m.IsEnded)

/-- What the bracket bookkeeping sees of a tournament: the profiles of the
tryouts, the names in the semis and the runnerup queue. -/
def Tournament.view (t : Tournament) :
    List (List String × String × Int × Bool) × List (List String) × List String :=
  (t.Tryouts.map Match.profile, t.Semis.map Match.names, t.Runnerups)

/-- The names seated in the tryouts that have ended. -/
def endedNames (ps : List (List String × String × Int × Bool)) : List String :=
  ((ps.filter (fun pr => pr.2.2.2)).map (fun pr => pr.1)).flatten

/-- The bracket while the tryouts are played, for the roster names `roster`:
four tryouts of kind tryout with 4 slots each that together seat the roster;
each semi holds as many real players as tryouts have ended, then placeholders;
the players in the semis and the queue are the players of the ended tryouts. -/
def TryoutsPhase (roster : List String)
    (v : List (List String × String × Int × Bool) × List (List String) × List String) : Prop :=
  v.1.length = 4 ∧
  (∀ pr ∈ v.1, pr.2.1 = "tryout" ∧ 0 ≤ pr.2.2.1 ∧ pr.1.length = 4) ∧
  ((v.1.map (fun pr => pr.1)).flatten).Perm roster ∧
  ∃ a0 a1 : List String,
    v.2.1 = [a0 ++ List.replicate (4 - (v.1.filter (fun pr => pr.2.2.2)).length) "",
             a1 ++ List.replicate (4 - (v.1.filter (fun pr => pr.2.2.2)).length) ""] ∧
    a0.length = (v.1.filter (fun pr => pr.2.2.2)).length ∧
    a1.length = (v.1.filter (fun pr => pr.2.2.2)).length ∧
    (a0 ++ a1 ++ v.2.2).Perm (endedNames v.1)

/-- A call made while the tryouts are played: `Start` or `End` on tryout `k`, or
`Commit` of a batch of scores on any match. -/
inductive Event where
  | start (k : Nat) (now : Nat)
  | commit (ref : MatchRef) (scores : List (List Int)) (shots : List Bool)
  | finish (k : Nat) (now now2 : Nat)
deriving DecidableEq, Repr

/-- Make one call; the `error` result of `Start` and `End` is dropped. -/
def runEvent (st : Rand × Tournament) : Event → Except Fault (Rand × Tournament)
  | .start k now =>
    match st.2.Start st.1 (.tryout k) now with
    | .error f => .error f
    | .ok (r, t, _) => .ok (r, t)
  | .commit ref scores shots =>
    match st.2.Commit ref scores shots with
    | .error f => .error f
    | .ok t => .ok (st.1, t)
  | .finish k now now2 =>
    match st.2.End st.1 (.tryout k) now now2 with
    | .error f => .error f
    | .ok (r, t, _) => .ok (r, t)

/-- Make the calls of a list one after the other. -/
def runEvents (es : List Event) (st : Rand × Tournament) : Except Fault (Rand × Tournament) :=
  es.foldlM runEvent st

/-- Tryout `k` has ended, read from the view. -/
def endedAt (v : List (List String × String × Int × Bool) × List (List String) × List String)
    (k : Nat) : Prop :=
  ∃ pr, v.1[k]? = some pr ∧ pr.2.2.2 = true

/-- A run of calls on `demoTournament`: tryout 2 is ended before it is started, and
scores are committed to tryouts 0 and 3 while they are played. -/
def demoEvents : List Event :=
  [.start 0 2, .commit (.tryout 0) [[3, 0], [0, 1], [1, 0], [2, 1]] [true, false, false, false],
   .finish 0 3 4, .finish 2 5 6, .start 1 7, .finish 1 8 9, .start 3 10,
   .commit (.tryout 3) [[0, 0], [2, 0], [3, 1], [1, 0]] [false, false, true, false],
   .finish 3 11 12, .start 2 13]

/-- The five counters of a player: shots, sweeps, kills, self and explosions. -/
def Player.counters (p : Player) : Int × Int × Int × Int × Int :=
  (p.Shots, p.Sweeps, p.Kills, p.Self, p.Explosions)

/-- None of the five counters is negative. -/
def Player.NonNeg (p : Player) : Prop :=
  0 ≤ p.Shots ∧ 0 ≤ p.Sweeps ∧ 0 ≤ p.Kills ∧ 0 ≤ p.Self ∧ 0 ≤ p.Explosions

/-- A player in the middle of a match. -/
def midPlayer : Player :=
  { Name := "ann", PreferredColor := "green", Shots := 2, Sweeps := 1, Kills := 4, Self := 1,
    Explosions := 0, Matches := 0, TotalScore := 0 }

/-- The tournament `demoTournament` with its final played to the end. -/
def demoPlayed : Tournament := { demoTournament with Final := demoFinal }

/-- The tournament `demoTournament` with all four tryouts started at clock
reading 2 and none ended. -/
def demoStarted : Tournament :=
  { demoTournament with
    Tryouts := demoTournament.Tryouts.map (fun m => { m with Started := some 2 }) }

/-- Name, shots and score of every slot of a match. -/
def Match.board (m : Match) : List (String × Int × Int) :=
  m.Players.map (fun p => (p.Name, p.Shots, p.Score))

/-- The order of the runnerup queue: `a` may stand before `b` when `a` has played
fewer matches, or as many with a score at least as high. -/
def RunnerupOrder (a b : Player) : Prop :=
  a.Matches < b.Matches ∨ (a.Matches = b.Matches ∧ a.Score ≥ b.Score)

/-- The tournaments built from `NewTournament` by calls of `Tournament.AddPlayer`,
counted by the calls that returned no error: `Enrolled n t` says that `t` is
reached with `n` successful calls (and any number of refused ones). -/
inductive Enrolled : Nat → Tournament → Prop where
  | new (r : Rand) (name id : String) (now : Nat) (r' : Rand) (t : Tournament) :
      NewTournament r name id now = .ok (r', t) → Enrolled 0 t
  | add (n : Nat) (r : Rand) (t : Tournament) (name color : String) (r' : Rand)
      (t' : Tournament) :
      Enrolled n t → t.AddPlayer r name color = .ok (r', t', none) → Enrolled (n + 1) t'
  | refused (n : Nat) (r : Rand) (t : Tournament) (name color : String) (r' : Rand)
      (t' : Tournament) (e : String) :
      Enrolled n t → t.AddPlayer r name color = .ok (r', t', some e) → Enrolled n t'

/-- The header of a fresh tryout with index `i`. -/
def tryoutHeader (i : Nat) : String × Int × Time × Time := ("tryout", (i : Int), none, none)

/-- Register the names of a list one after the other with the colour green;
`none` when a call does not return or is refused. -/
def enrolAll : List String → Rand × Tournament → Option (Rand × Tournament)
  | [], st => some st
  | name :: names, st =>
    match st.2.AddPlayer st.1 name "green" with
    | .ok (r, t, none) => enrolAll names (r, t)
    | _ => none

/-- Seventeen names. -/
def names17 : List String :=
  ["a", "b", "c", "d", "e", "f", "g", "h", "i", "j", "k", "l", "m", "n", "o", "p", "q"]

/-- All matches of the bracket in the order `UpdatePlayers` visits them: the
tryouts, the semis, the final. -/
def Tournament.matchList (t : Tournament) : List Match := t.Tryouts ++ t.Semis ++ [t.Final]

/-- The slot records of the real players of all matches, in visiting order. -/
def Tournament.seatedRecords (t : Tournament) : List Player :=
  ((t.matchList.map Match.Players).flatten).filter (fun p => !p.IsPrefill)

/-- The slot records of the real players named `n`. -/
def Tournament.recordsOf (t : Tournament) (n : String) : List Player :=
  t.seatedRecords.filter (fun p => decide (p.Name = n))

/-- The roster once the records `recs` are folded into it with `Update`, each
record going to the first roster entry of its name. -/
def applyRecs : List Player → List Player → List Player
  | _, [] => []
  | recs, q :: qs =>
    (recs.filter (fun p => decide (p.Name = q.Name))).foldl Player.Update q ::
      applyRecs (recs.filter (fun p => !decide (p.Name = q.Name))) qs

/-- Seat the names of a list one after the other, each in the first slot that is
still empty. -/
def seatNames (ns : List String) (slots : List String) : List String :=
  ns.foldl (fun s n => seatName n s) slots

/-- The tournament `demoSemis` with semi 1 down to two players, c and j, and the
runnerup queue a, d, f, g, i, l, n, o. -/
def demoShort : Tournament :=
  { demoSemis with
    Semis := [mkSemi 0 ("b", 4) ("h", 10) ("k", 6) ("m", 1),
              { Players := [mkPlayer "c" "green" 0, Player.zero, mkPlayer "j" "blue" 0,
                            Player.zero],
                Kind := "semi", Index := 1, Started := none, Ended := none }] }

/-- A player record with the colour blanked: everything `CorrectColorConflicts`
is not meant to touch. -/
def Player.uncolored (p : Player) : Player := { p with PreferredColor := "" }

/-- All slots named `n` in the list carry the same record up to the colour. -/
def Alike (l : List Player) (n : String) : Prop :=
  ∀ x ∈ l, ∀ y ∈ l, x.Name = n → y.Name = n → x.uncolored = y.uncolored

/-- The slots `l` hold what `l0` held, colours apart: the same names in the same
order, and the same record up to the colour in every slot whose name is carried
by like records in `l0`. -/
def Kept (l0 l : List Player) : Prop :=
  l.map Player.Name = l0.map Player.Name ∧
    ∀ (k : Nat) (a b : Player), l0[k]? = some a → l[k]? = some b → Alike l0 a.Name →
      b.uncolored = a.uncolored

/-- The colour of slot `k` differs from the colour of every other slot. -/
def Settled (l : List Player) (k : Nat) : Prop :=
  ∀ a, l[k]? = some a → ∀ (j : Nat) (b : Player), j ≠ k → l[j]? = some b →
    b.PreferredColor ≠ a.PreferredColor

/-- No two slots carry the same non-empty name. -/
def RealDistinct (l : List Player) : Prop :=
  ∀ (j k : Nat) (a b : Player), l[j]? = some a → l[k]? = some b → a.Name = b.Name →
    a.Name ≠ "" → j = k

/-- A match with two placeholders that carry different kills. -/
def oddMatch : Match :=
  { Players := [Player.zero, { Player.zero with Kills := 5 }, mkPlayer "ann" "green" 2,
                mkPlayer "bob" "green" 1],
    Kind := "tryout", Index := 0, Started := none, Ended := none }

/-- Name, colour and kills of every slot of a match. -/
def Match.colours (m : Match) : List (String × String × Int) :=
  m.Players.map (fun p => (p.Name, p.PreferredColor, p.Kills))

/-- State of the inner loop of `CorrectColorConflicts` in round `i` of the outer
loop, once the inner loop has been through the indices `done`: the slots are
kept; the real slots the outer loop has finished (`outerDone`) are settled; the
loop variable `p` has the name and, up to the colour, the record slot `i`
started with; and when `p` is a real player it is the record now in slot `i`,
and no slot of `done` other than `i` has its colour. -/
def InnerInv (l0 : List Player) (outerDone : List Nat) (i : Nat) (done : List Nat)
    (st : Rand × Match × Player) : Prop :=
  Kept l0 st.2.1.Players ∧
  (∀ k ∈ outerDone, ∀ a, st.2.1.Players[k]? = some a → a.Name ≠ "" →
    Settled st.2.1.Players k) ∧
  (∃ a0, l0[i]? = some a0 ∧ st.2.2.Name = a0.Name ∧
    (Alike l0 a0.Name → st.2.2.uncolored = a0.uncolored)) ∧
  (st.2.2.Name ≠ "" → st.2.1.Players[i]? = some st.2.2 ∧
    ∀ j ∈ done, j ≠ i → ∀ b, st.2.1.Players[j]? = some b →
      b.PreferredColor ≠ st.2.2.PreferredColor)

/-- State of the outer loop of `CorrectColorConflicts` once it has been through
the indices `done`: the slots are kept and the real slots of `done` are
settled. -/
def OuterInv (l0 : List Player) (done : List Nat) (st : Rand × Match) : Prop :=
  Kept l0 st.2.Players ∧
  ∀ k ∈ done, ∀ a, st.2.Players[k]? = some a → a.Name ≠ "" → Settled st.2.Players k

/-- A match of four real players, three of them with the colour green. -/
def clashMatch : Match :=
  { Players := [mkPlayer "ann" "green" 2, mkPlayer "bob" "green" 5, mkPlayer "cy" "green" 1,
                mkPlayer "dan" "blue" 9],
    Kind := "tryout", Index := 0, Started := none, Ended := none }

/-! ### Calls with arguments in range -/

/-- The arguments of a call can be served by a bracket of four tryouts, two semis
and a final of four slots each: `Start` and `End` name one of the four tryouts;
`Commit` names a tryout, a semi or the final and brings at most four scores, of at
least two entries each, and at most four shots. -/
def Event.wellFormed : Event → Bool
  | .start k _ => decide (k < 4)
  | .commit ref scores shots =>
    (match ref with
      | .tryout k => decide (k < 4)
      | .semi j => decide (j < 2)
      | .final => true) &&
    decide (scores.length ≤ 4) && scores.all (fun s => decide (2 ≤ s.length)) &&
    decide (shots.length ≤ 4)
  | .finish k _ _ => decide (k < 4)

/-! ### The stat operations on Go's 64-bit `int` -/

/-- The largest value of Go's 64-bit `int`. -/
def maxInt : Int := 9223372036854775807

/-- The smallest value of Go's 64-bit `int`. -/
def minInt : Int := -9223372036854775808

/-- Go's `int` arithmetic on a 64-bit platform: the result of `+`, `-`, `*`, `++`
and `--` wraps around into the range from `minInt` to `maxInt`. -/
def wrap64 (x : Int) : Int :=
  (x + 9223372036854775808) % 18446744073709551616 - 9223372036854775808

/-- Every numeric field of the player is a value of Go's 64-bit `int`. -/
def Player.InRange (p : Player) : Prop :=
  (minInt ≤ p.Shots ∧ p.Shots ≤ maxInt) ∧ (minInt ≤ p.Sweeps ∧ p.Sweeps ≤ maxInt) ∧
  (minInt ≤ p.Kills ∧ p.Kills ≤ maxInt) ∧ (minInt ≤ p.Self ∧ p.Self ≤ maxInt) ∧
  (minInt ≤ p.Explosions ∧ p.Explosions ≤ maxInt) ∧
  (minInt ≤ p.Matches ∧ p.Matches ≤ maxInt) ∧ (minInt ≤ p.TotalScore ∧ p.TotalScore ≤ maxInt)

/-- Source: `Player.Score`, on 64-bit `int`: every `*` and every `out +=` wraps. -/
def Wrapping.Score (p : Player) : Int :=
  let out := wrap64 (0 + wrap64 (p.Sweeps * 5))
  let out := wrap64 (out + wrap64 (p.Shots * 3))
  let out := wrap64 (out + wrap64 (p.Kills * 2))
  let out := wrap64 (out + p.Self)
  wrap64 (out + p.Explosions)

/-- Source: `Player.AddShot`, on 64-bit `int`. -/
def Wrapping.AddShot (p : Player) : Player := { p with Shots := wrap64 (p.Shots + 1) }

/-- Source: `Player.RemoveShot`, on 64-bit `int`. -/
def Wrapping.RemoveShot (p : Player) : Player :=
  if p.Shots = 0 then p else { p with Shots := wrap64 (p.Shots - 1) }

/-- Source: `Player.AddKill(kills ...int)`, on 64-bit `int`. -/
def Wrapping.AddKill (p : Player) (kills : List Int) : Player :=
  match kills with
  | k :: _ => { p with Kills := wrap64 (p.Kills + k) }
  | [] => { p with Kills := wrap64 (p.Kills + 1) }

/-- Source: `Player.RemoveKill`, on 64-bit `int`. -/
def Wrapping.RemoveKill (p : Player) : Player :=
  if p.Kills = 0 then p else { p with Kills := wrap64 (p.Kills - 1) }

/-- Source: `Player.AddSweep`, on 64-bit `int`. -/
def Wrapping.AddSweep (p : Player) : Player :=
  let p := { p with Sweeps := wrap64 (p.Sweeps + 1) }
  let p := Wrapping.AddShot p
  let p := Wrapping.AddKill p []
  let p := Wrapping.AddKill p []
  Wrapping.AddKill p []

/-- Source: `Player.RemoveSweep`, on 64-bit `int`. -/
def Wrapping.RemoveSweep (p : Player) : Player :=
  if p.Sweeps = 0 then p else
  let p := { p with Sweeps := wrap64 (p.Sweeps - 1) }
  let p := Wrapping.RemoveShot p
  let p := Wrapping.RemoveKill p
  let p := Wrapping.RemoveKill p
  Wrapping.RemoveKill p

/-- Source: `Player.AddSelf`, on 64-bit `int`. -/
def Wrapping.AddSelf (p : Player) : Player :=
  let p := { p with Self := wrap64 (p.Self + 1) }
  let p := Wrapping.RemoveKill p
  Wrapping.AddShot p

/-- Source: `Player.RemoveSelf`, on 64-bit `int`. -/
def Wrapping.RemoveSelf (p : Player) : Player :=
  if p.Self = 0 then p else
  let p := { p with Self := wrap64 (p.Self - 1) }
  let p := Wrapping.AddKill p []
  Wrapping.RemoveShot p

/-- Source: `Player.AddExplosion`, on 64-bit `int`. -/
def Wrapping.AddExplosion (p : Player) : Player :=
  let p := { p with Explosions := wrap64 (p.Explosions + 1) }
  let p := Wrapping.AddShot p
  Wrapping.AddKill p []

/-- Source: `Player.RemoveExplosion`, on 64-bit `int`. -/
def Wrapping.RemoveExplosion (p : Player) : Player :=
  if p.Explosions = 0 then p else
  let p := { p with Explosions := wrap64 (p.Explosions - 1) }
  let p := Wrapping.RemoveShot p
  Wrapping.RemoveKill p

/-- A player with 4611686018427387903 kills, whose score 9223372036854775806 is
one below the largest `int`. -/
def topScorer : Player := { Player.zero with Name := "ann", Kills := 4611686018427387903 }

/-- A player whose shot counter is the largest `int`. -/
def topShooter : Player := { Player.zero with Name := "bob", Shots := 9223372036854775807 }

/-! ## Lemmas -/

theorem foldlM_inv {σ β ε : Type} (P : σ → Prop) (f : σ → β → Except ε σ)
    (hf : ∀ s b s', P s → f s b = .ok s' → P s') :
    ∀ (l : List β) (s s' : σ), P s → l.foldlM f s = .ok s' → P s' := by
  intro l
  induction l with
  | nil =>
    intro s s' hs h
    simp [List.foldlM, pure, Except.pure] at h
    subst h; exact hs
  | cons b l ih =>
    intro s s' hs h
    rw [List.foldlM_cons] at h
    cases hb : f s b with
    | error e => rw [hb] at h; simp [bind, Except.bind] at h
    | ok s1 =>
      rw [hb] at h
      simp only [bind, Except.bind] at h
      exact ih s1 s' (hf s b s1 hs hb) h


theorem randomizeColor_name {p q : Player} {r r' : Rand} {m : Match}
    (h : p.RandomizeColor r m = .ok (q, r')) :
    q = { p with PreferredColor := q.PreferredColor } := by
  unfold Player.RandomizeColor at h
  split at h
  · simp at h
  · simp at h; obtain ⟨h1, _⟩ := h; subst h1; rfl

theorem updatePlayer_names (m : Match) (p : Player) : (m.UpdatePlayer p).names = m.names := by
  unfold Match.UpdatePlayer Match.names
  simp only [List.map_map]
  apply List.map_congr_left
  intro o _
  simp only [Function.comp]
  split <;> simp_all

theorem updatePlayer_sameFrame (m0 m : Match) (p : Player) (h : Match.sameFrame m0 m) :
    Match.sameFrame m0 (m.UpdatePlayer p) := by
  obtain ⟨h1, h2, h3, h4, h5⟩ := h
  refine ⟨?_, h2, h3, h4, h5⟩
  rw [updatePlayer_names]; exact h1

theorem conflictInner_frame (m0 : Match) (i : Nat) (st st' : Rand × Match × Player) (j : Nat)
    (hs : Match.sameFrame m0 st.2.1) (h : Match.conflictInner i st j = .ok st') :
    Match.sameFrame m0 st'.2.1 := by
  unfold Match.conflictInner at h
  split at h
  · simp at h; subst h; exact hs
  · split at h
    · simp at h; subst h; exact hs
    · split at h
      · split at h
        · split at h
          · simp at h
          · simp at h; subst h; exact updatePlayer_sameFrame _ _ _ hs
        · split at h
          · simp at h
          · simp at h; subst h; exact updatePlayer_sameFrame _ _ _ hs
      · simp at h; subst h; exact hs

theorem conflictOuter_frame (m0 : Match) (st st' : Rand × Match) (i : Nat)
    (hs : Match.sameFrame m0 st.2) (h : Match.conflictOuter st i = .ok st') :
    Match.sameFrame m0 st'.2 := by
  unfold Match.conflictOuter at h
  split at h
  · simp at h; subst h; exact hs
  · split at h
    · simp at h
    · rename_i out hout
      simp at h; subst h
      exact foldlM_inv (fun s => Match.sameFrame m0 s.2.1) _
        (fun s b s' hs h => conflictInner_frame m0 i s s' b hs h) _ _ _ hs hout

theorem sameFrame_refl (m : Match) : Match.sameFrame m m := ⟨rfl, rfl, rfl, rfl, rfl⟩

theorem correctColorConflicts_frame {r r' : Rand} {m m' : Match}
    (h : m.CorrectColorConflicts r = .ok (r', m')) : Match.sameFrame m m' := by
  unfold Match.CorrectColorConflicts at h
  exact foldlM_inv (fun s => Match.sameFrame m s.2) _
    (fun s b s' hs h => conflictOuter_frame m s s' b hs h) _ _ _ (sameFrame_refl m) h

theorem enough_append_left (n : Nat) : ∀ (x r : Rand), Enough n r → Enough n (x ++ r) := by
  cases n with
  | zero => intro x r _; trivial
  | succ n =>
    intro x r h
    obtain ⟨pre, post, hr, hc, hp⟩ := h
    refine ⟨x ++ pre, post, by simp [hr], ?_, hp⟩
    intro c hcm
    obtain ⟨d, hd, hdc⟩ := hc c hcm
    exact ⟨d, List.mem_append_right _ hd, hdc⟩

theorem enough_pred {n : Nat} {r : Rand} (h : Enough (n + 1) r) : Enough n r := by
  obtain ⟨pre, post, hr, _, hp⟩ := h
  rw [hr]; exact enough_append_left n pre post hp

theorem enough_le {m n : Nat} (hmn : m ≤ n) {r : Rand} (h : Enough n r) : Enough m r := by
  induction hmn with
  | refl => exact h
  | step _ ih => exact ih (enough_pred h)

theorem enough_cycleDraws (n : Nat) : Enough n (cycleDraws n) := by
  induction n with
  | zero => trivial
  | succ n ih =>
    refine ⟨List.range 9, cycleDraws n, ?_, ?_, ih⟩
    · simp [cycleDraws, List.replicate_succ]
    · intro c hc
      simp only [Colors, List.mem_cons, List.mem_singleton, List.not_mem_nil, or_false] at hc
      rcases hc with h | h | h | h | h | h | h | h | h <;> subst h
      · exact ⟨0, by decide, by decide⟩
      · exact ⟨1, by decide, by decide⟩
      · exact ⟨2, by decide, by decide⟩
      · exact ⟨3, by decide, by decide⟩
      · exact ⟨4, by decide, by decide⟩
      · exact ⟨5, by decide, by decide⟩
      · exact ⟨6, by decide, by decide⟩
      · exact ⟨7, by decide, by decide⟩
      · exact ⟨8, by decide, by decide⟩

/-- One draw can be taken from a run that is enough for `n + 1`. -/
theorem enough_draw {n : Nat} {r : Rand} (h : Enough (n + 1) r) :
    ∃ d r', r = d :: r' ∧ Enough n r' := by
  obtain ⟨pre, post, hr, hc, hp⟩ := h
  cases pre with
  | nil =>
    obtain ⟨d, hd, _⟩ := hc "green" (by decide)
    simp at hd
  | cons d pre =>
    exact ⟨d, pre ++ post, by simp [hr], enough_append_left n pre post hp⟩

theorem drawFree_scan (colors : List String) (post : Rand) :
    ∀ pre : List Nat, (∃ d ∈ pre, getRandomPlayerColor d ∉ colors) →
      ∃ c x, drawFree colors (pre ++ post) = .ok (c, x ++ post) ∧ c ∉ colors ∧ c ∈ Colors := by
  intro pre
  induction pre with
  | nil => intro h; obtain ⟨d, hd, _⟩ := h; simp at hd
  | cons a pre ih =>
    intro h
    by_cases ha : getRandomPlayerColor a ∈ colors
    · have : ∃ d ∈ pre, getRandomPlayerColor d ∉ colors := by
        obtain ⟨d, hd, hdc⟩ := h
        rcases List.mem_cons.1 hd with h1 | h1
        · subst h1; exact absurd ha hdc
        · exact ⟨d, h1, hdc⟩
      obtain ⟨c, x, hx, hc⟩ := ih this
      refine ⟨c, x, ?_, hc⟩
      simp [drawFree, ha, hx]
    · refine ⟨getRandomPlayerColor a, pre, ?_, ha, ?_⟩
      · simp [drawFree, ha]
      · unfold getRandomPlayerColor
        have hlt : a % Colors.length < Colors.length := Nat.mod_lt _ (by decide)
        rw [List.getD_eq_getElem _ _ hlt]
        exact List.getElem_mem _

theorem drawFree_total {colors : List String} (hfree : ∃ c ∈ Colors, c ∉ colors) {n : Nat}
    {r : Rand} (h : Enough (n + 1) r) :
    ∃ c r', drawFree colors r = .ok (c, r') ∧ Enough n r' := by
  obtain ⟨pre, post, hr, hc, hp⟩ := h
  obtain ⟨c0, hc0, hc0'⟩ := hfree
  obtain ⟨d, hd, hdc⟩ := hc c0 hc0
  obtain ⟨c, x, hx, _⟩ := drawFree_scan colors post pre ⟨d, hd, by rw [hdc]; exact hc0'⟩
  exact ⟨c, x ++ post, by rw [hr]; exact hx, enough_append_left n x post hp⟩

theorem drawFree_spec {colors : List String} :
    ∀ {r r' : Rand} {c : String}, drawFree colors r = .ok (c, r') → c ∉ colors ∧ c ∈ Colors := by
  intro r
  induction r with
  | nil => intro r' c h; simp [drawFree] at h
  | cons a r ih =>
    intro r' c h
    by_cases ha : getRandomPlayerColor a ∈ colors
    · simp [drawFree, ha] at h; exact ih h
    · simp [drawFree, ha] at h
      obtain ⟨h1, _⟩ := h
      subst h1
      refine ⟨ha, ?_⟩
      unfold getRandomPlayerColor
      have hlt : a % Colors.length < Colors.length := Nat.mod_lt _ (by decide)
      rw [List.getD_eq_getElem _ _ hlt]
      exact List.getElem_mem _

/-- A list of at most 8 colours leaves a palette colour free. -/
theorem free_color_exists (cs : List String) (h : cs.length < 9) : ∃ c ∈ Colors, c ∉ cs := by
  by_contra hne
  push_neg at hne
  have hsub : Colors ⊆ cs := fun c hc => hne c hc
  have hnd : Colors.Nodup := by decide
  have := (List.Nodup.subperm hnd hsub).length_le
  have h9 : Colors.length = 9 := by decide
  omega

theorem foldlM_total {σ β ε : Type} (P : σ → Prop) (rand : σ → Rand) (c : Nat)
    (f : σ → β → Except ε σ)
    (hf : ∀ s b k, P s → Enough (k + c) (rand s) →
      ∃ s', f s b = .ok s' ∧ P s' ∧ Enough k (rand s')) :
    ∀ (l : List β) (s : σ) (k : Nat), P s → Enough (k + c * l.length) (rand s) →
      ∃ s', l.foldlM f s = .ok s' ∧ P s' ∧ Enough k (rand s') := by
  intro l
  induction l with
  | nil =>
    intro s k hs h
    exact ⟨s, rfl, hs, by simpa using h⟩
  | cons b l ih =>
    intro s k hs h
    have h1 : Enough ((k + c * l.length) + c) (rand s) := by
      have : k + c * (b :: l).length = (k + c * l.length) + c := by
        simp [List.length_cons, Nat.mul_succ]; omega
      rw [this] at h; exact h
    obtain ⟨s1, hs1, hP1, hE1⟩ := hf s b _ hs h1
    obtain ⟨s', hs', hP', hE'⟩ := ih s1 k hP1 hE1
    refine ⟨s', ?_, hP', hE'⟩
    rw [List.foldlM_cons, hs1]
    exact hs'

theorem names_length (m : Match) : m.names.length = m.Players.length := by
  simp [Match.names]

theorem sameFrame_length {m m' : Match} (h : Match.sameFrame m m') :
    m'.Players.length = m.Players.length := by
  rw [← names_length, ← names_length, h.1]

theorem randomizeColor_total (p : Player) {m : Match} (hm : m.Players.length ≤ 4) {k : Nat}
    {r : Rand} (h : Enough (k + 1) r) :
    ∃ q r', p.RandomizeColor r m = .ok (q, r') ∧ Enough k r' := by
  have hfree : ∃ c ∈ Colors, c ∉ (List.replicate 4 "" ++ m.Players.map Player.PreferredColor) :=
    free_color_exists _ (by simp; omega)
  obtain ⟨c, r', hd, he⟩ := drawFree_total hfree h
  exact ⟨{ p with PreferredColor := c }, r', by unfold Player.RandomizeColor; rw [hd], he⟩

theorem conflictInner_total (m0 : Match) (h0 : m0.Players.length ≤ 4) (i : Nat)
    (st : Rand × Match × Player) (j k : Nat) (hs : Match.sameFrame m0 st.2.1)
    (h : Enough (k + 1) st.1) :
    ∃ st', Match.conflictInner i st j = .ok st' ∧ Match.sameFrame m0 st'.2.1 ∧
      Enough k st'.1 := by
  have hlen : st.2.1.Players.length ≤ 4 := by rw [sameFrame_length hs]; exact h0
  by_cases hcase : ∃ st', Match.conflictInner i st j = .ok st'
  · obtain ⟨st', hst'⟩ := hcase
    refine ⟨st', hst', conflictInner_frame m0 i st st' j hs hst', ?_⟩
    unfold Match.conflictInner at hst'
    split at hst'
    · simp at hst'; subst hst'; exact enough_pred h
    · split at hst'
      · simp at hst'; subst hst'; exact enough_pred h
      · split at hst'
        · split at hst'
          · rename_i p2 _ _ _
            obtain ⟨q, r', hq, he⟩ := randomizeColor_total p2 hlen h
            rw [hq] at hst'
            simp at hst'; subst hst'; exact he
          · obtain ⟨q, r', hq, he⟩ := randomizeColor_total st.2.2 hlen h
            rw [hq] at hst'
            simp at hst'; subst hst'; exact he
        · simp at hst'; subst hst'; exact enough_pred h
  · exfalso
    apply hcase
    unfold Match.conflictInner
    split
    · exact ⟨_, rfl⟩
    · split
      · exact ⟨_, rfl⟩
      · split
        · split
          · rename_i p2 _ _ _
            obtain ⟨q, r', hq, _⟩ := randomizeColor_total p2 hlen h
            rw [hq]; exact ⟨_, rfl⟩
          · obtain ⟨q, r', hq, _⟩ := randomizeColor_total st.2.2 hlen h
            rw [hq]; exact ⟨_, rfl⟩
        · exact ⟨_, rfl⟩

theorem conflictOuter_total (m0 : Match) (h0 : m0.Players.length ≤ 4)
    (st : Rand × Match) (i k : Nat) (hs : Match.sameFrame m0 st.2)
    (h : Enough (k + 4) st.1) :
    ∃ st', Match.conflictOuter st i = .ok st' ∧ Match.sameFrame m0 st'.2 ∧ Enough k st'.1 := by
  have hlen : st.2.Players.length ≤ 4 := by rw [sameFrame_length hs]; exact h0
  unfold Match.conflictOuter
  split
  · exact ⟨st, rfl, hs, enough_le (by omega) h⟩
  · rename_i p _
    have hE : Enough (k + 1 * (List.range st.2.Players.length).length) st.1 := by
      apply enough_le _ h
      simp; omega
    obtain ⟨out, hout, hP, hk⟩ := foldlM_total (fun s => Match.sameFrame m0 s.2.1)
      (fun s => s.1) 1 (Match.conflictInner i)
      (fun s b k hs h => conflictInner_total m0 h0 i s b k hs h)
      (List.range st.2.Players.length) (st.1, st.2, p) k hs hE
    rw [hout]
    exact ⟨_, rfl, hP, hk⟩

theorem correctColorConflicts_total {m : Match} (hm : m.Players.length ≤ 4) {k : Nat} {r : Rand}
    (h : Enough (k + 16) r) :
    ∃ r' m', m.CorrectColorConflicts r = .ok (r', m') ∧ Match.sameFrame m m' ∧ Enough k r' := by
  have hE : Enough (k + 4 * (List.range m.Players.length).length) r := by
    apply enough_le _ h
    simp; omega
  obtain ⟨out, hout, hP, hk⟩ := foldlM_total (fun s => Match.sameFrame m s.2)
    (fun s => s.1) 4 Match.conflictOuter
    (fun s b k hs h => conflictOuter_total m hm s b k hs h)
    (List.range m.Players.length) (r, m) k (sameFrame_refl m) hE
  exact ⟨out.1, out.2, hout, hP, hk⟩

theorem replaceFirstPrefill_none (p : Player) :
    ∀ l : List Player, (∀ x ∈ l, x.IsPrefill = false) → replaceFirstPrefill p l = l := by
  intro l
  induction l with
  | nil => intro _; rfl
  | cons o os ih =>
    intro h
    have ho := h o (List.mem_cons_self _ _)
    simp only [replaceFirstPrefill, ho]
    rw [ih (fun x hx => h x (List.mem_cons_of_mem _ hx))]
    simp

theorem replaceFirstPrefill_split (p : Player) :
    ∀ l : List Player, (∃ x ∈ l, x.IsPrefill = true) →
      ∃ a o b, l = a ++ o :: b ∧ (∀ x ∈ a, x.IsPrefill = false) ∧ o.IsPrefill = true ∧
        replaceFirstPrefill p l = a ++ p :: b := by
  intro l
  induction l with
  | nil => intro h; obtain ⟨x, hx, _⟩ := h; simp at hx
  | cons o os ih =>
    intro h
    by_cases ho : o.IsPrefill = true
    · exact ⟨[], o, os, rfl, by simp, ho, by simp [replaceFirstPrefill, ho]⟩
    · have ho' : o.IsPrefill = false := by simpa using ho
      have : ∃ x ∈ os, x.IsPrefill = true := by
        obtain ⟨x, hx, hxp⟩ := h
        rcases List.mem_cons.1 hx with h1 | h1
        · subst h1; exact absurd hxp ho
        · exact ⟨x, h1, hxp⟩
      obtain ⟨a, o2, b, hl, ha, ho2, hr⟩ := ih this
      refine ⟨o :: a, o2, b, by simp [hl], ?_, ho2, ?_⟩
      · intro x hx
        rcases List.mem_cons.1 hx with h1 | h1
        · subst h1; exact ho'
        · exact ha x h1
      · simp [replaceFirstPrefill, ho', hr]

theorem isPrefill_iff (p : Player) : p.IsPrefill = true ↔ p.Name = "" := by
  simp [Player.IsPrefill]

theorem actualPlayers_eq (m : Match) : m.ActualPlayers = m.realNames.length := by
  unfold Match.ActualPlayers Match.realNames Match.names
  rw [List.filter_map, List.length_map]
  congr 1
  apply List.filter_congr
  intro x _
  simp only [Player.IsPrefill, Function.comp]
  rw [Bool.eq_iff_iff]
  simp

theorem actualPlayers_le (m : Match) : m.ActualPlayers ≤ m.Players.length := by
  unfold Match.ActualPlayers
  exact List.length_filter_le _ _

theorem exists_prefill_of_lt {m : Match} (h : m.ActualPlayers < m.Players.length) :
    ∃ x ∈ m.Players, x.IsPrefill = true := by
  by_contra hne
  push_neg at hne
  have : m.Players.filter (fun p => !p.IsPrefill) = m.Players := by
    apply List.filter_eq_self.2
    intro x hx
    have := hne x hx
    simp_all
  unfold Match.ActualPlayers at h
  rw [this] at h
  omega

theorem realNames_of_names {m m' : Match} (h : m'.names = m.names) :
    m'.realNames = m.realNames := by
  unfold Match.realNames; rw [h]

theorem actualPlayers_of_names {m m' : Match} (h : m'.names = m.names) :
    m'.ActualPlayers = m.ActualPlayers := by
  rw [actualPlayers_eq, actualPlayers_eq, realNames_of_names h]

/-- What `Match.AddPlayer` does when it returns. -/
theorem addPlayer_spec {r r' : Rand} {m m' : Match} {p : Player} {e : Option String}
    (h : m.AddPlayer r p = .ok (r', m', e)) :
    (m.ActualPlayers = 4 ∧ e = some "cannot add fifth player" ∧ m' = m ∧ r' = r) ∨
    (m.ActualPlayers ≠ 4 ∧ e = none ∧ ∃ mc, Match.sameFrame m mc ∧
      m.CorrectColorConflicts r = .ok (r', mc) ∧
      m' = { mc with Players := if mc.Players.length = 4 then replaceFirstPrefill p.Reset mc.Players
                                 else mc.Players ++ [p.Reset] }) := by
  unfold Match.AddPlayer at h
  split at h
  · rename_i h4
    simp at h
    obtain ⟨h1, h2, h3⟩ := h
    exact Or.inl ⟨h4, h3.symm, h2.symm, h1.symm⟩
  · rename_i h4
    right
    split at h
    · simp at h
    · rename_i r1 mc hc
      refine ⟨h4, ?_⟩
      split at h
      · rename_i h5
        simp at h
        obtain ⟨h1, h2, h3⟩ := h
        subst h1
        exact ⟨h3.symm, mc, correctColorConflicts_frame hc, hc, by simp [← h2, h5]⟩
      · rename_i h5
        simp at h
        obtain ⟨h1, h2, h3⟩ := h
        subst h1
        exact ⟨h3.symm, mc, correctColorConflicts_frame hc, hc, by simp [← h2, h5]⟩

/-- `Match.AddPlayer` keeps kind, index and timestamps. -/
theorem addPlayer_meta {r r' : Rand} {m m' : Match} {p : Player} {e : Option String}
    (h : m.AddPlayer r p = .ok (r', m', e)) :
    m'.Kind = m.Kind ∧ m'.Index = m.Index ∧ m'.Started = m.Started ∧ m'.Ended = m.Ended := by
  rcases addPlayer_spec h with ⟨_, _, h1, _⟩ | ⟨_, _, mc, hf, _, h1⟩
  · subst h1; exact ⟨rfl, rfl, rfl, rfl⟩
  · subst h1; exact ⟨hf.2.1, hf.2.2.1, hf.2.2.2.1, hf.2.2.2.2⟩

/-- On a match with 4 slots and a free one, `Match.AddPlayer` puts the player,
reset, into the first placeholder slot and keeps all other names. -/
theorem addPlayer_names_four {r r' : Rand} {m m' : Match} {p : Player} {e : Option String}
    (h : m.AddPlayer r p = .ok (r', m', e)) (hlen : m.Players.length = 4)
    (hact : m.ActualPlayers ≠ 4) :
    e = none ∧ ∃ a b, m.names = a ++ "" :: b ∧ (∀ x ∈ a, x ≠ "") ∧
      m'.names = a ++ p.Name :: b ∧ m'.Players[a.length]? = some p.Reset := by
  rcases addPlayer_spec h with ⟨h4, _⟩ | ⟨_, he, mc, hf, _, h1⟩
  · exact absurd h4 hact
  · refine ⟨he, ?_⟩
    have hlc : mc.Players.length = 4 := by rw [sameFrame_length hf]; exact hlen
    have hac : mc.ActualPlayers < mc.Players.length := by
      have := actualPlayers_le mc
      rw [actualPlayers_of_names hf.1] at *
      omega
    obtain ⟨a, o, b, hl, ha, ho, hr⟩ := replaceFirstPrefill_split p.Reset mc.Players
      (exists_prefill_of_lt hac)
    have hpl : m'.Players = a ++ p.Reset :: b := by rw [h1]; simp [hlc, hr]
    refine ⟨a.map Player.Name, b.map Player.Name, ?_, ?_, ?_, ?_⟩
    · rw [← hf.1]; unfold Match.names; rw [hl]
      simp [(isPrefill_iff o).1 ho]
    · intro x hx
      obtain ⟨y, hy, hyx⟩ := List.mem_map.1 hx
      intro hx0
      have := ha y hy
      rw [← hyx] at hx0
      have h2 := (isPrefill_iff y).2 hx0
      rw [this] at h2
      exact Bool.noConfusion h2
    · unfold Match.names; rw [hpl]; simp [Player.Reset]
    · rw [hpl, List.getElem?_append_right (by simp)]; simp

/-- On a match with other than 4 slots, `Match.AddPlayer` appends. -/
theorem addPlayer_names_append {r r' : Rand} {m m' : Match} {p : Player} {e : Option String}
    (h : m.AddPlayer r p = .ok (r', m', e)) (hlen : m.Players.length ≠ 4)
    (hact : m.ActualPlayers ≠ 4) :
    e = none ∧ m'.names = m.names ++ [p.Name] := by
  rcases addPlayer_spec h with ⟨h4, _⟩ | ⟨_, he, mc, hf, _, h1⟩
  · exact absurd h4 hact
  · refine ⟨he, ?_⟩
    have hlc : mc.Players.length ≠ 4 := by rw [sameFrame_length hf]; exact hlen
    rw [h1]
    simp [Match.names, hlc, Player.Reset]
    have := hf.1
    simpa [Match.names] using this

theorem addPlayer_total {m : Match} (hm : m.Players.length ≤ 4) (p : Player) {k : Nat} {r : Rand}
    (h : Enough (k + 16) r) :
    ∃ r' m' e, m.AddPlayer r p = .ok (r', m', e) ∧ Enough k r' := by
  unfold Match.AddPlayer
  split
  · exact ⟨r, m, _, rfl, enough_le (by omega) h⟩
  · obtain ⟨r', mc, hc, _, he⟩ := correctColorConflicts_total hm h
    rw [hc]
    simp only
    split
    · exact ⟨_, _, _, rfl, he⟩
    · exact ⟨_, _, _, rfl, he⟩

theorem realNames_length_split (a b : List String) (n : String) (hn : n ≠ "") :
    ((a ++ n :: b).filter (fun x => x ≠ "")).length =
      ((a ++ "" :: b).filter (fun x => x ≠ "")).length + 1 := by
  simp [List.filter_append, List.filter_cons, hn]
  omega

/-- C9: on a match with 4 slots and a real player `p`, `Match.AddPlayer` returns
the error and the unchanged match when 4 real players are seated; otherwise it
returns on every run of draws that is enough for 16 colour choices, and whenever
it returns it reports no error, the lowest placeholder slot holds `p` with its
five counters and matches-played zero, every other slot keeps its name, and the
number of real players has grown by 1. -/
theorem C9_match_addPlayer (m : Match) (p : Player) (hlen : m.Players.length = 4)
    (hp : p.Name ≠ "") :
    (m.ActualPlayers = 4 →
      ∀ r, m.AddPlayer r p = .ok (r, m, some "cannot add fifth player")) ∧
    (m.ActualPlayers ≠ 4 →
      (∀ r, Enough 16 r → ∃ r' m', m.AddPlayer r p = .ok (r', m', none)) ∧
      (∀ r r' m' e, m.AddPlayer r p = .ok (r', m', e) →
        e = none ∧ m'.Players.length = 4 ∧
        ∃ i, i < 4 ∧ m.names[i]? = some "" ∧ (∀ j, j < i → m.names[j]? ≠ some "") ∧
          m'.Players[i]? = some { p with Shots := 0, Sweeps := 0, Kills := 0, Self := 0,
                                         Explosions := 0, Matches := 0 } ∧
          (∀ j, j ≠ i → m'.names[j]? = m.names[j]?) ∧
          m'.ActualPlayers = m.ActualPlayers + 1)) := by
  refine ⟨?_, ?_⟩
  · intro h4 r
    simp [Match.AddPlayer, h4]
  · intro h4
    refine ⟨?_, ?_⟩
    · intro r hr
      obtain ⟨r', m', e, h, _⟩ := addPlayer_total (k := 0) (le_of_eq hlen) p (by simpa using hr)
      obtain ⟨he, _⟩ := addPlayer_names_four h hlen h4
      subst he
      exact ⟨r', m', h⟩
    · intro r r' m' e h
      obtain ⟨he, a, b, hn, ha, hn', hslot⟩ := addPlayer_names_four h hlen h4
      have hl : m.names.length = 4 := by rw [names_length]; exact hlen
      have hl' : a.length + (b.length + 1) = 4 := by rw [hn] at hl; simpa using hl
      refine ⟨he, ?_, a.length, by omega, ?_, ?_, hslot, ?_, ?_⟩
      · rw [← names_length, hn']; simp; omega
      · rw [hn, List.getElem?_append_right (le_refl _)]; simp
      · intro j hj hc
        rw [hn, List.getElem?_append_left hj] at hc
        exact ha _ (List.getElem?_mem hc) rfl
      · intro j hj
        rw [hn, hn']
        rcases Nat.lt_or_gt_of_ne hj with h1 | h1
        · rw [List.getElem?_append_left h1, List.getElem?_append_left h1]
        · rw [List.getElem?_append_right (le_of_lt h1), List.getElem?_append_right (le_of_lt h1)]
          obtain ⟨d, hd⟩ : ∃ d, j - a.length = d + 1 := ⟨j - a.length - 1, by omega⟩
          rw [hd]; simp
      · rw [actualPlayers_eq, actualPlayers_eq]
        unfold Match.realNames
        rw [hn, hn']
        exact realNames_length_split a b p.Name hp

/-- C9 at a concrete match: `halfMatch` holds 2 real players, and adding "cid" on
the draws 0..8 repeated 16 times succeeds. -/
theorem C9_match_addPlayer_witness :
    ∃ r' m', halfMatch.AddPlayer (cycleDraws 16) (mkPlayer "cid" "red" 3) = .ok (r', m', none) :=
  ((C9_match_addPlayer halfMatch (mkPlayer "cid" "red" 3) (by decide) (by decide)).2
    (by decide)).1 (cycleDraws 16) (enough_cycleDraws 16)

theorem set_map_same {α β : Type} (f : α → β) (l : List α) (i : Nat) (a b : α)
    (h : l[i]? = some a) (hf : f b = f a) : (l.set i b).map f = l.map f := by
  obtain ⟨hlt, h2⟩ := List.getElem?_eq_some.1 h
  rw [List.map_set, hf]
  apply List.ext_getElem?
  intro j
  by_cases hj : i = j
  · subst hj
    rw [List.getElem?_set]
    simp [hlt, h2]
  · rw [List.getElem?_set_ne hj]

theorem bind_ok {ε α β : Type} (x : Except ε α) (f : α → Except ε β) (b : β) :
    (x >>= f) = .ok b ↔ ∃ a, x = .ok a ∧ f a = .ok b := by
  cases x <;> simp [bind, Except.bind]

theorem headers_setMatch (t : Tournament) (ref : MatchRef) (m m' : Match)
    (h : t.getMatch ref = some m) (hm : m'.header = m.header) :
    (t.setMatch ref m').headers = t.headers := by
  cases ref with
  | tryout i =>
    simp only [Tournament.getMatch] at h
    simp [Tournament.setMatch, Tournament.headers, set_map_same Match.header _ _ _ _ h hm]
  | semi i =>
    simp only [Tournament.getMatch] at h
    simp [Tournament.setMatch, Tournament.headers, set_map_same Match.header _ _ _ _ h hm]
  | final =>
    simp only [Tournament.getMatch, Option.some.injEq] at h
    simp [Tournament.setMatch, Tournament.headers, hm, h]

theorem addPlayer_header {r r' : Rand} {m m' : Match} {p : Player} {e : Option String}
    (h : m.AddPlayer r p = .ok (r', m', e)) : m'.header = m.header := by
  obtain ⟨h1, h2, h3, h4⟩ := addPlayer_meta h
  simp [Match.header, h1, h2, h3, h4]

theorem updatePlayers_frame {t t' : Tournament} (h : t.UpdatePlayers = .ok t') :
    t.sameButRoster t' := by
  unfold Tournament.UpdatePlayers at h
  split at h
  · simp at h
  · split at h
    · simp at h
    · split at h
      · simp at h
      · simp at h
        subst h
        rfl

theorem getRunnerups_frame {t t' : Tournament} {ps : List Player}
    (h : t.GetRunnerups = .ok (ps, t')) : t.sameButRoster t' := by
  unfold Tournament.GetRunnerups at h
  split at h
  · simp at h
  · rename_i t1 h1
    split at h
    · simp at h
    · simp at h
      obtain ⟨_, h2⟩ := h
      subst h2
      exact updatePlayers_frame h1

theorem sameButRoster_headers {t t' : Tournament} (h : t.sameButRoster t') :
    t'.headers = t.headers := by
  unfold Tournament.sameButRoster at h
  rw [h]; rfl

theorem advanceStep_headers (mIndex : Int) (st st' : Rand × Tournament) (ip : Nat × Player)
    (h : advanceStep mIndex st ip = .ok st') : st'.2.headers = st.2.headers := by
  unfold advanceStep at h
  simp only at h
  split at h
  · split at h
    · simp at h
    · split at h
      · simp at h
      · rename_i semi hsemi
        split at h
        · simp at h
        · rename_i r1 semi1 e1 hadd
          simp at h
          subst h
          have := set_map_same Match.header _ _ _ _ hsemi (addPlayer_header hadd)
          simp [Tournament.headers, this]
  · split at h
    · simp at h; subst h; rfl
    · simp at h; subst h; rfl

theorem finalStep_headers (st st' : Rand × Tournament) (ip : Nat × Player)
    (h : finalStep st ip = .ok st') : st'.2.headers = st.2.headers := by
  unfold finalStep at h
  split at h
  · split at h
    · simp at h
    · rename_i r1 fin e1 hadd
      simp at h
      subst h
      simp [Tournament.headers, addPlayer_header hadd]
  · simp at h; subst h; rfl

/-- The stages of `MovePlayers`, read off a run that returned. -/
theorem movePlayers_inv {r r' : Rand} {t t' : Tournament} {ref : MatchRef}
    (h : t.MovePlayers r ref = .ok (r', t')) :
    ∃ m r1 t1 t2 ps t3, t.getMatch ref = some m ∧
      t.moveTryout r ref m = .ok (r1, t1) ∧ t1.moveSemi r1 ref m = .ok (r', t2) ∧
      t2.GetRunnerups = .ok (ps, t3) ∧
      t' = { t3 with Runnerups := ps.map Player.Name } := by
  unfold Tournament.MovePlayers at h
  split at h
  · simp at h
  · rename_i m hm
    split at h
    · simp at h
    · rename_i r1 t1 h1
      split at h
      · simp at h
      · rename_i r2 t2 h2
        split at h
        · simp at h
        · rename_i ps t3 h3
          simp at h
          obtain ⟨h4, h5⟩ := h
          subst h4
          exact ⟨m, r1, t1, t2, ps, t3, hm, h1, h2, h3, h5.symm⟩

theorem moveTryout_headers {r r' : Rand} {t t' : Tournament} {ref : MatchRef} {m : Match}
    (hm : t.getMatch ref = some m) (h : t.moveTryout r ref m = .ok (r', t')) :
    t'.headers = t.headers := by
  unfold Tournament.moveTryout at h
  split at h
  · exact foldlM_inv (fun s => s.2.headers = t.headers) _
      (fun s b s' hs h => (advanceStep_headers _ s s' b h).trans hs) _ _ _
      (headers_setMatch t ref m { m with Players := SortByKills m.Players } hm rfl) h
  · simp at h; rw [← h.2]

theorem moveSemi_headers {r r' : Rand} {t t' : Tournament} {ref : MatchRef} {m : Match}
    (hm : (t.getMatch ref).map Match.header = some m.header)
    (h : t.moveSemi r ref m = .ok (r', t')) :
    t'.headers = t.headers := by
  unfold Tournament.moveSemi at h
  split at h
  · cases hg : t.getMatch ref with
    | none => rw [hg] at hm; simp at hm
    | some m1 =>
      rw [hg] at hm
      simp at hm
      exact foldlM_inv (fun s => s.2.headers = t.headers) _
        (fun s b s' hs h => (finalStep_headers s s' b h).trans hs) _ _ _
        (headers_setMatch t ref m1 { m with Players := SortByKills m.Players } hg (Eq.trans rfl hm.symm)) h
  · simp at h; rw [← h.2]

/-- The header of the match `ref`, read from the headers of the bracket. -/
theorem header_of_headers {t t' : Tournament} (h : t'.headers = t.headers) (ref : MatchRef) :
    (t'.getMatch ref).map Match.header = (t.getMatch ref).map Match.header := by
  simp only [Tournament.headers, Prod.mk.injEq] at h
  obtain ⟨h1, h2, h3⟩ := h
  cases ref with
  | tryout i =>
    simp only [Tournament.getMatch]
    rw [← List.getElem?_map, ← List.getElem?_map, h1]
  | semi i =>
    simp only [Tournament.getMatch]
    rw [← List.getElem?_map, ← List.getElem?_map, h2]
  | final => simp [Tournament.getMatch, h3]

theorem movePlayers_headers {r r' : Rand} {t t' : Tournament} {ref : MatchRef}
    (h : t.MovePlayers r ref = .ok (r', t')) : t'.headers = t.headers := by
  obtain ⟨m, r1, t1, t2, ps, t3, hm, h1, h2, h3, h4⟩ := movePlayers_inv h
  have e1 := moveTryout_headers hm h1
  have e2 : t2.headers = t1.headers :=
    moveSemi_headers (by rw [header_of_headers e1, hm]; rfl) h2
  have e3 : t3.headers = t2.headers := sameButRoster_headers (getRunnerups_frame h3)
  rw [h4]
  show Tournament.headers { t3 with Runnerups := _ } = _
  simp only [Tournament.headers] at e3 e2 e1 ⊢
  rw [e3, e2, e1]

theorem getMatch_setMatch {t : Tournament} {ref : MatchRef} {m : Match} (m' : Match)
    (h : t.getMatch ref = some m) : (t.setMatch ref m').getMatch ref = some m' := by
  cases ref with
  | tryout i =>
    simp only [Tournament.getMatch] at h
    obtain ⟨hlt, _⟩ := List.getElem?_eq_some.1 h
    simp [Tournament.getMatch, Tournament.setMatch, hlt]
  | semi i =>
    simp only [Tournament.getMatch] at h
    obtain ⟨hlt, _⟩ := List.getElem?_eq_some.1 h
    simp [Tournament.getMatch, Tournament.setMatch, hlt]
  | final => simp [Tournament.getMatch, Tournament.setMatch]

theorem awardMedals_headers {t t' : Tournament} {ref : MatchRef} {now : Nat}
    {e : Option String} (h : t.AwardMedals ref now = .ok (t', e)) : t'.headers = t.headers := by
  unfold Tournament.AwardMedals at h
  split at h
  · simp at h
  · rename_i m hm
    split at h
    · simp at h; rw [← h.1]
    · dsimp only at h
      split at h
      · simp at h
      · simp at h
        rw [← h.1]
        exact headers_setMatch t ref m { m with Players := SortByKills m.Players } hm rfl

/-- What `End` does to the headers of the bracket when it goes past its guard. -/
theorem end_headers {r r' : Rand} {t t' : Tournament} {ref : MatchRef} {now now2 : Nat}
    {m : Match} {e : Option String} (hm : t.getMatch ref = some m) (he : m.Ended = none)
    (h : t.End r ref now now2 = .ok (r', t', e)) :
    e = none ∧
    (t'.getMatch ref).map Match.header = some (m.Kind, m.Index, m.Started, some now) := by
  unfold Tournament.End at h
  rw [hm] at h
  simp only [he, Time.IsZero, Option.isNone_none, Bool.not_true, Bool.false_eq_true,
    if_false] at h
  split at h
  · simp at h
  · rename_i w ws hw
    have hg := getMatch_setMatch
      { m with Players := addShotFirst w.Name m.Players, Ended := some now } hm
    split at h
    · split at h
      · simp at h
      · rename_i t1 e1 h1
        simp at h
        obtain ⟨_, h2, h3⟩ := h
        subst h2
        refine ⟨h3.symm, ?_⟩
        rw [header_of_headers (awardMedals_headers h1), hg]
        rfl
    · split at h
      · simp at h
      · rename_i r1 t1 h1
        simp at h
        obtain ⟨_, h2, h3⟩ := h
        subst h2
        refine ⟨h3.symm, ?_⟩
        rw [header_of_headers (movePlayers_headers h1), hg]
        rfl

/-- C10: tryout 0 of `demoTournament` has never been started and has not ended;
`IsOpen` and `CanEnd`, which test the start timestamp, say that it cannot be
ended; yet `End` on it returns without an error and sets its end timestamp, the
start timestamp still unset. -/
theorem C10_end_before_start :
    (demoTournament.getMatch (.tryout 0)).map
      (fun (m : Match) => (m.Started, m.Ended, m.IsOpen, m.CanEnd)) =
      some (none, none, false, false) ∧
    (demoTournament.End (cycleDraws 16) (.tryout 0) 7 8).map
      (fun (out : Rand × Tournament × Option String) =>
        (out.2.2, (out.2.1.getMatch (.tryout 0)).map
          (fun (m : Match) => (m.Started, m.Ended)))) =
      .ok (none, some (none, some 7)) := by
  constructor
  · rfl
  · rfl

theorem sinkLeft_nil {α : Type} (less : α → α → Bool) (x : α) : sinkLeft less x [] = [x] := by
  simp [sinkLeft]

theorem sinkLeft_concat {α : Type} (less : α → α → Bool) (x y : α) (l : List α) :
    sinkLeft less x (l ++ [y]) =
      if less x y = true then sinkLeft less x l ++ [y] else l ++ [y, x] := by
  unfold sinkLeft
  rw [List.rdropWhile_concat, List.rtakeWhile_concat]
  by_cases h : less x y = true
  · simp [h]
  · simp [h]

theorem sinkLeft_perm {α : Type} (less : α → α → Bool) (x : α) (l : List α) :
    (sinkLeft less x l).Perm (l ++ [x]) := by
  induction l using List.reverseRecOn with
  | nil => simp [sinkLeft_nil]
  | append_singleton l y ih =>
    rw [sinkLeft_concat]
    split
    · calc (sinkLeft less x l ++ [y]).Perm ((l ++ [x]) ++ [y]) := List.Perm.append_right _ ih
        _ = l ++ ([x] ++ [y]) := by simp
        _ |>.Perm (l ++ ([y] ++ [x])) := List.Perm.append_left _ (List.perm_append_comm)
        _ = l ++ [y] ++ [x] := by simp
    · simp

theorem sortSort_perm_aux {α : Type} (less : α → α → Bool) (xs : List α) :
    ∀ acc : List α, (xs.foldl (fun pre x => sinkLeft less x pre) acc).Perm (acc ++ xs) := by
  induction xs with
  | nil => intro acc; simp
  | cons x xs ih =>
    intro acc
    simp only [List.foldl_cons]
    refine (ih _).trans ?_
    have := (sinkLeft_perm less x acc).append_right xs
    simpa using this

theorem sortSort_perm {α : Type} (less : α → α → Bool) (xs : List α) :
    (sortSort less xs).Perm xs := by
  simpa [sortSort] using sortSort_perm_aux less xs []

theorem sinkLeft_sorted {α : Type} (less : α → α → Bool)
    (hasym : ∀ a b, less a b = true → less b a = false)
    (htrans : ∀ a b c, less b a = false → less c b = false → less c a = false)
    (x : α) (l : List α) (h : SortedBy less l) : SortedBy less (sinkLeft less x l) := by
  induction l using List.reverseRecOn with
  | nil => simp [sinkLeft_nil, SortedBy]
  | append_singleton l y ih =>
    unfold SortedBy at h ih ⊢
    rw [List.pairwise_append] at h
    obtain ⟨hl, _, hy⟩ := h
    rw [sinkLeft_concat]
    split
    · rename_i hxy
      rw [List.pairwise_append]
      refine ⟨ih hl, by simp, ?_⟩
      intro z hz w hw
      simp only [List.mem_singleton] at hw
      subst hw
      have hz' := (sinkLeft_perm less x l).mem_iff.1 hz
      rcases List.mem_append.1 hz' with h1 | h1
      · exact hy z h1 w (by simp)
      · simp only [List.mem_singleton] at h1
        subst h1
        exact hasym _ _ hxy
    · rename_i hxy
      have hxy' : less x y = false := by simpa using hxy
      have : l ++ [y, x] = (l ++ [y]) ++ [x] := by simp
      rw [this, List.pairwise_append]
      refine ⟨?_, by simp, ?_⟩
      · rw [List.pairwise_append]; exact ⟨hl, by simp, hy⟩
      · intro z hz w hw
        simp only [List.mem_singleton] at hw
        subst hw
        rcases List.mem_append.1 hz with h1 | h1
        · exact htrans z y w (hy z h1 y (by simp)) hxy'
        · simp only [List.mem_singleton] at h1
          subst h1
          exact hxy'

theorem sortSort_sorted {α : Type} (less : α → α → Bool)
    (hasym : ∀ a b, less a b = true → less b a = false)
    (htrans : ∀ a b c, less b a = false → less c b = false → less c a = false)
    (xs : List α) : SortedBy less (sortSort less xs) := by
  have aux : ∀ (xs acc : List α), SortedBy less acc →
      SortedBy less (xs.foldl (fun pre x => sinkLeft less x pre) acc) := by
    intro xs
    induction xs with
    | nil => intro acc h; simpa using h
    | cons x xs ih =>
      intro acc h
      simp only [List.foldl_cons]
      exact ih _ (sinkLeft_sorted less hasym htrans x acc h)
  exact aux xs [] (by simp [SortedBy])

theorem sortByKills_perm (ps : List Player) : (SortByKills ps).Perm ps :=
  sortSort_perm _ ps

theorem sortByKills_sorted (ps : List Player) :
    (SortByKills ps).Pairwise (fun a b => b.Kills ≤ a.Kills) := by
  have h := sortSort_sorted ByKills.Less
    (by intro a b; simp [ByKills.Less]; omega)
    (by intro a b c; simp [ByKills.Less]; omega) ps
  unfold SortedBy at h
  refine h.imp ?_
  intro a b hab
  simpa [ByKills.Less] using hab

theorem sortByKills_length (ps : List Player) : (SortByKills ps).length = ps.length :=
  (sortByKills_perm ps).length_eq

theorem pairwise_take_drop {α : Type} (R : α → α → Prop) (l : List α) (n : Nat)
    (h : l.Pairwise R) : ∀ a ∈ l.take n, ∀ b ∈ l.drop n, R a b := by
  have h2 : (l.take n ++ l.drop n).Pairwise R := by rw [List.take_append_drop]; exact h
  exact (List.pairwise_append.1 h2).2.2

/-- C6: `AwardMedals` on a match whose kind is not final returns the error and the
unchanged tournament (winners and end time included).  On a match of kind final
with at least 3 slots it returns no error, the winners are the first 3 of the
slots sorted by kills: 3 players that together with the players left out make up
the slots of the match, in descending order of kills, no player left out having
more kills than a winner; and the end time of the tournament is set. -/
theorem C6_awardMedals (t : Tournament) (ref : MatchRef) (m : Match) (now : Nat)
    (hm : t.getMatch ref = some m) :
    (m.Kind ≠ "final" →
      t.AwardMedals ref now = .ok (t, some "awarding medals outside of the final")) ∧
    (m.Kind = "final" → 3 ≤ m.Players.length →
      ∃ t', t.AwardMedals ref now = .ok (t', none) ∧
        t'.Winners.length = 3 ∧
        t'.Winners.Pairwise (fun a b => b.Kills ≤ a.Kills) ∧
        (∃ rest, (t'.Winners ++ rest).Perm m.Players ∧
          ∀ w ∈ t'.Winners, ∀ q ∈ rest, q.Kills ≤ w.Kills) ∧
        t'.Ended = some now) := by
  refine ⟨?_, ?_⟩
  · intro hk
    simp [Tournament.AwardMedals, hm, hk]
  · intro hk hlen
    have hl : ¬ (SortByKills m.Players).length < 3 := by
      rw [sortByKills_length]; omega
    refine ⟨_, by simp only [Tournament.AwardMedals, hm, hk]; simp [hl]; rfl, ?_, ?_, ?_, ?_⟩
    · simp [sortByKills_length]; omega
    · exact (sortByKills_sorted m.Players).sublist (List.take_sublist _ _)
    · refine ⟨(SortByKills m.Players).drop 3, ?_, ?_⟩
      · show ((SortByKills m.Players).take 3 ++ (SortByKills m.Players).drop 3).Perm m.Players
        rw [List.take_append_drop]
        exact sortByKills_perm _
      · exact pairwise_take_drop _ _ 3 (sortByKills_sorted m.Players)
    · rfl

/-- C6 at `demoFinal`: the winners are b, d, a with 20, 15 and 12 kills. -/
theorem C6_awardMedals_witness :
    ∃ t', ({ demoTournament with Final := demoFinal }).AwardMedals .final 9 = .ok (t', none) ∧
      t'.Winners.map Player.Name = ["b", "d", "a"] ∧ t'.Ended = some 9 := by
  obtain ⟨t', h, _, _, _, _⟩ := (C6_awardMedals { demoTournament with Final := demoFinal }
    .final demoFinal 9 rfl).2 rfl (by decide)
  refine ⟨t', h, ?_, ?_⟩
  · have h2 : ({ demoTournament with Final := demoFinal }).AwardMedals .final 9 =
        .ok (t', none) := h
    have h3 : (({ demoTournament with Final := demoFinal }).AwardMedals .final 9).map
        (fun (o : Tournament × Option String) => o.1.Winners.map Player.Name) = .ok ["b", "d", "a"] := by rfl
    rw [h2] at h3
    simpa [Except.map] using h3
  · have h3 : (({ demoTournament with Final := demoFinal }).AwardMedals .final 9).map
        (fun (o : Tournament × Option String) => o.1.Ended) = .ok (some 9) := by rfl
    rw [h] at h3
    simpa [Except.map] using h3

theorem swapAt_perm (l : List Player) (i j : Nat) : (swapAt l i j).Perm l := by
  unfold swapAt
  split
  · rename_i a b ha hb
    obtain ⟨hi, hia⟩ := List.getElem?_eq_some.1 ha
    obtain ⟨hj, hjb⟩ := List.getElem?_eq_some.1 hb
    apply List.perm_iff_count.2
    intro x
    have hj' : j < (l.set i b).length := by simpa using hj
    rw [List.count_set a x (l.set i b) j hj', List.count_set b x l i hi]
    have hax : (if a == x then 1 else 0) ≤ l.count x := by
      split
      · rename_i h
        have : a = x := by simpa using h
        subst this
        exact List.count_pos_iff.2 (List.getElem?_mem ha)
      · omega
    by_cases hij : i = j
    · subst hij
      have hab : a = b := by rw [← hia, ← hjb]
      subst hab
      simp only [List.getElem_set_self, hia]
      omega
    · rw [List.getElem_set_ne hij, hia, hjb]
      omega
  · exact List.Perm.refl _

theorem shuffle_perm {r r' : Rand} {l l' : List Player} (idx : List Nat)
    (h : idx.foldlM shuffleStep (r, l) = .ok (r', l')) : l'.Perm l := by
  refine foldlM_inv (fun s => s.2.Perm l) shuffleStep ?_ idx (r, l) (r', l') (List.Perm.refl _) h
  intro s b s' hs hstep
  unfold shuffleStep at hstep
  split at hstep
  · simp at hstep
  · simp at hstep
    rw [← hstep]
    exact (swapAt_perm _ _ _).trans hs

theorem shuffleStep_total (s : Rand × List Player) (i k : Nat) (h : Enough (k + 1) s.1) :
    ∃ s', shuffleStep s i = .ok s' ∧ True ∧ Enough k s'.1 := by
  obtain ⟨d, r', hr, he⟩ := enough_draw h
  exact ⟨(r', swapAt s.2 i (d % (i + 1))), by simp [shuffleStep, hr], trivial, he⟩

theorem shuffle_total (r : Rand) (l : List Player) (idx : List Nat) (k : Nat)
    (h : Enough (k + idx.length) r) :
    ∃ r' l', idx.foldlM shuffleStep (r, l) = .ok (r', l') ∧ Enough k r' := by
  obtain ⟨s', hs, _, he⟩ := foldlM_total (fun _ => True) (fun s => s.1) 1 shuffleStep
    (fun s b k _ h => shuffleStep_total s b k h) idx (r, l) k trivial (by simpa using h)
  exact ⟨s'.1, s'.2, hs, he⟩

theorem block_length {α : Type} (k : Nat) (l : List α) :
    (block k l).length = min 4 (l.length - 4 * k) := by
  simp [block]

theorem block_concat {α : Type} (k : Nat) (l : List α) (p : α) :
    block k (l ++ [p]) = if k = l.length / 4 then block k l ++ [p] else block k l := by
  unfold block
  by_cases hk : k = l.length / 4
  · rw [if_pos hk]
    have h1 : 4 * k ≤ l.length := by omega
    have h2 : l.length - 4 * k < 4 := by omega
    rw [List.drop_append_of_le_length h1]
    rw [List.take_of_length_le (by simp; omega), List.take_of_length_le (by simp; omega)]
  · rw [if_neg hk]
    rcases Nat.lt_or_gt_of_ne hk with h | h
    · have h1 : 4 * k + 4 ≤ l.length := by omega
      rw [List.drop_append_of_le_length (by omega)]
      rw [List.take_append_of_le_length (by simp; omega)]
    · have h1 : l.length + 1 ≤ 4 * k := by omega
      rw [List.drop_of_length_le (by simp; omega), List.drop_of_length_le (by omega)]

theorem prefillStep_spec {st st' : Rand × Match} {i : Nat} (hlen : st.2.Players.length < 4)
    (h : Match.prefillStep st i = .ok st') :
    st'.2.names = st.2.names ++ [""] ∧ st'.2.header = st.2.header := by
  unfold Match.prefillStep at h
  have hact : st.2.ActualPlayers ≠ 4 := by
    have := actualPlayers_le st.2; omega
  split at h
  · simp at h
  · simp at h
  · rename_i r1 m1 hadd
    simp at h
    subst h
    exact ⟨(addPlayer_names_append hadd (by omega) hact).2, addPlayer_header hadd⟩

theorem prefill_loop_spec (idx : List Nat) :
    ∀ (st st' : Rand × Match), st.2.Players.length + idx.length ≤ 4 →
      idx.foldlM Match.prefillStep st = .ok st' →
      st'.2.names = st.2.names ++ List.replicate idx.length "" ∧ st'.2.header = st.2.header := by
  induction idx with
  | nil =>
    intro st st' _ h
    simp [pure, Except.pure] at h
    subst h
    simp
  | cons i idx ih =>
    intro st st' hlen h
    rw [List.foldlM_cons] at h
    obtain ⟨s1, h1, h2⟩ := (bind_ok _ _ _).1 h
    simp only [List.length_cons] at hlen
    obtain ⟨e1, e2⟩ := prefillStep_spec (by omega) h1
    have hl1 : s1.2.Players.length = st.2.Players.length + 1 := by
      rw [← names_length, e1, List.length_append, names_length]; rfl
    obtain ⟨e3, e4⟩ := ih s1 st' (by omega) h2
    refine ⟨?_, e4.trans e2⟩
    rw [e3, e1]
    simp [List.replicate_succ]

theorem prefill_spec {r r' : Rand} {m m' : Match} (h : m.Prefill r = .ok (r', m')) :
    m'.names = m.names ++ List.replicate (4 - m.Players.length) "" ∧ m'.header = m.header := by
  unfold Match.Prefill at h
  by_cases hl : m.Players.length ≤ 4
  · have := prefill_loop_spec (List.range (4 - m.Players.length)) (r, m) (r', m')
      (by simp; omega) h
    simpa using this
  · have h0 : 4 - m.Players.length = 0 := by omega
    rw [h0] at h
    simp [pure, Except.pure] at h
    rw [h0, ← h.2]
    simp

theorem prefillStep_total (st : Rand × Match) (i k : Nat) (hlen : st.2.Players.length < 4)
    (h : Enough (k + 16) st.1) :
    ∃ st', Match.prefillStep st i = .ok st' ∧ Enough k st'.1 := by
  obtain ⟨r', m', e, hadd, he⟩ := addPlayer_total (le_of_lt hlen) Player.zero h
  have hact : st.2.ActualPlayers ≠ 4 := by
    have := actualPlayers_le st.2; omega
  have := (addPlayer_names_append hadd (by omega) hact).1
  subst this
  exact ⟨(r', m'), by simp [Match.prefillStep, hadd], he⟩

theorem prefill_loop_total (idx : List Nat) :
    ∀ (st : Rand × Match) (k : Nat), st.2.Players.length + idx.length ≤ 4 →
      Enough (k + 16 * idx.length) st.1 →
      ∃ st', idx.foldlM Match.prefillStep st = .ok st' ∧ Enough k st'.1 := by
  induction idx with
  | nil =>
    intro st k _ h
    exact ⟨st, rfl, by simpa using h⟩
  | cons i idx ih =>
    intro st k hlen h
    simp only [List.length_cons] at hlen h
    have h' : Enough ((k + 16 * idx.length) + 16) st.1 := by
      have : k + 16 * (idx.length + 1) = (k + 16 * idx.length) + 16 := by omega
      rw [this] at h; exact h
    obtain ⟨s1, h1, he1⟩ := prefillStep_total st i _ (by omega) h'
    obtain ⟨e1, _⟩ := prefillStep_spec (by omega) h1
    have hl1 : s1.2.Players.length = st.2.Players.length + 1 := by
      rw [← names_length, e1, List.length_append, names_length]; rfl
    obtain ⟨s2, h2, he2⟩ := ih s1 k (by omega) he1
    refine ⟨s2, ?_, he2⟩
    rw [List.foldlM_cons, h1]
    exact h2

theorem prefill_total (m : Match) (r : Rand) (k : Nat) (h : Enough (k + 64) r) :
    ∃ r' m', m.Prefill r = .ok (r', m') ∧ Enough k r' := by
  unfold Match.Prefill
  by_cases hl : m.Players.length ≤ 4
  · obtain ⟨s', hs, he⟩ := prefill_loop_total (List.range (4 - m.Players.length)) (r, m) k
      (by simp; omega) (enough_le (by simp; omega) h)
    exact ⟨s'.1, s'.2, hs, he⟩
  · have h0 : 4 - m.Players.length = 0 := by omega
    rw [h0]
    exact ⟨r, m, rfl, enough_le (by omega) h⟩

theorem dealt_init (ms0 : List Match) :
    Dealt ms0 (ms0.map (fun m => { m with Players := [] })) [] := by
  refine ⟨?_, ?_⟩
  · simp [List.map_map, Function.comp, Match.header]
  · intro k m hm
    simp only [List.getElem?_map] at hm
    cases h0 : ms0[k]? with
    | none => rw [h0] at hm; simp at hm
    | some m0 =>
      rw [h0] at hm
      simp at hm
      subst hm
      simp [Match.names, block]

theorem dealStep_spec {ms0 : List Match} {done : List Player} {st st' : Rand × List Match}
    {p : Player} (hd : Dealt ms0 st.2 done)
    (h : dealStep st (done.length, p) = .ok st') : Dealt ms0 st'.2 (done ++ [p]) := by
  unfold dealStep at h
  simp only at h
  split at h
  · simp at h
  · rename_i m hm
    split at h
    · simp at h
    · rename_i r1 m1 e1 hadd
      simp at h
      subst h
      have hn := hd.2 _ m hm
      have hlen : m.Players.length < 4 := by
        rw [← names_length, hn, List.length_map, block_length]
        omega
      have hact : m.ActualPlayers ≠ 4 := by
        have := actualPlayers_le m; omega
      obtain ⟨_, hn1⟩ := addPlayer_names_append hadd (by omega) hact
      refine ⟨?_, ?_⟩
      · simp only
        rw [set_map_same Match.header _ _ _ _ hm (addPlayer_header hadd)]
        exact hd.1
      · intro k x hx
        simp only at hx
        rw [block_concat]
        by_cases hk : k = done.length / 4
        · subst hk
          rw [if_pos rfl]
          obtain ⟨hlt, _⟩ := List.getElem?_eq_some.1 hm
          rw [List.getElem?_set_eq_of_lt _ hlt] at hx
          simp at hx
          subst hx
          rw [hn1, hn]
          simp
        · rw [if_neg hk]
          rw [List.getElem?_set_ne (Ne.symm hk)] at hx
          exact hd.2 k x hx

theorem deal_loop_spec (ms0 : List Match) (rest : List Player) :
    ∀ (done : List Player) (st st' : Rand × List Match), Dealt ms0 st.2 done →
      (rest.enumFrom done.length).foldlM dealStep st = .ok st' →
      Dealt ms0 st'.2 (done ++ rest) := by
  induction rest with
  | nil =>
    intro done st st' hd h
    simp [pure, Except.pure] at h
    subst h
    simpa using hd
  | cons p rest ih =>
    intro done st st' hd h
    rw [List.enumFrom_cons, List.foldlM_cons] at h
    obtain ⟨s1, h1, h2⟩ := (bind_ok _ _ _).1 h
    have hd1 := dealStep_spec hd h1
    have := ih (done ++ [p]) s1 st' hd1 (by simpa using h2)
    simpa using this

theorem dealStep_total {ms0 : List Match} {done : List Player} {st : Rand × List Match}
    (p : Player) (k : Nat) (hd : Dealt ms0 st.2 done) (hb : done.length / 4 < ms0.length)
    (he : Enough (k + 16) st.1) :
    ∃ st', dealStep st (done.length, p) = .ok st' ∧ Enough k st'.1 := by
  have hlen : st.2.length = ms0.length := by
    have := congrArg List.length hd.1
    simpa using this
  unfold dealStep
  simp only
  have hlt : done.length / 4 < st.2.length := by omega
  rw [List.getElem?_eq_getElem hlt]
  simp only
  have hn := hd.2 _ _ (List.getElem?_eq_getElem hlt)
  have hl4 : (st.2[done.length / 4]).Players.length ≤ 4 := by
    rw [← names_length, hn, List.length_map, block_length]
    omega
  obtain ⟨r', m', e, hadd, he'⟩ := addPlayer_total hl4 p he
  rw [hadd]
  exact ⟨_, rfl, he'⟩

theorem deal_loop_total (ms0 : List Match) (rest : List Player) :
    ∀ (done : List Player) (st : Rand × List Match) (k : Nat), Dealt ms0 st.2 done →
      (done ++ rest).length ≤ 4 * ms0.length → Enough (k + 16 * rest.length) st.1 →
      ∃ st', (rest.enumFrom done.length).foldlM dealStep st = .ok st' ∧ Enough k st'.1 := by
  induction rest with
  | nil =>
    intro done st k _ _ he
    exact ⟨st, rfl, by simpa using he⟩
  | cons p rest ih =>
    intro done st k hd hb he
    simp only [List.length_append, List.length_cons] at hb he
    have he' : Enough ((k + 16 * rest.length) + 16) st.1 := by
      have : k + 16 * (rest.length + 1) = (k + 16 * rest.length) + 16 := by omega
      rw [this] at he; exact he
    obtain ⟨s1, h1, he1⟩ := dealStep_total p _ hd (by omega) he'
    have hd1 := dealStep_spec hd h1
    obtain ⟨s2, h2, he2⟩ := ih (done ++ [p]) s1 k hd1 (by simp; omega) he1
    refine ⟨s2, ?_, he2⟩
    rw [List.enumFrom_cons, List.foldlM_cons, h1]
    simpa using h2

theorem prefillAll_spec :
    ∀ (ms : List Match) (r r' : Rand) (ms' : List Match), prefillAll r ms = .ok (r', ms') →
      ms'.map Match.header = ms.map Match.header ∧
      ∀ (k : Nat) (m' : Match), ms'[k]? = some m' → ∃ m : Match, ms[k]? = some m ∧
        m'.names = m.names ++ List.replicate (4 - m.Players.length) "" := by
  intro ms
  induction ms with
  | nil =>
    intro r r' ms' h
    simp [prefillAll] at h
    rw [h.2]
    simp
  | cons m ms ih =>
    intro r r' ms' h
    unfold prefillAll at h
    split at h
    · simp at h
    · rename_i r1 m1 h1
      split at h
      · simp at h
      · rename_i r2 ms2 h2
        simp at h
        obtain ⟨_, h3⟩ := h
        subst h3
        obtain ⟨e1, e2⟩ := prefill_spec h1
        obtain ⟨e3, e4⟩ := ih r1 r2 ms2 h2
        refine ⟨by simp [e2, e3], ?_⟩
        intro k m' hk
        cases k with
        | zero =>
          simp at hk
          subst hk
          exact ⟨m, by simp, e1⟩
        | succ k =>
          simp at hk
          obtain ⟨m0, hm0, hn⟩ := e4 k m' hk
          exact ⟨m0, by simpa using hm0, hn⟩

theorem prefillAll_total :
    ∀ (ms : List Match) (r : Rand) (k : Nat), Enough (k + 64 * ms.length) r →
      ∃ r' ms', prefillAll r ms = .ok (r', ms') ∧ Enough k r' := by
  intro ms
  induction ms with
  | nil =>
    intro r k h
    exact ⟨r, [], rfl, by simpa using h⟩
  | cons m ms ih =>
    intro r k h
    simp only [List.length_cons] at h
    have h' : Enough ((k + 64 * ms.length) + 64) r := by
      have : k + 64 * (ms.length + 1) = (k + 64 * ms.length) + 64 := by omega
      rw [this] at h; exact h
    obtain ⟨r1, m1, h1, he1⟩ := prefill_total m r _ h'
    obtain ⟨r2, ms2, h2, he2⟩ := ih r1 k he1
    refine ⟨r2, m1 :: ms2, ?_, he2⟩
    simp [prefillAll, h1, h2]

/-- What `ShufflePlayers` does when it returns. -/
theorem shufflePlayers_spec {r r' : Rand} {t t' : Tournament}
    (h : t.ShufflePlayers r = .ok (r', t')) :
    t' = { t with Players := t'.Players, Tryouts := t'.Tryouts } ∧
    t'.Players.Perm t.Players ∧
    t'.Tryouts.map Match.header = t.Tryouts.map Match.header ∧
    ∀ (k : Nat) (m : Match), t'.Tryouts[k]? = some m →
      m.names = (block k t'.Players).map Player.Name ++
        List.replicate (4 - (block k t'.Players).length) "" := by
  unfold Tournament.ShufflePlayers at h
  split at h
  · simp at h
  · rename_i r1 slice h1
    split at h
    · simp at h
    · rename_i r2 dealt h2
      split at h
      · simp at h
      · rename_i r3 tryouts h3
        simp at h
        obtain ⟨_, h4⟩ := h
        subst h4
        have hperm := shuffle_perm _ h1
        have hd := deal_loop_spec t.Tryouts slice [] (r1, _) (r2, dealt) (dealt_init t.Tryouts)
          (by simpa [List.enum] using h2)
        simp only [List.nil_append] at hd
        obtain ⟨e1, e2⟩ := prefillAll_spec dealt r2 r3 tryouts h3
        refine ⟨rfl, hperm, e1.trans hd.1, ?_⟩
        intro k m hk
        obtain ⟨m0, hm0, hn⟩ := e2 k m hk
        have hn0 := hd.2 k m0 hm0
        rw [hn, ← names_length, hn0]
        simp

theorem shufflePlayers_total {t : Tournament} {r : Rand} (k : Nat)
    (hb : t.Players.length ≤ 4 * t.Tryouts.length)
    (he : Enough (k + 17 * t.Players.length + 64 * t.Tryouts.length) r) :
    ∃ r' t', t.ShufflePlayers r = .ok (r', t') ∧ Enough k r' := by
  unfold Tournament.ShufflePlayers
  obtain ⟨r1, slice, h1, he1⟩ := shuffle_total r t.Players (List.range t.Players.length)
    (k + 16 * t.Players.length + 64 * t.Tryouts.length)
    (enough_le (by simp; omega) he)
  have hlen : slice.length = t.Players.length := (shuffle_perm _ h1).length_eq
  rw [h1]
  simp only
  obtain ⟨s2, h2, he2⟩ := deal_loop_total t.Tryouts slice [] (r1, _)
    (k + 64 * t.Tryouts.length) (dealt_init t.Tryouts) (by simp; omega)
    (enough_le (by rw [hlen]; omega) he1)
  have hd := deal_loop_spec t.Tryouts slice [] (r1, _) s2 (dealt_init t.Tryouts) h2
  have hl2 : s2.2.length = t.Tryouts.length := by
    have := congrArg List.length hd.1
    simpa using this
  have h2' : List.foldlM dealStep (r1, t.Tryouts.map (fun m => { m with Players := [] }))
      slice.enum = .ok (s2.1, s2.2) := by simpa [List.enum] using h2
  rw [h2']
  simp only
  obtain ⟨r3, ms3, h3, he3⟩ := prefillAll_total s2.2 s2.1 k (by rw [hl2]; exact he2)
  rw [h3]
  exact ⟨_, _, rfl, he3⟩

theorem blocks_flatten {α : Type} (l : List α) (n : Nat) :
    ((List.range n).map (fun k => block k l)).flatten = l.take (4 * n) := by
  induction n with
  | zero => simp
  | succ n ih =>
    rw [List.range_succ, List.map_append, List.flatten_append, ih]
    simp only [List.map_cons, List.map_nil, List.flatten_cons, List.flatten_nil,
      List.append_nil, block]
    rw [show 4 * (n + 1) = 4 * n + 4 by omega, List.take_add]

theorem block_map {α β : Type} (f : α → β) (k : Nat) (l : List α) :
    (block k l).map f = block k (l.map f) := by
  simp [block, List.map_take, List.map_drop]

theorem filter_real_append_replicate (l : List String) (n : Nat) (h : ∀ x ∈ l, x ≠ "") :
    (l ++ List.replicate n "").filter (fun x => x ≠ "") = l := by
  rw [List.filter_append]
  have h1 : l.filter (fun x => x ≠ "") = l := by
    apply List.filter_eq_self.2
    intro x hx
    simpa using h x hx
  have h2 : (List.replicate n "").filter (fun x => x ≠ "") = [] := by
    apply List.filter_eq_nil_iff.2
    intro x hx
    simp [(List.mem_replicate.1 hx).2]
  rw [h1, h2, List.append_nil]

theorem mem_block {α : Type} {k : Nat} {l : List α} {x : α} (h : x ∈ block k l) : x ∈ l :=
  List.mem_of_mem_drop (List.mem_of_mem_take h)

/-- The real names of the tryouts, read tryout by tryout, when tryout `k` holds
block `k` of a roster of non-empty names that fits the tryouts. -/
theorem seated_eq_roster (tryouts : List Match) (roster : List Player)
    (hne : ∀ p ∈ roster, p.Name ≠ "") (hb : roster.length ≤ 4 * tryouts.length)
    (hblk : ∀ (k : Nat) (m : Match), tryouts[k]? = some m →
      m.names = (block k roster).map Player.Name ++
        List.replicate (4 - (block k roster).length) "") :
    (tryouts.map Match.realNames).flatten = roster.map Player.Name := by
  have hreal : tryouts.map Match.realNames =
      (List.range tryouts.length).map (fun k => block k (roster.map Player.Name)) := by
    apply List.ext_getElem?
    intro k
    rw [List.getElem?_map, List.getElem?_map]
    cases hk : tryouts[k]? with
    | none =>
      have : tryouts.length ≤ k := List.getElem?_eq_none_iff.1 hk
      rw [List.getElem?_eq_none (by simpa using this)]
      rfl
    | some m =>
      obtain ⟨hlt, _⟩ := List.getElem?_eq_some.1 hk
      rw [List.getElem?_range hlt]
      simp only [Option.map_some']
      congr 1
      unfold Match.realNames
      rw [hblk k m hk, filter_real_append_replicate, block_map]
      intro x hx
      obtain ⟨p, hp, hpx⟩ := List.mem_map.1 hx
      rw [← hpx]
      exact hne p (mem_block hp)
  rw [hreal, blocks_flatten]
  exact List.take_of_length_le (by simpa using hb)

theorem count_real_flatten (ms : List Match) (n : String) (hn : n ≠ "") :
    ((ms.map Match.names).flatten).count n = ((ms.map Match.realNames).flatten).count n := by
  induction ms with
  | nil => rfl
  | cons m ms ih =>
    simp only [List.map_cons, List.flatten_cons, List.count_append, ih]
    congr 1
    unfold Match.realNames
    rw [List.count_filter]
    simpa using hn

/-- C1: on a tournament whose roster names are non-empty and pairwise distinct and
whose roster fits into the tryouts (at most 4 per tryout), `ShufflePlayers`
returns on every run of draws that is enough, and whenever it returns: the new
roster is a permutation of the old one, the tryouts are as many as before, tryout
`k` holds in its slots the names of the entries 4k..4k+3 of the new roster (fewer
for the last block) followed by placeholders up to 4 slots, every roster name is
the name of exactly one tryout slot, and every real player of a tryout is in the
roster. -/
theorem C1_shufflePlayers (r : Rand) (t : Tournament)
    (hne : ∀ p ∈ t.Players, p.Name ≠ "") (hnd : (t.Players.map Player.Name).Nodup)
    (hb : t.Players.length ≤ 4 * t.Tryouts.length) :
    (Enough (17 * t.Players.length + 64 * t.Tryouts.length) r →
      ∃ r' t', t.ShufflePlayers r = .ok (r', t')) ∧
    ∀ r' t', t.ShufflePlayers r = .ok (r', t') →
      t'.Players.Perm t.Players ∧
      t'.Tryouts.length = t.Tryouts.length ∧
      (∀ (k : Nat) (m : Match), t'.Tryouts[k]? = some m →
        m.names = (block k t'.Players).map Player.Name ++
          List.replicate (4 - (block k t'.Players).length) "") ∧
      (∀ p ∈ t.Players, ((t'.Tryouts.map Match.names).flatten).count p.Name = 1) ∧
      (∀ m ∈ t'.Tryouts, ∀ n ∈ m.realNames, n ∈ t.Players.map Player.Name) := by
  refine ⟨?_, ?_⟩
  · intro he
    obtain ⟨r', t', h, _⟩ := shufflePlayers_total 0 hb (by simpa using he)
    exact ⟨r', t', h⟩
  · intro r' t' h
    obtain ⟨_, hperm, hhdr, hblk⟩ := shufflePlayers_spec h
    have hlen : t'.Tryouts.length = t.Tryouts.length := by
      have := congrArg List.length hhdr
      simpa using this
    have hne' : ∀ p ∈ t'.Players, p.Name ≠ "" := fun p hp => hne p (hperm.mem_iff.1 hp)
    have hseat := seated_eq_roster t'.Tryouts t'.Players hne'
      (by rw [hlen, hperm.length_eq]; exact hb) hblk
    have hpn : (t'.Players.map Player.Name).Perm (t.Players.map Player.Name) := hperm.map _
    refine ⟨hperm, hlen, hblk, ?_, ?_⟩
    · intro p hp
      rw [count_real_flatten _ _ (hne p hp), hseat, hpn.count_eq]
      exact List.count_eq_one_of_mem hnd (List.mem_map_of_mem _ hp)
    · intro m hm n hn
      have : n ∈ (t'.Tryouts.map Match.realNames).flatten :=
        List.mem_flatten.2 ⟨m.realNames, List.mem_map_of_mem _ hm, hn⟩
      rw [hseat] at this
      exact hpn.mem_iff.1 this

/-- C1 at `demoTournament` (16 players, 4 tryouts) on the draws 0..8 repeated 528
times: the shuffle returns, with a permuted roster seated block by block. -/
theorem C1_shufflePlayers_witness :
    ∃ r' t', demoTournament.ShufflePlayers (cycleDraws 528) = .ok (r', t') ∧
      t'.Players.Perm demoTournament.Players ∧
      (∀ p ∈ demoTournament.Players,
        ((t'.Tryouts.map Match.names).flatten).count p.Name = 1) := by
  have h := C1_shufflePlayers (cycleDraws 528) demoTournament (by decide) (by decide)
    (by decide)
  obtain ⟨r', t', hrun⟩ := h.1 (enough_cycleDraws 528)
  obtain ⟨h1, _, _, h4, _⟩ := h.2 r' t' hrun
  exact ⟨r', t', hrun, h1, h4⟩

theorem canJoin_false_iff (t : Tournament) (name : String) :
    t.CanJoin name = false ↔ (name ∈ t.Players.map Player.Name ∨ 32 ≤ t.Players.length) := by
  unfold Tournament.CanJoin
  by_cases h : t.Players.length ≥ 32
  · simp [h]
  · simp only [h, if_false]
    have h' : ¬ 32 ≤ t.Players.length := h
    simp only [h', or_false, Bool.not_eq_false', List.any_eq_true, beq_iff_eq, List.mem_map]

theorem growTryouts_players {r r' : Rand} {t t' : Tournament}
    (h : t.growTryouts r = .ok (r', t')) :
    t' = { t with Tryouts := t'.Tryouts } := by
  unfold Tournament.growTryouts at h
  split at h
  · split at h
    · simp at h
    · simp at h
      rw [← h.2]
  · simp at h
    rw [← h.2]

/-- The stages of `Tournament.AddPlayer`, read off a run that returned. -/
theorem tournament_addPlayer_inv {r r' : Rand} {t t' : Tournament} {name color : String}
    {e : Option String} (h : t.AddPlayer r name color = .ok (r', t', e)) :
    (t.CanJoin name = false ∧ e = some "player already in match" ∧ t' = t ∧ r' = r) ∨
    (t.CanJoin name = true ∧ e = none ∧ ∃ r1 t1,
      Tournament.growTryouts r { t with Players := t.Players ++
        [{ Player.zero with Name := name, PreferredColor := color }] } = .ok (r1, t1) ∧
      t1.ShufflePlayers r1 = .ok (r', t')) := by
  unfold Tournament.AddPlayer at h
  split at h
  · rename_i hc
    simp at h
    left
    exact ⟨by simpa using hc, h.2.2.symm, h.2.1.symm, h.1.symm⟩
  · rename_i hc
    right
    split at h
    · simp at h
    · rename_i r1 t1 h1
      split at h
      · simp at h
      · rename_i r2 t2 h2
        simp at h
        obtain ⟨h3, h4, h5⟩ := h
        subst h3 h4
        exact ⟨by simpa using hc, h5.symm, r1, t1, h1, h2⟩

theorem newTournament_players {r r' : Rand} {name id : String} {now : Nat} {t : Tournament}
    (h : NewTournament r name id now = .ok (r', t)) : t.Players = [] := by
  unfold NewTournament at h
  split at h
  · simp at h
  split at h
  · simp at h
  split at h
  · simp at h
  split at h
  · simp at h
  split at h
  · simp at h
  split at h
  · simp at h
  split at h
  · simp at h
  simp at h
  rw [← h.2]

theorem newMatch_total (r : Rand) (index : Int) (kind : String) (k : Nat)
    (h : Enough (k + 64) r) : ∃ r' m, NewMatch r index kind = .ok (r', m) ∧ Enough k r' := by
  unfold NewMatch
  exact prefill_total _ r k h

theorem newTryoutStep_total (first : Nat) (st : Rand × List Match) (i k : Nat)
    (h : Enough (k + 64) st.1) :
    ∃ st', newTryoutStep first st i = .ok st' ∧ st'.2.length = st.2.length + 1 ∧
      Enough k st'.1 := by
  obtain ⟨r', m, hm, he⟩ := newMatch_total st.1 ((i + first : Nat) : Int) "tryout" k h
  refine ⟨(r', st.2 ++ [m]), ?_, by simp, he⟩
  unfold newTryoutStep
  rw [hm]

theorem newTryouts_total (first : Nat) (idx : List Nat) :
    ∀ (st : Rand × List Match) (k : Nat), Enough (k + 64 * idx.length) st.1 →
      ∃ st', idx.foldlM (newTryoutStep first) st = .ok st' ∧
        st'.2.length = st.2.length + idx.length ∧ Enough k st'.1 := by
  induction idx with
  | nil =>
    intro st k h
    exact ⟨st, rfl, rfl, by simpa using h⟩
  | cons i idx ih =>
    intro st k h
    simp only [List.length_cons] at h
    have h' : Enough ((k + 64 * idx.length) + 64) st.1 := by
      have : k + 64 * (idx.length + 1) = (k + 64 * idx.length) + 64 := by omega
      rw [this] at h; exact h
    obtain ⟨s1, h1, hl1, he1⟩ := newTryoutStep_total first st i _ h'
    obtain ⟨s2, h2, hl2, he2⟩ := ih s1 k he1
    refine ⟨s2, ?_, ?_, he2⟩
    · rw [List.foldlM_cons, h1]; exact h2
    · rw [hl2, hl1, List.length_cons]; omega

theorem growTryouts_total (t : Tournament) (r : Rand) (k : Nat) (h : Enough (k + 256) r) :
    ∃ r' t', t.growTryouts r = .ok (r', t') ∧ t'.Players = t.Players ∧
      t'.Tryouts.length =
        (if t.Tryouts.length = 4 ∧ t.Players.length = 17 then 8 else t.Tryouts.length) ∧
      Enough k r' := by
  unfold Tournament.growTryouts
  by_cases hc : t.Tryouts.length = 4 ∧ t.Players.length = 17
  · rw [if_pos hc, if_pos hc]
    obtain ⟨s', hs, hl, he⟩ := newTryouts_total 4 (List.range 4) (r, t.Tryouts) k
      (by simpa using h)
    rw [hs]
    refine ⟨_, _, rfl, rfl, ?_, he⟩
    simp only [List.length_range] at hl
    simp only
    omega
  · rw [if_neg hc, if_neg hc]
    exact ⟨r, t, rfl, rfl, rfl, enough_le (by omega) h⟩

/-- C7: `Tournament.AddPlayer` returns its error exactly when the name is already
in the roster or the roster has 32 or more players, and then the tournament
(roster, tryouts, runnerup queue) is unchanged; a run that returns without the
error leaves as roster a permutation of the old roster with one new player of
that name and colour appended; it does return without the error when the name
is new, the roster below 32 fits the tryouts (or is the 17th player of a
4-tryout bracket) and the draws are enough.  Hence every tournament reached from
`NewTournament` by calls of `AddPlayer` has at most 32 roster players, with
pairwise distinct names. -/
theorem C7_tournament_addPlayer :
    (∀ (r : Rand) (t : Tournament) (name color : String),
      ((name ∈ t.Players.map Player.Name ∨ 32 ≤ t.Players.length) →
        t.AddPlayer r name color = .ok (r, t, some "player already in match")) ∧
      (∀ r' t' e, t.AddPlayer r name color = .ok (r', t', e) →
        (e ≠ none ↔ (name ∈ t.Players.map Player.Name ∨ 32 ≤ t.Players.length)) ∧
        (e ≠ none → t' = t) ∧
        (e = none → t'.Players.Perm (t.Players ++
          [{ Player.zero with Name := name, PreferredColor := color }]))) ∧
      (¬ (name ∈ t.Players.map Player.Name ∨ 32 ≤ t.Players.length) →
        (t.Players.length + 1 ≤ 4 * t.Tryouts.length ∨
          (t.Tryouts.length = 4 ∧ t.Players.length = 16)) →
        Enough (17 * (t.Players.length + 1) + 64 * (t.Tryouts.length + 8)) r →
          ∃ r' t', t.AddPlayer r name color = .ok (r', t', none))) ∧
    (∀ t, Registered t → t.Players.length ≤ 32 ∧ (t.Players.map Player.Name).Nodup) := by
  have key : ∀ (r : Rand) (t : Tournament) (name color : String) r' t' e,
      t.AddPlayer r name color = .ok (r', t', e) →
      (e ≠ none ↔ (name ∈ t.Players.map Player.Name ∨ 32 ≤ t.Players.length)) ∧
      (e ≠ none → t' = t) ∧
      (e = none → t'.Players.Perm (t.Players ++
        [{ Player.zero with Name := name, PreferredColor := color }])) := by
    intro r t name color r' t' e h
    rcases tournament_addPlayer_inv h with ⟨hc, he, ht, _⟩ | ⟨hc, he, r1, t1, h1, h2⟩
    · refine ⟨?_, fun _ => ht, ?_⟩
      · rw [he]; simp only [ne_eq, reduceCtorEq, not_false_eq_true, true_iff]
        exact (canJoin_false_iff t name).1 hc
      · intro h0; rw [he] at h0; simp at h0
    · refine ⟨?_, ?_, ?_⟩
      · rw [he]
        simp only [ne_eq, not_true_eq_false, false_iff]
        intro hx
        have := (canJoin_false_iff t name).2 hx
        rw [hc] at this
        exact Bool.noConfusion this
      · intro h0; exact absurd he h0
      · intro _
        obtain ⟨_, hperm, _, _⟩ := shufflePlayers_spec h2
        have hg := growTryouts_players h1
        have : t1.Players = t.Players ++
            [{ Player.zero with Name := name, PreferredColor := color }] := by
          rw [hg]
        rw [← this]
        exact hperm
  refine ⟨?_, ?_⟩
  · intro r t name color
    refine ⟨?_, key r t name color, ?_⟩
    · intro hx
      have := (canJoin_false_iff t name).2 hx
      simp [Tournament.AddPlayer, this]
    · intro hx hsize he
      have hcj : t.CanJoin name = true := by
        cases hcj : t.CanJoin name with
        | true => rfl
        | false => exact absurd ((canJoin_false_iff t name).1 hcj) hx
      push_neg at hx
      obtain ⟨r1, t1, hg, hp1, hl1, he1⟩ := growTryouts_total
        { t with Players := t.Players ++
          [{ Player.zero with Name := name, PreferredColor := color }] } r
        (17 * (t.Players.length + 1) + 64 * (t.Tryouts.length + 4))
        (enough_le (by omega) he)
      simp only [List.length_append, List.length_cons, List.length_nil] at hl1
      have hpl : t1.Players.length = t.Players.length + 1 := by rw [hp1]; simp
      have htl : t1.Tryouts.length ≤ t.Tryouts.length + 4 := by
        split at hl1 <;> omega
      have hfit : t1.Players.length ≤ 4 * t1.Tryouts.length := by
        split at hl1 <;> omega
      obtain ⟨r2, t2, hs, _⟩ := shufflePlayers_total 0 hfit
        (enough_le (by rw [hpl]; omega) he1)
      refine ⟨r2, t2, ?_⟩
      unfold Tournament.AddPlayer
      simp only [hcj, Bool.not_true, Bool.false_eq_true, if_false]
      rw [hg]
      simp only
      rw [hs]
  · intro t ht
    induction ht with
    | new r name id now r' t h =>
      rw [newTournament_players h]
      simp
    | add r t name color r' t' e _ h ih =>
      obtain ⟨hiff, herr, hok⟩ := key r t name color r' t' e h
      by_cases he : e = none
      · have hperm := hok he
        have hnot : ¬ (name ∈ t.Players.map Player.Name ∨ 32 ≤ t.Players.length) := by
          intro hx
          exact (hiff.2 hx) he
        push_neg at hnot
        refine ⟨?_, ?_⟩
        · rw [hperm.length_eq]; simp; omega
        · rw [(hperm.map Player.Name).nodup_iff]
          simp only [List.map_append, List.map_cons, List.map_nil]
          rw [List.nodup_append]
          refine ⟨ih.2, by simp, ?_⟩
          intro a ha hb
          simp only [List.mem_singleton] at hb
          subst hb
          exact hnot.1 ha
      · rw [herr he]; exact ih

/-- C7 at `demoTournament`: a 17th player "q" is registered on the draws 0..8
repeated 1057 times. -/
theorem C7_tournament_addPlayer_witness :
    ∃ r' t', demoTournament.AddPlayer (cycleDraws 1057) "q" "red" = .ok (r', t', none) ∧
      t'.Players.Perm (demoTournament.Players ++
        [{ Player.zero with Name := "q", PreferredColor := "red" }]) := by
  have h := C7_tournament_addPlayer.1 (cycleDraws 1057) demoTournament "q" "red"
  obtain ⟨r', t', hrun⟩ := h.2.2 (by decide) (by decide) (enough_cycleDraws 1057)
  exact ⟨r', t', hrun, (h.2.1 r' t' none hrun).2.2 rfl⟩

theorem addPlayer_four {r r' : Rand} {m m' : Match} {p : Player} {e : Option String}
    (h : m.AddPlayer r p = .ok (r', m', e)) (hlen : m.Players.length = 4) :
    m'.Players.length = 4 := by
  by_cases hact : m.ActualPlayers = 4
  · rcases addPlayer_spec h with ⟨_, _, h1, _⟩ | ⟨h2, _⟩
    · rw [h1]; exact hlen
    · exact absurd hact h2
  · obtain ⟨_, a, b, hn, _, hn', _⟩ := addPlayer_names_four h hlen hact
    have h1 : m.names.length = 4 := by rw [names_length]; exact hlen
    rw [← names_length, hn']
    rw [hn] at h1
    simpa using h1

theorem mem_set_cases {α : Type} {l : List α} {i : Nat} {a x : α} (h : x ∈ l.set i a) :
    x ∈ l ∨ x = a := by
  rcases List.mem_or_eq_of_mem_set h with h1 | h1
  · exact Or.inl h1
  · exact Or.inr h1

theorem setMatch_fourSlots {t : Tournament} (ref : MatchRef) {m' : Match}
    (ht : t.fourSlots) (hm : m'.Players.length = 4) : (t.setMatch ref m').fourSlots := by
  obtain ⟨h1, h2, h3⟩ := ht
  cases ref with
  | tryout i =>
    refine ⟨?_, h2, h3⟩
    intro x hx
    rcases mem_set_cases hx with hx | hx
    · exact h1 x hx
    · rw [hx]; exact hm
  | semi i =>
    refine ⟨h1, ?_, h3⟩
    intro x hx
    rcases mem_set_cases hx with hx | hx
    · exact h2 x hx
    · rw [hx]; exact hm
  | final => exact ⟨h1, h2, hm⟩

theorem getMatch_four {t : Tournament} {ref : MatchRef} {m : Match} (ht : t.fourSlots)
    (h : t.getMatch ref = some m) : m.Players.length = 4 := by
  cases ref with
  | tryout i => exact ht.1 m (List.getElem?_mem h)
  | semi i => exact ht.2.1 m (List.getElem?_mem h)
  | final =>
    simp only [Tournament.getMatch, Option.some.injEq] at h
    rw [← h]; exact ht.2.2

theorem sameButRoster_fourSlots {t t' : Tournament} (h : t.sameButRoster t')
    (ht : t.fourSlots) : t'.fourSlots := by
  unfold Tournament.sameButRoster at h
  rw [h]; exact ht

theorem advanceStep_four (mIndex : Int) (st st' : Rand × Tournament) (ip : Nat × Player)
    (ht : st.2.fourSlots) (h : advanceStep mIndex st ip = .ok st') : st'.2.fourSlots := by
  unfold advanceStep at h
  simp only at h
  split at h
  · split at h
    · simp at h
    · split at h
      · simp at h
      · rename_i semi hsemi
        split at h
        · simp at h
        · rename_i r1 semi1 e1 hadd
          simp at h
          subst h
          have h4 := addPlayer_four hadd (ht.2.1 semi (List.getElem?_mem hsemi))
          refine ⟨ht.1, ?_, ht.2.2⟩
          intro x hx
          simp only at hx
          rcases mem_set_cases hx with hx | hx
          · exact ht.2.1 x hx
          · rw [hx]; exact h4
  · split at h
    · simp at h; subst h; exact ht
    · simp at h; subst h; exact ht

theorem finalStep_four (st st' : Rand × Tournament) (ip : Nat × Player)
    (ht : st.2.fourSlots) (h : finalStep st ip = .ok st') : st'.2.fourSlots := by
  unfold finalStep at h
  split at h
  · split at h
    · simp at h
    · rename_i r1 fin e1 hadd
      simp at h
      subst h
      exact ⟨ht.1, ht.2.1, addPlayer_four hadd ht.2.2⟩
  · simp at h; subst h; exact ht

theorem movePlayers_four {r r' : Rand} {t t' : Tournament} {ref : MatchRef}
    (ht : t.fourSlots) (h : t.MovePlayers r ref = .ok (r', t')) : t'.fourSlots := by
  obtain ⟨m, r1, t1, t2, ps, t3, hm, h1, h2, h3, h4⟩ := movePlayers_inv h
  have hm4 := getMatch_four ht hm
  have hs4 : ({ m with Players := SortByKills m.Players } : Match).Players.length = 4 := by
    simp [sortByKills_length, hm4]
  have e1 : t1.fourSlots := by
    unfold Tournament.moveTryout at h1
    split at h1
    · exact foldlM_inv (fun s => s.2.fourSlots) _
        (fun s b s' hs h => advanceStep_four _ s s' b hs h) _ _ _
        (setMatch_fourSlots ref ht hs4) h1
    · simp at h1; rw [← h1.2]; exact ht
  have e2 : t2.fourSlots := by
    unfold Tournament.moveSemi at h2
    split at h2
    · exact foldlM_inv (fun s => s.2.fourSlots) _
        (fun s b s' hs h => finalStep_four s s' b hs h) _ _ _
        (setMatch_fourSlots ref e1 hs4) h2
    · simp at h2; rw [← h2.2]; exact e1
  have e3 : t3.fourSlots := sameButRoster_fourSlots (getRunnerups_frame h3) e2
  rw [h4]
  exact e3

theorem awardMedals_four {t t' : Tournament} {ref : MatchRef} {now : Nat}
    {e : Option String} (ht : t.fourSlots) (h : t.AwardMedals ref now = .ok (t', e)) :
    t'.fourSlots := by
  unfold Tournament.AwardMedals at h
  split at h
  · simp at h
  · rename_i m hm
    split at h
    · simp at h; rw [← h.1]; exact ht
    · dsimp only at h
      split at h
      · simp at h
      · simp at h
        rw [← h.1]
        exact setMatch_fourSlots ref ht (by simp [sortByKills_length, getMatch_four ht hm])

theorem addShotFirst_length (w : String) (l : List Player) :
    (addShotFirst w l).length = l.length := by
  induction l with
  | nil => rfl
  | cons p ps ih =>
    unfold addShotFirst
    split
    · simp
    · simp [ih]

theorem end_four {r r' : Rand} {t t' : Tournament} {ref : MatchRef} {now now2 : Nat}
    {e : Option String} (ht : t.fourSlots) (h : t.End r ref now now2 = .ok (r', t', e)) :
    t'.fourSlots := by
  unfold Tournament.End at h
  split at h
  · simp at h
  · rename_i m hm
    split at h
    · simp at h; rw [← h.2.1]; exact ht
    · split at h
      · simp at h
      · rename_i w ws hw
        have h4 : ∀ m1 : Match, m1.Players.length = 4 → (t.setMatch ref m1).fourSlots :=
          fun m1 h => setMatch_fourSlots ref ht h
        have hl4 : (addShotFirst w.Name m.Players).length = 4 := by
          rw [addShotFirst_length]; exact getMatch_four ht hm
        dsimp only at h
        split at h
        · split at h
          · simp at h
          · rename_i t1 e1 h1
            simp at h
            rw [← h.2.1]
            exact awardMedals_four (h4 _ hl4) h1
        · split at h
          · simp at h
          · rename_i r1 t1 h1
            simp at h
            rw [← h.2.1]
            exact movePlayers_four (h4 _ hl4) h1

theorem populateLoop_four :
    ∀ (ps : List Player) (r r' : Rand) (m m' : Match), m.Players.length = 4 →
      populateLoop r m ps = .ok (r', m') → m'.Players.length = 4 := by
  intro ps
  induction ps with
  | nil =>
    intro r r' m m' hm h
    unfold populateLoop at h
    split at h
    · simp at h
    · simp at h; rw [← h.2]; exact hm
  | cons p ps ih =>
    intro r r' m m' hm h
    unfold populateLoop at h
    split at h
    · split at h
      · simp at h
      · rename_i r1 m1 e1 hadd
        exact ih r1 r' m1 m' (addPlayer_four hadd hm) h
    · simp at h; rw [← h.2]; exact hm

theorem populateRunnerups_four {r r' : Rand} {t t' : Tournament} {ref : MatchRef}
    (ht : t.fourSlots) (h : t.PopulateRunnerups r ref = .ok (r', t')) : t'.fourSlots := by
  unfold Tournament.PopulateRunnerups at h
  split at h
  · simp at h
  · rename_i ps t1 h1
    have ht1 : t1.fourSlots := sameButRoster_fourSlots (getRunnerups_frame h1) ht
    split at h
    · simp at h
    · rename_i m hm
      split at h
      · simp at h
      · rename_i r2 m2 h2
        simp at h
        rw [← h.2]
        exact setMatch_fourSlots ref ht1 (populateLoop_four ps _ _ _ _ (getMatch_four ht1 hm) h2)

theorem start_four {r r' : Rand} {t t' : Tournament} {ref : MatchRef} {now : Nat}
    {e : Option String} (ht : t.fourSlots) (h : t.Start r ref now = .ok (r', t', e)) :
    t'.fourSlots := by
  unfold Tournament.Start at h
  split at h
  · simp at h
  · rename_i m hm
    split at h
    · simp at h; rw [← h.2.1]; exact ht
    · split at h
      · simp at h
      · rename_i r1 t1 h1
        have ht1 : t1.fourSlots := by
          split at h1
          · exact populateRunnerups_four ht h1
          · simp at h1; rw [← h1.2]; exact ht
        split at h
        · simp at h
        · rename_i m1 hm1
          split at h
          · simp at h
          · rename_i r2 m2 h2
            simp at h
            rw [← h.2.1]
            apply setMatch_fourSlots ref ht1
            simp only [List.length_map]
            rw [sameFrame_length (correctColorConflicts_frame h2)]
            exact getMatch_four ht1 hm1

theorem modPlayer_length {m m' : Match} {i : Nat} {f : Player → Player}
    (h : m.modPlayer i f = .ok m') : m'.Players.length = m.Players.length := by
  unfold Match.modPlayer at h
  split at h
  · simp at h
  · simp at h; rw [← h]; simp

theorem commitScore_length {m m' : Match} {i : Nat} {score : List Int}
    (h : m.commitScore i score = .ok m') : m'.Players.length = m.Players.length := by
  unfold Match.commitScore at h
  split at h
  · rename_i ups downs rest
    split at h
    · simp at h
    · rename_i m1 h1
      have e1 : m1.Players.length = m.Players.length := by
        split at h1
        · split at h1
          · simp at h1
          · rename_i m0 h0
            split at h1
            · rw [modPlayer_length h1, modPlayer_length h0]
            · simp at h1; rw [← h1, modPlayer_length h0]
        · split at h1
          · exact modPlayer_length h1
          · simp at h1; rw [h1]
      split at h
      · rw [modPlayer_length h, e1]
      · simp at h; rw [← h, e1]
  · simp at h

theorem commitShot_length {m m' : Match} {i : Nat} {shot : Bool}
    (h : m.commitShot i shot = .ok m') : m'.Players.length = m.Players.length := by
  unfold Match.commitShot at h
  split at h
  · exact modPlayer_length h
  · simp at h; rw [h]

theorem match_commit_length {m m' : Match} {scores : List (List Int)} {shots : List Bool}
    (h : m.Commit scores shots = .ok m') : m'.Players.length = m.Players.length := by
  unfold Match.Commit at h
  split at h
  · simp at h
  · rename_i m1 h1
    have e1 : m1.Players.length = m.Players.length :=
      foldlM_inv (fun s => s.Players.length = m.Players.length) _
        (fun s b s' hs h => (commitScore_length h).trans hs) _ _ _ rfl h1
    exact foldlM_inv (fun s => s.Players.length = m.Players.length) _
      (fun s b s' hs h => (commitShot_length h).trans hs) _ _ _ e1 h

theorem commit_four {t t' : Tournament} {ref : MatchRef} {scores : List (List Int)}
    {shots : List Bool} (ht : t.fourSlots) (h : t.Commit ref scores shots = .ok t') :
    t'.fourSlots := by
  unfold Tournament.Commit at h
  split at h
  · simp at h
  · rename_i m hm
    split at h
    · simp at h
    · rename_i m1 h1
      simp at h
      rw [← h]
      exact setMatch_fourSlots ref ht (by rw [match_commit_length h1]; exact getMatch_four ht hm)

theorem newMatch_four {r r' : Rand} {index : Int} {kind : String} {m : Match}
    (h : NewMatch r index kind = .ok (r', m)) : m.Players.length = 4 := by
  unfold NewMatch at h
  obtain ⟨hn, _⟩ := prefill_spec h
  rw [← names_length, hn]
  simp [Match.names]

theorem prefill_four {r r' : Rand} {m m' : Match} (hm : m.Players.length = 4)
    (h : m.Prefill r = .ok (r', m')) : m'.Players.length = 4 := by
  obtain ⟨hn, _⟩ := prefill_spec h
  rw [← names_length, hn, hm]
  simp [names_length, hm]

theorem newTryouts_four (first : Nat) (idx : List Nat) (st st' : Rand × List Match)
    (hs : ∀ m ∈ st.2, m.Players.length = 4)
    (h : idx.foldlM (newTryoutStep first) st = .ok st') :
    ∀ m ∈ st'.2, m.Players.length = 4 := by
  refine foldlM_inv (fun s => ∀ m ∈ s.2, m.Players.length = 4) _ ?_ idx st st' hs h
  intro s b s' hs hstep
  unfold newTryoutStep at hstep
  split at hstep
  · simp at hstep
  · rename_i r1 m1 h1
    simp at hstep
    rw [← hstep]
    intro m hm
    rcases List.mem_append.1 hm with h2 | h2
    · exact hs m h2
    · simp only [List.mem_singleton] at h2
      rw [h2]; exact newMatch_four h1

theorem newTournament_four {r r' : Rand} {name id : String} {now : Nat} {t : Tournament}
    (h : NewTournament r name id now = .ok (r', t)) : t.fourSlots := by
  unfold NewTournament at h
  split at h
  · simp at h
  rename_i r1 tryouts h1
  split at h
  · simp at h
  rename_i r2 s0 h2
  split at h
  · simp at h
  rename_i r3 s1 h3
  split at h
  · simp at h
  rename_i r4 s0' h4
  split at h
  · simp at h
  rename_i r5 s1' h5
  split at h
  · simp at h
  rename_i r6 fin h6
  split at h
  · simp at h
  rename_i r7 fin' h7
  simp at h
  rw [← h.2]
  refine ⟨newTryouts_four 0 _ _ _ (by simp) h1, ?_, prefill_four (newMatch_four h6) h7⟩
  intro m hm
  simp only [List.mem_cons, List.mem_singleton, List.not_mem_nil, or_false] at hm
  rcases hm with hm | hm
  · rw [hm]; exact prefill_four (newMatch_four h2) h4
  · rw [hm]; exact prefill_four (newMatch_four h3) h5

theorem tournament_addPlayer_four {r r' : Rand} {t t' : Tournament} {name color : String}
    {e : Option String} (ht : t.fourSlots) (h : t.AddPlayer r name color = .ok (r', t', e)) :
    t'.fourSlots := by
  rcases tournament_addPlayer_inv h with ⟨_, _, h1, _⟩ | ⟨_, _, r1, t1, h1, h2⟩
  · rw [h1]; exact ht
  · obtain ⟨hfr, _, _, hblk⟩ := shufflePlayers_spec h2
    have hg := growTryouts_players h1
    have hs : t'.Semis = t.Semis := by rw [hfr, hg]
    have hf : t'.Final = t.Final := by rw [hfr, hg]
    refine ⟨?_, by rw [hs]; exact ht.2.1, by rw [hf]; exact ht.2.2⟩
    intro m hm
    obtain ⟨k, hk⟩ := List.getElem?_of_mem hm
    rw [← names_length, hblk k m hk]
    have := block_length k t'.Players
    simp only [List.length_append, List.length_map, List.length_replicate]
    omega

/-- C8: every match of a tournament (each tryout, each semi, the final) has
exactly 4 player slots after `NewTournament` and after every call of
`Tournament.AddPlayer`, `Match.AddPlayer`, `Match.Start`, `Match.Commit` and
`Match.End` that returns. -/
theorem C8_four_slots (t : Tournament) (h : Reachable t) : t.fourSlots := by
  induction h with
  | new r name id now r' t h => exact newTournament_four h
  | register r t name color r' t' e _ h ih => exact tournament_addPlayer_four ih h
  | seat r t ref m p r' m' e _ hm h ih =>
    exact setMatch_fourSlots ref ih (addPlayer_four h (getMatch_four ih hm))
  | start r t ref now r' t' e _ h ih => exact start_four ih h
  | commit t ref scores shots t' _ h ih => exact commit_four ih h
  | finish r t ref now now2 r' t' e _ h ih => exact end_four ih h

/-- C8 at a concrete run: a new tournament, then a player registered. -/
theorem C8_four_slots_witness :
    ∃ r1 t1 r2 t2 e, NewTournament (cycleDraws 20) "demo" "demo" 1 = .ok (r1, t1) ∧
      t1.AddPlayer r1 "ann" "green" = .ok (r2, t2, e) ∧ t1.fourSlots ∧ t2.fourSlots := by
  obtain ⟨o1, h1⟩ : ∃ o, NewTournament (cycleDraws 20) "demo" "demo" 1 = .ok o := ⟨_, rfl⟩
  obtain ⟨r1, t1⟩ := o1
  obtain ⟨o2, h2⟩ : ∃ o, (NewTournament (cycleDraws 20) "demo" "demo" 1 >>=
      fun s => s.2.AddPlayer s.1 "ann" "green") = .ok o := ⟨_, rfl⟩
  rw [h1] at h2
  obtain ⟨r2, t2, e⟩ := o2
  have hr1 : Reachable t1 := Reachable.new _ _ _ _ _ _ h1
  exact ⟨r1, t1, r2, t2, e, h1, h2, C8_four_slots t1 hr1,
    C8_four_slots t2 (Reachable.register _ _ _ _ _ _ _ hr1 h2)⟩

theorem tmod_two_cases (x : Int) (hx : 0 ≤ x) :
    (x % 2 = 0 ∧ Int.tmod ((0 : Nat) + x) 2 = 0 ∧ Int.tmod ((1 : Nat) + x) 2 = 1) ∨
    (x % 2 = 1 ∧ Int.tmod ((0 : Nat) + x) 2 = 1 ∧ Int.tmod ((1 : Nat) + x) 2 = 0) := by
  have h0 : Int.tmod ((0 : Nat) + x) 2 = ((0 : Nat) + x) % 2 :=
    Int.tmod_eq_emod (by omega) (by omega)
  have h1 : Int.tmod ((1 : Nat) + x) 2 = ((1 : Nat) + x) % 2 :=
    Int.tmod_eq_emod (by omega) (by omega)
  rw [h0, h1]
  omega

theorem advanceStep_stay (mIndex : Int) (r : Rand) (t : Tournament) (i : Nat) (p : Player)
    (hc : ¬ ((t.Tryouts.length = 4 ∧ i < 2) ∨ i = 0)) :
    advanceStep mIndex (r, t) (i, p) =
      .ok (r, { t with Runnerups := addAbsent t.Runnerups p.Name }) := by
  unfold advanceStep addAbsent
  simp only [hc, if_false]
  split
  · rfl
  · rfl

theorem advanceStep_go (mIndex : Int) (r : Rand) (t : Tournament) (i : Nat) (p : Player)
    (hc : (t.Tryouts.length = 4 ∧ i < 2) ∨ i = 0) (idx : Nat)
    (hidx : Int.tmod ((i : Int) + mIndex) 2 = (idx : Int)) (semi : Match)
    (hsemi : t.Semis[idx]? = some semi) (st' : Rand × Tournament)
    (h : advanceStep mIndex (r, t) (i, p) = .ok st') :
    ∃ r' semi' e, semi.AddPlayer r p = .ok (r', semi', e) ∧
      st' = (r', { t with Semis := t.Semis.set idx semi',
                          Runnerups := t.Runnerups.erase p.Name }) := by
  unfold advanceStep at h
  simp only [hc, if_true, hidx] at h
  have h0 : ¬ ((idx : Int) < 0) := by omega
  simp only [h0, if_false, Int.toNat_ofNat, hsemi] at h
  split at h
  · simp at h
  · rename_i r1 semi1 e1 hadd
    simp at h
    exact ⟨r1, semi1, e1, hadd, h.symm⟩

theorem advanceStep_go_total (mIndex : Int) (r : Rand) (t : Tournament) (i : Nat) (p : Player)
    (hc : (t.Tryouts.length = 4 ∧ i < 2) ∨ i = 0) (idx : Nat)
    (hidx : Int.tmod ((i : Int) + mIndex) 2 = (idx : Int)) (semi : Match)
    (hsemi : t.Semis[idx]? = some semi) (r' : Rand) (semi' : Match) (e : Option String)
    (hadd : semi.AddPlayer r p = .ok (r', semi', e)) :
    advanceStep mIndex (r, t) (i, p) =
      .ok (r', { t with Semis := t.Semis.set idx semi',
                        Runnerups := t.Runnerups.erase p.Name }) := by
  unfold advanceStep
  simp only [hc, if_true, hidx]
  have h0 : ¬ ((idx : Int) < 0) := by omega
  simp only [h0, if_false, Int.toNat_ofNat, hsemi, hadd]

/-- The tryout block of `MovePlayers` on a tryout of four slots, in a bracket of
two semis: the run of the loop over the four finishers. -/
theorem moveTryout_run {r r1 : Rand} {t t1 : Tournament} {j : Nat} {m : Match}
    {p0 p1 p2 p3 : Player} {s0 s1 : Match}
    (hk : m.Kind = "tryout") (hps : SortByKills m.Players = [p0, p1, p2, p3])
    (hx : 0 ≤ m.Index) (hs : t.Semis = [s0, s1])
    (h : t.moveTryout r (.tryout j) m = .ok (r1, t1)) :
    ∃ ra sa ea, (if m.Index % 2 = 0 then s0 else s1).AddPlayer r p0 = .ok (ra, sa, ea) ∧
      ((t.Tryouts.length = 4 ∧ ∃ sb eb,
          (if m.Index % 2 = 0 then s1 else s0).AddPlayer ra p1 = .ok (r1, sb, eb) ∧
          t1 = { t with
            Tryouts := t.Tryouts.set j { m with Players := [p0, p1, p2, p3] }
            Semis := if m.Index % 2 = 0 then [sa, sb] else [sb, sa]
            Runnerups := addAbsent (addAbsent
              ((t.Runnerups.erase p0.Name).erase p1.Name) p2.Name) p3.Name }) ∨
       (t.Tryouts.length ≠ 4 ∧ r1 = ra ∧
          t1 = { t with
            Tryouts := t.Tryouts.set j { m with Players := [p0, p1, p2, p3] }
            Semis := if m.Index % 2 = 0 then [sa, s1] else [s0, sa]
            Runnerups := addAbsent (addAbsent (addAbsent
              (t.Runnerups.erase p0.Name) p1.Name) p2.Name) p3.Name })) := by
  unfold Tournament.moveTryout at h
  rw [if_pos hk, hps] at h
  simp only [List.enum, List.enumFrom, List.foldlM_cons, List.foldlM_nil] at h
  obtain ⟨st1, h1, hA⟩ := (bind_ok _ _ _).1 h
  obtain ⟨st2, h2, hB⟩ := (bind_ok _ _ _).1 hA
  obtain ⟨st3, h3, hC⟩ := (bind_ok _ _ _).1 hB
  obtain ⟨st4, h4, hD⟩ := (bind_ok _ _ _).1 hC
  simp only [pure, Except.pure, Except.ok.injEq] at hD
  clear h hA hB hC
  have hT : (t.setMatch (.tryout j) { m with Players := [p0, p1, p2, p3] }).Tryouts.length =
      t.Tryouts.length := by simp [Tournament.setMatch]
  rcases tmod_two_cases m.Index hx with ⟨hev, hi0, hi1⟩ | ⟨hod, hi0, hi1⟩
  · -- even index: rank 0 goes to semi 0
    obtain ⟨ra, sa, ea, hadd0, e1⟩ := advanceStep_go m.Index r _ 0 p0 (Or.inr rfl) 0
      (by simpa using hi0) s0 (by simp [Tournament.setMatch, hs]) st1 h1
    subst e1
    refine ⟨ra, sa, ea, by simpa [hev] using hadd0, ?_⟩
    by_cases hT4 : t.Tryouts.length = 4
    · left
      refine ⟨hT4, ?_⟩
      obtain ⟨rb, sb, eb, hadd1, e2⟩ := advanceStep_go m.Index ra _ 1 p1
        (Or.inl ⟨by simpa [Tournament.setMatch] using hT4, by omega⟩) 1
        (by simpa using hi1) s1 (by simp [Tournament.setMatch, hs]) st2 h2
      subst e2
      rw [advanceStep_stay _ _ _ _ _ (by simp)] at h3
      simp only [Except.ok.injEq] at h3
      subst h3
      rw [advanceStep_stay _ _ _ _ _ (by simp)] at h4
      simp only [Except.ok.injEq] at h4
      rw [← h4, Prod.mk.injEq] at hD
      obtain ⟨hr, ht⟩ := hD
      subst hr
      rw [← ht]
      refine ⟨sb, eb, by simpa [hev] using hadd1, ?_⟩
      simp [Tournament.setMatch, hs, hev]
    · right
      refine ⟨hT4, ?_⟩
      rw [advanceStep_stay _ _ _ _ _ (by simp [Tournament.setMatch, hT4])] at h2
      simp only [Except.ok.injEq] at h2
      subst h2
      rw [advanceStep_stay _ _ _ _ _ (by simp)] at h3
      simp only [Except.ok.injEq] at h3
      subst h3
      rw [advanceStep_stay _ _ _ _ _ (by simp)] at h4
      simp only [Except.ok.injEq] at h4
      rw [← h4, Prod.mk.injEq] at hD
      obtain ⟨hr, ht⟩ := hD
      rw [← ht]
      refine ⟨hr.symm, ?_⟩
      simp [Tournament.setMatch, hs, hev]
  · -- odd index: rank 0 goes to semi 1
    have hne : ¬ m.Index % 2 = 0 := by omega
    obtain ⟨ra, sa, ea, hadd0, e1⟩ := advanceStep_go m.Index r _ 0 p0 (Or.inr rfl) 1
      (by simpa using hi0) s1 (by simp [Tournament.setMatch, hs]) st1 h1
    subst e1
    refine ⟨ra, sa, ea, by simpa [hne] using hadd0, ?_⟩
    by_cases hT4 : t.Tryouts.length = 4
    · left
      refine ⟨hT4, ?_⟩
      obtain ⟨rb, sb, eb, hadd1, e2⟩ := advanceStep_go m.Index ra _ 1 p1
        (Or.inl ⟨by simpa [Tournament.setMatch] using hT4, by omega⟩) 0
        (by simpa using hi1) s0 (by simp [Tournament.setMatch, hs]) st2 h2
      subst e2
      rw [advanceStep_stay _ _ _ _ _ (by simp)] at h3
      simp only [Except.ok.injEq] at h3
      subst h3
      rw [advanceStep_stay _ _ _ _ _ (by simp)] at h4
      simp only [Except.ok.injEq] at h4
      rw [← h4, Prod.mk.injEq] at hD
      obtain ⟨hr, ht⟩ := hD
      subst hr
      rw [← ht]
      refine ⟨sb, eb, by simpa [hne] using hadd1, ?_⟩
      simp [Tournament.setMatch, hs, hne]
    · right
      refine ⟨hT4, ?_⟩
      rw [advanceStep_stay _ _ _ _ _ (by simp [Tournament.setMatch, hT4])] at h2
      simp only [Except.ok.injEq] at h2
      subst h2
      rw [advanceStep_stay _ _ _ _ _ (by simp)] at h3
      simp only [Except.ok.injEq] at h3
      subst h3
      rw [advanceStep_stay _ _ _ _ _ (by simp)] at h4
      simp only [Except.ok.injEq] at h4
      rw [← h4, Prod.mk.injEq] at hD
      obtain ⟨hr, ht⟩ := hD
      rw [← ht]
      refine ⟨hr.symm, ?_⟩
      simp [Tournament.setMatch, hs, hne]

theorem updateFirst_names (name : String) (f : Player → Player)
    (hf : ∀ q, (f q).Name = q.Name) :
    ∀ (ro ro' : List Player), updateFirst name f ro = some ro' →
      ro'.map Player.Name = ro.map Player.Name := by
  intro ro
  induction ro with
  | nil => intro ro' h; simp [updateFirst] at h
  | cons q qs ih =>
    intro ro' h
    unfold updateFirst at h
    split at h
    · simp at h; rw [← h]; simp [hf]
    · cases h1 : updateFirst name f qs with
      | none => rw [h1] at h; simp at h
      | some qs' =>
        rw [h1] at h
        simp at h
        rw [← h]
        simp [ih qs' h1]

theorem updateFirst_some (name : String) (f : Player → Player) :
    ∀ (ro : List Player), name ∈ ro.map Player.Name → ∃ ro', updateFirst name f ro = some ro' := by
  intro ro
  induction ro with
  | nil => intro h; simp at h
  | cons q qs ih =>
    intro h
    unfold updateFirst
    by_cases hq : q.Name = name
    · exact ⟨f q :: qs, by simp [hq]⟩
    · have : name ∈ qs.map Player.Name := by
        simp only [List.map_cons, List.mem_cons] at h
        rcases h with h | h
        · exact absurd h.symm hq
        · exact h
      obtain ⟨qs', hqs⟩ := ih this
      exact ⟨q :: qs', by simp [hq, hqs]⟩

theorem update_name (q p : Player) : (q.Update p).Name = q.Name := rfl

theorem seatedStep_names {ro ro' : List Player} {p : Player}
    (h : seatedStep ro p = .ok ro') : ro'.map Player.Name = ro.map Player.Name := by
  unfold seatedStep at h
  split at h
  · simp at h; rw [h]
  · split at h
    · simp at h
    · rename_i ro1 h1
      simp at h
      rw [← h]
      exact updateFirst_names _ _ (fun q => update_name q p) _ _ h1

theorem foldSeated_names {ro ro' : List Player} {seated : List Player}
    (h : foldSeated ro seated = .ok ro') : ro'.map Player.Name = ro.map Player.Name :=
  foldlM_inv (fun s => s.map Player.Name = ro.map Player.Name) seatedStep
    (fun _ _ _ hs h => (seatedStep_names h).trans hs) seated ro ro' rfl h

theorem foldSeated_total (N : List String) (seated : List Player) :
    ∀ (ro : List Player), ro.map Player.Name = N →
      (∀ p ∈ seated, p.Name ≠ "" → p.Name ∈ N) →
      ∃ ro', foldSeated ro seated = .ok ro' ∧ ro'.map Player.Name = N := by
  induction seated with
  | nil => intro ro hro _; exact ⟨ro, rfl, hro⟩
  | cons p ps ih =>
    intro ro hro hin
    have hstep : ∃ ro1, seatedStep ro p = .ok ro1 := by
      unfold seatedStep
      by_cases hp : p.IsPrefill = true
      · simp [hp]
      · simp only [hp]
        have hn : p.Name ≠ "" := fun h0 => hp ((isPrefill_iff p).2 h0)
        obtain ⟨ro1, h1⟩ := updateFirst_some p.Name (fun q => q.Update p) ro
          (by rw [hro]; exact hin p (List.mem_cons_self _ _) hn)
        exact ⟨ro1, by simp [h1]⟩
    obtain ⟨ro1, h1⟩ := hstep
    obtain ⟨ro', h2, h3⟩ := ih ro1 ((seatedStep_names h1).trans hro)
      (fun q hq => hin q (List.mem_cons_of_mem _ hq))
    refine ⟨ro', ?_, h3⟩
    unfold foldSeated
    rw [List.foldlM_cons, h1]
    exact h2

theorem updatePlayers_names {t t' : Tournament} (h : t.UpdatePlayers = .ok t') :
    t'.Players.map Player.Name = t.Players.map Player.Name := by
  unfold Tournament.UpdatePlayers at h
  split at h
  · simp at h
  · rename_i ro1 h1
    split at h
    · simp at h
    · rename_i ro2 h2
      split at h
      · simp at h
      · rename_i ro3 h3
        simp at h
        rw [← h]
        have e1 : ro1.map Player.Name = t.Players.map Player.Name := by
          have := foldlM_inv (fun s => s.map Player.Name = t.Players.map Player.Name)
            (fun ro (m : Match) => foldSeated ro m.Players)
            (fun s b s' hs h => (foldSeated_names h).trans hs) _ _ _
            (by simp [List.map_map, Function.comp, Player.Reset]) h1
          exact this
        have e2 : ro2.map Player.Name = t.Players.map Player.Name :=
          foldlM_inv (fun s => s.map Player.Name = t.Players.map Player.Name)
            (fun ro (m : Match) => foldSeated ro m.Players)
            (fun s b s' hs h => (foldSeated_names h).trans hs) _ _ _ e1 h2
        exact (foldSeated_names h3).trans e2

theorem mem_realNames {m : Match} {p : Player} (hp : p ∈ m.Players) (hn : p.Name ≠ "") :
    p.Name ∈ m.realNames := by
  unfold Match.realNames Match.names
  exact List.mem_filter.2 ⟨List.mem_map_of_mem _ hp, by simpa using hn⟩

theorem foldMatches_total (N : List String) (ms : List Match) :
    ∀ (ro : List Player), ro.map Player.Name = N →
      (∀ m ∈ ms, ∀ n ∈ m.realNames, n ∈ N) →
      ∃ ro', ms.foldlM (fun ro (m : Match) => foldSeated ro m.Players) ro = .ok ro' ∧
        ro'.map Player.Name = N := by
  induction ms with
  | nil => intro ro hro _; exact ⟨ro, rfl, hro⟩
  | cons m ms ih =>
    intro ro hro hin
    obtain ⟨ro1, h1, e1⟩ := foldSeated_total N m.Players ro hro
      (fun p hp hn => hin m (List.mem_cons_self _ _) _ (mem_realNames hp hn))
    obtain ⟨ro', h2, e2⟩ := ih ro1 e1 (fun m' hm' => hin m' (List.mem_cons_of_mem _ hm'))
    refine ⟨ro', ?_, e2⟩
    rw [List.foldlM_cons, h1]
    exact h2

theorem updatePlayers_total {t : Tournament} (hs : t.seatedInRoster) :
    ∃ t', t.UpdatePlayers = .ok t' := by
  unfold Tournament.seatedInRoster at hs
  obtain ⟨ro1, h1, e1⟩ := foldMatches_total (t.Players.map Player.Name) t.Tryouts
    (t.Players.map Player.Reset) (by simp [List.map_map, Function.comp, Player.Reset])
    (fun m hm => hs m (by simp [hm]))
  obtain ⟨ro2, h2, e2⟩ := foldMatches_total (t.Players.map Player.Name) t.Semis ro1 e1
    (fun m hm => hs m (by simp [hm]))
  obtain ⟨ro3, h3, _⟩ := foldSeated_total (t.Players.map Player.Name) t.Final.Players ro2 e2
    (fun p hp hn => hs t.Final (by simp) _ (mem_realNames hp hn))
  unfold Tournament.UpdatePlayers
  rw [h1]
  simp only
  rw [h2]
  simp only
  rw [h3]
  exact ⟨_, rfl⟩

theorem lookup_loop_spec (t : Tournament) (names : List String) :
    ∀ (acc ps : List Player), names.foldlM (lookupStep t) acc = .ok ps →
      ps.map Player.Name = acc.map Player.Name ++ names := by
  induction names with
  | nil =>
    intro acc ps h
    simp [pure, Except.pure] at h
    rw [h]; simp
  | cons n ns ih =>
    intro acc ps h
    rw [List.foldlM_cons] at h
    obtain ⟨acc1, h1, h2⟩ := (bind_ok _ _ _).1 h
    unfold lookupStep at h1
    split at h1
    · simp at h1
    · rename_i l hl
      simp at h1
      have hname : l.Name = n := by
        unfold Tournament.getPlayer at hl
        have := List.find?_some hl
        simpa using this
      rw [ih acc1 ps h2, ← h1]
      simp [hname]

theorem lookup_loop_total (t : Tournament) (names : List String)
    (hin : ∀ n ∈ names, n ∈ t.Players.map Player.Name) :
    ∀ (acc : List Player), ∃ ps, names.foldlM (lookupStep t) acc = .ok ps := by
  induction names with
  | nil => intro acc; exact ⟨acc, rfl⟩
  | cons n ns ih =>
    intro acc
    have hn := hin n (List.mem_cons_self _ _)
    obtain ⟨q, hq, hqn⟩ := List.mem_map.1 hn
    have hfind : ∃ l, t.getPlayer n = some l := by
      unfold Tournament.getPlayer
      cases hf : t.Players.find? (fun p => p.Name == n) with
      | some l => exact ⟨l, rfl⟩
      | none =>
        have := List.find?_eq_none.1 hf q hq
        simp [hqn] at this
    obtain ⟨l, hl⟩ := hfind
    obtain ⟨ps, hps⟩ := ih (fun x hx => hin x (List.mem_cons_of_mem _ hx)) (acc ++ [l])
    refine ⟨ps, ?_⟩
    rw [List.foldlM_cons]
    simp only [lookupStep, hl]
    exact hps

/-- What `GetRunnerups` returns: one record per queued name, a permutation of the
queue; the tournament changes in its roster only, which keeps its names. -/
theorem getRunnerups_spec {t t' : Tournament} {ps : List Player}
    (h : t.GetRunnerups = .ok (ps, t')) :
    (ps.map Player.Name).Perm t.Runnerups ∧
      t'.Players.map Player.Name = t.Players.map Player.Name ∧ t.sameButRoster t' := by
  refine ⟨?_, ?_, getRunnerups_frame h⟩
  · unfold Tournament.GetRunnerups at h
    split at h
    · simp at h
    · rename_i t1 h1
      split at h
      · simp at h
      · rename_i p hp
        simp at h
        rw [← h.1]
        have hr : t1.Runnerups = t.Runnerups := by
          have := updatePlayers_frame h1
          unfold Tournament.sameButRoster at this
          rw [this]
        have := lookup_loop_spec t1 t1.Runnerups [] p hp
        simp only [List.map_nil, List.nil_append] at this
        rw [← hr, ← this]
        exact (sortSort_perm _ p).map _
  · unfold Tournament.GetRunnerups at h
    split at h
    · simp at h
    · rename_i t1 h1
      split at h
      · simp at h
      · simp at h
        rw [← h.2]
        exact updatePlayers_names h1

theorem getRunnerups_total {t : Tournament} (hs : t.seatedInRoster) (hq : t.queuedInRoster) :
    ∃ ps t', t.GetRunnerups = .ok (ps, t') := by
  obtain ⟨t1, h1⟩ := updatePlayers_total hs
  have hfr := updatePlayers_frame h1
  have hr : t1.Runnerups = t.Runnerups := by
    unfold Tournament.sameButRoster at hfr
    rw [hfr]
  obtain ⟨p, hp⟩ := lookup_loop_total t1 t1.Runnerups
    (by rw [hr, updatePlayers_names h1]; exact hq) []
  unfold Tournament.GetRunnerups
  rw [h1]
  simp only
  rw [hp]
  exact ⟨_, _, rfl⟩

theorem addPlayer_seats {r r' : Rand} {m m' : Match} {p : Player} {e : Option String}
    (h : m.AddPlayer r p = .ok (r', m', e)) (hlen : m.Players.length = 4)
    (hact : m.ActualPlayers < 4) : Seats m.names m'.names p.Name := by
  obtain ⟨_, a, b, h1, h2, h3, _⟩ := addPlayer_names_four h hlen (by omega)
  exact ⟨a, b, h1, h2, h3⟩

theorem addPlayer_realNames_subset {r r' : Rand} {m m' : Match} {p : Player}
    {e : Option String} (h : m.AddPlayer r p = .ok (r', m', e)) :
    ∀ n ∈ m'.realNames, n ∈ m.realNames ∨ n = p.Name := by
  intro n hn
  rcases addPlayer_spec h with ⟨_, _, h1, _⟩ | ⟨_, _, mc, hf, _, h1⟩
  · rw [h1] at hn; exact Or.inl hn
  · have hmc : mc.realNames = m.realNames := realNames_of_names hf.1
    unfold Match.realNames at hn
    obtain ⟨hn1, hn2⟩ := List.mem_filter.1 hn
    have hn0 : n ≠ "" := by simpa using hn2
    rw [h1] at hn1
    simp only [Match.names] at hn1
    obtain ⟨q, hq, hqn⟩ := List.mem_map.1 hn1
    have key : q = p.Reset ∨ q ∈ mc.Players := by
      split at hq
      · by_cases hex : ∃ x ∈ mc.Players, x.IsPrefill = true
        · obtain ⟨a, o, b, hl, _, _, hr⟩ := replaceFirstPrefill_split p.Reset mc.Players hex
          rw [hr] at hq
          rw [hl]
          simp only [List.mem_append, List.mem_cons] at hq ⊢
          rcases hq with hq | hq | hq
          · exact Or.inr (Or.inl hq)
          · exact Or.inl hq
          · exact Or.inr (Or.inr (Or.inr hq))
        · push_neg at hex
          rw [replaceFirstPrefill_none p.Reset mc.Players
            (fun x hx => by simpa using hex x hx)] at hq
          exact Or.inr hq
      · simp only [List.mem_append, List.mem_singleton] at hq
        rcases hq with hq | hq
        · exact Or.inr hq
        · exact Or.inl hq
    rcases key with hk | hk
    · right
      rw [← hqn, hk]; rfl
    · left
      rw [← hmc, ← hqn]
      exact mem_realNames hk (by rw [hqn]; exact hn0)

theorem mem_addAbsent {q : List String} {n x : String} :
    x ∈ addAbsent q n ↔ x ∈ q ∨ x = n := by
  unfold addAbsent
  split
  · rename_i h
    constructor
    · intro hx; exact Or.inl hx
    · rintro (hx | hx)
      · exact hx
      · rw [hx]; exact h
  · simp

theorem nodup_addAbsent {q : List String} (n : String) (h : q.Nodup) :
    (addAbsent q n).Nodup := by
  unfold addAbsent
  split
  · exact h
  · rename_i hn
    rw [List.nodup_append]
    refine ⟨h, by simp, ?_⟩
    intro a ha hb
    simp only [List.mem_singleton] at hb
    rw [hb] at ha
    exact hn ha

theorem moveTryout_total {r : Rand} {t : Tournament} {j : Nat} {m : Match}
    {p0 p1 p2 p3 : Player} {s0 s1 : Match} (k : Nat)
    (hk : m.Kind = "tryout") (hps : SortByKills m.Players = [p0, p1, p2, p3])
    (hx : 0 ≤ m.Index) (hs : t.Semis = [s0, s1])
    (h0 : s0.Players.length ≤ 4) (h1 : s1.Players.length ≤ 4) (he : Enough (k + 32) r) :
    ∃ r1 t1, t.moveTryout r (.tryout j) m = .ok (r1, t1) ∧ Enough k r1 := by
  unfold Tournament.moveTryout
  rw [if_pos hk, hps]
  simp only [List.enum, List.enumFrom, List.foldlM_cons, List.foldlM_nil]
  rcases tmod_two_cases m.Index hx with ⟨_, hi0, hi1⟩ | ⟨_, hi0, hi1⟩
  · obtain ⟨ra, sa, ea, hadd0, hea⟩ := addPlayer_total h0 p0 (k := k + 16)
      (by rw [show k + 16 + 16 = k + 32 by omega]; exact he)
    rw [advanceStep_go_total m.Index r _ 0 p0 (Or.inr rfl) 0 (by simpa using hi0) s0
      (by simp [Tournament.setMatch, hs]) ra sa ea hadd0]
    simp only [bind, Except.bind]
    by_cases hT4 : t.Tryouts.length = 4
    · obtain ⟨rb, sb, eb, hadd1, heb⟩ := addPlayer_total h1 p1 hea
      rw [advanceStep_go_total m.Index ra _ 1 p1
        (Or.inl ⟨by simpa [Tournament.setMatch] using hT4, by omega⟩) 1
        (by simpa using hi1) s1 (by simp [Tournament.setMatch, hs]) rb sb eb hadd1]
      simp only
      rw [advanceStep_stay _ _ _ _ _ (by simp)]
      simp only
      rw [advanceStep_stay _ _ _ _ _ (by simp)]
      exact ⟨_, _, rfl, heb⟩
    · rw [advanceStep_stay _ _ _ _ _ (by simp [Tournament.setMatch, hT4])]
      simp only
      rw [advanceStep_stay _ _ _ _ _ (by simp)]
      simp only
      rw [advanceStep_stay _ _ _ _ _ (by simp)]
      exact ⟨_, _, rfl, enough_le (by omega) hea⟩
  · obtain ⟨ra, sa, ea, hadd0, hea⟩ := addPlayer_total h1 p0 (k := k + 16)
      (by rw [show k + 16 + 16 = k + 32 by omega]; exact he)
    rw [advanceStep_go_total m.Index r _ 0 p0 (Or.inr rfl) 1 (by simpa using hi0) s1
      (by simp [Tournament.setMatch, hs]) ra sa ea hadd0]
    simp only [bind, Except.bind]
    by_cases hT4 : t.Tryouts.length = 4
    · obtain ⟨rb, sb, eb, hadd1, heb⟩ := addPlayer_total h0 p1 hea
      rw [advanceStep_go_total m.Index ra _ 1 p1
        (Or.inl ⟨by simpa [Tournament.setMatch] using hT4, by omega⟩) 0
        (by simpa using hi1) s0 (by simp [Tournament.setMatch, hs]) rb sb eb hadd1]
      simp only
      rw [advanceStep_stay _ _ _ _ _ (by simp)]
      simp only
      rw [advanceStep_stay _ _ _ _ _ (by simp)]
      exact ⟨_, _, rfl, heb⟩
    · rw [advanceStep_stay _ _ _ _ _ (by simp [Tournament.setMatch, hT4])]
      simp only
      rw [advanceStep_stay _ _ _ _ _ (by simp)]
      simp only
      rw [advanceStep_stay _ _ _ _ _ (by simp)]
      exact ⟨_, _, rfl, enough_le (by omega) hea⟩

/-- `MovePlayers` on a match of kind tryout: the tryout block, then the queue is
replaced by a permutation of itself and the roster updated. -/
theorem movePlayers_tryout_inv {r r' : Rand} {t t' : Tournament} {ref : MatchRef} {m : Match}
    (hm : t.getMatch ref = some m) (hk : m.Kind = "tryout")
    (h : t.MovePlayers r ref = .ok (r', t')) :
    ∃ t1, t.moveTryout r ref m = .ok (r', t1) ∧ t'.Semis = t1.Semis ∧
      t'.Tryouts = t1.Tryouts ∧ t'.Final = t1.Final ∧ t'.Runnerups.Perm t1.Runnerups ∧
      t'.Players.map Player.Name = t1.Players.map Player.Name ∧ t'.Winners = t1.Winners ∧
      t'.Started = t1.Started ∧ t'.Ended = t1.Ended := by
  obtain ⟨m', r1, t1, t2, ps, t3, hm', h1, h2, h3, h4⟩ := movePlayers_inv h
  rw [hm] at hm'
  simp only [Option.some.injEq] at hm'
  subst hm'
  have hns : ¬ m.Kind = "semi" := by rw [hk]; decide
  unfold Tournament.moveSemi at h2
  rw [if_neg hns] at h2
  simp only [Except.ok.injEq, Prod.mk.injEq] at h2
  obtain ⟨hr, ht⟩ := h2
  subst hr ht
  obtain ⟨hperm, hnames, hfr⟩ := getRunnerups_spec h3
  unfold Tournament.sameButRoster at hfr
  refine ⟨t1, h1, ?_, ?_, ?_, ?_, ?_, ?_, ?_, ?_⟩
  · rw [h4, hfr]
  · rw [h4, hfr]
  · rw [h4, hfr]
  · rw [h4]; exact hperm
  · rw [h4]; exact hnames
  · rw [h4, hfr]
  · rw [h4, hfr]
  · rw [h4, hfr]

theorem realNames_perm {m m' : Match} (h : m'.Players.Perm m.Players) :
    ∀ n, n ∈ m'.realNames ↔ n ∈ m.realNames := by
  intro n
  unfold Match.realNames Match.names
  simp only [List.mem_filter, (h.map Player.Name).mem_iff]

theorem mem_erase_sub {q : List String} {n x : String} (h : x ∈ q.erase n) : x ∈ q :=
  List.mem_of_mem_erase h

/-- Where the real players and the queued names of the tournament after the tryout
block come from. -/
theorem moveTryout_facts {r r1 : Rand} {t t1 : Tournament} {j : Nat} {m : Match}
    {p0 p1 p2 p3 : Player} {s0 s1 : Match}
    (hk : m.Kind = "tryout") (hps : SortByKills m.Players = [p0, p1, p2, p3])
    (hx : 0 ≤ m.Index) (hs : t.Semis = [s0, s1])
    (h : t.moveTryout r (.tryout j) m = .ok (r1, t1)) :
    t1.Players = t.Players ∧ t1.Final = t.Final ∧
    t1.Tryouts = t.Tryouts.set j { m with Players := [p0, p1, p2, p3] } ∧
    (∀ s ∈ t1.Semis, ∀ n ∈ s.realNames,
      (∃ s' ∈ t.Semis, n ∈ s'.realNames) ∨ n = p0.Name ∨ n = p1.Name) ∧
    (∀ n ∈ t1.Runnerups, n ∈ t.Runnerups ∨ n = p1.Name ∨ n = p2.Name ∨ n = p3.Name) := by
  obtain ⟨ra, sa, ea, hadd0, hcase⟩ := moveTryout_run hk hps hx hs h
  have hsa := addPlayer_realNames_subset hadd0
  have hsrc : ∀ n, n ∈ (if m.Index % 2 = 0 then s0 else s1).realNames →
      ∃ s' ∈ t.Semis, n ∈ s'.realNames := by
    intro n hn
    rw [hs]
    split at hn
    · exact ⟨s0, by simp, hn⟩
    · exact ⟨s1, by simp, hn⟩
  have hsrc' : ∀ n, n ∈ (if m.Index % 2 = 0 then s1 else s0).realNames →
      ∃ s' ∈ t.Semis, n ∈ s'.realNames := by
    intro n hn
    rw [hs]
    split at hn
    · exact ⟨s1, by simp, hn⟩
    · exact ⟨s0, by simp, hn⟩
  have hA : ∀ n ∈ sa.realNames, (∃ s' ∈ t.Semis, n ∈ s'.realNames) ∨ n = p0.Name ∨ n = p1.Name := by
    intro n hn
    rcases hsa n hn with h1 | h1
    · exact Or.inl (hsrc n h1)
    · exact Or.inr (Or.inl h1)
  rcases hcase with ⟨_, sb, eb, hadd1, ht1⟩ | ⟨_, _, ht1⟩
  · have hsb := addPlayer_realNames_subset hadd1
    have hB : ∀ n ∈ sb.realNames,
        (∃ s' ∈ t.Semis, n ∈ s'.realNames) ∨ n = p0.Name ∨ n = p1.Name := by
      intro n hn
      rcases hsb n hn with h1 | h1
      · exact Or.inl (hsrc' n h1)
      · exact Or.inr (Or.inr h1)
    rw [ht1]
    refine ⟨rfl, rfl, rfl, ?_, ?_⟩
    · intro s hsm n hn
      simp only at hsm
      split at hsm
      · simp only [List.mem_cons, List.mem_singleton, List.not_mem_nil, or_false] at hsm
        rcases hsm with h1 | h1
        · rw [h1] at hn; exact hA n hn
        · rw [h1] at hn; exact hB n hn
      · simp only [List.mem_cons, List.mem_singleton, List.not_mem_nil, or_false] at hsm
        rcases hsm with h1 | h1
        · rw [h1] at hn; exact hB n hn
        · rw [h1] at hn; exact hA n hn
    · intro n hn
      simp only at hn
      rcases mem_addAbsent.1 hn with h1 | h1
      · rcases mem_addAbsent.1 h1 with h2 | h2
        · exact Or.inl (mem_erase_sub (mem_erase_sub h2))
        · exact Or.inr (Or.inr (Or.inl h2))
      · exact Or.inr (Or.inr (Or.inr h1))
  · rw [ht1]
    refine ⟨rfl, rfl, rfl, ?_, ?_⟩
    · intro s hsm n hn
      simp only at hsm
      split at hsm
      · simp only [List.mem_cons, List.mem_singleton, List.not_mem_nil, or_false] at hsm
        rcases hsm with h1 | h1
        · rw [h1] at hn; exact hA n hn
        · rw [h1] at hn; exact Or.inl ⟨s1, by simp [hs], hn⟩
      · simp only [List.mem_cons, List.mem_singleton, List.not_mem_nil, or_false] at hsm
        rcases hsm with h1 | h1
        · rw [h1] at hn; exact Or.inl ⟨s0, by simp [hs], hn⟩
        · rw [h1] at hn; exact hA n hn
    · intro n hn
      simp only at hn
      rcases mem_addAbsent.1 hn with h1 | h1
      · rcases mem_addAbsent.1 h1 with h2 | h2
        · rcases mem_addAbsent.1 h2 with h3 | h3
          · exact Or.inl (mem_erase_sub h3)
          · exact Or.inr (Or.inl h3)
        · exact Or.inr (Or.inr (Or.inl h2))
      · exact Or.inr (Or.inr (Or.inr h1))

/-- `MovePlayers` returns on a tryout of four real players when every seated and
every queued name is in the roster and the draws are enough. -/
theorem movePlayers_tryout_total {r : Rand} {t : Tournament} {j : Nat} {m : Match}
    {s0 s1 : Match} (k : Nat)
    (hm : t.getMatch (.tryout j) = some m) (hk : m.Kind = "tryout") (hx : 0 ≤ m.Index)
    (hlen : m.Players.length = 4) (hreal : ∀ p ∈ m.Players, p.Name ≠ "")
    (hs : t.Semis = [s0, s1]) (h0 : s0.Players.length ≤ 4) (h1 : s1.Players.length ≤ 4)
    (hseat : t.seatedInRoster) (hq : t.queuedInRoster) (he : Enough (k + 32) r) :
    ∃ r' t', t.MovePlayers r (.tryout j) = .ok (r', t') ∧ Enough k r' := by
  have hl : (SortByKills m.Players).length = 4 := by rw [sortByKills_length]; exact hlen
  obtain ⟨p0, p1, p2, p3, hps⟩ : ∃ p0 p1 p2 p3, SortByKills m.Players = [p0, p1, p2, p3] := by
    rcases hq4 : SortByKills m.Players with _ | ⟨a, _ | ⟨b, _ | ⟨c, _ | ⟨d, _ | ⟨e, l⟩⟩⟩⟩⟩ <;>
      rw [hq4] at hl <;> simp at hl
    exact ⟨a, b, c, d, rfl⟩
  obtain ⟨r1, t1, hrun, he1⟩ := moveTryout_total (j := j) k hk hps hx hs h0 h1 he
  obtain ⟨hP, hF, hT, hS, hR⟩ := moveTryout_facts hk hps hx hs hrun
  have hmT : m ∈ t.Tryouts := List.getElem?_mem hm
  have hperm : [p0, p1, p2, p3].Perm m.Players := by rw [← hps]; exact sortByKills_perm _
  have hmem : ∀ p ∈ [p0, p1, p2, p3], p.Name ∈ t.Players.map Player.Name := by
    intro p hp
    have hp' := hperm.mem_iff.1 hp
    exact hseat m (by simp [hmT]) _ (mem_realNames hp' (hreal p hp'))
  have hseat1 : t1.seatedInRoster := by
    intro x hx1 n hn
    rw [hP]
    simp only [List.mem_append, List.mem_singleton] at hx1
    rcases hx1 with (hx1 | hx1) | hx1
    · rw [hT] at hx1
      rcases mem_set_cases hx1 with h2 | h2
      · exact hseat x (by simp [h2]) n hn
      · rw [h2] at hn
        have := (@realNames_perm m { m with Players := [p0, p1, p2, p3] } hperm n).1 hn
        exact hseat m (by simp [hmT]) n this
    · rcases hS x hx1 n hn with ⟨s', hs', hn'⟩ | h2 | h2
      · exact hseat s' (by simp [hs']) n hn'
      · rw [h2]; exact hmem p0 (by simp)
      · rw [h2]; exact hmem p1 (by simp)
    · rw [hx1, hF] at hn
      exact hseat t.Final (by simp) n hn
  have hq1 : t1.queuedInRoster := by
    intro n hn
    rw [hP]
    rcases hR n hn with h2 | h2 | h2 | h2
    · exact hq n h2
    · rw [h2]; exact hmem p1 (by simp)
    · rw [h2]; exact hmem p2 (by simp)
    · rw [h2]; exact hmem p3 (by simp)
  obtain ⟨ps, t3, hg⟩ := getRunnerups_total hseat1 hq1
  have hns : ¬ m.Kind = "semi" := by rw [hk]; decide
  refine ⟨r1, { t3 with Runnerups := ps.map Player.Name }, ?_, he1⟩
  unfold Tournament.MovePlayers
  rw [hm]
  simp only
  rw [hrun]
  simp only
  unfold Tournament.moveSemi
  rw [if_neg hns]
  simp only
  rw [hg]

theorem sorted_four {p0 p1 p2 p3 : Player}
    (h : [p0, p1, p2, p3].Pairwise (fun a b => b.Kills ≤ a.Kills)) :
    p1.Kills ≤ p0.Kills ∧ p2.Kills ≤ p1.Kills ∧ p3.Kills ≤ p2.Kills := by
  simp only [List.pairwise_cons, List.mem_cons, List.mem_singleton, forall_eq_or_imp,
    forall_eq, List.not_mem_nil, IsEmpty.forall_iff, implies_true, List.Pairwise.nil,
    and_true] at h
  exact ⟨h.1.1, h.2.1.1, h.2.2⟩

theorem sortByKills_four {m : Match} (hlen : m.Players.length = 4) :
    ∃ p0 p1 p2 p3, SortByKills m.Players = [p0, p1, p2, p3] ∧
      [p0, p1, p2, p3].Perm m.Players ∧
      p1.Kills ≤ p0.Kills ∧ p2.Kills ≤ p1.Kills ∧ p3.Kills ≤ p2.Kills := by
  have hl : (SortByKills m.Players).length = 4 := by rw [sortByKills_length]; exact hlen
  rcases hq4 : SortByKills m.Players with _ | ⟨a, _ | ⟨b, _ | ⟨c, _ | ⟨d, _ | ⟨e, l⟩⟩⟩⟩⟩ <;>
    rw [hq4] at hl <;> simp at hl
  have hs := sortByKills_sorted m.Players
  rw [hq4] at hs
  exact ⟨a, b, c, d, rfl, by rw [← hq4]; exact sortByKills_perm _, sorted_four hs⟩

/-- C2: `MovePlayers` on a tryout match of kind tryout with index `x ≥ 0` and 4
slots, in a bracket of two semis that both have 4 slots and room.  With
`p0, p1, p2, p3` the slots sorted by kills descending: whenever `MovePlayers`
returns, `p0` has taken the first placeholder slot of semi `x mod 2`; in a bracket
of exactly 4 tryouts `p1` has taken the first placeholder slot of semi
`(1 + x) mod 2`, in any other bracket the other semi keeps its names; no other
name of a semi changes.  When every seated and queued name is in the roster, the
4 players are real and the draws are enough, `MovePlayers` returns. -/
theorem C2_movePlayers_tryout (r : Rand) (t : Tournament) (j : Nat) (m s0 s1 : Match)
    (hm : t.getMatch (.tryout j) = some m) (hk : m.Kind = "tryout") (hx : 0 ≤ m.Index)
    (hlen : m.Players.length = 4) (hs : t.Semis = [s0, s1])
    (h0 : s0.Players.length = 4 ∧ s0.ActualPlayers < 4)
    (h1 : s1.Players.length = 4 ∧ s1.ActualPlayers < 4) :
    ∃ p0 p1 p2 p3, SortByKills m.Players = [p0, p1, p2, p3] ∧
      [p0, p1, p2, p3].Perm m.Players ∧
      p1.Kills ≤ p0.Kills ∧ p2.Kills ≤ p1.Kills ∧ p3.Kills ≤ p2.Kills ∧
      (∀ r' t', t.MovePlayers r (.tryout j) = .ok (r', t') →
        ∃ s0' s1', t'.Semis = [s0', s1'] ∧
          (t.Tryouts.length = 4 →
            (m.Index % 2 = 0 →
              Seats s0.names s0'.names p0.Name ∧ Seats s1.names s1'.names p1.Name) ∧
            (m.Index % 2 = 1 →
              Seats s1.names s1'.names p0.Name ∧ Seats s0.names s0'.names p1.Name)) ∧
          (t.Tryouts.length ≠ 4 →
            (m.Index % 2 = 0 → Seats s0.names s0'.names p0.Name ∧ s1'.names = s1.names) ∧
            (m.Index % 2 = 1 → Seats s1.names s1'.names p0.Name ∧ s0'.names = s0.names))) ∧
      ((∀ p ∈ m.Players, p.Name ≠ "") → t.seatedInRoster → t.queuedInRoster → Enough 32 r →
        ∃ r' t', t.MovePlayers r (.tryout j) = .ok (r', t')) := by
  obtain ⟨p0, p1, p2, p3, hps, hperm, hsorted⟩ := sortByKills_four hlen
  refine ⟨p0, p1, p2, p3, hps, hperm, hsorted.1, hsorted.2.1, hsorted.2.2, ?_, ?_⟩
  · intro r' t' h
    obtain ⟨t1, hrun, hsemis, _⟩ := movePlayers_tryout_inv hm hk h
    obtain ⟨ra, sa, ea, hadd0, hcase⟩ := moveTryout_run hk hps hx hs hrun
    rcases hcase with ⟨hT, sb, eb, hadd1, ht1⟩ | ⟨hT, _, ht1⟩
    · by_cases hev : m.Index % 2 = 0
      · simp only [hev, if_true] at hadd0 hadd1 ht1
        refine ⟨sa, sb, by rw [hsemis, ht1], ?_, fun hn => absurd hT hn⟩
        intro _
        refine ⟨fun _ => ⟨addPlayer_seats hadd0 h0.1 h0.2, addPlayer_seats hadd1 h1.1 h1.2⟩, ?_⟩
        intro hodd; omega
      · simp only [hev, if_false] at hadd0 hadd1 ht1
        refine ⟨sb, sa, by rw [hsemis, ht1], ?_, fun hn => absurd hT hn⟩
        intro _
        refine ⟨fun h2 => absurd h2 hev, ?_⟩
        intro _
        exact ⟨addPlayer_seats hadd0 h1.1 h1.2, addPlayer_seats hadd1 h0.1 h0.2⟩
    · by_cases hev : m.Index % 2 = 0
      · simp only [hev, if_true] at hadd0 ht1
        refine ⟨sa, s1, by rw [hsemis, ht1], fun h4 => absurd h4 hT, ?_⟩
        intro _
        refine ⟨fun _ => ⟨addPlayer_seats hadd0 h0.1 h0.2, rfl⟩, ?_⟩
        intro hodd; omega
      · simp only [hev, if_false] at hadd0 ht1
        refine ⟨s0, sa, by rw [hsemis, ht1], fun h4 => absurd h4 hT, ?_⟩
        intro _
        refine ⟨fun h2 => absurd h2 hev, ?_⟩
        intro _
        exact ⟨addPlayer_seats hadd0 h1.1 h1.2, rfl⟩
  · intro hreal hseat hq he
    obtain ⟨r', t', h, _⟩ := movePlayers_tryout_total 0 hm hk hx hlen hreal hs
      (le_of_eq h0.1) (le_of_eq h1.1) hseat hq (by simpa using he)
    exact ⟨r', t', h⟩

/-- C2 at `demoTournament`, tryout 1 (e 10, f 2, g 2, h 9 kills): the run returns,
e sits in semi 1 and h in semi 0. -/
theorem C2_movePlayers_tryout_witness :
    ∃ r' t', demoTournament.MovePlayers (cycleDraws 32) (.tryout 1) = .ok (r', t') ∧
      t'.Semis.map Match.names = [["h", "", "", ""], ["e", "", "", ""]] := by
  obtain ⟨p0, p1, p2, p3, hps, _, _, _, _, _, htot⟩ := C2_movePlayers_tryout (cycleDraws 32)
    demoTournament 1 (mkTryout 1 ("e", 10) ("f", 2) ("g", 2) ("h", 9))
    (emptyMatch "semi" 0) (emptyMatch "semi" 1) rfl rfl (by decide) rfl rfl
    ⟨rfl, by decide⟩ ⟨rfl, by decide⟩
  obtain ⟨r', t', hrun⟩ := htot (by decide)
    (by unfold Tournament.seatedInRoster; decide)
    (by unfold Tournament.queuedInRoster; decide) (enough_cycleDraws 32)
  refine ⟨r', t', hrun, ?_⟩
  have h3 : (demoTournament.MovePlayers (cycleDraws 32) (.tryout 1)).map
      (fun (o : Rand × Tournament) => o.2.Semis.map Match.names) =
      .ok [["h", "", "", ""], ["e", "", "", ""]] := by rfl
  rw [hrun] at h3
  simpa [Except.map] using h3

theorem names_four_distinct {m : Match} {p0 p1 p2 p3 : Player}
    (hperm : [p0, p1, p2, p3].Perm m.Players) (hnd : m.names.Nodup) :
    p0.Name ≠ p1.Name ∧ p0.Name ≠ p2.Name ∧ p0.Name ≠ p3.Name ∧ p1.Name ≠ p2.Name ∧
      p1.Name ≠ p3.Name ∧ p2.Name ≠ p3.Name := by
  have h : ([p0, p1, p2, p3].map Player.Name).Nodup :=
    ((hperm.map Player.Name).nodup_iff).2 hnd
  simp only [List.map_cons, List.map_nil, List.nodup_cons, List.mem_cons, List.mem_singleton,
    List.not_mem_nil, or_false, not_or, List.nodup_nil, and_true, not_false_eq_true] at h
  exact ⟨h.1.1, h.1.2.1, h.1.2.2, h.2.1.1, h.2.1.2, h.2.2⟩

theorem mem_names_four {m : Match} {p0 p1 p2 p3 : Player}
    (hperm : [p0, p1, p2, p3].Perm m.Players) (n : String) :
    n ∈ m.names ↔ n = p0.Name ∨ n = p1.Name ∨ n = p2.Name ∨ n = p3.Name := by
  unfold Match.names
  rw [← (hperm.map Player.Name).mem_iff]
  simp

/-- C3: `MovePlayers` on a tryout match (kind tryout, index `x ≥ 0`) of 4 real
players with pairwise distinct names, in a bracket of two semis whose runnerup
queue has no duplicates.  With `p0, p1, p2, p3` the slots sorted by kills
descending, and the advancing players being `p0`, and `p1` too in a bracket of
exactly 4 tryouts: whenever `MovePlayers` returns, the queue has no duplicates,
holds every player of the match that does not advance, holds no player that
advances, and holds a name that is not of the match exactly when it held it
before.  When every seated and queued name is in the roster, the semis have at
most 4 slots and the draws are enough, `MovePlayers` returns. -/
theorem C3_runnerups_after_tryout (r : Rand) (t : Tournament) (j : Nat) (m s0 s1 : Match)
    (hm : t.getMatch (.tryout j) = some m) (hk : m.Kind = "tryout") (hx : 0 ≤ m.Index)
    (hlen : m.Players.length = 4) (hreal : ∀ p ∈ m.Players, p.Name ≠ "")
    (hnd : m.names.Nodup) (hs : t.Semis = [s0, s1]) (hq : t.Runnerups.Nodup) :
    ∃ p0 p1 p2 p3, SortByKills m.Players = [p0, p1, p2, p3] ∧
      (∀ r' t', t.MovePlayers r (.tryout j) = .ok (r', t') →
        t'.Runnerups.Nodup ∧
        p0.Name ∉ t'.Runnerups ∧ p2.Name ∈ t'.Runnerups ∧ p3.Name ∈ t'.Runnerups ∧
        (t.Tryouts.length = 4 → p1.Name ∉ t'.Runnerups) ∧
        (t.Tryouts.length ≠ 4 → p1.Name ∈ t'.Runnerups) ∧
        (∀ n, n ∉ m.names → (n ∈ t'.Runnerups ↔ n ∈ t.Runnerups))) ∧
      (t.seatedInRoster → t.queuedInRoster → s0.Players.length ≤ 4 →
        s1.Players.length ≤ 4 → Enough 32 r →
        ∃ r' t', t.MovePlayers r (.tryout j) = .ok (r', t')) := by
  obtain ⟨p0, p1, p2, p3, hps, hperm, _⟩ := sortByKills_four hlen
  obtain ⟨d01, d02, d03, d12, d13, d23⟩ := names_four_distinct hperm hnd
  refine ⟨p0, p1, p2, p3, hps, ?_, ?_⟩
  · intro r' t' h
    obtain ⟨t1, hrun, _, _, _, hqperm, _⟩ := movePlayers_tryout_inv hm hk h
    obtain ⟨ra, sa, ea, hadd0, hcase⟩ := moveTryout_run hk hps hx hs hrun
    have hmem : ∀ n, n ∈ t'.Runnerups ↔ n ∈ t1.Runnerups := fun n => hqperm.mem_iff
    have he0 : (t.Runnerups.erase p0.Name).Nodup := hq.erase _
    rcases hcase with ⟨hT, sb, eb, _, ht1⟩ | ⟨hT, _, ht1⟩
    · have hR : t1.Runnerups = addAbsent (addAbsent
          ((t.Runnerups.erase p0.Name).erase p1.Name) p2.Name) p3.Name := by rw [ht1]
      have he1 : ((t.Runnerups.erase p0.Name).erase p1.Name).Nodup := he0.erase _
      have key : ∀ n, n ∈ t1.Runnerups ↔
          ((n ≠ p1.Name ∧ n ≠ p0.Name ∧ n ∈ t.Runnerups) ∨ n = p2.Name) ∨ n = p3.Name := by
        intro n
        rw [hR, mem_addAbsent, mem_addAbsent, he0.mem_erase_iff, hq.mem_erase_iff]
      refine ⟨?_, ?_, ?_, ?_, ?_, ?_, ?_⟩
      · rw [hqperm.nodup_iff, hR]
        exact nodup_addAbsent _ (nodup_addAbsent _ he1)
      · rw [hmem, key]
        rintro ((⟨_, h2, _⟩ | h2) | h2)
        · exact h2 rfl
        · exact d02 h2
        · exact d03 h2
      · rw [hmem, key]; exact Or.inl (Or.inr rfl)
      · rw [hmem, key]; exact Or.inr rfl
      · intro _
        rw [hmem, key]
        rintro ((⟨h2, _, _⟩ | h2) | h2)
        · exact h2 rfl
        · exact d12 h2
        · exact d13 h2
      · intro hn; exact absurd hT hn
      · intro n hn
        rw [mem_names_four hperm] at hn
        push_neg at hn
        rw [hmem, key]
        constructor
        · rintro ((⟨_, _, h2⟩ | h2) | h2)
          · exact h2
          · exact absurd h2 hn.2.2.1
          · exact absurd h2 hn.2.2.2
        · intro h2
          exact Or.inl (Or.inl ⟨hn.2.1, hn.1, h2⟩)
    · have hR : t1.Runnerups = addAbsent (addAbsent (addAbsent
          (t.Runnerups.erase p0.Name) p1.Name) p2.Name) p3.Name := by rw [ht1]
      have key : ∀ n, n ∈ t1.Runnerups ↔
          (((n ≠ p0.Name ∧ n ∈ t.Runnerups) ∨ n = p1.Name) ∨ n = p2.Name) ∨ n = p3.Name := by
        intro n
        rw [hR, mem_addAbsent, mem_addAbsent, mem_addAbsent, hq.mem_erase_iff]
      refine ⟨?_, ?_, ?_, ?_, ?_, ?_, ?_⟩
      · rw [hqperm.nodup_iff, hR]
        exact nodup_addAbsent _ (nodup_addAbsent _ (nodup_addAbsent _ he0))
      · rw [hmem, key]
        rintro (((⟨h2, _⟩ | h2) | h2) | h2)
        · exact h2 rfl
        · exact d01 h2
        · exact d02 h2
        · exact d03 h2
      · rw [hmem, key]; exact Or.inl (Or.inr rfl)
      · rw [hmem, key]; exact Or.inr rfl
      · intro h4; exact absurd h4 hT
      · intro _
        rw [hmem, key]; exact Or.inl (Or.inl (Or.inr rfl))
      · intro n hn
        rw [mem_names_four hperm] at hn
        push_neg at hn
        rw [hmem, key]
        constructor
        · rintro (((⟨_, h2⟩ | h2) | h2) | h2)
          · exact h2
          · exact absurd h2 hn.2.1
          · exact absurd h2 hn.2.2.1
          · exact absurd h2 hn.2.2.2
        · intro h2
          exact Or.inl (Or.inl (Or.inl ⟨hn.1, h2⟩))
  · intro hseat hqr h0 h1 he
    obtain ⟨r', t', h, _⟩ := movePlayers_tryout_total 0 hm hk hx hlen hreal hs h0 h1 hseat hqr
      (by simpa using he)
    exact ⟨r', t', h⟩

/-- C3 at `demoTournament` with d and f queued, on tryout 0 (a 3, b 10, c 7, d 1
kills): b and c advance, the queue ends as a permutation of f, d, a. -/
theorem C3_runnerups_after_tryout_witness :
    ∃ r' t', ({ demoTournament with Runnerups := ["d", "f"] }).MovePlayers (cycleDraws 32)
        (.tryout 0) = .ok (r', t') ∧
      t'.Runnerups.Nodup ∧ t'.Runnerups.Perm ["f", "d", "a"] := by
  obtain ⟨p0, p1, p2, p3, hps, hpost, htot⟩ := C3_runnerups_after_tryout (cycleDraws 32)
    { demoTournament with Runnerups := ["d", "f"] } 0
    (mkTryout 0 ("a", 3) ("b", 10) ("c", 7) ("d", 1))
    (emptyMatch "semi" 0) (emptyMatch "semi" 1) rfl rfl (by decide) rfl (by decide)
    (by decide) rfl (by decide)
  obtain ⟨r', t', hrun⟩ := htot (by unfold Tournament.seatedInRoster; decide)
    (by unfold Tournament.queuedInRoster; decide) (by decide) (by decide)
    (enough_cycleDraws 32)
  refine ⟨r', t', hrun, (hpost r' t' hrun).1, ?_⟩
  have h3 : (({ demoTournament with Runnerups := ["d", "f"] }).MovePlayers (cycleDraws 32)
      (.tryout 0)).map (fun (o : Rand × Tournament) => decide (o.2.Runnerups.Perm ["f", "d", "a"])) =
      .ok true := by rfl
  rw [hrun] at h3
  simpa [Except.map] using h3

/-- The semi block of `MovePlayers` on a semi of four slots: the two finishers
with the most kills are added to the final, one after the other. -/
theorem moveSemi_run {r r1 : Rand} {t t1 : Tournament} {j : Nat} {m : Match}
    {p0 p1 p2 p3 : Player}
    (hk : m.Kind = "semi") (hps : SortByKills m.Players = [p0, p1, p2, p3])
    (h : t.moveSemi r (.semi j) m = .ok (r1, t1)) :
    ∃ ra fa ea fb eb, t.Final.AddPlayer r p0 = .ok (ra, fa, ea) ∧
      fa.AddPlayer ra p1 = .ok (r1, fb, eb) ∧
      t1 = { t with Semis := t.Semis.set j { m with Players := [p0, p1, p2, p3] }
                    Final := fb } := by
  unfold Tournament.moveSemi at h
  rw [if_pos hk, hps] at h
  simp only [List.enum, List.enumFrom, List.foldlM_cons, List.foldlM_nil] at h
  obtain ⟨st1, h1, hA⟩ := (bind_ok _ _ _).1 h
  obtain ⟨st2, h2, hB⟩ := (bind_ok _ _ _).1 hA
  obtain ⟨st3, h3, hC⟩ := (bind_ok _ _ _).1 hB
  obtain ⟨st4, h4, hD⟩ := (bind_ok _ _ _).1 hC
  simp only [pure, Except.pure, Except.ok.injEq] at hD
  clear h hA hB hC
  unfold finalStep at h1
  simp only [Nat.lt_irrefl, show (0 : Nat) < 2 by omega, if_true] at h1
  split at h1
  · simp at h1
  · rename_i ra fa ea hadd0
    simp only [Except.ok.injEq] at h1
    subst h1
    unfold finalStep at h2
    simp only [show (0 + 1 : Nat) < 2 by omega, if_true] at h2
    split at h2
    · simp at h2
    · rename_i rb fb eb hadd1
      simp only [Except.ok.injEq] at h2
      subst h2
      unfold finalStep at h3 h4
      simp only [show ¬ (0 + 1 + 1 : Nat) < 2 by omega, show ¬ (0 + 1 + 1 + 1 : Nat) < 2 by omega,
        if_false, Except.ok.injEq] at h3 h4
      subst h3
      rw [← h4, Prod.mk.injEq] at hD
      obtain ⟨hr, ht⟩ := hD
      subst hr
      refine ⟨ra, fa, ea, fb, eb, ?_, ?_, ?_⟩
      · simpa [Tournament.setMatch] using hadd0
      · simpa using hadd1
      · rw [← ht]
        simp [Tournament.setMatch]

theorem moveSemi_total {r : Rand} {t : Tournament} {j : Nat} {m : Match}
    {p0 p1 p2 p3 : Player} (k : Nat)
    (hk : m.Kind = "semi") (hps : SortByKills m.Players = [p0, p1, p2, p3])
    (hf : t.Final.Players.length = 4) (he : Enough (k + 32) r) :
    ∃ r1 t1, t.moveSemi r (.semi j) m = .ok (r1, t1) ∧ Enough k r1 := by
  unfold Tournament.moveSemi
  rw [if_pos hk, hps]
  simp only [List.enum, List.enumFrom, List.foldlM_cons, List.foldlM_nil]
  obtain ⟨ra, fa, ea, hadd0, hea⟩ := addPlayer_total (le_of_eq hf) p0 (k := k + 16)
    (by rw [show k + 16 + 16 = k + 32 by omega]; exact he)
  have hfa : fa.Players.length = 4 := addPlayer_four hadd0 hf
  obtain ⟨rb, fb, eb, hadd1, heb⟩ := addPlayer_total (le_of_eq hfa) p1 hea
  have e1 : finalStep (r, t.setMatch (.semi j) { m with Players := [p0, p1, p2, p3] }) (0, p0) =
      .ok (ra, { t.setMatch (.semi j) { m with Players := [p0, p1, p2, p3] } with Final := fa }) := by
    unfold finalStep
    simp only [show (0 : Nat) < 2 by omega, if_true]
    have : (t.setMatch (.semi j) { m with Players := [p0, p1, p2, p3] }).Final = t.Final := rfl
    rw [this, hadd0]
  rw [e1]
  simp only [bind, Except.bind]
  have e2 : finalStep (ra, { t.setMatch (.semi j) { m with Players := [p0, p1, p2, p3] } with
      Final := fa }) (0 + 1, p1) =
      .ok (rb, { t.setMatch (.semi j) { m with Players := [p0, p1, p2, p3] } with Final := fb }) := by
    unfold finalStep
    simp only [show (0 + 1 : Nat) < 2 by omega, if_true]
    rw [hadd1]
  rw [e2]
  simp only
  have e3 : ∀ (s : Rand × Tournament) (p : Player), finalStep s (0 + 1 + 1, p) = .ok s := by
    intro s p; unfold finalStep; simp
  have e4 : ∀ (s : Rand × Tournament) (p : Player), finalStep s (0 + 1 + 1 + 1, p) = .ok s := by
    intro s p; unfold finalStep; simp
  rw [e3]
  simp only
  rw [e4]
  exact ⟨rb, _, rfl, heb⟩

/-- `MovePlayers` on a match of kind semi: the semi block, then the queue is
replaced by a permutation of itself and the roster updated. -/
theorem movePlayers_semi_inv {r r' : Rand} {t t' : Tournament} {ref : MatchRef} {m : Match}
    (hm : t.getMatch ref = some m) (hk : m.Kind = "semi")
    (h : t.MovePlayers r ref = .ok (r', t')) :
    ∃ t1, t.moveSemi r ref m = .ok (r', t1) ∧ t'.Semis = t1.Semis ∧
      t'.Tryouts = t1.Tryouts ∧ t'.Final = t1.Final ∧ t'.Runnerups.Perm t1.Runnerups ∧
      t'.Players.map Player.Name = t1.Players.map Player.Name := by
  obtain ⟨m', r1, t1, t2, ps, t3, hm', h1, h2, h3, h4⟩ := movePlayers_inv h
  rw [hm] at hm'
  simp only [Option.some.injEq] at hm'
  subst hm'
  have hns : ¬ m.Kind = "tryout" := by rw [hk]; decide
  unfold Tournament.moveTryout at h1
  rw [if_neg hns] at h1
  simp only [Except.ok.injEq, Prod.mk.injEq] at h1
  obtain ⟨hr, ht⟩ := h1
  subst hr ht
  obtain ⟨hperm, hnames, hfr⟩ := getRunnerups_spec h3
  unfold Tournament.sameButRoster at hfr
  refine ⟨t2, h2, ?_, ?_, ?_, ?_, ?_⟩
  · rw [h4, hfr]
  · rw [h4, hfr]
  · rw [h4, hfr]
  · rw [h4]; exact hperm
  · rw [h4]; exact hnames

theorem seats_eq_seatName {before after : List String} {n : String}
    (h : Seats before after n) : after = seatName n before := by
  obtain ⟨a, b, h1, h2, h3⟩ := h
  subst h1 h3
  induction a with
  | nil => simp [seatName]
  | cons x xs ih =>
    have hx : x ≠ "" := h2 x (List.mem_cons_self _ _)
    have := ih (fun y hy => h2 y (List.mem_cons_of_mem _ hy))
    simp only [List.cons_append, seatName, hx, if_false]
    rw [this]
    rfl

theorem addShotFirst_names (w : String) (l : List Player) :
    (addShotFirst w l).map Player.Name = l.map Player.Name := by
  induction l with
  | nil => rfl
  | cons p ps ih =>
    unfold addShotFirst
    split
    · simp [Player.AddShot]
    · simp [ih]

theorem addShotFirst_kills (w : String) (l : List Player) :
    (addShotFirst w l).map Player.Kills = l.map Player.Kills := by
  induction l with
  | nil => rfl
  | cons p ps ih =>
    unfold addShotFirst
    split
    · simp [Player.AddShot]
    · simp [ih]

/-- `End` on a match that has not ended and is not of kind final: the first slot
gets a shot, the end timestamp is set, then `MovePlayers` runs. -/
theorem end_inv {r r' : Rand} {t t' : Tournament} {ref : MatchRef} {now now2 : Nat}
    {m : Match} {e : Option String} (hm : t.getMatch ref = some m) (he : m.Ended = none)
    (hk : m.Kind ≠ "final") (hlen : m.Players.length = 4)
    (h : t.End r ref now now2 = .ok (r', t', e)) :
    e = none ∧ ∃ m1, m1.Kind = m.Kind ∧ m1.Index = m.Index ∧ m1.names = m.names ∧
      m1.Players.map Player.Kills = m.Players.map Player.Kills ∧ m1.Ended = some now ∧
      m1.Started = m.Started ∧
      (t.setMatch ref m1).MovePlayers r ref = .ok (r', t') := by
  unfold Tournament.End at h
  rw [hm] at h
  simp only [he, Time.IsZero, Option.isNone_none, Bool.not_true, Bool.false_eq_true,
    if_false] at h
  split at h
  · rename_i hnil
    rw [hnil] at hlen
    simp at hlen
  · rename_i w ws hw
    simp only [hk, if_false] at h
    split at h
    · simp at h
    · rename_i r1 t1 h1
      simp only [Except.ok.injEq, Prod.mk.injEq] at h
      obtain ⟨h2, h3, h4⟩ := h
      subst h2 h3
      refine ⟨h4.symm, { m with Players := addShotFirst w.Name m.Players, Ended := some now },
        rfl, rfl, ?_, ?_, rfl, rfl, h1⟩
      · exact addShotFirst_names _ _
      · exact addShotFirst_kills _ _

theorem seats_length {before after : List String} {n : String} (h : Seats before after n) :
    after.length = before.length := by
  obtain ⟨a, b, h1, _, h3⟩ := h
  rw [h1, h3]; simp

theorem seats_real_le {before after : List String} {n : String} (h : Seats before after n) :
    (after.filter (fun x => x ≠ "")).length ≤ (before.filter (fun x => x ≠ "")).length + 1 := by
  obtain ⟨a, b, h1, _, h3⟩ := h
  rw [h1, h3]
  simp only [List.filter_append, List.length_append, List.filter_cons]
  split
  · simp; omega
  · simp

/-- What `MovePlayers` has done on a semi once it has returned.  For a semi (kind
semi) with 4 slots, in a tournament whose final has 4 slots of which at least 2
are placeholders, and `p0, p1, p2, p3` the slots sorted by kills descending:
whenever `MovePlayers` returns, `p0` has taken the first placeholder slot of the
final and `p1` the next one, and no other name of the final has changed.  Hence,
when `End` has returned once for each of the two semis, in either order, of a
tournament whose semis hold 4 real players each and have not ended and whose
final held placeholders only, both calls reported no error and the final holds
exactly 4 real players. -/
theorem semis_fill_final :
    (∀ (r : Rand) (t : Tournament) (j : Nat) (m : Match),
      t.getMatch (.semi j) = some m → m.Kind = "semi" → m.Players.length = 4 →
      t.Final.Players.length = 4 → t.Final.ActualPlayers ≤ 2 →
      ∃ p0 p1 p2 p3, SortByKills m.Players = [p0, p1, p2, p3] ∧
        [p0, p1, p2, p3].Perm m.Players ∧
        p1.Kills ≤ p0.Kills ∧ p2.Kills ≤ p1.Kills ∧ p3.Kills ≤ p2.Kills ∧
        ∀ r' t', t.MovePlayers r (.semi j) = .ok (r', t') →
          ∃ mid, Seats t.Final.names mid p0.Name ∧ Seats mid t'.Final.names p1.Name) ∧
    (∀ (r : Rand) (t : Tournament) (a b : Nat) (s0 s1 : Match) (n1 n1' n2 n2' : Nat)
      (r1 r2 : Rand) (t1 t2 : Tournament) (e1 e2 : Option String),
      t.Semis = [s0, s1] → ((a = 0 ∧ b = 1) ∨ (a = 1 ∧ b = 0)) →
      (∀ s ∈ [s0, s1], s.Kind = "semi" ∧ s.Ended = none ∧ s.Players.length = 4 ∧
        ∀ p ∈ s.Players, p.Name ≠ "") →
      t.Final.names = ["", "", "", ""] →
      t.End r (.semi a) n1 n1' = .ok (r1, t1, e1) →
      t1.End r1 (.semi b) n2 n2' = .ok (r2, t2, e2) →
      e1 = none ∧ e2 = none ∧ t2.Final.Players.length = 4 ∧ t2.Final.ActualPlayers = 4) := by
  have part1 : ∀ (r : Rand) (t : Tournament) (j : Nat) (m : Match),
      t.getMatch (.semi j) = some m → m.Kind = "semi" → m.Players.length = 4 →
      t.Final.Players.length = 4 → t.Final.ActualPlayers ≤ 2 →
      ∃ p0 p1 p2 p3, SortByKills m.Players = [p0, p1, p2, p3] ∧
        [p0, p1, p2, p3].Perm m.Players ∧
        p1.Kills ≤ p0.Kills ∧ p2.Kills ≤ p1.Kills ∧ p3.Kills ≤ p2.Kills ∧
        ∀ r' t', t.MovePlayers r (.semi j) = .ok (r', t') →
          ∃ mid, Seats t.Final.names mid p0.Name ∧ Seats mid t'.Final.names p1.Name := by
    intro r t j m hm hk hlen hf hact
    obtain ⟨p0, p1, p2, p3, hps, hperm, hsorted⟩ := sortByKills_four hlen
    refine ⟨p0, p1, p2, p3, hps, hperm, hsorted.1, hsorted.2.1, hsorted.2.2, ?_⟩
    intro r' t' h
    obtain ⟨t1, hrun, _, _, hfin, _⟩ := movePlayers_semi_inv hm hk h
    obtain ⟨ra, fa, ea, fb, eb, hadd0, hadd1, ht1⟩ := moveSemi_run hk hps hrun
    have hs0 := addPlayer_seats hadd0 hf (by omega)
    have hfa : fa.Players.length = 4 := addPlayer_four hadd0 hf
    have hfa2 : fa.ActualPlayers < 4 := by
      have := seats_real_le hs0
      rw [actualPlayers_eq] at hact ⊢
      unfold Match.realNames at hact ⊢
      omega
    refine ⟨fa.names, hs0, ?_⟩
    rw [hfin, ht1]
    exact addPlayer_seats hadd1 hfa hfa2
  refine ⟨part1, ?_⟩
  intro r t a b s0 s1 n1 n1' n2 n2' r1 r2 t1 t2 e1 e2 hs hab hsem hfin hE1 hE2
  -- the two semis, in the order in which they end
  obtain ⟨sa, sb, hga, hgb, hsa, hsb⟩ : ∃ sa sb, t.getMatch (.semi a) = some sa ∧
      t.Semis[b]? = some sb ∧ sa ∈ [s0, s1] ∧ sb ∈ [s0, s1] := by
    rcases hab with ⟨ha, hb⟩ | ⟨ha, hb⟩ <;> subst ha hb
    · exact ⟨s0, s1, by simp [Tournament.getMatch, hs], by simp [hs], by simp, by simp⟩
    · exact ⟨s1, s0, by simp [Tournament.getMatch, hs], by simp [hs], by simp, by simp⟩
  have hne : a ≠ b := by rcases hab with ⟨ha, hb⟩ | ⟨ha, hb⟩ <;> omega
  obtain ⟨hka, hea, hla, hra⟩ := hsem sa hsa
  obtain ⟨hkb, heb, hlb, hrb⟩ := hsem sb hsb
  have hf4 : t.Final.Players.length = 4 := by rw [← names_length, hfin]; rfl
  have hfact : t.Final.ActualPlayers = 0 := by
    rw [actualPlayers_eq]; unfold Match.realNames; rw [hfin]; rfl
  -- first End
  obtain ⟨he1, ma, hmk, _, hmn, _, _, _, hmove1⟩ :=
    end_inv hga hea (by rw [hka]; decide) hla hE1
  have hgma : (t.setMatch (.semi a) ma).getMatch (.semi a) = some ma := getMatch_setMatch ma hga
  have hmal : ma.Players.length = 4 := by rw [← names_length, hmn, names_length]; exact hla
  obtain ⟨p0, p1, p2, p3, hps, hperm, _, _, _, hseat1⟩ := part1 r (t.setMatch (.semi a) ma) a ma
    hgma (by rw [hmk]; exact hka) hmal hf4 (by rw [show (t.setMatch (.semi a) ma).Final = t.Final from rfl, hfact]; omega)
  obtain ⟨mid1, hs1, hs2⟩ := hseat1 r1 t1 hmove1
  have hreal_a : ∀ p ∈ [p0, p1, p2, p3], p.Name ≠ "" := by
    intro p hp
    have hp' : p.Name ∈ ma.names := List.mem_map_of_mem _ (hperm.mem_iff.1 hp)
    rw [hmn] at hp'
    obtain ⟨q, hq, hqn⟩ := List.mem_map.1 hp'
    rw [← hqn]; exact hra q hq
  have hfin1 : t1.Final.names = [p0.Name, p1.Name, "", ""] := by
    have h1 := seats_eq_seatName hs1
    have h2 := seats_eq_seatName hs2
    rw [show (t.setMatch (.semi a) ma).Final = t.Final from rfl, hfin] at h1
    rw [h2, h1]
    simp [seatName, hreal_a p0 (by simp)]
  -- the other semi is untouched by the first End
  obtain ⟨t1', hrun1, hsemis1, _⟩ := movePlayers_semi_inv hgma (by rw [hmk]; exact hka) hmove1
  obtain ⟨_, _, _, _, _, _, _, ht1'⟩ := moveSemi_run (by rw [hmk]; exact hka) hps hrun1
  have hgb1 : t1.getMatch (.semi b) = some sb := by
    simp only [Tournament.getMatch]
    rw [hsemis1, ht1']
    simp only [Tournament.setMatch]
    rw [List.getElem?_set_ne hne, List.getElem?_set_ne hne]
    exact hgb
  -- second End
  obtain ⟨he2, mb, hmkb, _, hmnb, _, _, _, hmove2⟩ :=
    end_inv hgb1 heb (by rw [hkb]; decide) hlb hE2
  have hgmb : (t1.setMatch (.semi b) mb).getMatch (.semi b) = some mb :=
    getMatch_setMatch mb hgb1
  have hmbl : mb.Players.length = 4 := by rw [← names_length, hmnb, names_length]; exact hlb
  have hf14 : t1.Final.Players.length = 4 := by rw [← names_length, hfin1]; rfl
  have hfact1 : t1.Final.ActualPlayers ≤ 2 := by
    rw [actualPlayers_eq]; unfold Match.realNames; rw [hfin1]
    simp only [List.filter_cons]
    split <;> split <;> simp
  obtain ⟨q0, q1, q2, q3, _, hpermb, _, _, _, hseat2⟩ := part1 r1 (t1.setMatch (.semi b) mb) b mb
    hgmb (by rw [hmkb]; exact hkb) hmbl hf14 hfact1
  obtain ⟨mid2, hs3, hs4⟩ := hseat2 r2 t2 hmove2
  have hreal_b : ∀ p ∈ [q0, q1, q2, q3], p.Name ≠ "" := by
    intro p hp
    have hp' : p.Name ∈ mb.names := List.mem_map_of_mem _ (hpermb.mem_iff.1 hp)
    rw [hmnb] at hp'
    obtain ⟨q, hq, hqn⟩ := List.mem_map.1 hp'
    rw [← hqn]; exact hrb q hq
  have hfin2 : t2.Final.names = [p0.Name, p1.Name, q0.Name, q1.Name] := by
    have h1 := seats_eq_seatName hs3
    have h2 := seats_eq_seatName hs4
    rw [show (t1.setMatch (.semi b) mb).Final = t1.Final from rfl, hfin1] at h1
    rw [h2, h1]
    simp [seatName, hreal_a p0 (by simp), hreal_a p1 (by simp), hreal_b q0 (by simp)]
  refine ⟨he1, he2, by rw [← names_length, hfin2]; rfl, ?_⟩
  rw [actualPlayers_eq]; unfold Match.realNames; rw [hfin2]
  simp [List.filter_cons, hreal_a p0 (by simp), hreal_a p1 (by simp), hreal_b q0 (by simp),
    hreal_b q1 (by simp)]

theorem set_filter_perm {α : Type} (f : α → Bool) :
    ∀ (l : List α) (k : Nat) (a b : α), l[k]? = some a → f a = false → f b = true →
      ((l.set k b).filter f).Perm (b :: l.filter f) := by
  intro l
  induction l with
  | nil => intro k a b h; simp at h
  | cons x xs ih =>
    intro k a b h ha hb
    cases k with
    | zero =>
      simp only [List.getElem?_cons_zero, Option.some.injEq] at h
      subst h
      simp [List.filter_cons, ha, hb]
    | succ k =>
      simp only [List.getElem?_cons_succ] at h
      have := ih k a b h ha hb
      simp only [List.set_cons_succ, List.filter_cons]
      split
      · exact (List.Perm.cons x this).trans (List.Perm.swap b x _)
      · exact this

theorem set_flatten_perm {α β : Type} (g : α → List β) :
    ∀ (l : List α) (k : Nat) (a b : α), l[k]? = some a → (g b).Perm (g a) →
      ((l.set k b).map g).flatten.Perm ((l.map g).flatten) := by
  intro l
  induction l with
  | nil => intro k a b h; simp at h
  | cons x xs ih =>
    intro k a b h hg
    cases k with
    | zero =>
      simp only [List.getElem?_cons_zero, Option.some.injEq] at h
      subst h
      simp only [List.set_cons_zero, List.map_cons, List.flatten_cons]
      exact List.Perm.append_right _ hg
    | succ k =>
      simp only [List.getElem?_cons_succ] at h
      simp only [List.set_cons_succ, List.map_cons, List.flatten_cons]
      exact List.Perm.append_left _ (ih k a b h hg)

theorem sublist_flatten {α : Type} {l1 l2 : List (List α)} (h : l1.Sublist l2) :
    l1.flatten.Sublist l2.flatten := by
  induction h with
  | slnil => simp
  | cons a _ ih =>
    simp only [List.flatten_cons]
    exact ih.trans (List.sublist_append_right _ _)
  | cons₂ a _ ih =>
    simp only [List.flatten_cons]
    exact List.Sublist.append_left ih a

theorem endedNames_sublist (ps : List (List String × String × Int × Bool)) :
    (endedNames ps).Sublist ((ps.map (fun pr => pr.1)).flatten) := by
  unfold endedNames
  exact sublist_flatten ((List.filter_sublist ps).map _)

theorem seatName_append_replicate (p : String) (a : List String) (n : Nat)
    (ha : ∀ x ∈ a, x ≠ "") (hn : 0 < n) :
    seatName p (a ++ List.replicate n "") = a ++ p :: List.replicate (n - 1) "" := by
  induction a with
  | nil =>
    obtain ⟨k, hk⟩ : ∃ k, n = k + 1 := ⟨n - 1, by omega⟩
    subst hk
    simp [List.replicate_succ, seatName]
  | cons x xs ih =>
    have hx : x ≠ "" := ha x (List.mem_cons_self _ _)
    have := ih (fun y hy => ha y (List.mem_cons_of_mem _ hy))
    simp only [List.cons_append, seatName, hx, if_false]
    rw [← this]
    rfl

theorem profile_of_sameFrame {m m' : Match} (h : Match.sameFrame m m') :
    m'.profile = m.profile := by
  obtain ⟨h1, h2, h3, _, h5⟩ := h
  simp [Match.profile, Match.IsEnded, h1, h2, h3, h5]

theorem view_setMatch {t : Tournament} {ref : MatchRef} {m m' : Match}
    (hm : t.getMatch ref = some m) (hp : m'.profile = m.profile) :
    (t.setMatch ref m').view = t.view := by
  have hn : m'.names = m.names := by
    have := congrArg Prod.fst hp
    simpa [Match.profile] using this
  cases ref with
  | tryout i =>
    simp only [Tournament.getMatch] at hm
    simp only [Tournament.view, Tournament.setMatch]
    rw [set_map_same Match.profile _ _ _ _ hm hp]
  | semi i =>
    simp only [Tournament.getMatch] at hm
    simp only [Tournament.view, Tournament.setMatch]
    rw [set_map_same Match.names _ _ _ _ hm hn]
  | final => rfl

theorem modPlayer_frame {m m' : Match} {i : Nat} {f : Player → Player}
    (hf : ∀ p, (f p).Name = p.Name) (h : m.modPlayer i f = .ok m') : Match.sameFrame m m' := by
  unfold Match.modPlayer at h
  split at h
  · simp at h
  · rename_i p hp
    simp at h
    rw [← h]
    refine ⟨?_, rfl, rfl, rfl, rfl⟩
    unfold Match.names
    simp only
    exact set_map_same Player.Name _ _ _ _ hp (hf p)

theorem sameFrame_trans {a b c : Match} (h1 : Match.sameFrame a b) (h2 : Match.sameFrame b c) :
    Match.sameFrame a c :=
  ⟨h2.1.trans h1.1, h2.2.1.trans h1.2.1, h2.2.2.1.trans h1.2.2.1,
    h2.2.2.2.1.trans h1.2.2.2.1, h2.2.2.2.2.trans h1.2.2.2.2⟩

theorem commitScore_frame {m m' : Match} {i : Nat} {score : List Int}
    (h : m.commitScore i score = .ok m') : Match.sameFrame m m' := by
  unfold Match.commitScore at h
  split at h
  · rename_i ups downs rest
    split at h
    · simp at h
    · rename_i m1 h1
      have e1 : Match.sameFrame m m1 := by
        split at h1
        · split at h1
          · simp at h1
          · rename_i m0 h0
            have e0 := modPlayer_frame (f := Player.AddSweep) (fun _ => rfl) h0
            split at h1
            · exact sameFrame_trans e0
                (modPlayer_frame (f := Player.RemoveShot)
                  (fun p => by unfold Player.RemoveShot; split <;> rfl) h1)
            · simp at h1; rw [← h1]; exact e0
        · split at h1
          · exact modPlayer_frame (f := fun p => p.AddKill [ups]) (fun _ => rfl) h1
          · simp at h1; rw [h1]; exact sameFrame_refl _
      split at h
      · exact sameFrame_trans e1 (modPlayer_frame (f := Player.AddSelf)
          (fun p => by unfold Player.AddSelf Player.RemoveKill; simp only; split <;> rfl) h)
      · simp at h; rw [← h]; exact e1
  · simp at h

theorem commitShot_frame {m m' : Match} {i : Nat} {shot : Bool}
    (h : m.commitShot i shot = .ok m') : Match.sameFrame m m' := by
  unfold Match.commitShot at h
  split at h
  · exact modPlayer_frame (f := Player.AddShot) (fun _ => rfl) h
  · simp at h; rw [h]; exact sameFrame_refl _

theorem match_commit_frame {m m' : Match} {scores : List (List Int)} {shots : List Bool}
    (h : m.Commit scores shots = .ok m') : Match.sameFrame m m' := by
  unfold Match.Commit at h
  split at h
  · simp at h
  · rename_i m1 h1
    have e1 : Match.sameFrame m m1 :=
      foldlM_inv (fun s => Match.sameFrame m s) _
        (fun _ _ _ hs h => sameFrame_trans hs (commitScore_frame h)) _ _ _ (sameFrame_refl m) h1
    exact foldlM_inv (fun s => Match.sameFrame m s) _
      (fun _ _ _ hs h => sameFrame_trans hs (commitShot_frame h)) _ _ _ e1 h

/-- `Commit` changes no name, kind, index or timestamp. -/
theorem commit_view {t t' : Tournament} {ref : MatchRef} {scores : List (List Int)}
    {shots : List Bool} (h : t.Commit ref scores shots = .ok t') : t'.view = t.view := by
  unfold Tournament.Commit at h
  split at h
  · simp at h
  · rename_i m hm
    split at h
    · simp at h
    · rename_i m1 h1
      simp at h
      rw [← h]
      exact view_setMatch hm (profile_of_sameFrame (match_commit_frame h1))

/-- `Start` on a match that holds 4 real players changes no name, kind, index or
end timestamp, and leaves the queue alone. -/
theorem start_view {r r' : Rand} {t t' : Tournament} {ref : MatchRef} {now : Nat} {m : Match}
    {e : Option String} (hm : t.getMatch ref = some m) (hact : m.ActualPlayers = 4)
    (h : t.Start r ref now = .ok (r', t', e)) : t'.view = t.view := by
  unfold Tournament.Start at h
  rw [hm] at h
  simp only at h
  split at h
  · simp at h; rw [← h.2.1]
  · simp only [hact, ne_eq, not_true_eq_false, if_false, hm] at h
    split at h
    · simp at h
    · rename_i r2 m2 h2
      simp at h
      rw [← h.2.1]
      apply view_setMatch hm
      have hf := correctColorConflicts_frame h2
      obtain ⟨h1, h3, h4, _, h5⟩ := hf
      have hn : (List.map Player.Name (List.map Player.Reset m2.Players)) = m.names := by
        rw [← h1]
        simp [Match.names, List.map_map, Function.comp, Player.Reset]
      simp [Match.profile, Match.names, Match.IsEnded, hn, h3, h4, h5]

/-- What `End` does, seen through the view, on a tryout that has not ended in a
bracket of 4 tryouts and two semis with room: the tryout is ended with its slots
sorted, the two finishers with the most kills take the first placeholder slots of
the two semis, and the queue is a permutation of the old queue with the two
advancing names erased and the two others added unless present. -/
theorem end_view {r r' : Rand} {t t' : Tournament} {k : Nat} {now now2 : Nat} {m s0 s1 : Match}
    {e : Option String} (hm : t.getMatch (.tryout k) = some m) (hk : m.Kind = "tryout")
    (hx : 0 ≤ m.Index) (hlen : m.Players.length = 4) (he : m.Ended = none)
    (hT : t.Tryouts.length = 4) (hs : t.Semis = [s0, s1])
    (h0 : s0.Players.length = 4 ∧ s0.ActualPlayers < 4)
    (h1 : s1.Players.length = 4 ∧ s1.ActualPlayers < 4)
    (h : t.End r (.tryout k) now now2 = .ok (r', t', e)) :
    ∃ n0 n1 n2 n3 : String, [n0, n1, n2, n3].Perm m.names ∧
      t'.Tryouts.map Match.profile =
        (t.Tryouts.map Match.profile).set k ([n0, n1, n2, n3], "tryout", m.Index, true) ∧
      (t'.Semis.map Match.names = [seatName n0 s0.names, seatName n1 s1.names] ∨
       t'.Semis.map Match.names = [seatName n1 s0.names, seatName n0 s1.names]) ∧
      t'.Runnerups.Perm
        (addAbsent (addAbsent ((t.Runnerups.erase n0).erase n1) n2) n3) := by
  obtain ⟨_, m1, hmk, hmi, hmn, _, hme, _, hmove⟩ :=
    end_inv hm he (by rw [hk]; decide) hlen h
  have hg1 : (t.setMatch (.tryout k) m1).getMatch (.tryout k) = some m1 :=
    getMatch_setMatch m1 hm
  have hk1 : m1.Kind = "tryout" := hmk.trans hk
  have hl1 : m1.Players.length = 4 := by rw [← names_length, hmn, names_length]; exact hlen
  obtain ⟨p0, p1, p2, p3, hps, hperm, _⟩ := sortByKills_four hl1
  obtain ⟨t1, hrun, hsemis, htry, _, hqperm, _⟩ := movePlayers_tryout_inv hg1 hk1 hmove
  obtain ⟨ra, sa, ea, hadd0, hcase⟩ := moveTryout_run hk1 hps (by rw [hmi]; exact hx)
    (show (t.setMatch (.tryout k) m1).Semis = [s0, s1] from hs) hrun
  have hT1 : (t.setMatch (.tryout k) m1).Tryouts.length = 4 := by
    simp [Tournament.setMatch, hT]
  rcases hcase with ⟨_, sb, eb, hadd1, ht1⟩ | ⟨hT4, _⟩
  swap
  · exact absurd hT1 hT4
  refine ⟨p0.Name, p1.Name, p2.Name, p3.Name, ?_, ?_, ?_, ?_⟩
  · rw [← hmn]
    exact hperm.map Player.Name
  · rw [htry, ht1]
    simp only [Tournament.setMatch, List.set_set, List.map_set]
    congr 1
    simp [Match.profile, Match.names, Match.IsEnded, Time.IsZero, hk1, hmi, hme]
  · rw [hsemis, ht1]
    simp only
    by_cases hev : m1.Index % 2 = 0
    · left
      simp only [hev, if_true] at hadd0 hadd1 ⊢
      simp only [List.map_cons, List.map_nil]
      rw [seats_eq_seatName (addPlayer_seats hadd0 h0.1 h0.2),
        seats_eq_seatName (addPlayer_seats hadd1 h1.1 h1.2)]
    · right
      simp only [hev, if_false] at hadd0 hadd1 ⊢
      simp only [List.map_cons, List.map_nil]
      rw [seats_eq_seatName (addPlayer_seats hadd0 h1.1 h1.2),
        seats_eq_seatName (addPlayer_seats hadd1 h0.1 h0.2)]
  · rw [ht1] at hqperm
    exact hqperm

theorem perm_seat_bookkeeping (a0 a1 q e : List String) (pa pb n0 n1 n2 n3 : String)
    (q' e' : List String)
    (hp : (pa = n0 ∧ pb = n1) ∨ (pa = n1 ∧ pb = n0))
    (hq : q'.Perm (q ++ [n2] ++ [n3])) (he : e'.Perm ([n0, n1, n2, n3] ++ e))
    (h : (a0 ++ a1 ++ q).Perm e) :
    ((a0 ++ [pa]) ++ (a1 ++ [pb]) ++ q').Perm e' := by
  refine List.Perm.trans ?_ he.symm
  refine (List.Perm.append_left _ hq).trans ?_
  rw [← Multiset.coe_eq_coe] at h ⊢
  simp only [← Multiset.coe_add] at h ⊢
  have e4 : (↑[n0, n1, n2, n3] : Multiset String) = ↑[n0] + ↑[n1] + ↑[n2] + ↑[n3] := by
    simp only [Multiset.coe_add]; rfl
  rw [e4, ← h]
  rcases hp with ⟨h1, h2⟩ | ⟨h1, h2⟩ <;> subst h1 h2 <;> abel

/-- The step of the bracket, on the view, when a tryout that has not ended ends. -/
theorem phase_step (roster : List String) (hR : roster.Nodup) (hne : ∀ n ∈ roster, n ≠ "")
    (P : List (List String × String × Int × Bool)) (S : List (List String)) (Q : List String)
    (hI : TryoutsPhase roster (P, S, Q)) (k : Nat) (N : List String) (x : Int)
    (hk : P[k]? = some (N, "tryout", x, false)) (n0 n1 n2 n3 : String)
    (hN : [n0, n1, n2, n3].Perm N) :
    ∃ x0 x1, S = [x0, x1] ∧ x0.length = 4 ∧ x1.length = 4 ∧
      (x0.filter (fun n => n ≠ "")).length < 4 ∧ (x1.filter (fun n => n ≠ "")).length < 4 ∧
      ∀ S' Q', (S' = [seatName n0 x0, seatName n1 x1] ∨ S' = [seatName n1 x0, seatName n0 x1]) →
        Q'.Perm (addAbsent (addAbsent ((Q.erase n0).erase n1) n2) n3) →
        TryoutsPhase roster (P.set k ([n0, n1, n2, n3], "tryout", x, true), S', Q') := by
  obtain ⟨hlen, hall, hperm, a0, a1, hS, hl0, hl1, hE⟩ := hI
  simp only at hlen hall hperm hS hl0 hl1 hE
  -- the tryouts after the step
  have hF := set_filter_perm (fun pr : List String × String × Int × Bool => pr.2.2.2) P k
    (N, "tryout", x, false) ([n0, n1, n2, n3], "tryout", x, true) hk rfl rfl
  have hFl : ((P.set k ([n0, n1, n2, n3], "tryout", x, true)).filter
      (fun pr => pr.2.2.2)).length = (P.filter (fun pr => pr.2.2.2)).length + 1 := by
    rw [hF.length_eq]; rfl
  have hc : (P.filter (fun pr => pr.2.2.2)).length < 4 := by
    have := List.length_filter_le (fun pr : List String × String × Int × Bool => pr.2.2.2)
      (P.set k ([n0, n1, n2, n3], "tryout", x, true))
    rw [hFl, List.length_set, hlen] at this
    omega
  have hall' := set_flatten_perm (fun pr : List String × String × Int × Bool => pr.1) P k
    (N, "tryout", x, false) ([n0, n1, n2, n3], "tryout", x, true) hk hN
  have hperm' := hall'.trans hperm
  have hE' : (endedNames (P.set k ([n0, n1, n2, n3], "tryout", x, true))).Perm
      ([n0, n1, n2, n3] ++ endedNames P) := by
    unfold endedNames
    exact (hF.map _).flatten
  have hnd' : ([n0, n1, n2, n3] ++ endedNames P).Nodup := by
    rw [← hE'.nodup_iff]
    exact ((endedNames_sublist _).nodup (hperm'.nodup_iff.2 hR))
  have hEreal : ∀ n ∈ endedNames P, n ≠ "" := fun n hn =>
    hne n (hperm.mem_iff.1 ((endedNames_sublist P).subset hn))
  have hdis : ∀ n ∈ [n0, n1, n2, n3], n ∉ endedNames P := by
    intro n hn hn'
    exact (List.nodup_append.1 hnd').2.2 hn hn'
  have hnd4 : [n0, n1, n2, n3].Nodup := (List.nodup_append.1 hnd').1
  have hQE : ∀ n ∈ Q, n ∈ endedNames P := fun n hn =>
    hE.mem_iff.1 (List.mem_append_right _ hn)
  have ha0 : ∀ n ∈ a0, n ≠ "" := fun n hn =>
    hEreal n (hE.mem_iff.1 (List.mem_append_left _ (List.mem_append_left _ hn)))
  have ha1 : ∀ n ∈ a1, n ≠ "" := fun n hn =>
    hEreal n (hE.mem_iff.1 (List.mem_append_left _ (List.mem_append_right _ hn)))
  have hnQ : ∀ n ∈ [n0, n1, n2, n3], n ∉ Q := fun n hn hq => hdis n hn (hQE n hq)
  have hQ' : addAbsent (addAbsent ((Q.erase n0).erase n1) n2) n3 = Q ++ [n2] ++ [n3] := by
    rw [List.erase_of_not_mem (hnQ n0 (by simp)), List.erase_of_not_mem (hnQ n1 (by simp))]
    have h23 : n3 ≠ n2 := by
      intro h
      simp only [List.nodup_cons, List.mem_cons, List.mem_singleton, not_or] at hnd4
      exact hnd4.2.2.1.1 h.symm
    unfold addAbsent
    rw [if_neg (hnQ n2 (by simp))]
    rw [if_neg (by
      intro h
      rcases List.mem_append.1 h with h | h
      · exact hnQ n3 (by simp) h
      · exact h23 (by simpa using h))]
  refine ⟨_, _, hS, ?_, ?_, ?_, ?_, ?_⟩
  · simp; omega
  · simp; omega
  · rw [filter_real_append_replicate _ _ ha0]; omega
  · rw [filter_real_append_replicate _ _ ha1]; omega
  intro S' Q' hS' hQperm
  rw [hQ'] at hQperm
  have hseat : ∀ (p : String) (a : List String), (∀ n ∈ a, n ≠ "") →
      seatName p (a ++ List.replicate (4 - (P.filter (fun pr => pr.2.2.2)).length) "") =
        (a ++ [p]) ++ List.replicate (4 - ((P.filter (fun pr => pr.2.2.2)).length + 1)) "" := by
    intro p a ha
    rw [seatName_append_replicate p a _ ha (by omega)]
    simp only [List.append_assoc, List.singleton_append]
    rfl
  have hkm : (N, "tryout", x, false) ∈ P := List.getElem?_mem hk
  refine ⟨by simp [hlen], ?_, hperm', ?_⟩
  · intro pr hpr
    rcases mem_set_cases hpr with h | h
    · exact hall pr h
    · rw [h]
      exact ⟨rfl, (hall _ hkm).2.1, rfl⟩
  · simp only
    rw [hFl]
    rcases hS' with h | h
    · refine ⟨a0 ++ [n0], a1 ++ [n1], ?_, by simp [hl0], by simp [hl1], ?_⟩
      · rw [h, hseat n0 a0 ha0, hseat n1 a1 ha1]
      · exact perm_seat_bookkeeping a0 a1 Q (endedNames P) n0 n1 n0 n1 n2 n3 Q' _
          (Or.inl ⟨rfl, rfl⟩) hQperm hE' hE
    · refine ⟨a0 ++ [n1], a1 ++ [n0], ?_, by simp [hl0], by simp [hl1], ?_⟩
      · rw [h, hseat n1 a0 ha0, hseat n0 a1 ha1]
      · exact perm_seat_bookkeeping a0 a1 Q (endedNames P) n1 n0 n0 n1 n2 n3 Q' _
          (Or.inr ⟨rfl, rfl⟩) hQperm hE' hE

theorem map_eq_pair {α β : Type} {f : α → β} {l : List α} {x y : β} (h : l.map f = [x, y]) :
    ∃ a b, l = [a, b] ∧ f a = x ∧ f b = y := by
  rcases l with _ | ⟨a, _ | ⟨b, _ | ⟨c, l⟩⟩⟩ <;> simp at h
  exact ⟨a, b, rfl, h.1, h.2⟩

theorem tryout_of_phase {roster : List String} (hne : ∀ n ∈ roster, n ≠ "") {t : Tournament}
    (hI : TryoutsPhase roster t.view) {k : Nat} {m : Match}
    (hm : t.getMatch (.tryout k) = some m) :
    m.Kind = "tryout" ∧ 0 ≤ m.Index ∧ m.Players.length = 4 ∧ m.ActualPlayers = 4 ∧
      (t.view.1)[k]? = some (m.names, "tryout", m.Index, m.IsEnded) := by
  obtain ⟨_, hall, hperm, _⟩ := hI
  simp only [Tournament.getMatch] at hm
  have hmem : m ∈ t.Tryouts := List.getElem?_mem hm
  have hp : m.profile ∈ t.view.1 := List.mem_map_of_mem _ hmem
  obtain ⟨h1, h2, h3⟩ := hall _ hp
  simp only [Match.profile] at h1 h2 h3
  have hl : m.Players.length = 4 := by rw [← names_length]; exact h3
  have hreal : ∀ n ∈ m.names, n ≠ "" := by
    intro n hn
    apply hne n
    apply hperm.mem_iff.1
    exact List.mem_flatten.2 ⟨m.names, List.mem_map.2 ⟨m.profile, hp, rfl⟩, hn⟩
  refine ⟨h1, h2, hl, ?_, ?_⟩
  · rw [actualPlayers_eq]
    unfold Match.realNames
    rw [List.filter_eq_self.2 (fun n hn => by simpa using hreal n hn)]
    exact h3
  · simp only [Tournament.view, List.getElem?_map, hm, Option.map_some', Match.profile, h1]

/-- One call keeps the bracket in its phase and ends no tryout twice; `End` on
tryout `k` leaves tryout `k` ended. -/
theorem event_step {roster : List String} (hR : roster.Nodup) (hne : ∀ n ∈ roster, n ≠ "")
    {st st' : Rand × Tournament} {ev : Event} (hI : TryoutsPhase roster st.2.view)
    (h : runEvent st ev = .ok st') :
    TryoutsPhase roster st'.2.view ∧
      (∀ j, endedAt st.2.view j → endedAt st'.2.view j) ∧
      (∀ k now now2, ev = .finish k now now2 → endedAt st'.2.view k) := by
  cases ev with
  | start k now =>
    simp only [runEvent] at h
    split at h
    · simp at h
    · rename_i r1 t1 e1 h1
      simp only [Except.ok.injEq] at h
      subst h
      cases hm : st.2.getMatch (.tryout k) with
      | none => simp [Tournament.Start, hm] at h1
      | some m =>
        have hv := start_view hm (tryout_of_phase hne hI hm).2.2.2.1 h1
        simp only
        rw [hv]
        exact ⟨hI, fun _ hj => hj, fun _ _ _ hc => by simp at hc⟩
  | commit ref scores shots =>
    simp only [runEvent] at h
    split at h
    · simp at h
    · rename_i t1 h1
      simp only [Except.ok.injEq] at h
      subst h
      simp only
      rw [commit_view h1]
      exact ⟨hI, fun _ hj => hj, fun _ _ _ hc => by simp at hc⟩
  | finish k now now2 =>
    simp only [runEvent] at h
    split at h
    · simp at h
    · rename_i r1 t1 e1 h1
      simp only [Except.ok.injEq] at h
      subst h
      simp only
      cases hm : st.2.getMatch (.tryout k) with
      | none => simp [Tournament.End, hm] at h1
      | some m =>
        obtain ⟨hk, hx, hlen, _, hpk⟩ := tryout_of_phase hne hI hm
        cases hE : m.Ended with
        | some x =>
          -- already ended: `End` returns its error and changes nothing
          have : st.2.End st.1 (.tryout k) now now2 =
              .ok (st.1, st.2, some "match already ended") := by
            simp [Tournament.End, hm, hE, Time.IsZero]
          rw [this] at h1
          simp only [Except.ok.injEq, Prod.mk.injEq] at h1
          rw [← h1.2.1]
          refine ⟨hI, fun _ hj => hj, ?_⟩
          intro k' _ _ hc
          simp only [Event.finish.injEq] at hc
          rw [← hc.1]
          exact ⟨_, hpk, by simp [Match.IsEnded, hE, Time.IsZero]⟩
        | none =>
          have hpk' : (st.2.view.1)[k]? = some (m.names, "tryout", m.Index, false) := by
            rw [hpk]; simp [Match.IsEnded, hE, Time.IsZero]
          obtain ⟨hT4, _⟩ := hI
          have hT : st.2.Tryouts.length = 4 := by simpa [Tournament.view] using hT4
          -- the semis, from the view
          obtain ⟨n0', n1', n2', n3', hperm0⟩ : ∃ n0 n1 n2 n3 : String,
              [n0, n1, n2, n3].Perm m.names := by
            have hl : m.names.length = 4 := by rw [names_length]; exact hlen
            rcases hq : m.names with _ | ⟨a, _ | ⟨b, _ | ⟨c, _ | ⟨d, _ | ⟨e, l⟩⟩⟩⟩⟩ <;>
              rw [hq] at hl <;> simp at hl
            exact ⟨a, b, c, d, List.Perm.refl _⟩
          obtain ⟨x0, x1, hS, hx0, hx1, hf0, hf1, _⟩ := phase_step roster hR hne _ _ _
            (show TryoutsPhase roster (st.2.view.1, st.2.view.2.1, st.2.view.2.2) from
              ⟨hT4, by assumption⟩) k m.names m.Index hpk' n0' n1' n2' n3' hperm0
          obtain ⟨s0, s1, hs, hs0, hs1⟩ := map_eq_pair
            (show st.2.Semis.map Match.names = [x0, x1] from hS)
          have h0 : s0.Players.length = 4 ∧ s0.ActualPlayers < 4 := by
            refine ⟨by rw [← names_length, hs0]; exact hx0, ?_⟩
            rw [actualPlayers_eq]; unfold Match.realNames; rw [hs0]; exact hf0
          have h1' : s1.Players.length = 4 ∧ s1.ActualPlayers < 4 := by
            refine ⟨by rw [← names_length, hs1]; exact hx1, ?_⟩
            rw [actualPlayers_eq]; unfold Match.realNames; rw [hs1]; exact hf1
          obtain ⟨n0, n1, n2, n3, hperm, hP', hS', hQ'⟩ :=
            end_view hm hk hx hlen hE hT hs h0 h1' h1
          obtain ⟨y0, y1, hS2, _, _, _, _, hstep⟩ := phase_step roster hR hne _ _ _
            (show TryoutsPhase roster (st.2.view.1, st.2.view.2.1, st.2.view.2.2) from
              ⟨hT4, by assumption⟩) k m.names m.Index hpk' n0 n1 n2 n3 hperm
          have hxy : x0 = y0 ∧ x1 = y1 := by
            have : [x0, x1] = [y0, y1] := hS.symm.trans hS2
            simpa using this
          rw [← hxy.1, ← hxy.2, ← hs0, ← hs1] at hstep
          have hnew := hstep (t1.Semis.map Match.names) t1.Runnerups hS' hQ'
          have hview : t1.view = ((st.2.view.1).set k ([n0, n1, n2, n3], "tryout", m.Index, true),
              t1.Semis.map Match.names, t1.Runnerups) := by
            simp only [Tournament.view, hP']
          rw [hview]
          refine ⟨hnew, ?_, ?_⟩
          · rintro j ⟨pr, hpr, hprE⟩
            by_cases hjk : k = j
            · subst hjk
              rw [hpk'] at hpr
              simp only [Option.some.injEq] at hpr
              rw [← hpr] at hprE
              simp at hprE
            · exact ⟨pr, by simp only [List.getElem?_set_ne hjk]; exact hpr, hprE⟩
          · intro k' _ _ hc
            simp only [Event.finish.injEq] at hc
            rw [← hc.1]
            obtain ⟨hlt, _⟩ := List.getElem?_eq_some.1 hpk'
            exact ⟨([n0, n1, n2, n3], "tryout", m.Index, true),
              List.getElem?_set_eq_of_lt _ hlt, rfl⟩

theorem events_run {roster : List String} (hR : roster.Nodup) (hne : ∀ n ∈ roster, n ≠ "")
    (es : List Event) :
    ∀ (st st' : Rand × Tournament), TryoutsPhase roster st.2.view →
      runEvents es st = .ok st' →
      TryoutsPhase roster st'.2.view ∧
        (∀ j, endedAt st.2.view j → endedAt st'.2.view j) ∧
        (∀ k now now2, Event.finish k now now2 ∈ es → endedAt st'.2.view k) := by
  induction es with
  | nil =>
    intro st st' hI h
    simp only [runEvents, List.foldlM_nil, pure, Except.pure, Except.ok.injEq] at h
    subst h
    exact ⟨hI, fun _ hj => hj, fun _ _ _ hc => by simp at hc⟩
  | cons ev es ih =>
    intro st st' hI h
    unfold runEvents at h
    rw [List.foldlM_cons] at h
    obtain ⟨s1, h1, h2⟩ := (bind_ok _ _ _).1 h
    obtain ⟨hI1, hmono1, hfin1⟩ := event_step hR hne hI h1
    obtain ⟨hI2, hmono2, hfin2⟩ := ih s1 st' hI1 h2
    refine ⟨hI2, fun j hj => hmono2 j (hmono1 j hj), ?_⟩
    intro k now now2 hmem
    rcases List.mem_cons.1 hmem with hc | hc
    · exact hmono2 k (hfin1 k now now2 hc.symm)
    · exact hfin2 k now now2 hc

/-- What a run of calls has done once it has returned.  For a tournament of 16
players with non-empty, pairwise distinct names, seeded into 4 tryouts (kind
tryout, index at least 0, 4 slots, not ended) that together seat exactly the
roster, with two semis of placeholders only and an empty runnerup queue: after any
run of calls of `Start` and `End` on tryouts and of `Commit` on any match, with
any arguments and in any order, that returned and in which `End` was called on
each of the four tryouts, each semi holds 4 slots with 4 real players, the 8 names
seated in the semis are pairwise distinct, the queue holds 8 names, and the semis
and the queue together hold exactly the roster names. -/
theorem tryouts_fill_semis_run (r : Rand) (t : Tournament) (es : List Event) (s0 s1 : Match)
    (r' : Rand) (t' : Tournament)
    (hT : t.Tryouts.length = 4)
    (hm : ∀ m ∈ t.Tryouts, m.Kind = "tryout" ∧ 0 ≤ m.Index ∧ m.Players.length = 4 ∧
      m.Ended = none)
    (h16 : t.Players.length = 16) (hnd : (t.Players.map Player.Name).Nodup)
    (hne : ∀ p ∈ t.Players, p.Name ≠ "")
    (hseed : ((t.Tryouts.map Match.names).flatten).Perm (t.Players.map Player.Name))
    (hS : t.Semis = [s0, s1]) (hs0 : s0.names = ["", "", "", ""])
    (hs1 : s1.names = ["", "", "", ""]) (hQ : t.Runnerups = [])
    (hes : ∀ k, k < 4 → ∃ now now2, Event.finish k now now2 ∈ es)
    (hrun : runEvents es (r, t) = .ok (r', t')) :
    ∃ s0' s1', t'.Semis = [s0', s1'] ∧
      s0'.Players.length = 4 ∧ s0'.ActualPlayers = 4 ∧
      s1'.Players.length = 4 ∧ s1'.ActualPlayers = 4 ∧
      (s0'.names ++ s1'.names).Nodup ∧ t'.Runnerups.length = 8 ∧
      (s0'.names ++ s1'.names ++ t'.Runnerups).Perm (t.Players.map Player.Name) := by
  have hne' : ∀ n ∈ t.Players.map Player.Name, n ≠ "" := by
    intro n hn
    obtain ⟨p, hp, hpn⟩ := List.mem_map.1 hn
    rw [← hpn]; exact hne p hp
  -- the bracket starts in its phase, no tryout ended
  have hfil : (t.Tryouts.map Match.profile).filter (fun pr => pr.2.2.2) = [] := by
    apply List.filter_eq_nil_iff.2
    intro pr hpr
    obtain ⟨m, hmm, hmp⟩ := List.mem_map.1 hpr
    rw [← hmp]
    simp [Match.profile, Match.IsEnded, (hm m hmm).2.2.2, Time.IsZero]
  have hI0 : TryoutsPhase (t.Players.map Player.Name) t.view := by
    refine ⟨by simp [Tournament.view, hT], ?_, ?_, [], [], ?_, ?_, ?_, ?_⟩
    · intro pr hpr
      obtain ⟨m, hmm, hmp⟩ := List.mem_map.1 hpr
      rw [← hmp]
      obtain ⟨h1, h2, h3, _⟩ := hm m hmm
      exact ⟨h1, h2, by simp [Match.profile, names_length, h3]⟩
    · simp only [Tournament.view, List.map_map]
      exact hseed
    · simp only [Tournament.view, hfil, hS, List.map_cons, List.map_nil, hs0, hs1]
      rfl
    · simp only [Tournament.view, hfil]; rfl
    · simp only [Tournament.view, hfil]; rfl
    · simp only [Tournament.view, endedNames, hfil, hQ]
      simp
  obtain ⟨hI, _, hfin⟩ := events_run hnd hne' es (r, t) (r', t') hI0 hrun
  -- at the end every tryout has ended
  obtain ⟨hlen, _, hperm, a0, a1, hSv, hl0, hl1, hE⟩ := hI
  simp only at hlen hperm hSv hl0 hl1 hE
  have hallE : ∀ pr ∈ t'.view.1, pr.2.2.2 = true := by
    intro pr hpr
    obtain ⟨k, hk⟩ := List.getElem?_of_mem hpr
    obtain ⟨hlt, _⟩ := List.getElem?_eq_some.1 hk
    obtain ⟨now, now2, hev⟩ := hes k (by omega)
    obtain ⟨pr', hpr', he'⟩ := hfin k now now2 hev
    rw [hk] at hpr'
    simp only [Option.some.injEq] at hpr'
    rw [hpr']; exact he'
  have hfilE : t'.view.1.filter (fun pr => pr.2.2.2) = t'.view.1 :=
    List.filter_eq_self.2 hallE
  rw [hfilE, hlen] at hSv hl0 hl1
  have hEall : (endedNames t'.view.1).Perm (t.Players.map Player.Name) := by
    unfold endedNames
    rw [hfilE]
    exact hperm
  have hall := hE.trans hEall
  obtain ⟨s0', s1', hs', hs0', hs1'⟩ := map_eq_pair
    (show t'.Semis.map Match.names = [a0 ++ List.replicate (4 - 4) "",
      a1 ++ List.replicate (4 - 4) ""] from hSv)
  simp only [Nat.sub_self, List.replicate_zero, List.append_nil] at hs0' hs1'
  have hndall : (a0 ++ a1 ++ t'.Runnerups).Nodup := hall.nodup_iff.2 hnd
  have hreal : ∀ n ∈ a0 ++ a1 ++ t'.Runnerups, n ≠ "" := fun n hn => hne' n (hall.mem_iff.1 hn)
  have hact : ∀ (s : Match) (a : List String), s.names = a → a.length = 4 →
      (∀ n ∈ a, n ≠ "") → s.Players.length = 4 ∧ s.ActualPlayers = 4 := by
    intro s a hsa hla hra
    refine ⟨by rw [← names_length, hsa]; exact hla, ?_⟩
    rw [actualPlayers_eq]
    unfold Match.realNames
    rw [hsa, List.filter_eq_self.2 (fun n hn => by simpa using hra n hn)]
    exact hla
  obtain ⟨h0a, h0b⟩ := hact s0' a0 hs0' hl0
    (fun n hn => hreal n (List.mem_append_left _ (List.mem_append_left _ hn)))
  obtain ⟨h1a, h1b⟩ := hact s1' a1 hs1' hl1
    (fun n hn => hreal n (List.mem_append_left _ (List.mem_append_right _ hn)))
  refine ⟨s0', s1', hs', h0a, h0b, h1a, h1b, ?_, ?_, ?_⟩
  · rw [hs0', hs1']
    exact (List.nodup_append.1 hndall).1
  · have hlen3 : a0.length + (a1.length + t'.Runnerups.length) = t.Players.length := by
      have := hall.length_eq
      simpa [Tournament.view] using this
    omega
  · rw [hs0', hs1']
    exact hall

theorem addShot_removeShot (p : Player) (h : 0 ≤ p.Shots) : p.AddShot.RemoveShot = p := by
  have h1 : p.Shots + 1 ≠ 0 := by omega
  cases p
  simp_all [Player.AddShot, Player.RemoveShot]

theorem addKill_removeKill (p : Player) (h : 0 ≤ p.Kills) : (p.AddKill []).RemoveKill = p := by
  have h1 : p.Kills + 1 ≠ 0 := by omega
  cases p
  simp_all [Player.AddKill, Player.RemoveKill]

theorem addKill_kills (p : Player) : (p.AddKill []).Kills = p.Kills + 1 := rfl

theorem addShot_shots (p : Player) : p.AddShot.Shots = p.Shots + 1 := rfl

/-- C15, amended: on a player with non-negative counters the pairs
`AddShot`/`RemoveShot`, `AddSweep`/`RemoveSweep`, `AddKill()`/`RemoveKill` and
`AddExplosion`/`RemoveExplosion` give back the player they started from; the
pair `AddSelf`/`RemoveSelf` does so when kills are at least 1, and with kills
at 0 it restores the other four counters and leaves kills at 1. -/
theorem C15_add_then_remove (p : Player) (h : p.NonNeg) :
    p.AddShot.RemoveShot = p ∧ p.AddSweep.RemoveSweep = p ∧ (p.AddKill []).RemoveKill = p ∧
    p.AddExplosion.RemoveExplosion = p ∧
    (1 ≤ p.Kills → p.AddSelf.RemoveSelf = p) ∧
    (p.Kills = 0 → p.AddSelf.RemoveSelf = { p with Kills := 1 }) := by
  obtain ⟨h1, h2, h3, h4, h5⟩ := h
  refine ⟨addShot_removeShot p h1, ?_, addKill_removeKill p h3, ?_, ?_, ?_⟩
  · have e1 : p.Sweeps + 1 ≠ 0 := by omega
    have e2 : p.Shots + 1 ≠ 0 := by omega
    have e3 : p.Kills + 1 + 1 + 1 ≠ 0 := by omega
    have e4 : p.Kills + 1 + 1 + 1 - 1 ≠ 0 := by omega
    have e5 : p.Kills + 1 + 1 + 1 - 1 - 1 ≠ 0 := by omega
    have e6 : p.Kills + 1 + 1 + 1 - 1 - 1 - 1 = p.Kills := by omega
    cases p
    simp_all [Player.AddSweep, Player.RemoveSweep, Player.AddShot, Player.RemoveShot,
      Player.AddKill, Player.RemoveKill]
  · have e1 : p.Explosions + 1 ≠ 0 := by omega
    have e2 : p.Shots + 1 ≠ 0 := by omega
    have e3 : p.Kills + 1 ≠ 0 := by omega
    cases p
    simp_all [Player.AddExplosion, Player.RemoveExplosion, Player.AddShot, Player.RemoveShot,
      Player.AddKill, Player.RemoveKill]
  · intro hk
    have e1 : p.Self + 1 ≠ 0 := by omega
    have e2 : p.Shots + 1 ≠ 0 := by omega
    have e3 : p.Kills ≠ 0 := by omega
    have e4 : p.Kills - 1 + 1 = p.Kills := by omega
    cases p
    simp_all [Player.AddSelf, Player.RemoveSelf, Player.AddShot, Player.RemoveShot,
      Player.AddKill, Player.RemoveKill]
  · intro hk
    have e1 : p.Self + 1 ≠ 0 := by omega
    have e2 : p.Shots + 1 ≠ 0 := by omega
    cases p
    simp_all [Player.AddSelf, Player.RemoveSelf, Player.AddShot, Player.RemoveShot,
      Player.AddKill, Player.RemoveKill]

/-- C15 fails for the pair `AddSelf`/`RemoveSelf` on the zero player: all counters
are 0 before the pair, and kills are 1 after it. -/
theorem C15_counterexample :
    Player.zero.NonNeg ∧ Player.zero.counters = (0, 0, 0, 0, 0) ∧
      Player.zero.AddSelf.RemoveSelf.counters = (0, 0, 1, 0, 0) := by
  refine ⟨?_, rfl, rfl⟩
  unfold Player.NonNeg Player.zero
  decide

/-- C15 at `midPlayer` (kills 4) and at the zero player (kills 0). -/
theorem C15_add_then_remove_witness :
    midPlayer.NonNeg ∧ midPlayer.AddSweep.RemoveSweep = midPlayer ∧
      midPlayer.AddSelf.RemoveSelf = midPlayer := by
  have h : midPlayer.NonNeg := by unfold Player.NonNeg midPlayer; decide
  obtain ⟨_, h2, _, _, h5, _⟩ := C15_add_then_remove midPlayer h
  exact ⟨h, h2, h5 (by unfold midPlayer; decide)⟩

/-- C13: `CanEnd` holds exactly when the match is started, not ended, and some
slot has kills at least the match length: 20 for kind final, 10 otherwise. -/
theorem C13_canEnd (m : Match) :
    (m.Length = if m.Kind = "final" then 20 else 10) ∧
    (m.CanEnd = true ↔
      (m.Started ≠ none ∧ m.Ended = none ∧ ∃ p ∈ m.Players, p.Kills ≥ m.Length)) := by
  refine ⟨rfl, ?_⟩
  unfold Match.CanEnd Match.IsOpen Match.IsStarted Match.IsEnded Time.IsZero
  cases hs : m.Started <;> cases he : m.Ended <;> simp

/-- C19: `StartTournament` returns no error exactly when the roster has between 8
and 32 players; with an error the tournament is unchanged; without one only the
start timestamp changes, to the clock reading. -/
theorem C19_startTournament (t : Tournament) (now : Nat) :
    ((t.StartTournament now).2 = none ↔ (8 ≤ t.Players.length ∧ t.Players.length ≤ 32)) ∧
    ((t.StartTournament now).2 ≠ none → (t.StartTournament now).1 = t) ∧
    ((t.StartTournament now).2 = none →
      (t.StartTournament now).1 = { t with Started := some now } ∧
      (t.StartTournament now).1.Players = t.Players ∧
      (t.StartTournament now).1.Tryouts = t.Tryouts ∧
      (t.StartTournament now).1.Semis = t.Semis ∧
      (t.StartTournament now).1.Final = t.Final ∧
      (t.StartTournament now).1.Runnerups = t.Runnerups) := by
  unfold Tournament.StartTournament
  by_cases h1 : t.Players.length < 8
  · simp [h1]
  · by_cases h2 : t.Players.length > 32
    · simp [h1, h2]
    · simp [h1, h2]
      omega

/-- C19 on `demoTournament`, whose roster has 16 players. -/
theorem C19_startTournament_witness :
    (demoTournament.StartTournament 5).2 = none ∧
      (demoTournament.StartTournament 5).1 = { demoTournament with Started := some 5 } :=
  ⟨rfl, ((C19_startTournament demoTournament 5).2.2 rfl).1⟩

/-- C11: `Start` on a match whose start timestamp is set, and `End` on a match
whose end timestamp is set, return an error and hand back the tournament (with
the match in it) and the random source exactly as they were. -/
theorem C11_start_end_guards (r : Rand) (t : Tournament) (ref : MatchRef) (m : Match)
    (now now2 : Nat) (hm : t.getMatch ref = some m) :
    (m.Started ≠ none → t.Start r ref now = .ok (r, t, some "match already started")) ∧
    (m.Ended ≠ none → t.End r ref now now2 = .ok (r, t, some "match already ended")) := by
  constructor
  · intro h
    obtain ⟨s, hs⟩ := Option.ne_none_iff_exists'.1 h
    unfold Tournament.Start
    simp [hm, hs, Time.IsZero]
  · intro h
    obtain ⟨s, hs⟩ := Option.ne_none_iff_exists'.1 h
    unfold Tournament.End
    simp [hm, hs, Time.IsZero]

/-- C11 on the final of `demoPlayed`, started at 3 and ended at 4. -/
theorem C11_start_end_guards_witness :
    demoPlayed.getMatch .final = some demoFinal ∧
    demoPlayed.Start (cycleDraws 1) .final 9 =
      .ok (cycleDraws 1, demoPlayed, some "match already started") ∧
    demoPlayed.End (cycleDraws 1) .final 9 10 =
      .ok (cycleDraws 1, demoPlayed, some "match already ended") :=
  ⟨rfl, (C11_start_end_guards (cycleDraws 1) demoPlayed .final demoFinal 9 10 rfl).1 (by decide),
    (C11_start_end_guards (cycleDraws 1) demoPlayed .final demoFinal 9 10 rfl).2 (by decide)⟩


/-- C12 on tryout 0 of `demoStarted`, a started, not ended match of a, b, c and d
with scores 6, 20, 14 and 2: `End` gives the bonus shot to a, the player of slot
0, and none to b, the only player of maximal score. -/
theorem C12_end_bonus_shot :
    (demoStarted.getMatch (.tryout 0)).map
      (fun m => (m.board, m.Started, m.Ended)) =
      some ([("a", 0, 6), ("b", 0, 20), ("c", 0, 14), ("d", 0, 2)], some 2, none) ∧
    (demoStarted.End (cycleDraws 16) (.tryout 0) 7 8).map
      (fun out => (out.2.2, (out.2.1.getMatch (.tryout 0)).map
        (fun m => (m.board, m.Ended)))) =
      .ok (none, some ([("b", 0, 20), ("c", 0, 14), ("a", 1, 9), ("d", 0, 2)], some 7)) := by
  constructor
  · rfl
  · rfl

/-- C14 on a 4-slot match with all counters 0 and the batch [3, 2], [0, 0], [0, 0],
[0, 0] with no shot flag set: `Commit` raises the shot counter of slot 0 by 2. -/
theorem C14_commit_two_shots :
    (mkTryout 0 ("a", 0) ("b", 0) ("c", 0) ("d", 0)).Players.map Player.Shots = [0, 0, 0, 0] ∧
    (Match.Commit (mkTryout 0 ("a", 0) ("b", 0) ("c", 0) ("d", 0))
      [[3, 2], [0, 0], [0, 0], [0, 0]] [false, false, false, false]).map
      (fun m => m.Players.map Player.Shots) = .ok [2, 0, 0, 0] := by
  constructor
  · rfl
  · rfl

theorem byRunnerup_asymm (a b : Player) (h : ByRunnerup.Less a b = true) :
    ByRunnerup.Less b a = false := by
  unfold ByRunnerup.Less at h ⊢
  by_cases e : a.Matches = b.Matches
  · rw [if_pos e, decide_eq_true_eq] at h
    rw [if_pos e.symm, decide_eq_false_iff_not]
    omega
  · rw [if_neg e, decide_eq_true_eq] at h
    rw [if_neg (fun x => e x.symm), decide_eq_false_iff_not]
    omega

theorem byRunnerup_order (a b : Player) :
    ByRunnerup.Less b a = false ↔ RunnerupOrder a b := by
  unfold ByRunnerup.Less RunnerupOrder
  by_cases e : b.Matches = a.Matches
  · rw [if_pos e, decide_eq_false_iff_not]
    constructor
    · intro h
      exact Or.inr ⟨e.symm, by omega⟩
    · rintro (h | ⟨_, h⟩) <;> omega
  · rw [if_neg e, decide_eq_false_iff_not]
    constructor
    · intro h
      exact Or.inl (by omega)
    · rintro (h | ⟨h, _⟩)
      · omega
      · exact absurd h.symm e

theorem byRunnerup_trans (a b c : Player) (h1 : ByRunnerup.Less b a = false)
    (h2 : ByRunnerup.Less c b = false) : ByRunnerup.Less c a = false := by
  rw [byRunnerup_order] at h1 h2 ⊢
  unfold RunnerupOrder at h1 h2 ⊢
  omega

theorem sortByRunnerup_sorted (ps : List Player) :
    (SortByRunnerup ps).Pairwise RunnerupOrder := by
  have h := sortSort_sorted ByRunnerup.Less byRunnerup_asymm byRunnerup_trans ps
  unfold SortedBy at h
  exact h.imp (fun {a b} hab => (byRunnerup_order a b).1 hab)

theorem lookup_loop_records (t : Tournament) (names : List String) :
    ∀ (acc ps : List Player), names.foldlM (lookupStep t) acc = .ok ps →
      (∀ p ∈ acc, t.getPlayer p.Name = some p) → ∀ p ∈ ps, t.getPlayer p.Name = some p := by
  induction names with
  | nil =>
    intro acc ps h hacc
    simp [pure, Except.pure] at h
    rw [← h]; exact hacc
  | cons n ns ih =>
    intro acc ps h hacc
    rw [List.foldlM_cons] at h
    obtain ⟨acc1, h1, h2⟩ := (bind_ok _ _ _).1 h
    unfold lookupStep at h1
    split at h1
    · simp at h1
    · rename_i l hl
      simp at h1
      have hname : l.Name = n := by
        unfold Tournament.getPlayer at hl
        have := List.find?_some hl
        simpa using this
      refine ih acc1 ps h2 ?_
      intro p hp
      rw [← h1] at hp
      rcases List.mem_append.1 hp with hp | hp
      · exact hacc p hp
      · have : p = l := by simpa using hp
        rw [this, hname]; exact hl

theorem getRunnerups_records {t t' : Tournament} {ps : List Player}
    (h : t.GetRunnerups = .ok (ps, t')) :
    (∀ p ∈ ps, t'.getPlayer p.Name = some p) ∧ ps.Pairwise RunnerupOrder := by
  unfold Tournament.GetRunnerups at h
  split at h
  · simp at h
  · rename_i t1 h1
    split at h
    · simp at h
    · rename_i p hp
      simp at h
      obtain ⟨h2, h3⟩ := h
      subst h2 h3
      refine ⟨?_, sortByRunnerup_sorted p⟩
      intro q hq
      have hq' : q ∈ p := (sortSort_perm _ p).mem_iff.1 hq
      exact lookup_loop_records t1 t1.Runnerups [] p hp (by simp) q hq'

/-- C18: on a tournament whose queued names and seated real players are all in
the roster, `GetRunnerups` returns a list whose names are a rearrangement of the
queue, each record being the roster record of its name after `UpdatePlayers`,
and in which every entry stands before every later one in the runnerup order:
fewer matches played, or as many and a score at least as high.  In particular
this holds for every two adjacent entries. -/
theorem C18_getRunnerups (t : Tournament) (hs : t.seatedInRoster) (hq : t.queuedInRoster) :
    ∃ ps t', t.GetRunnerups = .ok (ps, t') ∧
      (ps.map Player.Name).Perm t.Runnerups ∧ ps.length = t.Runnerups.length ∧
      (∀ p ∈ ps, t'.getPlayer p.Name = some p) ∧
      ps.Pairwise RunnerupOrder ∧ ps.Chain' RunnerupOrder := by
  obtain ⟨ps, t', h⟩ := getRunnerups_total hs hq
  obtain ⟨hperm, _, _⟩ := getRunnerups_spec h
  obtain ⟨hrec, hsorted⟩ := getRunnerups_records h
  refine ⟨ps, t', h, hperm, ?_, hrec, hsorted, List.Pairwise.chain' hsorted⟩
  simpa using hperm.length_eq

/-- C18 on `demoSemis` with the queue b, a, l, h: a and l have played one match,
b and h two. -/
theorem C18_getRunnerups_witness :
    ∃ ps t', ({ demoSemis with Runnerups := ["b", "a", "l", "h"] }).GetRunnerups = .ok (ps, t') ∧
      ps.map (fun p => (p.Name, p.Matches, p.Score)) =
        [("l", 1, 10), ("a", 1, 6), ("h", 2, 38), ("b", 2, 28)] ∧
      ps.Chain' RunnerupOrder := by
  obtain ⟨ps, t', h, _, _, _, _, hchain⟩ :=
    C18_getRunnerups { demoSemis with Runnerups := ["b", "a", "l", "h"] }
      (by unfold Tournament.seatedInRoster; decide)
      (by unfold Tournament.queuedInRoster; decide)
  refine ⟨ps, t', h, ?_, hchain⟩
  have h3 : (({ demoSemis with Runnerups := ["b", "a", "l", "h"] }).GetRunnerups).map
      (fun (o : List Player × Tournament) =>
        o.1.map (fun (p : Player) => (p.Name, p.Matches, p.Score))) =
      .ok [("l", 1, 10), ("a", 1, 6), ("h", 2, 38), ("b", 2, 28)] := by rfl
  rw [h] at h3
  simpa [Except.map] using h3

theorem newMatch_header {r r' : Rand} {index : Int} {kind : String} {m : Match}
    (h : NewMatch r index kind = .ok (r', m)) : m.header = (kind, index, none, none) := by
  unfold NewMatch at h
  rw [(prefill_spec h).2]
  rfl

theorem newTryouts_headers (first : Nat) (idx : List Nat) :
    ∀ (st st' : Rand × List Match), idx.foldlM (newTryoutStep first) st = .ok st' →
      st'.2.map Match.header =
        st.2.map Match.header ++ idx.map (fun i => tryoutHeader (i + first)) := by
  induction idx with
  | nil =>
    intro st st' h
    simp [pure, Except.pure] at h
    rw [← h]; simp
  | cons i is ih =>
    intro st st' h
    rw [List.foldlM_cons] at h
    obtain ⟨st1, h1, h2⟩ := (bind_ok _ _ _).1 h
    rw [ih st1 st' h2]
    unfold newTryoutStep at h1
    split at h1
    · simp at h1
    · rename_i r1 m hm
      simp at h1
      rw [← h1]
      simp [newMatch_header hm, tryoutHeader]

theorem newTournament_tryouts {r r' : Rand} {name id : String} {now : Nat} {t : Tournament}
    (h : NewTournament r name id now = .ok (r', t)) :
    t.Tryouts.map Match.header = (List.range 4).map tryoutHeader := by
  unfold NewTournament at h
  split at h
  · simp at h
  · rename_i r1 tryouts h1
    have hh := newTryouts_headers 0 (List.range 4) _ _ h1
    repeat' (split at h; · simp at h)
    simp at h
    rw [← h.2]
    simpa using hh

theorem growTryouts_headers {r r' : Rand} {t t' : Tournament}
    (h : t.growTryouts r = .ok (r', t')) :
    t'.Players = t.Players ∧
    t'.Tryouts.map Match.header = t.Tryouts.map Match.header ++
      (if t.Tryouts.length = 4 ∧ t.Players.length = 17 then
        (List.range 4).map (fun i => tryoutHeader (i + 4)) else []) := by
  unfold Tournament.growTryouts at h
  split at h
  · rename_i hc
    split at h
    · simp at h
    · rename_i r1 tryouts h1
      simp at h
      rw [← h.2]
      refine ⟨rfl, ?_⟩
      rw [if_pos hc]
      exact newTryouts_headers 4 (List.range 4) _ _ h1
  · rename_i hc
    simp at h
    rw [← h.2, if_neg hc]
    simp

theorem enrolled_headers (n : Nat) (t : Tournament) (h : Enrolled n t) :
    t.Players.length = n ∧ n ≤ 32 ∧
      t.Tryouts.map Match.header = (List.range (if n ≤ 16 then 4 else 8)).map tryoutHeader := by
  induction h with
  | new r name id now r' t h =>
    refine ⟨?_, by omega, ?_⟩
    · rw [newTournament_players h]; rfl
    · simpa using newTournament_tryouts h
  | add n r t name color r' t' _ h ih =>
    obtain ⟨hlen, hn, hhead⟩ := ih
    rcases tournament_addPlayer_inv h with ⟨_, he, _, _⟩ | ⟨hcan, _, r1, t1, hg, hsh⟩
    · simp at he
    · have hlt : t.Players.length < 32 := by
        unfold Tournament.CanJoin at hcan
        by_contra hge
        have : t.Players.length ≥ 32 := by omega
        simp [this] at hcan
      obtain ⟨hp1, hh1⟩ := growTryouts_headers hg
      obtain ⟨_, hperm, hh2, _⟩ := shufflePlayers_spec hsh
      have hl1 : t1.Players.length = n + 1 := by
        rw [hp1]; simp [hlen]
      have hlen4 : t.Tryouts.length = (if n ≤ 16 then 4 else 8) := by
        have := congrArg List.length hhead
        simpa using this
      have hh1' : t1.Tryouts.map Match.header = t.Tryouts.map Match.header ++
          (if t.Tryouts.length = 4 ∧ t.Players.length + 1 = 17 then
            (List.range 4).map (fun i => tryoutHeader (i + 4)) else []) := by
        simpa using hh1
      refine ⟨by rw [hperm.length_eq, hl1], by omega, ?_⟩
      rw [hh2, hh1', hhead, hlen4, hlen]
      by_cases h16 : n ≤ 16
      · by_cases h17 : n = 16
        · subst h17
          decide
        · have e2 : n + 1 ≤ 16 := by omega
          rw [if_pos h16, if_pos e2, if_neg (by omega)]
          simp
      · have e2 : ¬ n + 1 ≤ 16 := by omega
        rw [if_neg h16, if_neg e2, if_neg (by omega)]
        simp
  | refused n r t name color r' t' e _ h ih =>
    rcases tournament_addPlayer_inv h with ⟨_, _, ht, _⟩ | ⟨_, he, _⟩
    · rw [ht]; exact ih
    · simp at he

/-- C20: a tournament built from `NewTournament` by `n` successful calls of
`Tournament.AddPlayer` has a roster of `n` players, `n` is at most 32, it has 4
tryouts when `n ≤ 16` and 8 when `17 ≤ n`, the tryouts are of kind tryout and
carry the indices 0, 1, ... in order, and the roster is at most 4 times the
number of tryouts. -/
theorem C20_tryout_count (n : Nat) (t : Tournament) (h : Enrolled n t) :
    t.Players.length = n ∧ n ≤ 32 ∧
    t.Tryouts.length = (if n ≤ 16 then 4 else 8) ∧
    t.Tryouts.map Match.Index = (List.range t.Tryouts.length).map Int.ofNat ∧
    (∀ m ∈ t.Tryouts, m.Kind = "tryout") ∧
    t.Players.length ≤ 4 * t.Tryouts.length := by
  obtain ⟨hlen, hn, hhead⟩ := enrolled_headers n t h
  have hlen4 : t.Tryouts.length = (if n ≤ 16 then 4 else 8) := by
    have := congrArg List.length hhead
    simpa using this
  refine ⟨hlen, hn, hlen4, ?_, ?_, ?_⟩
  · have := congrArg (List.map (fun (x : String × Int × Time × Time) => x.2.1)) hhead
    rw [hlen4]
    simpa [Match.header, tryoutHeader, Function.comp_def] using this
  · intro m hm
    have hmem : m.header ∈ (List.range (if n ≤ 16 then 4 else 8)).map tryoutHeader := by
      rw [← hhead]; exact List.mem_map_of_mem _ hm
    obtain ⟨i, _, hi⟩ := List.mem_map.1 hmem
    have := congrArg Prod.fst hi
    simpa [Match.header, tryoutHeader] using this.symm
  · rw [hlen, hlen4]
    split <;> omega

theorem enrolAll_enrolled (names : List String) :
    ∀ (n : Nat) (st st' : Rand × Tournament), Enrolled n st.2 →
      enrolAll names st = some st' → Enrolled (n + names.length) st'.2 := by
  induction names with
  | nil =>
    intro n st st' hE h
    simp [enrolAll] at h
    rw [← h]; exact hE
  | cons name names ih =>
    intro n st st' hE h
    unfold enrolAll at h
    split at h
    · rename_i r t hadd
      have := ih (n + 1) (r, t) st' (Enrolled.add n _ _ _ _ _ _ hE hadd) h
      simpa [Nat.add_assoc, Nat.add_comm 1] using this
    · simp at h

/-- C20 on the tournament built by registering the seventeen names of `names17`:
its roster has 17 players and it has the 8 tryouts with the indices 0 to 7. -/
theorem C20_tryout_count_witness :
    ∃ r t r' t', NewTournament (cycleDraws 60) "demo" "demo" 1 = .ok (r, t) ∧
      enrolAll names17 (r, t) = some (r', t') ∧ Enrolled 17 t' ∧
      t'.Players.length = 17 ∧ t'.Tryouts.length = 8 ∧
      t'.Tryouts.map Match.Index = [0, 1, 2, 3, 4, 5, 6, 7] := by
  have hsome : ((NewTournament (cycleDraws 60) "demo" "demo" 1).toOption.bind
      (enrolAll names17)).isSome = true := by rfl
  obtain ⟨o2, h2⟩ := Option.isSome_iff_exists.1 hsome
  cases h1 : NewTournament (cycleDraws 60) "demo" "demo" 1 with
  | error f =>
    rw [h1] at h2
    simp [Except.toOption] at h2
  | ok o1 =>
    rw [h1] at h2
    obtain ⟨r, t⟩ := o1
    obtain ⟨r', t'⟩ := o2
    have h2' : enrolAll names17 (r, t) = some (r', t') := h2
    have hE : Enrolled 17 t' :=
      enrolAll_enrolled names17 0 (r, t) (r', t') (Enrolled.new _ _ _ _ _ _ h1) h2'
    obtain ⟨hp, _, hl, hi, _, _⟩ := C20_tryout_count 17 t' hE
    refine ⟨r, t, r', t', rfl, h2', hE, hp, hl, ?_⟩
    rw [hi, hl]
    rfl

theorem firstNotEnded_none (ms : List Match) :
    firstNotEnded ms = none ↔ ∀ m ∈ ms, m.IsEnded = true := by
  induction ms with
  | nil => simp [firstNotEnded]
  | cons m ms ih =>
    unfold firstNotEnded
    by_cases h : m.IsEnded = true
    · simp [h, ih]
    · simp [h]

theorem firstNotEnded_some (ms : List Match) :
    ∀ x, firstNotEnded ms = some x ↔
      ((∃ m, ms[x]? = some m ∧ m.IsEnded = false) ∧
        ∀ y m, y < x → ms[y]? = some m → m.IsEnded = true) := by
  induction ms with
  | nil => intro x; simp [firstNotEnded]
  | cons m ms ih =>
    intro x
    unfold firstNotEnded
    by_cases h : m.IsEnded = true
    · simp only [h, Bool.not_true, Bool.false_eq_true, if_false, Option.map_eq_some']
      constructor
      · rintro ⟨y, hy, rfl⟩
        obtain ⟨hex, hall⟩ := (ih y).1 hy
        refine ⟨by simpa using hex, ?_⟩
        intro z mz hz hmz
        cases z with
        | zero => simp at hmz; rw [← hmz]; exact h
        | succ z => exact hall z mz (by omega) (by simpa using hmz)
      · rintro ⟨⟨mx, hmx, hxe⟩, hall⟩
        cases x with
        | zero =>
          simp at hmx
          rw [hmx] at h
          rw [h] at hxe
          exact absurd hxe (by simp)
        | succ x =>
          refine ⟨x, (ih x).2 ⟨⟨mx, by simpa using hmx, hxe⟩, ?_⟩, rfl⟩
          intro y my hy hmy
          exact hall (y + 1) my (by omega) (by simpa using hmy)
    · have h' : m.IsEnded = false := by simpa using h
      simp only [h', Bool.not_false, if_true, Option.some.injEq]
      constructor
      · intro hx
        subst hx
        exact ⟨⟨m, by simp, h'⟩, fun y my hy => absurd hy (by omega)⟩
      · rintro ⟨_, hall⟩
        by_contra hne
        have := hall 0 m (by omega) (by simp)
        rw [this] at h'
        exact absurd h' (by simp)

/-- C21: `NextMatch` returns the first match that has not ended in the order
tryout 0, tryout 1, ..., semi 0, semi 1, ..., final: tryout `x` exactly when it
is the first tryout not ended; semi `x` exactly when every tryout has ended and
it is the first semi not ended; the final exactly when every tryout and every
semi has ended and the final has not.  It returns the error "all matches have
been played" exactly when every tryout, every semi and the final have ended,
and no other error. -/
theorem C21_nextMatch (t : Tournament) :
    (∀ x, t.NextMatch = (some (.tryout x), none) ↔
      ((∃ m, t.Tryouts[x]? = some m ∧ m.IsEnded = false) ∧
        ∀ y m, y < x → t.Tryouts[y]? = some m → m.IsEnded = true)) ∧
    (∀ x, t.NextMatch = (some (.semi x), none) ↔
      ((∀ m ∈ t.Tryouts, m.IsEnded = true) ∧
        (∃ m, t.Semis[x]? = some m ∧ m.IsEnded = false) ∧
        ∀ y m, y < x → t.Semis[y]? = some m → m.IsEnded = true)) ∧
    (t.NextMatch = (some .final, none) ↔
      ((∀ m ∈ t.Tryouts, m.IsEnded = true) ∧ (∀ m ∈ t.Semis, m.IsEnded = true) ∧
        t.Final.IsEnded = false)) ∧
    (t.NextMatch.2 = some "all matches have been played" ↔
      ((∀ m ∈ t.Tryouts, m.IsEnded = true) ∧ (∀ m ∈ t.Semis, m.IsEnded = true) ∧
        t.Final.IsEnded = true)) ∧
    (t.NextMatch.2 = none ∨ t.NextMatch.2 = some "all matches have been played") := by
  unfold Tournament.NextMatch
  cases h1 : firstNotEnded t.Tryouts with
  | some a =>
    have ha := (firstNotEnded_some t.Tryouts a).1 h1
    have hnot : ¬ ∀ m ∈ t.Tryouts, m.IsEnded = true := by
      intro hall
      rw [(firstNotEnded_none t.Tryouts).2 hall] at h1
      simp at h1
    refine ⟨?_, ?_, ?_, ?_, Or.inl rfl⟩
    · intro x
      rw [← firstNotEnded_some t.Tryouts x, h1]
      simp
    · intro x
      simp [hnot]
    · simp [hnot]
    · simp [hnot]
  | none =>
    have hT := (firstNotEnded_none t.Tryouts).1 h1
    cases h2 : firstNotEnded t.Semis with
    | some a =>
      have hnot : ¬ ∀ m ∈ t.Semis, m.IsEnded = true := by
        intro hall
        rw [(firstNotEnded_none t.Semis).2 hall] at h2
        simp at h2
      refine ⟨?_, ?_, ?_, ?_, Or.inl rfl⟩
      · intro x
        rw [← firstNotEnded_some t.Tryouts x, h1]
        simp
      · intro x
        rw [← firstNotEnded_some t.Semis x, h2]
        simp
        intro _
        exact hT
      · simp [hnot]
      · simp [hnot]
    | none =>
      have hS := (firstNotEnded_none t.Semis).1 h2
      by_cases hF : t.Final.IsEnded = true
      · simp only [hF, Bool.not_true, Bool.false_eq_true, if_false]
        refine ⟨?_, ?_, ?_, ?_, Or.inr (by simp)⟩
        · intro x
          rw [← firstNotEnded_some t.Tryouts x, h1]
          simp
        · intro x
          rw [← firstNotEnded_some t.Semis x, h2]
          simp
        · simp
        · simp
          exact ⟨hT, hS⟩
      · have hF' : t.Final.IsEnded = false := by simpa using hF
        simp only [hF', Bool.not_false, if_true]
        refine ⟨?_, ?_, ?_, ?_, Or.inl (by simp)⟩
        · intro x
          rw [← firstNotEnded_some t.Tryouts x, h1]
          simp
        · intro x
          rw [← firstNotEnded_some t.Semis x, h2]
          simp
        · simp
          exact ⟨hT, hS⟩
        · simp

theorem foldSeated_append (a b : List Player) (ro : List Player) :
    foldSeated ro (a ++ b) = (foldSeated ro a >>= fun ro1 => foldSeated ro1 b) := by
  unfold foldSeated
  rw [List.foldlM_append]

theorem foldMatches_flatten (ms : List Match) :
    ∀ (ro : List Player), ms.foldlM (fun ro (m : Match) => foldSeated ro m.Players) ro =
      foldSeated ro (ms.map Match.Players).flatten := by
  induction ms with
  | nil => intro ro; rfl
  | cons m ms ih =>
    intro ro
    rw [List.foldlM_cons, List.map_cons, List.flatten_cons, foldSeated_append]
    congr 1
    funext ro1
    exact ih ro1

theorem updatePlayers_flat {t t' : Tournament} (h : t.UpdatePlayers = .ok t') :
    foldSeated (t.Players.map Player.Reset) (t.matchList.map Match.Players).flatten =
      .ok t'.Players ∧ t' = { t with Players := t'.Players } := by
  unfold Tournament.UpdatePlayers at h
  rw [foldMatches_flatten] at h
  split at h
  · simp at h
  · rename_i ro1 h1
    rw [foldMatches_flatten] at h
    split at h
    · simp at h
    · rename_i ro2 h2
      split at h
      · simp at h
      · rename_i ro3 h3
        simp at h
        subst h
        refine ⟨?_, rfl⟩
        unfold Tournament.matchList
        rw [List.map_append, List.map_append, List.flatten_append, List.flatten_append,
          foldSeated_append, foldSeated_append, h1]
        show (foldSeated ro1 _ >>= _) = _
        rw [h2]
        simpa using h3

theorem update_name' (q p : Player) : (q.Update p).Name = q.Name := rfl

theorem applyRecs_cons (p : Player) :
    ∀ (ro ro1 : List Player) (recs : List Player),
      updateFirst p.Name (fun q => q.Update p) ro = some ro1 →
      applyRecs (p :: recs) ro = applyRecs recs ro1 := by
  intro ro
  induction ro with
  | nil => intro ro1 recs h; simp [updateFirst] at h
  | cons q qs ih =>
    intro ro1 recs h
    unfold updateFirst at h
    by_cases hq : q.Name = p.Name
    · rw [if_pos hq] at h
      simp at h
      subst h
      simp [applyRecs, hq, update_name', List.filter_cons]
    · rw [if_neg hq] at h
      cases h2 : updateFirst p.Name (fun q => q.Update p) qs with
      | none => rw [h2] at h; simp at h
      | some qs1 =>
        rw [h2] at h
        simp at h
        subst h
        have hq' : ¬ p.Name = q.Name := fun e => hq e.symm
        simp only [applyRecs, List.filter_cons, hq', decide_False, Bool.false_eq_true, if_false,
          Bool.not_false, if_true]
        rw [ih qs1 _ h2]

theorem applyRecs_nil : ∀ (ro : List Player), applyRecs [] ro = ro := by
  intro ro
  induction ro with
  | nil => rfl
  | cons q qs ih => simp [applyRecs, ih]

theorem foldSeated_applyRecs (seated : List Player) :
    ∀ (ro ro' : List Player), foldSeated ro seated = .ok ro' →
      ro' = applyRecs (seated.filter (fun p => !p.IsPrefill)) ro := by
  induction seated with
  | nil =>
    intro ro ro' h
    simp [foldSeated, pure, Except.pure] at h
    subst h
    simp [applyRecs_nil]
  | cons p ps ih =>
    intro ro ro' h
    unfold foldSeated at h
    rw [List.foldlM_cons] at h
    obtain ⟨ro1, h1, h2⟩ := (bind_ok _ _ _).1 h
    have := ih ro1 ro' h2
    unfold seatedStep at h1
    split at h1
    · rename_i hp
      simp at h1
      subst h1
      simp [List.filter_cons, hp, this]
    · rename_i hp
      split at h1
      · simp at h1
      · rename_i ro2 hu
        simp at h1
        subst h1
        simp only [List.filter_cons, hp, Bool.not_false, if_true]
        rw [applyRecs_cons p ro ro2 _ hu]
        exact this

/-- What `UpdatePlayers` computes: the roster, reset, with every seated record
folded into the first roster entry of its name. -/
theorem updatePlayers_closed {t t' : Tournament} (h : t.UpdatePlayers = .ok t') :
    t' = { t with Players := applyRecs t.seatedRecords (t.Players.map Player.Reset) } := by
  obtain ⟨h1, h2⟩ := updatePlayers_flat h
  rw [h2, foldSeated_applyRecs _ _ _ h1]
  rfl

theorem tally_fields (rs : List Player) :
    ∀ (q : Player), (rs.foldl Player.Update q).Name = q.Name ∧
      (rs.foldl Player.Update q).PreferredColor = q.PreferredColor ∧
      (rs.foldl Player.Update q).Shots = q.Shots + (rs.map Player.Shots).sum ∧
      (rs.foldl Player.Update q).Sweeps = q.Sweeps + (rs.map Player.Sweeps).sum ∧
      (rs.foldl Player.Update q).Kills = q.Kills + (rs.map Player.Kills).sum ∧
      (rs.foldl Player.Update q).Self = q.Self + (rs.map Player.Self).sum ∧
      (rs.foldl Player.Update q).Explosions = q.Explosions + (rs.map Player.Explosions).sum ∧
      (rs.foldl Player.Update q).Matches = q.Matches + rs.length ∧
      (rs = [] → (rs.foldl Player.Update q).TotalScore = q.TotalScore) ∧
      (rs ≠ [] → (rs.foldl Player.Update q).TotalScore = (rs.foldl Player.Update q).Score) := by
  induction rs with
  | nil => intro q; simp
  | cons r rs ih =>
    intro q
    obtain ⟨h1, h2, h3, h4, h5, h6, h7, h8, h9, h10⟩ := ih (q.Update r)
    simp only [List.foldl_cons, List.map_cons, List.sum_cons, List.length_cons]
    refine ⟨h1, h2, ?_, ?_, ?_, ?_, ?_, ?_, by simp, ?_⟩
    · rw [h3]; show q.Shots + r.Shots + _ = _; omega
    · rw [h4]; show q.Sweeps + r.Sweeps + _ = _; omega
    · rw [h5]; show q.Kills + r.Kills + _ = _; omega
    · rw [h6]; show q.Self + r.Self + _ = _; omega
    · rw [h7]; show q.Explosions + r.Explosions + _ = _; omega
    · rw [h8]; show q.Matches + 1 + _ = _; push_cast; omega
    · intro _
      by_cases hrs : rs = []
      · subst hrs
        rfl
      · exact h10 hrs

theorem player_ext {a b : Player} (h1 : a.Name = b.Name)
    (h2 : a.PreferredColor = b.PreferredColor) (h3 : a.Shots = b.Shots)
    (h4 : a.Sweeps = b.Sweeps) (h5 : a.Kills = b.Kills) (h6 : a.Self = b.Self)
    (h7 : a.Explosions = b.Explosions) (h8 : a.Matches = b.Matches)
    (h9 : a.TotalScore = b.TotalScore) : a = b := by
  cases a; cases b; simp_all

theorem tally_reset (rs : List Player) (q : Player) :
    rs.foldl Player.Update (rs.foldl Player.Update q).Reset = rs.foldl Player.Update q.Reset := by
  obtain ⟨a1, a2, a3, a4, a5, a6, a7, a8, a9, a10⟩ := tally_fields rs (rs.foldl Player.Update q).Reset
  obtain ⟨b1, b2, b3, b4, b5, b6, b7, b8, b9, b10⟩ := tally_fields rs q.Reset
  obtain ⟨c1, c2, _, _, _, _, _, _, c9, _⟩ := tally_fields rs q
  have e3 : (rs.foldl Player.Update (rs.foldl Player.Update q).Reset).Shots =
      (rs.foldl Player.Update q.Reset).Shots := by rw [a3, b3]; rfl
  have e4 : (rs.foldl Player.Update (rs.foldl Player.Update q).Reset).Sweeps =
      (rs.foldl Player.Update q.Reset).Sweeps := by rw [a4, b4]; rfl
  have e5 : (rs.foldl Player.Update (rs.foldl Player.Update q).Reset).Kills =
      (rs.foldl Player.Update q.Reset).Kills := by rw [a5, b5]; rfl
  have e6 : (rs.foldl Player.Update (rs.foldl Player.Update q).Reset).Self =
      (rs.foldl Player.Update q.Reset).Self := by rw [a6, b6]; rfl
  have e7 : (rs.foldl Player.Update (rs.foldl Player.Update q).Reset).Explosions =
      (rs.foldl Player.Update q.Reset).Explosions := by rw [a7, b7]; rfl
  refine player_ext ?_ ?_ e3 e4 e5 e6 e7 ?_ ?_
  · rw [a1, b1]; exact c1
  · rw [a2, b2]; exact c2
  · rw [a8, b8]; rfl
  · by_cases hrs : rs = []
    · rw [a9 hrs, b9 hrs]
      exact c9 hrs
    · rw [a10 hrs, b10 hrs]
      unfold Player.Score
      rw [e3, e4, e5, e6, e7]

theorem applyRecs_idem :
    ∀ (ro recs : List Player),
      applyRecs recs ((applyRecs recs ro).map Player.Reset) = applyRecs recs (ro.map Player.Reset) := by
  intro ro
  induction ro with
  | nil => intro recs; rfl
  | cons q qs ih =>
    intro recs
    have hn : (List.foldl Player.Update q
        (recs.filter (fun p => decide (p.Name = q.Name)))).Reset.Name = q.Name :=
      (tally_fields _ q).1
    have hn2 : q.Reset.Name = q.Name := rfl
    simp only [applyRecs, List.map_cons, hn, hn2]
    rw [tally_reset, ih]

theorem applyRecs_names : ∀ (ro recs : List Player),
    (applyRecs recs ro).map Player.Name = ro.map Player.Name := by
  intro ro
  induction ro with
  | nil => intro recs; rfl
  | cons q qs ih =>
    intro recs
    simp only [applyRecs, List.map_cons, ih]
    rw [(tally_fields _ q).1]

theorem applyRecs_get : ∀ (ro recs : List Player) (k : Nat) (q' : Player),
    (applyRecs recs ro)[k]? = some q' →
    ∃ q, ro[k]? = some q ∧
      (q.Name ∉ (ro.take k).map Player.Name →
        q' = (recs.filter (fun p => decide (p.Name = q.Name))).foldl Player.Update q) ∧
      (q.Name ∈ (ro.take k).map Player.Name → q' = q) := by
  intro ro
  induction ro with
  | nil => intro recs k q' h; simp [applyRecs] at h
  | cons q0 qs ih =>
    intro recs k q' h
    cases k with
    | zero =>
      simp [applyRecs] at h
      exact ⟨q0, by simp, fun _ => h.symm, by simp⟩
    | succ k =>
      simp only [applyRecs, List.getElem?_cons_succ] at h
      obtain ⟨q, hq, hfirst, hlater⟩ := ih _ k q' h
      refine ⟨q, by simpa using hq, ?_, ?_⟩
      · intro hnot
        simp only [List.take_succ_cons, List.map_cons, List.mem_cons, not_or] at hnot
        rw [hfirst hnot.2, List.filter_filter]
        congr 1
        apply List.filter_congr
        intro p _
        by_cases e : p.Name = q.Name
        · simp [e, hnot.1]
        · simp [e]
      · intro hin
        simp only [List.take_succ_cons, List.map_cons, List.mem_cons] at hin
        by_cases hk : q.Name ∈ (qs.take k).map Player.Name
        · exact hlater hk
        · have e : q.Name = q0.Name := by tauto
          rw [hfirst hk]
          have : (recs.filter (fun p => !decide (p.Name = q0.Name))).filter
              (fun p => decide (p.Name = q.Name)) = [] := by
            rw [List.filter_filter, List.filter_eq_nil_iff]
            intro p _
            simp [e]
          rw [this]
          rfl

theorem records_count (n : String) (L : List Player) :
    ((L.filter (fun p => !p.IsPrefill)).filter (fun p => decide (p.Name = n))).length =
      ((L.map Player.Name).filter (fun x => x ≠ "")).count n := by
  induction L with
  | nil => rfl
  | cons p ps ih =>
    by_cases hp : p.Name = ""
    · have h1 : p.IsPrefill = true := by simp [Player.IsPrefill, hp]
      have e1 : (p :: ps).filter (fun p => !p.IsPrefill) = ps.filter (fun p => !p.IsPrefill) := by
        simp [List.filter_cons, h1]
      have e2 : ((p :: ps).map Player.Name).filter (fun x => x ≠ "") =
          (ps.map Player.Name).filter (fun x => x ≠ "") := by
        simp [List.filter_cons, hp]
      rw [e1, e2, ih]
    · have h1 : p.IsPrefill = false := by simp [Player.IsPrefill, hp]
      have e1 : (p :: ps).filter (fun p => !p.IsPrefill) =
          p :: ps.filter (fun p => !p.IsPrefill) := by
        simp [List.filter_cons, h1]
      have e2 : ((p :: ps).map Player.Name).filter (fun x => x ≠ "") =
          p.Name :: (ps.map Player.Name).filter (fun x => x ≠ "") := by
        simp [List.filter_cons, hp]
      rw [e1, e2, List.count_cons, ← ih]
      by_cases hn : p.Name = n
      · simp [List.filter_cons, hn]
      · simp [List.filter_cons, hn]

theorem records_matches (n : String) (ms : List Match)
    (hnd : ∀ m ∈ ms, m.realNames.Nodup) :
    ((((ms.map Match.Players).flatten).filter (fun p => !p.IsPrefill)).filter
      (fun p => decide (p.Name = n))).length =
      (ms.filter (fun m => decide (n ∈ m.realNames))).length := by
  induction ms with
  | nil => rfl
  | cons m ms ih =>
    have ih' := ih (fun x hx => hnd x (List.mem_cons_of_mem _ hx))
    have hm := hnd m (List.mem_cons_self _ _)
    rw [List.map_cons, List.flatten_cons, List.filter_append, List.filter_append,
      List.length_append, ih', records_count]
    have hr : (m.Players.map Player.Name).filter (fun x => x ≠ "") = m.realNames := rfl
    rw [hr]
    by_cases hin : n ∈ m.realNames
    · rw [List.count_eq_one_of_mem hm hin]
      simp [List.filter_cons, hin]
      omega
    · rw [List.count_eq_zero_of_not_mem hin]
      simp [List.filter_cons, hin]

theorem seatedInRoster_of_closed {t t' : Tournament} (hs : t.seatedInRoster)
    (h : t.UpdatePlayers = .ok t') : t'.seatedInRoster := by
  have hc := updatePlayers_closed h
  have hn := updatePlayers_names h
  unfold Tournament.seatedInRoster at hs ⊢
  rw [hn]
  rw [hc]
  exact hs

/-- C24, amended: on a tournament whose seated real players are all in the roster
`UpdatePlayers` returns and keeps the names of the roster in order; the first
roster entry of each name then holds, in shots, sweeps, kills, self and
explosions, the sums of those counters over all the slot records of that name in
all tryouts, semis and the final, ended or not, and in matches-played the number
of those records, which is the number of matches seating the name when no match
seats a name twice. -/
theorem C24_updatePlayers (t : Tournament) (hs : t.seatedInRoster) :
    ∃ t', t.UpdatePlayers = .ok t' ∧ t'.Players.map Player.Name = t.Players.map Player.Name ∧
      ∀ (k : Nat) (q : Player), t'.Players[k]? = some q →
        q.Name ∉ (t.Players.take k).map Player.Name →
        q.Shots = ((t.recordsOf q.Name).map Player.Shots).sum ∧
        q.Sweeps = ((t.recordsOf q.Name).map Player.Sweeps).sum ∧
        q.Kills = ((t.recordsOf q.Name).map Player.Kills).sum ∧
        q.Self = ((t.recordsOf q.Name).map Player.Self).sum ∧
        q.Explosions = ((t.recordsOf q.Name).map Player.Explosions).sum ∧
        q.Matches = (t.recordsOf q.Name).length ∧
        ((∀ m ∈ t.matchList, m.realNames.Nodup) →
          q.Matches = (t.matchList.filter (fun m => decide (q.Name ∈ m.realNames))).length) := by
  obtain ⟨t', h⟩ := updatePlayers_total hs
  have hc := updatePlayers_closed h
  refine ⟨t', h, updatePlayers_names h, ?_⟩
  intro k q hk hfirst
  have hk' : (applyRecs t.seatedRecords (t.Players.map Player.Reset))[k]? = some q := by
    rw [hc] at hk; exact hk
  obtain ⟨q0, hq0, hf, _⟩ := applyRecs_get _ _ k q hk'
  have hname0 : ∃ p, t.Players[k]? = some p ∧ q0 = p.Reset := by
    rw [List.getElem?_map] at hq0
    cases hp : t.Players[k]? with
    | none => rw [hp] at hq0; simp at hq0
    | some p => rw [hp] at hq0; simp at hq0; exact ⟨p, rfl, hq0.symm⟩
  obtain ⟨p, _, hp⟩ := hname0
  have hnot : q0.Name ∉ ((t.Players.map Player.Reset).take k).map Player.Name := by
    have e : ((t.Players.map Player.Reset).take k).map Player.Name =
        (t.Players.take k).map Player.Name := by
      rw [← List.map_take, List.map_map]
      rfl
    rw [e]
    have hqn : q.Name = q0.Name := by
      have := congrArg (fun (l : List String) => l[k]?)
        (applyRecs_names (t.Players.map Player.Reset) t.seatedRecords)
      simp only [List.getElem?_map, hk', hq0, Option.map_some'] at this
      exact Option.some.inj this
    rw [← hqn]
    exact hfirst
  have hq := hf hnot
  obtain ⟨f1, _, f3, f4, f5, f6, f7, f8, _, _⟩ :=
    tally_fields (t.seatedRecords.filter (fun p => decide (p.Name = q0.Name))) q0
  rw [← hq] at f1 f3 f4 f5 f6 f7 f8
  have hrec : t.recordsOf q.Name = t.seatedRecords.filter (fun p => decide (p.Name = q0.Name)) := by
    unfold Tournament.recordsOf
    rw [f1]
  have z1 : q0.Shots = 0 := by rw [hp]; rfl
  have z2 : q0.Sweeps = 0 := by rw [hp]; rfl
  have z3 : q0.Kills = 0 := by rw [hp]; rfl
  have z4 : q0.Self = 0 := by rw [hp]; rfl
  have z5 : q0.Explosions = 0 := by rw [hp]; rfl
  have z6 : q0.Matches = 0 := by rw [hp]; rfl
  rw [hrec]
  refine ⟨by rw [f3, z1]; simp, by rw [f4, z2]; simp, by rw [f5, z3]; simp, by rw [f6, z4]; simp,
    by rw [f7, z5]; simp, by rw [f8, z6]; simp, ?_⟩
  intro hnd
  rw [f8, z6, ← hrec]
  have := records_matches q.Name t.matchList hnd
  unfold Tournament.recordsOf Tournament.seatedRecords
  rw [this]
  simp

/-- C26: on a tournament whose seated real players are all in the roster
`UpdatePlayers` returns, a second run on its result returns that result again,
and the result differs from the tournament in the roster only: the slots of every
match and the runnerup queue are as before. -/
theorem C26_updatePlayers_idempotent (t : Tournament) (hs : t.seatedInRoster) :
    ∃ t1, t.UpdatePlayers = .ok t1 ∧ t1.UpdatePlayers = .ok t1 ∧
      t1 = { t with Players := t1.Players } ∧
      t1.Tryouts = t.Tryouts ∧ t1.Semis = t.Semis ∧ t1.Final = t.Final ∧
      t1.Runnerups = t.Runnerups := by
  obtain ⟨t1, h1⟩ := updatePlayers_total hs
  have hc1 := updatePlayers_closed h1
  obtain ⟨t2, h2⟩ := updatePlayers_total (seatedInRoster_of_closed hs h1)
  have hc2 := updatePlayers_closed h2
  have hrec : t1.seatedRecords = t.seatedRecords := by rw [hc1]; rfl
  have hro : t1.Players = applyRecs t.seatedRecords (t.Players.map Player.Reset) := by
    rw [hc1]
  have hrr : (t.Players.map Player.Reset).map Player.Reset = t.Players.map Player.Reset := by
    rw [List.map_map]
    apply List.map_congr_left
    intro p _
    rfl
  have h21 : t2 = t1 := by
    rw [hc2, hrec, hro, applyRecs_idem, hrr, ← hro]
  rw [h21] at h2
  refine ⟨t1, h1, h2, ?_, ?_, ?_, ?_, ?_⟩
  · rw [hc1]
  · rw [hc1]
  · rw [hc1]
  · rw [hc1]
  · rw [hc1]

/-- C24 fails on `demoTournament`, where no match has ended: after `UpdatePlayers`
the roster player b has 10 kills and 1 match played, the record of the tryout
that seats b. -/
theorem C24_counterexample :
    demoTournament.seatedInRoster ∧ (∀ m ∈ demoTournament.matchList, m.realNames.Nodup) ∧
    demoTournament.matchList.filter Match.IsEnded = [] ∧
    demoTournament.UpdatePlayers.map
      (fun (t : Tournament) => (t.getPlayer "b").map (fun (q : Player) => (q.Kills, q.Matches))) =
      .ok (some (10, 1)) := by
  refine ⟨?_, ?_, rfl, rfl⟩
  · unfold Tournament.seatedInRoster; decide
  · decide

/-- C24 on `demoSemis`: the roster entry b, seated in tryout 0 with 10 kills and
in semi 0 with 4, gets 14 kills and 2 matches played. -/
theorem C24_updatePlayers_witness :
    demoSemis.seatedInRoster ∧
    ∃ t' q, demoSemis.UpdatePlayers = .ok t' ∧ t'.Players[1]? = some q ∧ q.Name = "b" ∧
      q.Kills = 14 ∧ q.Matches = 2 := by
  have hs : demoSemis.seatedInRoster := by unfold Tournament.seatedInRoster; decide
  obtain ⟨t', h, hn, hall⟩ := C24_updatePlayers demoSemis hs
  have h1 : (t'.Players.map Player.Name)[1]? = some "b" := by rw [hn]; rfl
  rw [List.getElem?_map] at h1
  cases hq : t'.Players[1]? with
  | none => rw [hq] at h1; simp at h1
  | some q =>
    rw [hq] at h1
    have hb : q.Name = "b" := by simpa using h1
    obtain ⟨_, _, h5, _, _, h8, _⟩ := hall 1 q hq (by rw [hb]; decide)
    rw [hb] at h5 h8
    exact ⟨hs, t', q, h, hq, hb, by rw [h5]; rfl, by rw [h8]; rfl⟩

/-- C26 on `demoSemis`. -/
theorem C26_updatePlayers_idempotent_witness :
    demoSemis.seatedInRoster ∧
    ∃ t1, demoSemis.UpdatePlayers = .ok t1 ∧ t1.UpdatePlayers = .ok t1 ∧
      t1.Semis = demoSemis.Semis ∧ t1.Runnerups = demoSemis.Runnerups := by
  have hs : demoSemis.seatedInRoster := by unfold Tournament.seatedInRoster; decide
  obtain ⟨t1, h1, h2, _, _, h4, _, h6⟩ := C26_updatePlayers_idempotent demoSemis hs
  exact ⟨hs, t1, h1, h2, h4, h6⟩

/-- C25 on `demoTournament` with the name zed, which is not in the roster, in the
runnerup queue: `getPlayer` yields no record (the nil pointer), and
`GetRunnerups` ends in a panic when it dereferences it. -/
theorem C25_getPlayer_unknown :
    (demoTournament.Players.map Player.Name).contains "zed" = false ∧
    ({ demoTournament with Runnerups := ["zed"] }).getPlayer "zed" = none ∧
    ({ demoTournament with Runnerups := ["zed"] }).GetRunnerups = .error Fault.panic := by
  refine ⟨by decide, rfl, rfl⟩

theorem seatName_keeps (n : String) :
    ∀ (s : List String) (i : Nat) (x : String), s[i]? = some x → x ≠ "" →
      (seatName n s)[i]? = some x := by
  intro s
  induction s with
  | nil => intro i x h; simp at h
  | cons y ys ih =>
    intro i x h hx
    unfold seatName
    by_cases hy : y = ""
    · rw [if_pos hy]
      cases i with
      | zero => simp at h; rw [h] at hy; exact absurd hy hx
      | succ i => simpa using h
    · rw [if_neg hy]
      cases i with
      | zero => simpa using h
      | succ i =>
        simp only [List.getElem?_cons_succ] at h ⊢
        exact ih i x h hx

theorem seatNames_keeps (ns : List String) :
    ∀ (s : List String) (i : Nat) (x : String), s[i]? = some x → x ≠ "" →
      (seatNames ns s)[i]? = some x := by
  induction ns with
  | nil => intro s i x h _; exact h
  | cons n ns ih =>
    intro s i x h hx
    exact ih (seatName n s) i x (seatName_keeps n s i x h hx) hx

theorem addPlayer_real_count {r r' : Rand} {m m' : Match} {p : Player} {e : Option String}
    (h : m.AddPlayer r p = .ok (r', m', e)) (hlen : m.Players.length = 4)
    (hact : m.ActualPlayers < 4) (hp : p.Name ≠ "") :
    m'.names = seatName p.Name m.names ∧ m'.ActualPlayers = m.ActualPlayers + 1 := by
  have hs := addPlayer_seats h hlen hact
  refine ⟨seats_eq_seatName hs, ?_⟩
  obtain ⟨a, b, h1, _, h2⟩ := hs
  rw [actualPlayers_eq, actualPlayers_eq]
  unfold Match.realNames
  rw [h1, h2]
  exact realNames_length_split a b p.Name hp

theorem populateLoop_spec :
    ∀ (ps : List Player) (r : Rand) (m : Match) (k : Nat), m.Players.length = 4 →
      4 - m.ActualPlayers ≤ ps.length → (∀ p ∈ ps, p.Name ≠ "") →
      Enough (k + 16 * (4 - m.ActualPlayers)) r →
      ∃ r' m', populateLoop r m ps = .ok (r', m') ∧
        m'.names = seatNames ((ps.take (4 - m.ActualPlayers)).map Player.Name) m.names ∧
        m'.ActualPlayers = 4 ∧ m'.Players.length = 4 ∧ m'.header = m.header ∧ Enough k r' := by
  intro ps
  induction ps with
  | nil =>
    intro r m k hlen hps _ hr
    have hle := actualPlayers_le m
    have h4 : m.ActualPlayers = 4 := by simp at hps; omega
    refine ⟨r, m, ?_, ?_, h4, hlen, rfl, ?_⟩
    · simp [populateLoop, h4]
    · simp [seatNames]
    · exact enough_le (by omega) hr
  | cons p ps ih =>
    intro r m k hlen hps hreal hr
    unfold populateLoop
    by_cases hact : m.ActualPlayers < 4
    · rw [if_pos hact]
      have hr1 : Enough ((k + 16 * (4 - (m.ActualPlayers + 1))) + 16) r := by
        refine enough_le ?_ hr
        omega
      obtain ⟨r1, m1, e, h1, hr1'⟩ := addPlayer_total (show m.Players.length ≤ 4 by omega) p hr1
      have hp : p.Name ≠ "" := hreal p (List.mem_cons_self _ _)
      obtain ⟨hn1, ha1⟩ := addPlayer_real_count h1 hlen hact hp
      have hl1 := addPlayer_four h1 hlen
      have hh1 := addPlayer_header h1
      rw [← ha1] at hr1'
      obtain ⟨r', m', h2, hn2, ha2, hl2, hh2, hr2⟩ := ih r1 m1 k hl1
        (by rw [ha1]; simp at hps; omega)
        (fun q hq => hreal q (List.mem_cons_of_mem _ hq)) hr1'
      refine ⟨r', m', ?_, ?_, ha2, hl2, hh2.trans hh1, hr2⟩
      · rw [h1]
        exact h2
      · rw [hn2, hn1, ha1]
        have : 4 - m.ActualPlayers = (4 - (m.ActualPlayers + 1)) + 1 := by omega
        rw [this, List.take_succ_cons]
        rfl
    · rw [if_neg hact]
      have h0 : 4 - m.ActualPlayers = 0 := by omega
      have hle := actualPlayers_le m
      refine ⟨r, m, rfl, ?_, by omega, hlen, rfl, ?_⟩
      · rw [h0]; simp [seatNames]
      · exact enough_le (by omega) hr

theorem getMatch_sameButRoster {t t' : Tournament} (h : t.sameButRoster t') (ref : MatchRef) :
    t'.getMatch ref = t.getMatch ref := by
  unfold Tournament.sameButRoster at h
  rw [h]
  cases ref <;> rfl

/-- C22: for a 4-slot match `m` of the tournament with fewer than 4 real players,
when `GetRunnerups` returns a ranked list `ps` with at least as many entries as
`m` has placeholders, all with non-empty names, `PopulateRunnerups` returns on
every run of draws long enough for 64 colour choices, and the match then has 4
slots, 4 real players and the kind, index and timestamps of `m`; its names are
those of `m` with the names of the first entries of `ps` seated in list order,
each in the lowest placeholder slot still empty, so every real player of `m`
keeps its slot.  The rest of the tournament is as `GetRunnerups` leaves it. -/
theorem C22_populateRunnerups (r : Rand) (t t1 : Tournament) (ref : MatchRef) (m : Match)
    (ps : List Player) (hm : t.getMatch ref = some m) (hlen : m.Players.length = 4)
    (hact : m.ActualPlayers < 4) (hg : t.GetRunnerups = .ok (ps, t1))
    (hps : 4 - m.ActualPlayers ≤ ps.length) (hreal : ∀ p ∈ ps, p.Name ≠ "")
    (hr : Enough 64 r) :
    ∃ r' m', t.PopulateRunnerups r ref = .ok (r', t1.setMatch ref m') ∧
      m'.names = seatNames ((ps.take (4 - m.ActualPlayers)).map Player.Name) m.names ∧
      m'.ActualPlayers = 4 ∧ m'.Players.length = 4 ∧ m'.header = m.header ∧
      (∀ (i : Nat) (x : String), m.names[i]? = some x → x ≠ "" → m'.names[i]? = some x) := by
  have hm1 : t1.getMatch ref = some m := by
    rw [getMatch_sameButRoster (getRunnerups_frame hg)]; exact hm
  obtain ⟨r', m', h2, hn, ha, hl, hh, _⟩ := populateLoop_spec ps r m 0 hlen hps hreal
    (enough_le (by omega) hr)
  refine ⟨r', m', ?_, hn, ha, hl, hh, ?_⟩
  · unfold Tournament.PopulateRunnerups
    rw [hg]
    simp only [hm1, h2]
  · intro i x hx hne
    rw [hn]
    exact seatNames_keeps _ _ i x hx hne


/-- C22 on semi 1 of `demoShort`, which seats c and j in slots 0 and 2: the
ranked list starts with l and n, and they take slots 1 and 3. -/
theorem C22_populateRunnerups_witness :
    ∃ ps t1 r' m', demoShort.GetRunnerups = .ok (ps, t1) ∧
      ps.map Player.Name = ["l", "n", "o", "a", "f", "g", "d", "i"] ∧
      demoShort.PopulateRunnerups (cycleDraws 64) (.semi 1) = .ok (r', t1.setMatch (.semi 1) m') ∧
      m'.names = ["c", "l", "j", "n"] ∧ m'.ActualPlayers = 4 := by
  have hnames : demoShort.GetRunnerups.map
      (fun (o : List Player × Tournament) => o.1.map Player.Name) =
      .ok ["l", "n", "o", "a", "f", "g", "d", "i"] := by rfl
  cases hg : demoShort.GetRunnerups with
  | error f =>
    rw [hg] at hnames
    simp [Except.map] at hnames
  | ok o =>
    obtain ⟨ps, t1⟩ := o
    rw [hg] at hnames
    have hn : ps.map Player.Name = ["l", "n", "o", "a", "f", "g", "d", "i"] := by
      simpa [Except.map] using hnames
    have hlen : ps.length = 8 := by
      have := congrArg List.length hn
      simpa using this
    have hreal : ∀ p ∈ ps, p.Name ≠ "" := by
      intro p hp
      have : p.Name ∈ ps.map Player.Name := List.mem_map_of_mem _ hp
      rw [hn] at this
      intro e
      rw [e] at this
      revert this
      decide
    obtain ⟨r', m', hrun, hnm, ha, _, _, _⟩ := C22_populateRunnerups (cycleDraws 64) demoShort t1
      (.semi 1)
      { Players := [mkPlayer "c" "green" 0, Player.zero, mkPlayer "j" "blue" 0, Player.zero],
        Kind := "semi", Index := 1, Started := none, Ended := none }
      ps rfl rfl (by decide) hg (by rw [hlen]; decide) hreal (enough_cycleDraws 64)
    refine ⟨ps, t1, r', m', rfl, hn, hrun, ?_, ha⟩
    rw [hnm, List.map_take, hn]
    rfl

theorem foldlM_inv_prefix {σ β ε : Type} (P : List β → σ → Prop) (f : σ → β → Except ε σ)
    (hf : ∀ (done : List β) (s : σ) (b : β) (s' : σ), P done s → f s b = .ok s' →
      P (done ++ [b]) s') :
    ∀ (l done : List β) (s s' : σ), P done s → l.foldlM f s = .ok s' → P (done ++ l) s' := by
  intro l
  induction l with
  | nil =>
    intro done s s' hs h
    simp [List.foldlM, pure, Except.pure] at h
    subst h
    simpa using hs
  | cons b l ih =>
    intro done s s' hs h
    rw [List.foldlM_cons] at h
    obtain ⟨s1, h1, h2⟩ := (bind_ok _ _ _).1 h
    have := ih (done ++ [b]) s1 s' (hf done s b s1 hs h1) h2
    simpa using this

theorem updatePlayer_get_other (m : Match) (q : Player) (k : Nat) (a : Player)
    (h : m.Players[k]? = some a) (hn : a.Name ≠ q.Name) :
    (m.UpdatePlayer q).Players[k]? = some a := by
  unfold Match.UpdatePlayer
  simp [List.getElem?_map, h, hn]

theorem updatePlayer_get_same (m : Match) (q : Player) (k : Nat) (a : Player)
    (h : m.Players[k]? = some a) (hn : a.Name = q.Name) :
    (m.UpdatePlayer q).Players[k]? = some q := by
  unfold Match.UpdatePlayer
  simp [List.getElem?_map, h, hn]

theorem updatePlayer_get_inv (m : Match) (q : Player) (k : Nat) (b : Player)
    (h : (m.UpdatePlayer q).Players[k]? = some b) :
    ∃ a, m.Players[k]? = some a ∧ ((a.Name = q.Name ∧ b = q) ∨ (a.Name ≠ q.Name ∧ b = a)) := by
  cases ha : m.Players[k]? with
  | none =>
    unfold Match.UpdatePlayer at h
    simp [List.getElem?_map, ha] at h
  | some a =>
    refine ⟨a, rfl, ?_⟩
    by_cases hn : a.Name = q.Name
    · rw [updatePlayer_get_same m q k a ha hn] at h
      exact Or.inl ⟨hn, (Option.some.inj h).symm⟩
    · rw [updatePlayer_get_other m q k a ha hn] at h
      exact Or.inr ⟨hn, (Option.some.inj h).symm⟩

theorem kept_names_get {l0 l : List Player} (h : Kept l0 l) (k : Nat) (b : Player)
    (hb : l[k]? = some b) : ∃ a, l0[k]? = some a ∧ a.Name = b.Name := by
  have := congrArg (fun (x : List String) => x[k]?) h.1
  simp only [List.getElem?_map, hb, Option.map_some'] at this
  cases ha : l0[k]? with
  | none => rw [ha] at this; simp at this
  | some a =>
    rw [ha] at this
    exact ⟨a, rfl, (Option.some.inj this).symm⟩

theorem realDistinct_kept {l0 l : List Player} (h : Kept l0 l) (hd : RealDistinct l0) :
    RealDistinct l := by
  intro j k a b ha hb hab hne
  obtain ⟨a0, ha0, hna⟩ := kept_names_get h j a ha
  obtain ⟨b0, hb0, hnb⟩ := kept_names_get h k b hb
  exact hd j k a0 b0 ha0 hb0 (by rw [hna, hnb]; exact hab) (by rw [hna]; exact hne)

theorem uncolored_recolor (p : Player) (c : String) :
    ({ p with PreferredColor := c } : Player).uncolored = p.uncolored := rfl

theorem getElem?_mem_players {l : List Player} {k : Nat} {a : Player} (h : l[k]? = some a) :
    a ∈ l := List.getElem?_mem h

/-- One call of `UpdatePlayer` with a record `q` whose colour no slot has. -/
theorem updatePlayer_step (l0 : List Player) (m : Match) (q : Player)
    (hK : Kept l0 m.Players) (hD : RealDistinct l0)
    (hc : ∀ b ∈ m.Players, b.PreferredColor ≠ q.PreferredColor)
    (hQ : ∀ a ∈ l0, a.Name = q.Name → Alike l0 q.Name → q.uncolored = a.uncolored) :
    Kept l0 (m.UpdatePlayer q).Players ∧
    (∀ (k : Nat) (a : Player), m.Players[k]? = some a → a.Name ≠ "" →
      (Settled m.Players k ∨ a.Name = q.Name) → Settled (m.UpdatePlayer q).Players k) := by
  have hD' : RealDistinct m.Players := realDistinct_kept hK hD
  refine ⟨⟨?_, ?_⟩, ?_⟩
  · rw [← hK.1]
    unfold Match.UpdatePlayer
    simp only [List.map_map]
    apply List.map_congr_left
    intro o _
    by_cases ho : o.Name = q.Name
    · simp [ho]
    · simp [ho]
  · intro k a b ha hb hal
    obtain ⟨b0, hb0, hcase⟩ := updatePlayer_get_inv m q k b hb
    rcases hcase with ⟨hn, hbq⟩ | ⟨_, hbb⟩
    · obtain ⟨a', ha', hna'⟩ := kept_names_get hK k b0 hb0
      rw [ha] at ha'
      have haa : a = a' := Option.some.inj ha'
      subst haa
      have hname : a.Name = q.Name := by rw [hna', hn]
      rw [hbq]
      exact hQ a (getElem?_mem_players ha) hname (by rw [← hname]; exact hal)
    · rw [hbb]
      exact hK.2 k a b0 ha hb0 hal
  · intro k a ha hreal hor
    intro a' ha' j b hjk hb
    obtain ⟨a1, ha1, hcase⟩ := updatePlayer_get_inv m q k a' ha'
    rw [ha] at ha1
    have : a = a1 := Option.some.inj ha1
    subst this
    obtain ⟨b1, hb1, hcaseb⟩ := updatePlayer_get_inv m q j b hb
    rcases hcase with ⟨hn, haq⟩ | ⟨hn, haa⟩
    · -- slot k is rewritten with q
      rcases hcaseb with ⟨hnb, _⟩ | ⟨_, hbb⟩
      · exact absurd (hD' j k b1 a hb1 ha (by rw [hnb, hn]) (by rw [hnb, ← hn]; exact hreal)) hjk
      · rw [hbb, haq]
        exact hc b1 (getElem?_mem_players hb1)
    · -- slot k is kept
      rw [haa]
      rcases hcaseb with ⟨_, hbq⟩ | ⟨_, hbb⟩
      · rw [hbq]
        exact fun e => hc a (getElem?_mem_players ha) e.symm
      · rw [hbb]
        rcases hor with hset | hname
        · exact hset a ha j b1 hjk hb1
        · exact absurd hname hn

theorem randomizeColor_fresh {p q : Player} {r r' : Rand} {m : Match}
    (h : p.RandomizeColor r m = .ok (q, r')) :
    q = { p with PreferredColor := q.PreferredColor } ∧
      ∀ b ∈ m.Players, b.PreferredColor ≠ q.PreferredColor := by
  refine ⟨randomizeColor_name h, ?_⟩
  unfold Player.RandomizeColor at h
  split at h
  · simp at h
  · rename_i c r1 hd
    simp at h
    obtain ⟨h1, _⟩ := h
    subst h1
    have hfresh := (drawFree_spec hd).1
    intro b hb e
    apply hfresh
    simp only [List.mem_append, List.mem_map]
    exact Or.inr ⟨b, hb, e⟩

theorem settled_after_update (l0 : List Player) (m : Match) (q : Player)
    (hK : Kept l0 m.Players) (hD : RealDistinct l0)
    (hc : ∀ b ∈ m.Players, b.PreferredColor ≠ q.PreferredColor)
    (hQ : ∀ a ∈ l0, a.Name = q.Name → Alike l0 q.Name → q.uncolored = a.uncolored)
    (ks : List Nat)
    (hS : ∀ k ∈ ks, ∀ a, m.Players[k]? = some a → a.Name ≠ "" → Settled m.Players k) :
    ∀ k ∈ ks, ∀ a, (m.UpdatePlayer q).Players[k]? = some a → a.Name ≠ "" →
      Settled (m.UpdatePlayer q).Players k := by
  intro k hk a ha hreal
  obtain ⟨a1, ha1, hcase⟩ := updatePlayer_get_inv m q k a ha
  have hn : a1.Name = a.Name := by
    rcases hcase with ⟨hn, haq⟩ | ⟨_, haa⟩
    · rw [haq]; exact hn
    · rw [haa]
  exact (updatePlayer_step l0 m q hK hD hc hQ).2 k a1 ha1 (by rw [hn]; exact hreal)
    (Or.inl (hS k hk a1 ha1 (by rw [hn]; exact hreal)))

theorem conflictInner_step (l0 : List Player) (hD : RealDistinct l0) (od : List Nat) (i : Nat)
    (done : List Nat) (st : Rand × Match × Player) (j : Nat) (st' : Rand × Match × Player)
    (hI : InnerInv l0 od i done st) (h : Match.conflictInner i st j = .ok st') :
    InnerInv l0 od i (done ++ [j]) st' := by
  obtain ⟨hK, hS, ⟨a0, ha0, hpn, hpu⟩, hP⟩ := hI
  have hD' : RealDistinct st.2.1.Players := realDistinct_kept hK hD
  unfold Match.conflictInner at h
  split at h
  · -- i = j
    rename_i hij
    simp at h; subst h
    refine ⟨hK, hS, ⟨a0, ha0, hpn, hpu⟩, ?_⟩
    intro hreal
    refine ⟨(hP hreal).1, ?_⟩
    intro j' hj' hne b hb
    rcases List.mem_append.1 hj' with hd | hd
    · exact (hP hreal).2 j' hd hne b hb
    · simp at hd
      exact absurd (hd.trans hij.symm) hne
  · rename_i hij
    split at h
    · -- no slot j
      rename_i hnone
      simp at h; subst h
      refine ⟨hK, hS, ⟨a0, ha0, hpn, hpu⟩, ?_⟩
      intro hreal
      refine ⟨(hP hreal).1, ?_⟩
      intro j' hj' hne b hb
      rcases List.mem_append.1 hj' with hd | hd
      · exact (hP hreal).2 j' hd hne b hb
      · simp at hd
        rw [hd, hnone] at hb
        simp at hb
    · rename_i p2 hp2
      split at h
      · rename_i hcol
        split at h
        · -- p2 gets a new colour
          split at h
          · simp at h
          · rename_i q r1 hq
            simp at h; subst h
            obtain ⟨hqe, hfresh⟩ := randomizeColor_fresh hq
            have hqn : q.Name = p2.Name := by rw [hqe]
            have hQ : ∀ a ∈ l0, a.Name = q.Name → Alike l0 q.Name →
                q.uncolored = a.uncolored := by
              intro a ha hna hal
              obtain ⟨b0, hb0, hnb0⟩ := kept_names_get hK j p2 hp2
              have h1 : p2.uncolored = b0.uncolored :=
                hK.2 j b0 p2 hb0 hp2 (by rw [hnb0, ← hqn]; exact hal)
              have h2 : b0.uncolored = a.uncolored :=
                hal b0 (getElem?_mem_players hb0) a ha (by rw [hnb0, hqn]) hna
              rw [hqe, uncolored_recolor, h1, h2]
            refine ⟨(updatePlayer_step l0 st.2.1 q hK hD hfresh hQ).1,
              settled_after_update l0 st.2.1 q hK hD hfresh hQ od hS, ⟨a0, ha0, hpn, hpu⟩, ?_⟩
            intro hreal
            obtain ⟨hsync, hproc⟩ := hP hreal
            have hne2 : st.2.2.Name ≠ q.Name := by
              intro e
              exact hij (hD' i j st.2.2 p2 hsync hp2 (by rw [e, hqn]) hreal)
            refine ⟨updatePlayer_get_other st.2.1 q i st.2.2 hsync hne2, ?_⟩
            intro j' hj' hne b hb
            obtain ⟨b1, hb1, hcase⟩ := updatePlayer_get_inv st.2.1 q j' b hb
            rcases hcase with ⟨_, hbq⟩ | ⟨hnb, hbb⟩
            · rw [hbq]
              exact fun e => hfresh st.2.2 (getElem?_mem_players hsync) e.symm
            · rw [hbb]
              rcases List.mem_append.1 hj' with hd | hd
              · exact hproc j' hd hne b1 hb1
              · simp at hd
                rw [hd, hp2] at hb1
                have : p2 = b1 := Option.some.inj hb1
                rw [← this] at hnb
                exact absurd hqn.symm hnb
        · -- p gets a new colour
          split at h
          · simp at h
          · rename_i q r1 hq
            simp at h; subst h
            obtain ⟨hqe, hfresh⟩ := randomizeColor_fresh hq
            have hqn : q.Name = st.2.2.Name := by rw [hqe]
            have hQ : ∀ a ∈ l0, a.Name = q.Name → Alike l0 q.Name →
                q.uncolored = a.uncolored := by
              intro a ha hna hal
              have h1 : st.2.2.uncolored = a0.uncolored :=
                hpu (by rw [← hpn, ← hqn]; exact hal)
              have h2 : a0.uncolored = a.uncolored :=
                hal a0 (getElem?_mem_players ha0) a ha (by rw [← hpn, hqn]) hna
              rw [hqe, uncolored_recolor, h1, h2]
            refine ⟨(updatePlayer_step l0 st.2.1 q hK hD hfresh hQ).1,
              settled_after_update l0 st.2.1 q hK hD hfresh hQ od hS,
              ⟨a0, ha0, by show q.Name = a0.Name; rw [hqn, hpn], ?_⟩, ?_⟩
            · intro hal
              show q.uncolored = a0.uncolored
              rw [hqe, uncolored_recolor]
              exact hpu hal
            · intro hreal
              have hreal0 : st.2.2.Name ≠ "" := by rw [← hqn]; exact hreal
              obtain ⟨hsync, hproc⟩ := hP hreal0
              refine ⟨updatePlayer_get_same st.2.1 q i st.2.2 hsync hqn.symm, ?_⟩
              intro j' hj' hne b hb
              obtain ⟨b1, hb1, hcase⟩ := updatePlayer_get_inv st.2.1 q j' b hb
              rcases hcase with ⟨hnb, _⟩ | ⟨_, hbb⟩
              · exact absurd (hD' j' i b1 st.2.2 hb1 hsync (by rw [hnb, hqn])
                  (by rw [hnb]; exact hreal)) hne
              · rw [hbb]
                exact hfresh b1 (getElem?_mem_players hb1)
      · -- no conflict with slot j
        rename_i hcol
        simp at h; subst h
        refine ⟨hK, hS, ⟨a0, ha0, hpn, hpu⟩, ?_⟩
        intro hreal
        refine ⟨(hP hreal).1, ?_⟩
        intro j' hj' hne b hb
        rcases List.mem_append.1 hj' with hd | hd
        · exact (hP hreal).2 j' hd hne b hb
        · simp at hd
          rw [hd, hp2] at hb
          have : p2 = b := Option.some.inj hb
          rw [← this]
          exact fun e => hcol e.symm

theorem kept_length {l0 l : List Player} (h : Kept l0 l) : l.length = l0.length := by
  have := congrArg List.length h.1
  simpa using this

theorem conflictOuter_step (l0 : List Player) (hD : RealDistinct l0) (done : List Nat)
    (st : Rand × Match) (i : Nat) (st' : Rand × Match)
    (hO : OuterInv l0 done st) (h : Match.conflictOuter st i = .ok st') :
    OuterInv l0 (done ++ [i]) st' := by
  obtain ⟨hK, hS⟩ := hO
  unfold Match.conflictOuter at h
  split at h
  · rename_i hnone
    simp at h; subst h
    refine ⟨hK, ?_⟩
    intro k hk a ha hreal
    rcases List.mem_append.1 hk with hd | hd
    · exact hS k hd a ha hreal
    · simp at hd
      rw [hd, hnone] at ha
      simp at ha
  · rename_i p hp
    split at h
    · simp at h
    · rename_i out hout
      simp at h; subst h
      obtain ⟨a0, ha0, hna0⟩ := kept_names_get hK i p hp
      have hinit : InnerInv l0 done i [] (st.1, st.2, p) := by
        refine ⟨hK, hS, ⟨a0, ha0, hna0.symm, fun hal => hK.2 i a0 p ha0 hp hal⟩, ?_⟩
        intro _
        exact ⟨hp, fun j hj => absurd hj (List.not_mem_nil j)⟩
      have hfin := foldlM_inv_prefix (InnerInv l0 done i) (Match.conflictInner i)
        (fun dn s b s' hs hb => conflictInner_step l0 hD done i dn s b s' hs hb)
        (List.range st.2.Players.length) [] (st.1, st.2, p) out hinit hout
      rw [List.nil_append] at hfin
      obtain ⟨hK', hS', ⟨a1, ha1, hpn, _⟩, hP⟩ := hfin
      refine ⟨hK', ?_⟩
      intro k hk a ha hreal
      rcases List.mem_append.1 hk with hd | hd
      · exact hS' k hd a ha hreal
      · simp at hd
        subst hd
        obtain ⟨a2, ha2, hna2⟩ := kept_names_get hK' k a ha
        rw [ha1] at ha2
        have e12 : a1 = a2 := Option.some.inj ha2
        have hpreal : out.2.2.Name ≠ "" := by
          rw [hpn, e12, hna2]; exact hreal
        obtain ⟨hsync, hproc⟩ := hP hpreal
        intro a' ha' j b hjk hb
        show b.PreferredColor ≠ a'.PreferredColor
        have hb' : out.2.1.Players[j]? = some b := hb
        have hjlt : j < st.2.Players.length := by
          have h1 : j < out.2.1.Players.length := by
            by_contra hge
            rw [List.getElem?_eq_none (by omega)] at hb'
            simp at hb'
          rw [kept_length hK'] at h1
          rw [kept_length hK]
          exact h1
        have hsync' : out.2.1.Players[k]? = some out.2.2 := hsync
        have ha'' : out.2.1.Players[k]? = some a' := ha'
        rw [hsync'] at ha''
        have : out.2.2 = a' := Option.some.inj ha''
        rw [← this]
        exact hproc j (List.mem_range.2 hjlt) hjk b hb

theorem realDistinct_of_nodup : ∀ (l : List Player),
    ((l.map Player.Name).filter (fun n => n ≠ "")).Nodup → RealDistinct l := by
  intro l
  induction l with
  | nil => intro _ j k a b ha; simp at ha
  | cons y ys ih =>
    intro hnd j k a b ha hb hab hne
    by_cases hy : y.Name = ""
    · have hnd' : ((ys.map Player.Name).filter (fun n => n ≠ "")).Nodup := by
        simpa [List.filter_cons, hy] using hnd
      cases j with
      | zero =>
        simp at ha
        rw [ha] at hy
        exact absurd hy hne
      | succ j =>
        cases k with
        | zero =>
          simp at hb
          rw [hb, ← hab] at hy
          exact absurd hy hne
        | succ k =>
          have := ih hnd' j k a b (by simpa using ha) (by simpa using hb) hab hne
          omega
    · have hnd' : y.Name ∉ (ys.map Player.Name).filter (fun n => n ≠ "") ∧
          ((ys.map Player.Name).filter (fun n => n ≠ "")).Nodup := by
        have : ((y :: ys).map Player.Name).filter (fun n => n ≠ "") =
            y.Name :: (ys.map Player.Name).filter (fun n => n ≠ "") := by
          simp [List.filter_cons, hy]
        rw [this] at hnd
        exact List.nodup_cons.1 hnd
      have hmem : ∀ (i : Nat) (c : Player), ys[i]? = some c → c.Name = y.Name → False := by
        intro i c hc hcn
        apply hnd'.1
        rw [List.mem_filter]
        refine ⟨List.mem_map.2 ⟨c, List.getElem?_mem hc, hcn⟩, ?_⟩
        simpa using hy
      cases j with
      | zero =>
        cases k with
        | zero => rfl
        | succ k =>
          simp at ha
          exact (hmem k b (by simpa using hb) (by rw [← hab, ha])).elim
      | succ j =>
        cases k with
        | zero =>
          simp at hb
          exact (hmem j a (by simpa using ha) (by rw [hab, hb])).elim
        | succ k =>
          have := ih hnd'.2 j k a b (by simpa using ha) (by simpa using hb) hab hne
          omega

theorem alike_of_realDistinct {l : List Player} (hD : RealDistinct l) (n : String)
    (hn : n ≠ "") : Alike l n := by
  intro x hx y hy hxn hyn
  obtain ⟨j, hj⟩ := List.getElem?_of_mem hx
  obtain ⟨k, hk⟩ := List.getElem?_of_mem hy
  have hjk := hD j k x y hj hk (by rw [hxn, hyn]) (by rw [hxn]; exact hn)
  subst hjk
  rw [hj] at hk
  rw [Option.some.inj hk]

theorem kept_refl (l : List Player) : Kept l l := by
  refine ⟨rfl, ?_⟩
  intro k a b ha hb _
  rw [ha] at hb
  rw [Option.some.inj hb]

theorem eq_of_uncolored {a b : Player} (h : b.uncolored = a.uncolored) :
    b = { a with PreferredColor := b.PreferredColor } := by
  cases a; cases b
  simp only [Player.uncolored, Player.mk.injEq] at h ⊢
  tauto

theorem correctColorConflicts_outer {r r' : Rand} {m m' : Match} (hD : RealDistinct m.Players)
    (h : m.CorrectColorConflicts r = .ok (r', m')) :
    OuterInv m.Players (List.range m.Players.length) (r', m') := by
  unfold Match.CorrectColorConflicts at h
  have := foldlM_inv_prefix (OuterInv m.Players) Match.conflictOuter
    (fun dn s b s' hs hb => conflictOuter_step m.Players hD dn s b s' hs hb)
    (List.range m.Players.length) [] (r, m) (r', m')
    ⟨kept_refl _, fun k hk => absurd hk (List.not_mem_nil k)⟩ h
  simpa using this

/-- C23, amended: for every match whose real players have pairwise distinct names,
whenever `CorrectColorConflicts` returns, the names, kind, index and timestamps
are unchanged, the colour of every real player differs from the colour of every
other slot, every real player's record is unchanged apart from the colour, and
so is every placeholder's record when all placeholders of the match carry the
same record up to the colour.  On a match of at most 4 slots it returns on every
run of draws long enough for 16 colour choices. -/
theorem C23_correctColorConflicts (m : Match) (hd : m.realNames.Nodup) :
    (∀ (r r' : Rand) (m' : Match), m.CorrectColorConflicts r = .ok (r', m') →
      Match.sameFrame m m' ∧
      (∀ (k : Nat) (a : Player), m'.Players[k]? = some a → a.Name ≠ "" →
        ∀ (j : Nat) (b : Player), j ≠ k → m'.Players[j]? = some b →
          b.PreferredColor ≠ a.PreferredColor) ∧
      (∀ (k : Nat) (a b : Player), m.Players[k]? = some a → m'.Players[k]? = some b →
        (a.Name ≠ "" ∨ Alike m.Players "") →
          b = { a with PreferredColor := b.PreferredColor })) ∧
    (m.Players.length ≤ 4 → ∀ (r : Rand), Enough 16 r →
      ∃ r' m', m.CorrectColorConflicts r = .ok (r', m')) := by
  have hD : RealDistinct m.Players := realDistinct_of_nodup m.Players hd
  constructor
  · intro r r' m' h
    obtain ⟨hK, hS⟩ := correctColorConflicts_outer hD h
    refine ⟨correctColorConflicts_frame h, ?_, ?_⟩
    · intro k a ha hreal j b hjk hb
      have hk : k < m.Players.length := by
        have h1 : k < m'.Players.length := by
          by_contra hge
          rw [List.getElem?_eq_none (by omega)] at ha
          simp at ha
        have := kept_length hK
        simp only at this
        omega
      exact hS k (List.mem_range.2 hk) a ha hreal a ha j b hjk hb
    · intro k a b ha hb hor
      apply eq_of_uncolored
      refine hK.2 k a b ha hb ?_
      rcases hor with hreal | hal
      · exact alike_of_realDistinct hD a.Name hreal
      · by_cases hreal : a.Name = ""
        · rw [hreal]; exact hal
        · exact alike_of_realDistinct hD a.Name hreal
  · intro hlen r hr
    obtain ⟨r', m', h, _, _⟩ := correctColorConflicts_total hlen
      (show Enough (0 + 16) r by simpa using hr)
    exact ⟨r', m', h⟩

/-- C23 fails on `oddMatch`, a 4-slot match with the real players ann and bob and
two placeholders with 0 and 5 kills: after `CorrectColorConflicts` the second
placeholder has 0 kills. -/
theorem C23_counterexample :
    oddMatch.Players.length = 4 ∧ oddMatch.realNames.Nodup ∧
    oddMatch.colours = [("", "", 0), ("", "", 5), ("ann", "green", 2), ("bob", "green", 1)] ∧
    (oddMatch.CorrectColorConflicts (cycleDraws 16)).map
      (fun (o : Rand × Match) => o.2.colours) =
      .ok [("", "pink", 0), ("", "pink", 0), ("ann", "green", 2), ("bob", "orange", 1)] := by
  refine ⟨rfl, by decide, rfl, rfl⟩

/-- C23 on `clashMatch`: ann, bob and cy all ask for green; bob, with the highest
score of the three, keeps it. -/
theorem C23_correctColorConflicts_witness :
    clashMatch.realNames.Nodup ∧
    ∃ r' m', clashMatch.CorrectColorConflicts (cycleDraws 16) = .ok (r', m') ∧
      m'.colours = [("ann", "pink", 2), ("bob", "green", 5), ("cy", "orange", 1),
        ("dan", "blue", 9)] := by
  have hd : clashMatch.realNames.Nodup := by decide
  obtain ⟨_, htot⟩ := C23_correctColorConflicts clashMatch hd
  obtain ⟨r', m', h⟩ := htot (by decide) (cycleDraws 16) (enough_cycleDraws 16)
  refine ⟨hd, r', m', h, ?_⟩
  have h3 : (clashMatch.CorrectColorConflicts (cycleDraws 16)).map
      (fun (o : Rand × Match) => o.2.colours) =
      .ok [("ann", "pink", 2), ("bob", "green", 5), ("cy", "orange", 1), ("dan", "blue", 9)] := by
    rfl
  rw [h] at h3
  simpa [Except.map] using h3

theorem seatedInRoster_setMatch {t : Tournament} {ref : MatchRef} {m' : Match}
    (hs : t.seatedInRoster) (hn : ∀ n ∈ m'.realNames, n ∈ t.Players.map Player.Name) :
    (t.setMatch ref m').seatedInRoster := by
  intro x hx n hnx
  cases ref with
  | tryout i =>
    simp only [Tournament.setMatch, List.mem_append, List.mem_singleton] at hx
    show n ∈ t.Players.map Player.Name
    rcases hx with (hx | hx) | hx
    · rcases mem_set_cases hx with h2 | h2
      · exact hs x (by simp [h2]) n hnx
      · rw [h2] at hnx; exact hn n hnx
    · exact hs x (by simp [hx]) n hnx
    · exact hs x (by simp [hx]) n hnx
  | semi i =>
    simp only [Tournament.setMatch, List.mem_append, List.mem_singleton] at hx
    show n ∈ t.Players.map Player.Name
    rcases hx with (hx | hx) | hx
    · exact hs x (by simp [hx]) n hnx
    · rcases mem_set_cases hx with h2 | h2
      · exact hs x (by simp [h2]) n hnx
      · rw [h2] at hnx; exact hn n hnx
    · exact hs x (by simp [hx]) n hnx
  | final =>
    simp only [Tournament.setMatch, List.mem_append, List.mem_singleton] at hx
    show n ∈ t.Players.map Player.Name
    rcases hx with (hx | hx) | hx
    · exact hs x (by simp [hx]) n hnx
    · exact hs x (by simp [hx]) n hnx
    · rw [hx] at hnx; exact hn n hnx

theorem seated_of_getMatch {t : Tournament} {ref : MatchRef} {m : Match}
    (hs : t.seatedInRoster) (hm : t.getMatch ref = some m) :
    ∀ n ∈ m.realNames, n ∈ t.Players.map Player.Name := by
  intro n hn
  cases ref with
  | tryout i => exact hs m (by simp [List.getElem?_mem hm]) n hn
  | semi i => exact hs m (by simp [List.getElem?_mem hm]) n hn
  | final =>
    simp only [Tournament.getMatch, Option.some.injEq] at hm
    exact hs m (by simp [hm]) n hn

/-- `End` on a match that has not ended and is not the final returns what
`MovePlayers` returns on the tournament with the bonus shot given and the end
timestamp set. -/
theorem end_of_move {r r' : Rand} {t t' : Tournament} {ref : MatchRef} {now now2 : Nat}
    {m : Match} {w : Player} {ws : List Player} (hm : t.getMatch ref = some m)
    (he : m.Ended = none) (hk : m.Kind ≠ "final") (hw : m.Players = w :: ws)
    (h : (t.setMatch ref ({ m with Players := addShotFirst w.Name m.Players
                                   Ended := some now } : Match)).MovePlayers r ref =
      .ok (r', t')) :
    t.End r ref now now2 = .ok (r', t', none) := by
  unfold Tournament.End
  rw [hm]
  simp only [he, Time.IsZero, Option.isNone_none, Bool.not_true, Bool.false_eq_true, if_false]
  rw [hw]
  simp only [hk, if_false]
  rw [hw] at h
  rw [h]

/-- `MovePlayers` on a semi of four slots returns, given a final of four slots, a
roster that holds every seated and queued name, and draws enough for 32 colour
choices; afterwards the roster still holds every seated and queued name. -/
theorem movePlayers_semi_total {r : Rand} {t : Tournament} {j : Nat} {m : Match} (k : Nat)
    (hm : t.getMatch (.semi j) = some m) (hk : m.Kind = "semi") (hlen : m.Players.length = 4)
    (hf : t.Final.Players.length = 4) (hseat : t.seatedInRoster) (hq : t.queuedInRoster)
    (he : Enough (k + 32) r) :
    ∃ r' t', t.MovePlayers r (.semi j) = .ok (r', t') ∧ Enough k r' ∧
      t'.seatedInRoster ∧ t'.queuedInRoster ∧
      t'.Players.map Player.Name = t.Players.map Player.Name ∧
      t'.Final.Players.length = 4 ∧ t'.Tryouts = t.Tryouts ∧
      ∃ ms, t'.Semis = t.Semis.set j ms := by
  obtain ⟨p0, p1, p2, p3, hps, hperm, _⟩ := sortByKills_four hlen
  obtain ⟨r1, t1, hrun, he1⟩ := moveSemi_total (j := j) k hk hps hf he
  obtain ⟨ra, fa, ea, fb, eb, hadd0, hadd1, ht1⟩ := moveSemi_run hk hps hrun
  have hmS : m ∈ t.Semis := List.getElem?_mem hm
  have hmem : ∀ p ∈ [p0, p1, p2, p3], p.Name ≠ "" → p.Name ∈ t.Players.map Player.Name := by
    intro p hp hne
    have hp' := hperm.mem_iff.1 hp
    exact hseat m (by simp [hmS]) _ (mem_realNames hp' hne)
  have hfa4 : fa.Players.length = 4 := addPlayer_four hadd0 hf
  have hfb4 : fb.Players.length = 4 := addPlayer_four hadd1 hfa4
  have hreal_ne : ∀ (x : Match) (n : String), n ∈ x.realNames → n ≠ "" := by
    intro x n hn
    unfold Match.realNames at hn
    have := (List.mem_filter.1 hn).2
    simpa using this
  have hseat1 : t1.seatedInRoster := by
    intro x hx1 n hn
    rw [ht1]
    show n ∈ t.Players.map Player.Name
    rw [ht1] at hx1
    simp only [List.mem_append, List.mem_singleton] at hx1
    rcases hx1 with (hx1 | hx1) | hx1
    · exact hseat x (by simp [hx1]) n hn
    · rcases mem_set_cases hx1 with h2 | h2
      · exact hseat x (by simp [h2]) n hn
      · rw [h2] at hn
        have := (@realNames_perm m { m with Players := [p0, p1, p2, p3] } hperm n).1 hn
        exact hseat m (by simp [hmS]) n this
    · rw [hx1] at hn
      have hne := hreal_ne _ n hn
      rcases addPlayer_realNames_subset hadd1 n hn with h2 | h2
      · rcases addPlayer_realNames_subset hadd0 n h2 with h3 | h3
        · exact hseat t.Final (by simp) n h3
        · rw [h3]; exact hmem p0 (by simp) (by rw [← h3]; exact hne)
      · rw [h2]; exact hmem p1 (by simp) (by rw [← h2]; exact hne)
  have hq1 : t1.queuedInRoster := by
    intro n hn
    rw [ht1] at hn ⊢
    exact hq n hn
  obtain ⟨ps, t3, hg⟩ := getRunnerups_total hseat1 hq1
  obtain ⟨hperm3, hnames3, hfr3⟩ := getRunnerups_spec hg
  have hns : ¬ m.Kind = "tryout" := by rw [hk]; decide
  have hfr3' := hfr3
  unfold Tournament.sameButRoster at hfr3'
  refine ⟨r1, { t3 with Runnerups := ps.map Player.Name }, ?_, he1, ?_, ?_, ?_, ?_, ?_, ?_⟩
  · unfold Tournament.MovePlayers
    rw [hm]
    simp only
    unfold Tournament.moveTryout
    rw [if_neg hns]
    simp only
    rw [hrun]
    simp only
    rw [hg]
  · intro x hx n hn
    show n ∈ t3.Players.map Player.Name
    rw [hnames3]
    refine hseat1 x ?_ n hn
    rw [hfr3'] at hx
    exact hx
  · intro n hn
    show n ∈ t3.Players.map Player.Name
    rw [hnames3]
    have hn' : n ∈ ps.map Player.Name := hn
    exact hq1 n (hperm3.mem_iff.1 hn')
  · show t3.Players.map Player.Name = _
    rw [hnames3, ht1]
  · show t3.Final.Players.length = 4
    rw [hfr3', ht1]
    exact hfb4
  · show t3.Tryouts = _
    rw [hfr3', ht1]
  · refine ⟨{ m with Players := [p0, p1, p2, p3] }, ?_⟩
    show t3.Semis = _
    rw [hfr3', ht1]

/-- The step of `end_semi_total` once the winner slot is known: `m1` is the semi
with the bonus shot given and the end timestamp set. -/
theorem end_semi_aux {r : Rand} {t : Tournament} {j : Nat} {m : Match} (k : Nat)
    (now now2 : Nat) {w : Player} {ws : List Player} (m1 : Match)
    (hm1 : m1 = ({ m with Players := addShotFirst w.Name m.Players
                          Ended := some now } : Match))
    (hm : t.getMatch (.semi j) = some m) (hk : m.Kind = "semi") (hE : m.Ended = none)
    (hlen : m.Players.length = 4) (hw : m.Players = w :: ws)
    (hf : t.Final.Players.length = 4) (hseat : t.seatedInRoster) (hq : t.queuedInRoster)
    (he : Enough (k + 32) r) :
    ∃ r' t', t.End r (.semi j) now now2 = .ok (r', t', none) ∧ Enough k r' ∧
      t'.seatedInRoster ∧ t'.queuedInRoster ∧
      t'.Players.map Player.Name = t.Players.map Player.Name ∧
      t'.Final.Players.length = 4 ∧
      ∀ i, i ≠ j → t'.Semis[i]? = t.Semis[i]? := by
  have hg1 : (t.setMatch (.semi j) m1).getMatch (.semi j) = some m1 := getMatch_setMatch _ hm
  have hnames : m1.names = m.names := by rw [hm1]; exact addShotFirst_names _ _
  have hseat1 : (t.setMatch (.semi j) m1).seatedInRoster := by
    apply seatedInRoster_setMatch hseat
    intro n hn
    rw [realNames_of_names hnames] at hn
    exact seated_of_getMatch hseat hm n hn
  obtain ⟨r', t', hmove, he', hs', hq', hn', hf', _, ms, hsem'⟩ :=
    movePlayers_semi_total k hg1 (by rw [hm1]; exact hk) (by
      rw [hm1]
      show (addShotFirst w.Name m.Players).length = 4
      rw [addShotFirst_length]; exact hlen) hf hseat1 hq he
  refine ⟨r', t', end_of_move hm hE (by rw [hk]; decide) hw (by rw [← hm1]; exact hmove),
    he', hs', hq', hn', hf', ?_⟩
  intro i hi
  rw [hsem']
  simp only [Tournament.setMatch]
  rw [List.getElem?_set_ne (fun e => hi e.symm), List.getElem?_set_ne (fun e => hi e.symm)]

/-- `End` on a semi of four slots that has not ended returns without an error,
given a final of four slots, a roster that holds every seated and queued name,
and draws enough for 32 colour choices. -/
theorem end_semi_total {r : Rand} {t : Tournament} {j : Nat} {m : Match} (k : Nat)
    (now now2 : Nat)
    (hm : t.getMatch (.semi j) = some m) (hk : m.Kind = "semi") (hE : m.Ended = none)
    (hlen : m.Players.length = 4)
    (hf : t.Final.Players.length = 4) (hseat : t.seatedInRoster) (hq : t.queuedInRoster)
    (he : Enough (k + 32) r) :
    ∃ r' t', t.End r (.semi j) now now2 = .ok (r', t', none) ∧ Enough k r' ∧
      t'.seatedInRoster ∧ t'.queuedInRoster ∧
      t'.Players.map Player.Name = t.Players.map Player.Name ∧
      t'.Final.Players.length = 4 ∧
      ∀ i, i ≠ j → t'.Semis[i]? = t.Semis[i]? := by
  obtain ⟨w, ws, hw⟩ : ∃ w ws, m.Players = w :: ws := by
    cases hp : m.Players with
    | nil => rw [hp] at hlen; simp at hlen
    | cons w ws => exact ⟨w, ws, rfl⟩
  exact end_semi_aux k now now2 _ rfl hm hk hE hlen hw hf hseat hq he

/-- C5: `MovePlayers` on a semi (kind semi) with 4 slots, in a tournament whose
final has 4 slots of which at least 2 are placeholders.  With `p0, p1, p2, p3`
the slots sorted by kills descending: whenever `MovePlayers` returns, `p0` has
taken the first placeholder slot of the final and `p1` the next one, and no other
name of the final has changed; and it returns when the roster holds every seated
and queued name and the draws are enough for 32 colour choices.  Hence, in a
tournament whose two semis hold 4 real players each and have not ended and whose
final holds placeholders only: whenever `End` has returned once for each of the
two semis, in either order, both calls reported no error and the final holds
exactly 4 real players; and both calls return when the roster holds every seated
and queued name and the draws are enough for 64 colour choices. -/
theorem C5_movePlayers_semi :
    (∀ (r : Rand) (t : Tournament) (j : Nat) (m : Match),
      t.getMatch (.semi j) = some m → m.Kind = "semi" → m.Players.length = 4 →
      t.Final.Players.length = 4 → t.Final.ActualPlayers ≤ 2 →
      ∃ p0 p1 p2 p3, SortByKills m.Players = [p0, p1, p2, p3] ∧
        [p0, p1, p2, p3].Perm m.Players ∧
        p1.Kills ≤ p0.Kills ∧ p2.Kills ≤ p1.Kills ∧ p3.Kills ≤ p2.Kills ∧
        (∀ r' t', t.MovePlayers r (.semi j) = .ok (r', t') →
          ∃ mid, Seats t.Final.names mid p0.Name ∧ Seats mid t'.Final.names p1.Name) ∧
        (t.seatedInRoster → t.queuedInRoster → Enough 32 r →
          ∃ r' t', t.MovePlayers r (.semi j) = .ok (r', t'))) ∧
    (∀ (r : Rand) (t : Tournament) (a b : Nat) (s0 s1 : Match) (n1 n1' n2 n2' : Nat),
      t.Semis = [s0, s1] → ((a = 0 ∧ b = 1) ∨ (a = 1 ∧ b = 0)) →
      (∀ s ∈ [s0, s1], s.Kind = "semi" ∧ s.Ended = none ∧ s.Players.length = 4 ∧
        ∀ p ∈ s.Players, p.Name ≠ "") →
      t.Final.names = ["", "", "", ""] →
      (∀ (r1 r2 : Rand) (t1 t2 : Tournament) (e1 e2 : Option String),
        t.End r (.semi a) n1 n1' = .ok (r1, t1, e1) →
        t1.End r1 (.semi b) n2 n2' = .ok (r2, t2, e2) →
        e1 = none ∧ e2 = none ∧ t2.Final.Players.length = 4 ∧ t2.Final.ActualPlayers = 4) ∧
      (t.seatedInRoster → t.queuedInRoster → Enough 64 r →
        ∃ r1 t1 r2 t2, t.End r (.semi a) n1 n1' = .ok (r1, t1, none) ∧
          t1.End r1 (.semi b) n2 n2' = .ok (r2, t2, none) ∧
          t2.Final.Players.length = 4 ∧ t2.Final.ActualPlayers = 4)) := by
  constructor
  · intro r t j m hm hk hlen hf hact
    obtain ⟨p0, p1, p2, p3, hps, hperm, h1, h2, h3, hseat⟩ :=
      semis_fill_final.1 r t j m hm hk hlen hf hact
    refine ⟨p0, p1, p2, p3, hps, hperm, h1, h2, h3, hseat, ?_⟩
    intro hs hq he
    obtain ⟨r', t', hmove, _⟩ := movePlayers_semi_total 0 hm hk hlen hf hs hq
      (by simpa using he)
    exact ⟨r', t', hmove⟩
  · intro r t a b s0 s1 n1 n1' n2 n2' hs hab hsem hfin
    have hpart : ∀ (r1 r2 : Rand) (t1 t2 : Tournament) (e1 e2 : Option String),
        t.End r (.semi a) n1 n1' = .ok (r1, t1, e1) →
        t1.End r1 (.semi b) n2 n2' = .ok (r2, t2, e2) →
        e1 = none ∧ e2 = none ∧ t2.Final.Players.length = 4 ∧ t2.Final.ActualPlayers = 4 :=
      fun r1 r2 t1 t2 e1 e2 hE1 hE2 =>
        semis_fill_final.2 r t a b s0 s1 n1 n1' n2 n2' r1 r2 t1 t2 e1 e2 hs hab hsem hfin
          hE1 hE2
    refine ⟨hpart, ?_⟩
    intro hseat hq he
    obtain ⟨sa, sb, hga, hgb, hsa, hsb⟩ : ∃ sa sb, t.getMatch (.semi a) = some sa ∧
        t.Semis[b]? = some sb ∧ sa ∈ [s0, s1] ∧ sb ∈ [s0, s1] := by
      rcases hab with ⟨ha, hb⟩ | ⟨ha, hb⟩ <;> subst ha hb
      · exact ⟨s0, s1, by simp [Tournament.getMatch, hs], by simp [hs], by simp, by simp⟩
      · exact ⟨s1, s0, by simp [Tournament.getMatch, hs], by simp [hs], by simp, by simp⟩
    have hne : b ≠ a := by rcases hab with ⟨ha, hb⟩ | ⟨ha, hb⟩ <;> omega
    obtain ⟨hka, hea, hla, _⟩ := hsem sa hsa
    obtain ⟨hkb, heb, hlb, _⟩ := hsem sb hsb
    have hf4 : t.Final.Players.length = 4 := by rw [← names_length, hfin]; rfl
    obtain ⟨r1, t1, hE1, he1, hs1, hq1, _, hf1, hkeep⟩ :=
      end_semi_total 32 n1 n1' hga hka hea hla hf4 hseat hq (by simpa using he)
    have hgb1 : t1.getMatch (.semi b) = some sb := by
      show t1.Semis[b]? = some sb
      rw [hkeep b hne]; exact hgb
    obtain ⟨r2, t2, hE2, _⟩ :=
      end_semi_total 0 n2 n2' hgb1 hkb heb hlb hf1 hs1 hq1 (by simpa using he1)
    obtain ⟨_, _, h3, h4⟩ := hpart r1 r2 t1 t2 none none hE1 hE2
    exact ⟨r1, t1, r2, t2, hE1, hE2, h3, h4⟩

/-- C5 at `demoSemis`, whose roster holds every seated and queued name: semi 1
ends, then semi 0; both calls return without an error and the final then holds
c, j, h, k. -/
theorem C5_movePlayers_semi_witness :
    demoSemis.seatedInRoster ∧ demoSemis.queuedInRoster ∧
    ∃ r1 t1 r2 t2, demoSemis.End (cycleDraws 64) (.semi 1) 5 6 = .ok (r1, t1, none) ∧
      t1.End r1 (.semi 0) 7 8 = .ok (r2, t2, none) ∧ t2.Final.ActualPlayers = 4 ∧
      t2.Final.names = ["c", "j", "h", "k"] := by
  have hs : demoSemis.seatedInRoster := by
    unfold Tournament.seatedInRoster
    decide
  have hq : demoSemis.queuedInRoster := by
    unfold Tournament.queuedInRoster
    decide
  obtain ⟨r1, t1, r2, t2, h1, h2, _, hact⟩ :=
    (C5_movePlayers_semi.2 (cycleDraws 64) demoSemis 1 0
      (mkSemi 0 ("b", 4) ("h", 10) ("k", 6) ("m", 1))
      (mkSemi 1 ("c", 10) ("e", 3) ("j", 8) ("p", 8)) 5 6 7 8 rfl
      (Or.inr ⟨rfl, rfl⟩) (by decide) rfl).2 hs hq (enough_cycleDraws 64)
  have h3 : (demoSemis.End (cycleDraws 64) (.semi 1) 5 6 >>=
      fun s => s.2.1.End s.1 (.semi 0) 7 8).map
        (fun (o : Rand × Tournament × Option String) => o.2.1.Final.names) =
      .ok ["c", "j", "h", "k"] := by rfl
  rw [h1] at h3
  have h4 : (t1.End r1 (.semi 0) 7 8).map
      (fun (o : Rand × Tournament × Option String) => o.2.1.Final.names) =
      .ok ["c", "j", "h", "k"] := h3
  rw [h2] at h4
  exact ⟨hs, hq, r1, t1, r2, t2, h1, h2, hact, by simpa [Except.map] using h4⟩

theorem foldlM_total_mem {σ β ε : Type} (P : σ → Prop) (f : σ → β → Except ε σ) :
    ∀ (l : List β) (s : σ), (∀ s b, b ∈ l → P s → ∃ s', f s b = .ok s' ∧ P s') → P s →
      ∃ s', l.foldlM f s = .ok s' ∧ P s' := by
  intro l
  induction l with
  | nil => intro s _ hs; exact ⟨s, rfl, hs⟩
  | cons b l ih =>
    intro s hf hs
    obtain ⟨s1, h1, hP1⟩ := hf s b (List.mem_cons_self _ _) hs
    obtain ⟨s', h', hP'⟩ := ih s1 (fun s b hb => hf s b (List.mem_cons_of_mem _ hb)) hP1
    refine ⟨s', ?_, hP'⟩
    rw [List.foldlM_cons, h1]
    exact h'

/-- Writing to a slot that exists returns. -/
theorem modPlayer_total {m : Match} {i : Nat} (f : Player → Player)
    (h : i < m.Players.length) :
    ∃ m', m.modPlayer i f = .ok m' ∧ m'.Players.length = m.Players.length := by
  unfold Match.modPlayer
  rw [List.getElem?_eq_getElem h]
  exact ⟨_, rfl, by simp⟩

/-- The round of `Commit` for a slot that exists and a score of two entries or more
returns. -/
theorem commitScore_total {m : Match} {i : Nat} {score : List Int}
    (hi : i < m.Players.length) (hs : 2 ≤ score.length) :
    ∃ m', m.commitScore i score = .ok m' ∧ m'.Players.length = m.Players.length := by
  rcases score with _ | ⟨ups, _ | ⟨downs, rest⟩⟩
  · simp at hs
  · simp at hs
  · unfold Match.commitScore
    simp only
    by_cases h3 : ups = 3
    · rw [if_pos h3]
      obtain ⟨m0, h0, hl0⟩ := modPlayer_total Player.AddSweep hi
      rw [h0]
      simp only
      have hi0 : i < m0.Players.length := by rw [hl0]; exact hi
      by_cases hd : downs = 1
      · rw [if_pos hd]
        obtain ⟨m1, h1, hl1⟩ := modPlayer_total Player.RemoveShot hi0
        rw [h1]
        simp only
        rw [if_pos (by rw [hd]; decide)]
        obtain ⟨m2, h2, hl2⟩ := modPlayer_total Player.AddSelf
          (show i < m1.Players.length by rw [hl1]; exact hi0)
        exact ⟨m2, h2, by rw [hl2, hl1, hl0]⟩
      · rw [if_neg hd]
        simp only
        by_cases hz : downs ≠ 0
        · rw [if_pos hz]
          obtain ⟨m2, h2, hl2⟩ := modPlayer_total Player.AddSelf hi0
          exact ⟨m2, h2, by rw [hl2, hl0]⟩
        · rw [if_neg hz]
          exact ⟨m0, rfl, hl0⟩
    · rw [if_neg h3]
      by_cases hp : ups > 0
      · rw [if_pos hp]
        obtain ⟨m0, h0, hl0⟩ := modPlayer_total (fun p => p.AddKill [ups]) hi
        rw [h0]
        simp only
        have hi0 : i < m0.Players.length := by rw [hl0]; exact hi
        by_cases hz : downs ≠ 0
        · rw [if_pos hz]
          obtain ⟨m2, h2, hl2⟩ := modPlayer_total Player.AddSelf hi0
          exact ⟨m2, h2, by rw [hl2, hl0]⟩
        · rw [if_neg hz]
          exact ⟨m0, rfl, hl0⟩
      · rw [if_neg hp]
        simp only
        by_cases hz : downs ≠ 0
        · rw [if_pos hz]
          exact modPlayer_total Player.AddSelf hi
        · rw [if_neg hz]
          exact ⟨m, rfl, rfl⟩

/-- `Commit` returns when the match has a slot for every score and every shot and
every score has two entries or more. -/
theorem match_commit_total {m : Match} {scores : List (List Int)} {shots : List Bool}
    (hsl : scores.length ≤ m.Players.length) (hsc : ∀ s ∈ scores, 2 ≤ s.length)
    (hsh : shots.length ≤ m.Players.length) :
    ∃ m', m.Commit scores shots = .ok m' := by
  obtain ⟨m1, h1, hl1⟩ := foldlM_total_mem (fun s : Match => s.Players.length = m.Players.length)
    (fun m (is : Nat × List Int) => Match.commitScore m is.1 is.2) scores.enum m
    (by
      intro s b hb hs
      obtain ⟨s', h', hl'⟩ := @commitScore_total s b.1 b.2
        (by rw [hs]; exact Nat.lt_of_lt_of_le (List.fst_lt_of_mem_enum hb) hsl)
        (hsc _ (List.snd_mem_of_mem_enum hb))
      exact ⟨s', h', hl'.trans hs⟩) rfl
  obtain ⟨m2, h2, _⟩ := foldlM_total_mem (fun s : Match => s.Players.length = m.Players.length)
    (fun m (is : Nat × Bool) => Match.commitShot m is.1 is.2) shots.enum m1
    (by
      intro s b hb hs
      show ∃ s', Match.commitShot s b.1 b.2 = .ok s' ∧ s'.Players.length = m.Players.length
      unfold Match.commitShot
      by_cases hshot : b.2 = true
      · rw [if_pos hshot]
        obtain ⟨s', h', hl'⟩ := modPlayer_total (m := s) (i := b.1) Player.AddShot
          (by rw [hs]; exact Nat.lt_of_lt_of_le (List.fst_lt_of_mem_enum hb) hsh)
        exact ⟨s', h', hl'.trans hs⟩
      · rw [if_neg hshot]
        exact ⟨s, rfl, hs⟩) hl1
  refine ⟨m2, ?_⟩
  unfold Match.Commit
  rw [h1]
  exact h2

/-- In the tryouts phase the roster holds every seated and queued name, given that
it holds the real names of the final. -/
theorem phase_roster {roster : List String} {t : Tournament}
    (hI : TryoutsPhase roster t.view) (hP : t.Players.map Player.Name = roster)
    (hF : ∀ n ∈ t.Final.realNames, n ∈ roster) :
    t.seatedInRoster ∧ t.queuedInRoster := by
  obtain ⟨_, _, hperm, a0, a1, hS, _, _, hE⟩ := hI
  have hsub : ∀ n ∈ endedNames t.view.1, n ∈ roster := fun n hn =>
    hperm.mem_iff.1 ((endedNames_sublist _).subset hn)
  have hin : ∀ n ∈ a0 ++ a1 ++ t.view.2.2, n ∈ roster := fun n hn => hsub n (hE.mem_iff.1 hn)
  constructor
  · intro m hm n hn
    rw [hP]
    have hn' : n ∈ m.names ∧ n ≠ "" := by
      unfold Match.realNames at hn
      simpa using hn
    simp only [List.mem_append, List.mem_singleton] at hm
    rcases hm with (hm | hm) | hm
    · apply hperm.mem_iff.1
      exact List.mem_flatten.2 ⟨m.names, List.mem_map.2 ⟨m.profile,
        List.mem_map_of_mem _ hm, rfl⟩, hn'.1⟩
    · have hmn : m.names ∈ t.view.2.1 := List.mem_map_of_mem _ hm
      rw [hS] at hmn
      simp only [List.mem_cons, List.mem_singleton, List.not_mem_nil, or_false] at hmn
      apply hin
      rcases hmn with h | h
      · have h2 := hn'.1
        rw [h] at h2
        rcases List.mem_append.1 h2 with h3 | h3
        · exact List.mem_append_left _ (List.mem_append_left _ h3)
        · exact absurd (List.eq_of_mem_replicate h3) hn'.2
      · have h2 := hn'.1
        rw [h] at h2
        rcases List.mem_append.1 h2 with h3 | h3
        · exact List.mem_append_left _ (List.mem_append_right _ h3)
        · exact absurd (List.eq_of_mem_replicate h3) hn'.2
    · rw [hm] at hn; exact hF n hn
  · intro n hn
    rw [hP]
    exact hin n (List.mem_append_right _ hn)

/-- In the tryouts phase both semis have four slots. -/
theorem phase_semis {roster : List String} {t : Tournament}
    (hI : TryoutsPhase roster t.view) :
    ∃ s0 s1, t.Semis = [s0, s1] ∧ s0.Players.length = 4 ∧ s1.Players.length = 4 := by
  obtain ⟨hlen, _, _, a0, a1, hS, hl0, hl1, _⟩ := hI
  have hc : (t.view.1.filter (fun pr => pr.2.2.2)).length ≤ 4 := by
    rw [← hlen]; exact List.length_filter_le _ _
  obtain ⟨s0, s1, hs, hs0, hs1⟩ := map_eq_pair (show t.Semis.map Match.names = _ from hS)
  refine ⟨s0, s1, hs, ?_, ?_⟩
  · rw [← names_length, hs0]; simp; omega
  · rw [← names_length, hs1]; simp; omega

/-- `Commit` leaves the roster alone and changes no name of the final. -/
theorem commit_frame {t t' : Tournament} {ref : MatchRef} {scores : List (List Int)}
    {shots : List Bool} (h : t.Commit ref scores shots = .ok t') :
    t'.Players = t.Players ∧ t'.Final.names = t.Final.names := by
  unfold Tournament.Commit at h
  split at h
  · simp at h
  · rename_i m hm
    split at h
    · simp at h
    · rename_i m1 h1
      simp only [Except.ok.injEq] at h
      rw [← h]
      cases ref with
      | tryout i => exact ⟨rfl, rfl⟩
      | semi i => exact ⟨rfl, rfl⟩
      | final =>
        simp only [Tournament.getMatch, Option.some.injEq] at hm
        rw [hm]
        exact ⟨rfl, (match_commit_frame h1).1⟩

/-- `Start` on a tryout that holds 4 real players leaves the roster and the final
alone. -/
theorem start_frame {r r' : Rand} {t t' : Tournament} {k : Nat} {now : Nat} {m : Match}
    {e : Option String} (hm : t.getMatch (.tryout k) = some m) (hact : m.ActualPlayers = 4)
    (h : t.Start r (.tryout k) now = .ok (r', t', e)) :
    t'.Players = t.Players ∧ t'.Final = t.Final := by
  unfold Tournament.Start at h
  rw [hm] at h
  simp only at h
  split at h
  · simp at h; rw [← h.2.1]; exact ⟨rfl, rfl⟩
  · simp only [hact, ne_eq, not_true_eq_false, if_false, hm] at h
    split at h
    · simp at h
    · rename_i r2 m2 h2
      simp at h
      rw [← h.2.1]
      exact ⟨rfl, rfl⟩

/-- `End` on a tryout, in a bracket of two semis, leaves the names of the roster and
the final alone. -/
theorem end_frame {r r' : Rand} {t t' : Tournament} {k : Nat} {now now2 : Nat}
    {m s0 s1 : Match} {e : Option String} (hm : t.getMatch (.tryout k) = some m)
    (hk : m.Kind = "tryout") (hx : 0 ≤ m.Index) (hlen : m.Players.length = 4)
    (hs : t.Semis = [s0, s1]) (h : t.End r (.tryout k) now now2 = .ok (r', t', e)) :
    t'.Players.map Player.Name = t.Players.map Player.Name ∧ t'.Final = t.Final := by
  cases hE : m.Ended with
  | some x =>
    have : t.End r (.tryout k) now now2 = .ok (r, t, some "match already ended") := by
      simp [Tournament.End, hm, hE, Time.IsZero]
    rw [this] at h
    simp only [Except.ok.injEq, Prod.mk.injEq] at h
    rw [← h.2.1]
    exact ⟨rfl, rfl⟩
  | none =>
    obtain ⟨_, m1, hmk, hmi, hmn, _, _, _, hmove⟩ :=
      end_inv hm hE (by rw [hk]; decide) hlen h
    have hg1 : (t.setMatch (.tryout k) m1).getMatch (.tryout k) = some m1 :=
      getMatch_setMatch m1 hm
    have hk1 : m1.Kind = "tryout" := hmk.trans hk
    have hl1 : m1.Players.length = 4 := by rw [← names_length, hmn, names_length]; exact hlen
    obtain ⟨p0, p1, p2, p3, hps, _⟩ := sortByKills_four hl1
    obtain ⟨t1, hrun, _, _, hfin, _, hnames, _⟩ := movePlayers_tryout_inv hg1 hk1 hmove
    obtain ⟨hP, hF, _⟩ := moveTryout_facts hk1 hps (by rw [hmi]; exact hx)
      (show (t.setMatch (.tryout k) m1).Semis = [s0, s1] from hs) hrun
    refine ⟨?_, ?_⟩
    · rw [hnames, hP]; rfl
    · rw [hfin, hF]; rfl

/-- The step of `end_tryout_total` once the winner slot is known: `m1` is the tryout
with the bonus shot given and the end timestamp set. -/
theorem end_tryout_aux {r : Rand} {t : Tournament} {j : Nat} {m s0 s1 : Match} (k : Nat)
    (now now2 : Nat) {w : Player} {ws : List Player} (m1 : Match)
    (hm1 : m1 = ({ m with Players := addShotFirst w.Name m.Players
                          Ended := some now } : Match))
    (hm : t.getMatch (.tryout j) = some m) (hk : m.Kind = "tryout") (hx : 0 ≤ m.Index)
    (hE : m.Ended = none) (hlen : m.Players.length = 4) (hw : m.Players = w :: ws)
    (hreal : ∀ n ∈ m.names, n ≠ "")
    (hs : t.Semis = [s0, s1]) (h0 : s0.Players.length ≤ 4) (h1 : s1.Players.length ≤ 4)
    (hseat : t.seatedInRoster) (hq : t.queuedInRoster) (he : Enough (k + 32) r) :
    ∃ r' t', t.End r (.tryout j) now now2 = .ok (r', t', none) ∧ Enough k r' := by
  have hg1 : (t.setMatch (.tryout j) m1).getMatch (.tryout j) = some m1 := getMatch_setMatch _ hm
  have hnames : m1.names = m.names := by rw [hm1]; exact addShotFirst_names _ _
  have hseat1 : (t.setMatch (.tryout j) m1).seatedInRoster := by
    apply seatedInRoster_setMatch hseat
    intro n hn
    rw [realNames_of_names hnames] at hn
    exact seated_of_getMatch hseat hm n hn
  obtain ⟨r', t', hmove, he'⟩ := movePlayers_tryout_total k hg1 (by rw [hm1]; exact hk)
    (by rw [hm1]; exact hx)
    (by rw [← names_length, hnames, names_length]; exact hlen)
    (by
      intro p hp
      apply hreal
      rw [← hnames]
      exact List.mem_map_of_mem _ hp)
    (show (t.setMatch (.tryout j) m1).Semis = [s0, s1] from hs) h0 h1 hseat1 hq he
  exact ⟨r', t', end_of_move hm hE (by rw [hk]; decide) hw (by rw [← hm1]; exact hmove), he'⟩

/-- `End` on a tryout of four real players that has not ended returns without an
error, given two semis of at most four slots, a roster that holds every seated and
queued name, and draws enough for 32 colour choices. -/
theorem end_tryout_total {r : Rand} {t : Tournament} {j : Nat} {m s0 s1 : Match} (k : Nat)
    (now now2 : Nat)
    (hm : t.getMatch (.tryout j) = some m) (hk : m.Kind = "tryout") (hx : 0 ≤ m.Index)
    (hE : m.Ended = none) (hlen : m.Players.length = 4) (hreal : ∀ n ∈ m.names, n ≠ "")
    (hs : t.Semis = [s0, s1]) (h0 : s0.Players.length ≤ 4) (h1 : s1.Players.length ≤ 4)
    (hseat : t.seatedInRoster) (hq : t.queuedInRoster) (he : Enough (k + 32) r) :
    ∃ r' t', t.End r (.tryout j) now now2 = .ok (r', t', none) ∧ Enough k r' := by
  obtain ⟨w, ws, hw⟩ : ∃ w ws, m.Players = w :: ws := by
    cases hp : m.Players with
    | nil => rw [hp] at hlen; simp at hlen
    | cons w ws => exact ⟨w, ws, rfl⟩
  exact end_tryout_aux k now now2 _ rfl hm hk hx hE hlen hw hreal hs h0 h1 hseat hq he

/-- One well-formed call returns in the tryouts phase, given a final of four slots
whose real names the roster holds, and draws enough for 32 colour choices. -/
theorem event_total {roster : List String} (hne : ∀ n ∈ roster, n ≠ "")
    {st : Rand × Tournament} {ev : Event} (k : Nat) (hI : TryoutsPhase roster st.2.view)
    (hP : st.2.Players.map Player.Name = roster) (hF4 : st.2.Final.Players.length = 4)
    (hF : ∀ n ∈ st.2.Final.realNames, n ∈ roster) (hw : ev.wellFormed = true)
    (he : Enough (k + 32) st.1) :
    ∃ st', runEvent st ev = .ok st' ∧ Enough k st'.1 := by
  obtain ⟨r, t⟩ := st
  simp only at hI hP hF4 hF he
  have hT : t.Tryouts.length = 4 := by simpa [Tournament.view] using hI.1
  obtain ⟨s0, s1, hs, hs0, hs1⟩ := phase_semis hI
  have hek : Enough k r := enough_le (by omega) he
  have hget : ∀ j, j < 4 → ∃ m, t.getMatch (.tryout j) = some m := fun j hj =>
    ⟨t.Tryouts[j], by
      simp only [Tournament.getMatch]
      exact List.getElem?_eq_getElem (by omega)⟩
  cases ev with
  | start j now =>
    simp only [Event.wellFormed, decide_eq_true_eq] at hw
    obtain ⟨m, hm⟩ := hget j hw
    obtain ⟨_, _, hlen, hact, _⟩ := tryout_of_phase hne hI hm
    simp only [runEvent]
    unfold Tournament.Start
    rw [hm]
    simp only
    by_cases hst : (!m.Started.IsZero) = true
    · rw [if_pos hst]
      exact ⟨(r, t), rfl, hek⟩
    · rw [if_neg hst]
      simp only [hact, ne_eq, not_true_eq_false, if_false, hm]
      obtain ⟨r', m', hc, _, he'⟩ := correctColorConflicts_total
        (show m.Players.length ≤ 4 by omega) (k := k) (r := r) (enough_le (by omega) he)
      rw [hc]
      exact ⟨_, rfl, he'⟩
  | commit ref scores shots =>
    simp only [Event.wellFormed, Bool.and_eq_true, decide_eq_true_eq, List.all_eq_true] at hw
    obtain ⟨⟨⟨hr, hsl⟩, hsc⟩, hsh⟩ := hw
    obtain ⟨m, hm, hlen⟩ : ∃ m, t.getMatch ref = some m ∧ m.Players.length = 4 := by
      cases ref with
      | tryout j =>
        simp only [decide_eq_true_eq] at hr
        obtain ⟨m, hm⟩ := hget j hr
        exact ⟨m, hm, (tryout_of_phase hne hI hm).2.2.1⟩
      | semi j =>
        simp only [decide_eq_true_eq] at hr
        simp only [Tournament.getMatch, hs]
        interval_cases j
        · exact ⟨s0, rfl, hs0⟩
        · exact ⟨s1, rfl, hs1⟩
      | final => exact ⟨t.Final, rfl, hF4⟩
    obtain ⟨m', hc⟩ := match_commit_total (m := m) (by rw [hlen]; exact hsl) hsc
      (by rw [hlen]; exact hsh)
    simp only [runEvent]
    unfold Tournament.Commit
    rw [hm]
    simp only
    rw [hc]
    exact ⟨_, rfl, hek⟩
  | finish j now now2 =>
    simp only [Event.wellFormed, decide_eq_true_eq] at hw
    obtain ⟨m, hm⟩ := hget j hw
    obtain ⟨hk, hx, hlen, hact, _⟩ := tryout_of_phase hne hI hm
    simp only [runEvent]
    cases hE : m.Ended with
    | some x =>
      have : t.End r (.tryout j) now now2 = .ok (r, t, some "match already ended") := by
        simp [Tournament.End, hm, hE, Time.IsZero]
      rw [this]
      exact ⟨(r, t), rfl, hek⟩
    | none =>
      obtain ⟨hseat, hq⟩ := phase_roster hI hP hF
      have hreal : ∀ n ∈ m.names, n ≠ "" := by
        intro n hn
        apply hne n
        apply hI.2.2.1.mem_iff.1
        have hmem : m ∈ t.Tryouts := List.getElem?_mem hm
        exact List.mem_flatten.2 ⟨m.names, List.mem_map.2 ⟨m.profile,
          List.mem_map_of_mem _ hmem, rfl⟩, hn⟩
      obtain ⟨r', t', hend, he'⟩ := end_tryout_total k now now2 hm hk hx hE hlen hreal hs
        (by omega) (by omega) hseat hq he
      rw [hend]
      exact ⟨_, rfl, he'⟩

/-- One call in the tryouts phase leaves the names of the roster and of the final
alone. -/
theorem event_frame {roster : List String} (hne : ∀ n ∈ roster, n ≠ "")
    {st st' : Rand × Tournament} {ev : Event} (hI : TryoutsPhase roster st.2.view)
    (h : runEvent st ev = .ok st') :
    st'.2.Players.map Player.Name = st.2.Players.map Player.Name ∧
      st'.2.Final.names = st.2.Final.names := by
  cases ev with
  | start k now =>
    simp only [runEvent] at h
    split at h
    · simp at h
    · rename_i r1 t1 e1 h1
      simp only [Except.ok.injEq] at h
      subst h
      cases hm : st.2.getMatch (.tryout k) with
      | none => simp [Tournament.Start, hm] at h1
      | some m =>
        obtain ⟨hp, hf⟩ := start_frame hm (tryout_of_phase hne hI hm).2.2.2.1 h1
        simp only
        rw [hp, hf]
        exact ⟨rfl, rfl⟩
  | commit ref scores shots =>
    simp only [runEvent] at h
    split at h
    · simp at h
    · rename_i t1 h1
      simp only [Except.ok.injEq] at h
      subst h
      obtain ⟨hp, hf⟩ := commit_frame h1
      simp only
      rw [hp]
      exact ⟨rfl, hf⟩
  | finish k now now2 =>
    simp only [runEvent] at h
    split at h
    · simp at h
    · rename_i r1 t1 e1 h1
      simp only [Except.ok.injEq] at h
      subst h
      cases hm : st.2.getMatch (.tryout k) with
      | none => simp [Tournament.End, hm] at h1
      | some m =>
        obtain ⟨hk, hx, hlen, _, _⟩ := tryout_of_phase hne hI hm
        obtain ⟨s0, s1, hs, _, _⟩ := phase_semis hI
        obtain ⟨hp, hf⟩ := end_frame hm hk hx hlen hs h1
        simp only
        rw [hf]
        exact ⟨hp, rfl⟩

/-- A run of well-formed calls returns in the tryouts phase, given a final of four
slots whose real names the roster holds, and draws enough for 32 colour choices
per call. -/
theorem run_total {roster : List String} (hR : roster.Nodup) (hne : ∀ n ∈ roster, n ≠ "")
    (es : List Event) :
    ∀ (st : Rand × Tournament), TryoutsPhase roster st.2.view →
      st.2.Players.map Player.Name = roster → st.2.Final.Players.length = 4 →
      (∀ n ∈ st.2.Final.realNames, n ∈ roster) → (∀ ev ∈ es, ev.wellFormed = true) →
      Enough (32 * es.length) st.1 → ∃ st', runEvents es st = .ok st' := by
  induction es with
  | nil =>
    intro st _ _ _ _ _ _
    exact ⟨st, rfl⟩
  | cons ev es ih =>
    intro st hI hP hF4 hF hw he
    obtain ⟨s1, h1, he1⟩ := event_total hne (32 * es.length) hI hP hF4 hF
      (hw ev (List.mem_cons_self _ _)) (by
        have : 32 * (ev :: es).length = 32 * es.length + 32 := by
          simp [Nat.mul_succ]
        rw [this] at he
        exact he)
    obtain ⟨hI1, _, _⟩ := event_step hR hne hI h1
    obtain ⟨hp, hf⟩ := event_frame hne hI h1
    obtain ⟨st', h'⟩ := ih s1 hI1 (hp.trans hP)
      (by rw [← names_length, hf, names_length]; exact hF4)
      (by
        intro n hn
        rw [realNames_of_names hf] at hn
        exact hF n hn)
      (fun ev hev => hw ev (List.mem_cons_of_mem _ hev)) he1
    refine ⟨st', ?_⟩
    unfold runEvents
    rw [List.foldlM_cons, h1]
    exact h'

/-- A bracket of four seeded tryouts that have not ended, two semis of placeholders
and an empty queue is in the tryouts phase. -/
theorem phase_init (t : Tournament) (s0 s1 : Match)
    (hT : t.Tryouts.length = 4)
    (hm : ∀ m ∈ t.Tryouts, m.Kind = "tryout" ∧ 0 ≤ m.Index ∧ m.Players.length = 4 ∧
      m.Ended = none)
    (hseed : ((t.Tryouts.map Match.names).flatten).Perm (t.Players.map Player.Name))
    (hS : t.Semis = [s0, s1]) (hs0 : s0.names = ["", "", "", ""])
    (hs1 : s1.names = ["", "", "", ""]) (hQ : t.Runnerups = []) :
    TryoutsPhase (t.Players.map Player.Name) t.view := by
  have hfil : (t.Tryouts.map Match.profile).filter (fun pr => pr.2.2.2) = [] := by
    apply List.filter_eq_nil_iff.2
    intro pr hpr
    obtain ⟨m, hmm, hmp⟩ := List.mem_map.1 hpr
    rw [← hmp]
    simp [Match.profile, Match.IsEnded, (hm m hmm).2.2.2, Time.IsZero]
  refine ⟨by simp [Tournament.view, hT], ?_, ?_, [], [], ?_, ?_, ?_, ?_⟩
  · intro pr hpr
    obtain ⟨m, hmm, hmp⟩ := List.mem_map.1 hpr
    rw [← hmp]
    obtain ⟨h1, h2, h3, _⟩ := hm m hmm
    exact ⟨h1, h2, by simp [Match.profile, names_length, h3]⟩
  · simp only [Tournament.view, List.map_map]
    exact hseed
  · simp only [Tournament.view, hfil, hS, List.map_cons, List.map_nil, hs0, hs1]
    rfl
  · simp only [Tournament.view, hfil]; rfl
  · simp only [Tournament.view, hfil]; rfl
  · simp only [Tournament.view, endedNames, hfil, hQ]
    simp

/-- C4: a tournament of 16 players with non-empty, pairwise distinct names, seeded
into 4 tryouts (kind tryout, index at least 0, 4 slots, not ended) that together
seat exactly the roster, with two semis of placeholders only and an empty runnerup
queue, and a run of calls of `Start` and `End` on tryouts and of `Commit` on any
match, in any order, in which `End` is called on each of the four tryouts.
Whenever the run returns, each semi holds 4 slots with 4 real players, the 8 names
seated in the semis are pairwise distinct, the queue holds 8 names, and the semis
and the queue together hold exactly the roster names.  And the run returns when
every call is well-formed (a tryout index below 4, a semi index below 2, at most
four scores of at least two entries each, at most four shots), the final has four
slots whose real names the roster holds, and the draws are enough for 32 colour
choices per call. -/
theorem C4_tryouts_fill_semis (r : Rand) (t : Tournament) (es : List Event) (s0 s1 : Match)
    (hT : t.Tryouts.length = 4)
    (hm : ∀ m ∈ t.Tryouts, m.Kind = "tryout" ∧ 0 ≤ m.Index ∧ m.Players.length = 4 ∧
      m.Ended = none)
    (h16 : t.Players.length = 16) (hnd : (t.Players.map Player.Name).Nodup)
    (hne : ∀ p ∈ t.Players, p.Name ≠ "")
    (hseed : ((t.Tryouts.map Match.names).flatten).Perm (t.Players.map Player.Name))
    (hS : t.Semis = [s0, s1]) (hs0 : s0.names = ["", "", "", ""])
    (hs1 : s1.names = ["", "", "", ""]) (hQ : t.Runnerups = [])
    (hes : ∀ k, k < 4 → ∃ now now2, Event.finish k now now2 ∈ es) :
    (∀ r' t', runEvents es (r, t) = .ok (r', t') →
      ∃ s0' s1', t'.Semis = [s0', s1'] ∧
        s0'.Players.length = 4 ∧ s0'.ActualPlayers = 4 ∧
        s1'.Players.length = 4 ∧ s1'.ActualPlayers = 4 ∧
        (s0'.names ++ s1'.names).Nodup ∧ t'.Runnerups.length = 8 ∧
        (s0'.names ++ s1'.names ++ t'.Runnerups).Perm (t.Players.map Player.Name)) ∧
    ((∀ ev ∈ es, ev.wellFormed = true) → t.Final.Players.length = 4 →
      (∀ n ∈ t.Final.realNames, n ∈ t.Players.map Player.Name) →
      Enough (32 * es.length) r → ∃ r' t', runEvents es (r, t) = .ok (r', t')) := by
  constructor
  · intro r' t' hrun
    exact tryouts_fill_semis_run r t es s0 s1 r' t' hT hm h16 hnd hne hseed hS hs0 hs1 hQ hes hrun
  · intro hw hF4 hF he
    have hne' : ∀ n ∈ t.Players.map Player.Name, n ≠ "" := by
      intro n hn
      obtain ⟨p, hp, hpn⟩ := List.mem_map.1 hn
      rw [← hpn]; exact hne p hp
    obtain ⟨⟨r', t'⟩, h⟩ := run_total hnd hne' es (r, t)
      (phase_init t s0 s1 hT hm hseed hS hs0 hs1 hQ) rfl hF4 hF hw he
    exact ⟨r', t', h⟩

/-- C4 at `demoTournament` and `demoEvents`: the run returns, and afterwards the
semis hold 4 real players each and the queue the 8 other names. -/
theorem C4_tryouts_fill_semis_witness :
    ∃ r' t' s0' s1', runEvents demoEvents (cycleDraws 320, demoTournament) = .ok (r', t') ∧
      t'.Semis = [s0', s1'] ∧ s0'.ActualPlayers = 4 ∧ s1'.ActualPlayers = 4 ∧
      (s0'.names ++ s1'.names).Nodup ∧ t'.Runnerups.length = 8 ∧
      (s0'.names ++ s1'.names ++ t'.Runnerups).Perm (demoTournament.Players.map Player.Name) := by
  have h := C4_tryouts_fill_semis (cycleDraws 320) demoTournament demoEvents
    (emptyMatch "semi" 0) (emptyMatch "semi" 1) rfl
    (by decide) rfl (by decide) (by decide) (List.Perm.of_eq rfl) rfl rfl rfl rfl
    (by
      intro k hk
      interval_cases k
      · exact ⟨3, 4, by decide⟩
      · exact ⟨8, 9, by decide⟩
      · exact ⟨5, 6, by decide⟩
      · exact ⟨11, 12, by decide⟩)
  obtain ⟨r', t', hrun⟩ := h.2 (by decide) rfl (by decide) (enough_cycleDraws 320)
  obtain ⟨s0', s1', h1, _, h3, _, h5, h6, h7, h8⟩ := h.1 r' t' hrun
  exact ⟨r', t', s0', s1', hrun, h1, h3, h5, h6, h7, h8⟩

theorem wrap64_id {x : Int} (h1 : minInt ≤ x) (h2 : x ≤ maxInt) : wrap64 x = x := by
  unfold minInt at h1
  unfold maxInt at h2
  unfold wrap64
  omega

theorem wrap64_range (x : Int) : minInt ≤ wrap64 x ∧ wrap64 x ≤ maxInt := by
  unfold minInt maxInt wrap64
  omega

theorem wrap64_add_left (a b : Int) : wrap64 (wrap64 a + b) = wrap64 (a + b) := by
  unfold wrap64
  omega

theorem wrap64_add_right (a b : Int) : wrap64 (a + wrap64 b) = wrap64 (a + b) := by
  unfold wrap64
  omega

/-- The wrapped score is the score computed in the integers, wrapped once. -/
theorem wrapping_score (p : Player) : Wrapping.Score p = wrap64 p.Score := by
  unfold Wrapping.Score Player.Score
  simp only [wrap64_add_left, wrap64_add_right, Int.zero_add]


theorem wrapping_addShot_shots (p : Player) :
    (Wrapping.AddShot p).Shots = wrap64 (p.Shots + 1) := rfl

theorem wrapping_addSweep_fields (p : Player) :
    (Wrapping.AddSweep p).Sweeps = wrap64 (p.Sweeps + 1) ∧
    (Wrapping.AddSweep p).Shots = wrap64 (p.Shots + 1) ∧
    (Wrapping.AddSweep p).Kills = wrap64 (wrap64 (wrap64 (p.Kills + 1) + 1) + 1) ∧
    (Wrapping.AddSweep p).Self = p.Self ∧ (Wrapping.AddSweep p).Explosions = p.Explosions ∧
    (Wrapping.AddSweep p).Matches = p.Matches ∧ (Wrapping.AddSweep p).Name = p.Name ∧
    (Wrapping.AddSweep p).PreferredColor = p.PreferredColor ∧
    (Wrapping.AddSweep p).TotalScore = p.TotalScore :=
  ⟨rfl, rfl, rfl, rfl, rfl, rfl, rfl, rfl, rfl⟩

/-- C16, amended: on Go's 64-bit `int`, `AddSweep` keeps self, explosions,
matches-played, name, colour and total score; it raises sweeps by exactly 1 when
sweeps are below the largest `int`, shots by exactly 1 when shots are below it,
kills by exactly 3 when kills are at most the largest `int` minus 3, and `Score`
by exactly 14 when the score is at most the largest `int` minus 14.  When the
three counters have that room the wrapped operation is the one on unbounded
integers. -/
theorem C16_addSweep (p : Player) (h : p.InRange) :
    (p.Sweeps < maxInt → (Wrapping.AddSweep p).Sweeps = p.Sweeps + 1) ∧
    (p.Shots < maxInt → (Wrapping.AddSweep p).Shots = p.Shots + 1) ∧
    (p.Kills ≤ maxInt - 3 → (Wrapping.AddSweep p).Kills = p.Kills + 3) ∧
    (Wrapping.AddSweep p).Self = p.Self ∧ (Wrapping.AddSweep p).Explosions = p.Explosions ∧
    (Wrapping.AddSweep p).Matches = p.Matches ∧ (Wrapping.AddSweep p).Name = p.Name ∧
    (Wrapping.AddSweep p).PreferredColor = p.PreferredColor ∧
    (Wrapping.AddSweep p).TotalScore = p.TotalScore ∧
    (Wrapping.Score p ≤ maxInt - 14 →
      Wrapping.Score (Wrapping.AddSweep p) = Wrapping.Score p + 14) ∧
    (p.Sweeps < maxInt → p.Shots < maxInt → p.Kills ≤ maxInt - 3 →
      Wrapping.AddSweep p = p.AddSweep) := by
  obtain ⟨⟨a1, a2⟩, ⟨b1, b2⟩, ⟨c1, c2⟩, _⟩ := h
  obtain ⟨f1, f2, f3, f4, f5, f6, f7, f8, f9⟩ := wrapping_addSweep_fields p
  have e1 : p.Sweeps < maxInt → wrap64 (p.Sweeps + 1) = p.Sweeps + 1 := by
    intro hlt
    unfold maxInt at hlt
    unfold minInt at b1
    unfold wrap64
    omega
  have e2 : p.Shots < maxInt → wrap64 (p.Shots + 1) = p.Shots + 1 := by
    intro hlt
    unfold maxInt at hlt
    unfold minInt at a1
    unfold wrap64
    omega
  have e3 : p.Kills ≤ maxInt - 3 →
      wrap64 (wrap64 (wrap64 (p.Kills + 1) + 1) + 1) = p.Kills + 3 := by
    intro hlt
    unfold maxInt at hlt
    unfold minInt at c1
    unfold wrap64
    omega
  refine ⟨fun hlt => by rw [f1, e1 hlt], fun hlt => by rw [f2, e2 hlt],
    fun hlt => by rw [f3, e3 hlt], f4, f5, f6, f7, f8, f9, ?_, ?_⟩
  · intro hs
    rw [wrapping_score] at hs ⊢
    rw [wrapping_score]
    have hq : (Wrapping.AddSweep p).Score =
        wrap64 (p.Sweeps + 1) * 5 + wrap64 (p.Shots + 1) * 3 +
          wrap64 (wrap64 (wrap64 (p.Kills + 1) + 1) + 1) * 2 + p.Self + p.Explosions := by
      unfold Player.Score
      rw [f1, f2, f3, f4, f5]
    rw [hq]
    have hp : p.Score = p.Sweeps * 5 + p.Shots * 3 + p.Kills * 2 + p.Self + p.Explosions := rfl
    rw [hp] at hs ⊢
    unfold maxInt at hs
    unfold wrap64 at hs ⊢
    omega
  · intro h1 h2 h3
    apply player_ext
    · exact f7
    · exact f8
    · rw [f2, e2 h2]; rfl
    · rw [f1, e1 h1]; rfl
    · rw [f3, e3 h3]
      show p.Kills + 3 = p.Kills + 1 + 1 + 1
      omega
    · exact f4
    · exact f5
    · exact f6
    · exact f9

/-- C16 fails on `topScorer`, whose numeric fields are all values of `int`: its
score is 9223372036854775806, and after `AddSweep` it is -9223372036854775796. -/
theorem C16_counterexample :
    topScorer.InRange ∧ Wrapping.Score topScorer = 9223372036854775806 ∧
    Wrapping.Score (Wrapping.AddSweep topScorer) = -9223372036854775796 := by
  refine ⟨?_, by decide, by decide⟩
  unfold Player.InRange
  decide

/-- C16 on `midPlayer`, with 2 shots, 1 sweep, 4 kills and score 20. -/
theorem C16_addSweep_witness :
    midPlayer.InRange ∧ (Wrapping.AddSweep midPlayer).Kills = 7 ∧
    Wrapping.Score midPlayer = 20 ∧ Wrapping.Score (Wrapping.AddSweep midPlayer) = 34 := by
  have h : midPlayer.InRange := by unfold Player.InRange; decide
  obtain ⟨_, _, h3, _, _, _, _, _, _, h10, _⟩ := C16_addSweep midPlayer h
  have hs : Wrapping.Score midPlayer = 20 := by decide
  refine ⟨h, ?_, hs, ?_⟩
  · rw [h3 (by decide)]; rfl
  · rw [h10 (by decide), hs]; rfl

theorem wrap64_succ_nonneg {x : Int} (h0 : 0 ≤ x) (h1 : x < maxInt) :
    wrap64 (x + 1) = x + 1 := by
  unfold maxInt at h1
  unfold wrap64
  omega

theorem wrap64_pred_nonneg {x : Int} (h0 : 0 ≤ x) (h1 : x ≤ maxInt) :
    wrap64 (x - 1) = x - 1 := by
  unfold maxInt at h1
  unfold wrap64
  omega

theorem wrapping_removeShot_ok (p : Player) (h : p.NonNeg) (hr : p.InRange) :
    (Wrapping.RemoveShot p).NonNeg ∧ (Wrapping.RemoveShot p).InRange ∧
      (Wrapping.RemoveShot p).Kills = p.Kills := by
  unfold Wrapping.RemoveShot
  split
  · exact ⟨h, hr, rfl⟩
  · rename_i hne
    obtain ⟨h1, h2, h3, h4, h5⟩ := h
    obtain ⟨r1, r2, r3, r4, r5, r6, r7⟩ := hr
    have e := wrap64_pred_nonneg h1 r1.2
    refine ⟨⟨?_, h2, h3, h4, h5⟩, ⟨?_, r2, r3, r4, r5, r6, r7⟩, rfl⟩
    · show 0 ≤ wrap64 (p.Shots - 1)
      rw [e]; omega
    · exact wrap64_range _

theorem wrapping_removeKill_ok (p : Player) (h : p.NonNeg) (hr : p.InRange) :
    (Wrapping.RemoveKill p).NonNeg ∧ (Wrapping.RemoveKill p).InRange := by
  unfold Wrapping.RemoveKill
  split
  · exact ⟨h, hr⟩
  · rename_i hne
    obtain ⟨h1, h2, h3, h4, h5⟩ := h
    obtain ⟨r1, r2, r3, r4, r5, r6, r7⟩ := hr
    have e := wrap64_pred_nonneg h3 r3.2
    refine ⟨⟨h1, h2, ?_, h4, h5⟩, ⟨r1, r2, ?_, r4, r5, r6, r7⟩⟩
    · show 0 ≤ wrap64 (p.Kills - 1)
      rw [e]; omega
    · exact wrap64_range _

theorem wrapping_addShot_ok (p : Player) (h : p.NonNeg) (hr : p.InRange)
    (hlt : p.Shots < maxInt) :
    (Wrapping.AddShot p).NonNeg ∧ (Wrapping.AddShot p).InRange ∧
      (Wrapping.AddShot p).Kills = p.Kills := by
  obtain ⟨h1, h2, h3, h4, h5⟩ := h
  obtain ⟨r1, r2, r3, r4, r5, r6, r7⟩ := hr
  have e := wrap64_succ_nonneg h1 hlt
  refine ⟨⟨?_, h2, h3, h4, h5⟩, ⟨?_, r2, r3, r4, r5, r6, r7⟩, rfl⟩
  · show 0 ≤ wrap64 (p.Shots + 1)
    rw [e]; omega
  · exact wrap64_range _

theorem wrapping_addKill_ok (p : Player) (k : Int) (h : p.NonNeg) (hr : p.InRange)
    (hk : 0 ≤ k) (hle : p.Kills + k ≤ maxInt) :
    (Wrapping.AddKill p [k]).NonNeg ∧ (Wrapping.AddKill p [k]).InRange ∧
      (Wrapping.AddKill p [k]).Kills = p.Kills + k ∧
      (Wrapping.AddKill p [k]).Shots = p.Shots := by
  obtain ⟨h1, h2, h3, h4, h5⟩ := h
  obtain ⟨r1, r2, r3, r4, r5, r6, r7⟩ := hr
  have e : wrap64 (p.Kills + k) = p.Kills + k := by
    apply wrap64_id
    · unfold minInt; omega
    · exact hle
  refine ⟨⟨h1, h2, ?_, h4, h5⟩, ⟨r1, r2, ?_, r4, r5, r6, r7⟩, e, rfl⟩
  · show 0 ≤ wrap64 (p.Kills + k)
    rw [e]; omega
  · exact wrap64_range _

theorem wrapping_addKill_one_ok (p : Player) (h : p.NonNeg) (hr : p.InRange)
    (hlt : p.Kills < maxInt) :
    (Wrapping.AddKill p []).NonNeg ∧ (Wrapping.AddKill p []).InRange ∧
      (Wrapping.AddKill p []).Kills = p.Kills + 1 ∧
      (Wrapping.AddKill p []).Shots = p.Shots := by
  have := wrapping_addKill_ok p 1 h hr (by omega) (by omega)
  exact this

/-- C17, amended: on Go's 64-bit `int`, for a player whose five counters are
non-negative, `RemoveShot`, `RemoveSweep`, `RemoveKill` and `RemoveExplosion` keep
the five counters non-negative; so does every other operation when each counter
it raises has room below the largest `int`: shots for `AddShot`; sweeps, shots
and 3 kills for `AddSweep`; kills for `AddKill` (with its argument, if any,
non-negative); self and shots for `AddSelf`; kills for `RemoveSelf`; explosions,
shots and kills for `AddExplosion`.  Each `RemoveX` called when the X counter is
zero returns the player unchanged. -/
theorem C17_counters_nonNeg (p : Player) (h : p.NonNeg) (hr : p.InRange) :
    ((Wrapping.RemoveShot p).NonNeg ∧ (Wrapping.RemoveSweep p).NonNeg ∧
      (Wrapping.RemoveKill p).NonNeg ∧ (Wrapping.RemoveExplosion p).NonNeg) ∧
    ((p.Shots < maxInt → (Wrapping.AddShot p).NonNeg) ∧
      (p.Sweeps < maxInt → p.Shots < maxInt → p.Kills ≤ maxInt - 3 →
        (Wrapping.AddSweep p).NonNeg) ∧
      (p.Kills < maxInt → (Wrapping.AddKill p []).NonNeg) ∧
      (∀ k : Int, 0 ≤ k → p.Kills + k ≤ maxInt → (Wrapping.AddKill p [k]).NonNeg) ∧
      (p.Self < maxInt → p.Shots < maxInt → (Wrapping.AddSelf p).NonNeg) ∧
      (p.Kills < maxInt → (Wrapping.RemoveSelf p).NonNeg) ∧
      (p.Explosions < maxInt → p.Shots < maxInt → p.Kills < maxInt →
        (Wrapping.AddExplosion p).NonNeg)) ∧
    ((p.Shots = 0 → Wrapping.RemoveShot p = p) ∧ (p.Sweeps = 0 → Wrapping.RemoveSweep p = p) ∧
      (p.Kills = 0 → Wrapping.RemoveKill p = p) ∧ (p.Self = 0 → Wrapping.RemoveSelf p = p) ∧
      (p.Explosions = 0 → Wrapping.RemoveExplosion p = p)) := by
  have hp := h
  have hrp := hr
  obtain ⟨h1, h2, h3, h4, h5⟩ := h
  obtain ⟨r1, r2, r3, r4, r5, r6, r7⟩ := hr
  refine ⟨⟨(wrapping_removeShot_ok p hp hrp).1, ?_, (wrapping_removeKill_ok p hp hrp).1, ?_⟩,
    ⟨fun hlt => (wrapping_addShot_ok p hp hrp hlt).1, ?_,
     fun hlt => (wrapping_addKill_one_ok p hp hrp hlt).1,
     fun k hk hle => (wrapping_addKill_ok p k hp hrp hk hle).1, ?_, ?_, ?_⟩,
    ⟨?_, ?_, ?_, ?_, ?_⟩⟩
  · -- RemoveSweep
    unfold Wrapping.RemoveSweep
    split
    · exact hp
    · rename_i hne
      have e := wrap64_pred_nonneg h2 r2.2
      have a0 : ({ p with Sweeps := wrap64 (p.Sweeps - 1) } : Player).NonNeg :=
        ⟨h1, by show 0 ≤ wrap64 (p.Sweeps - 1); rw [e]; omega, h3, h4, h5⟩
      have b0 : ({ p with Sweeps := wrap64 (p.Sweeps - 1) } : Player).InRange :=
        ⟨r1, wrap64_range _, r3, r4, r5, r6, r7⟩
      obtain ⟨a1, b1, _⟩ := wrapping_removeShot_ok _ a0 b0
      obtain ⟨a2, b2⟩ := wrapping_removeKill_ok _ a1 b1
      obtain ⟨a3, b3⟩ := wrapping_removeKill_ok _ a2 b2
      exact (wrapping_removeKill_ok _ a3 b3).1
  · -- RemoveExplosion
    unfold Wrapping.RemoveExplosion
    split
    · exact hp
    · rename_i hne
      have e := wrap64_pred_nonneg h5 r5.2
      have a0 : ({ p with Explosions := wrap64 (p.Explosions - 1) } : Player).NonNeg :=
        ⟨h1, h2, h3, h4, by show 0 ≤ wrap64 (p.Explosions - 1); rw [e]; omega⟩
      have b0 : ({ p with Explosions := wrap64 (p.Explosions - 1) } : Player).InRange :=
        ⟨r1, r2, r3, r4, wrap64_range _, r6, r7⟩
      obtain ⟨a1, b1, _⟩ := wrapping_removeShot_ok _ a0 b0
      exact (wrapping_removeKill_ok _ a1 b1).1
  · -- AddSweep
    intro hsw hsh hk
    unfold Wrapping.AddSweep
    have e := wrap64_succ_nonneg h2 hsw
    have a0 : ({ p with Sweeps := wrap64 (p.Sweeps + 1) } : Player).NonNeg :=
      ⟨h1, by show 0 ≤ wrap64 (p.Sweeps + 1); rw [e]; omega, h3, h4, h5⟩
    have b0 : ({ p with Sweeps := wrap64 (p.Sweeps + 1) } : Player).InRange :=
      ⟨r1, wrap64_range _, r3, r4, r5, r6, r7⟩
    obtain ⟨a1, b1, k1⟩ := wrapping_addShot_ok _ a0 b0 hsh
    have k1' : (Wrapping.AddShot { p with Sweeps := wrap64 (p.Sweeps + 1) }).Kills = p.Kills := k1
    obtain ⟨a2, b2, k2, _⟩ := wrapping_addKill_one_ok _ a1 b1 (by rw [k1']; omega)
    obtain ⟨a3, b3, k3, _⟩ := wrapping_addKill_one_ok _ a2 b2 (by rw [k2, k1']; omega)
    exact (wrapping_addKill_one_ok _ a3 b3 (by rw [k3, k2, k1']; omega)).1
  · -- AddSelf
    intro hse hsh
    unfold Wrapping.AddSelf
    have e := wrap64_succ_nonneg h4 hse
    have a0 : ({ p with Self := wrap64 (p.Self + 1) } : Player).NonNeg :=
      ⟨h1, h2, h3, by show 0 ≤ wrap64 (p.Self + 1); rw [e]; omega, h5⟩
    have b0 : ({ p with Self := wrap64 (p.Self + 1) } : Player).InRange :=
      ⟨r1, r2, r3, wrap64_range _, r5, r6, r7⟩
    obtain ⟨a1, b1⟩ := wrapping_removeKill_ok _ a0 b0
    have s1 : (Wrapping.RemoveKill { p with Self := wrap64 (p.Self + 1) }).Shots = p.Shots := by
      unfold Wrapping.RemoveKill
      split <;> rfl
    exact (wrapping_addShot_ok _ a1 b1 (by rw [s1]; exact hsh)).1
  · -- RemoveSelf
    intro hk
    unfold Wrapping.RemoveSelf
    split
    · exact hp
    · rename_i hne
      have e := wrap64_pred_nonneg h4 r4.2
      have a0 : ({ p with Self := wrap64 (p.Self - 1) } : Player).NonNeg :=
        ⟨h1, h2, h3, by show 0 ≤ wrap64 (p.Self - 1); rw [e]; omega, h5⟩
      have b0 : ({ p with Self := wrap64 (p.Self - 1) } : Player).InRange :=
        ⟨r1, r2, r3, wrap64_range _, r5, r6, r7⟩
      obtain ⟨a1, b1, _, _⟩ := wrapping_addKill_one_ok _ a0 b0 hk
      exact (wrapping_removeShot_ok _ a1 b1).1
  · -- AddExplosion
    intro hex hsh hk
    unfold Wrapping.AddExplosion
    have e := wrap64_succ_nonneg h5 hex
    have a0 : ({ p with Explosions := wrap64 (p.Explosions + 1) } : Player).NonNeg :=
      ⟨h1, h2, h3, h4, by show 0 ≤ wrap64 (p.Explosions + 1); rw [e]; omega⟩
    have b0 : ({ p with Explosions := wrap64 (p.Explosions + 1) } : Player).InRange :=
      ⟨r1, r2, r3, r4, wrap64_range _, r6, r7⟩
    obtain ⟨a1, b1, k1⟩ := wrapping_addShot_ok _ a0 b0 hsh
    have k1' : (Wrapping.AddShot { p with Explosions := wrap64 (p.Explosions + 1) }).Kills =
        p.Kills := k1
    exact (wrapping_addKill_one_ok _ a1 b1 (by rw [k1']; exact hk)).1
  · intro h0; simp [Wrapping.RemoveShot, h0]
  · intro h0; simp [Wrapping.RemoveSweep, h0]
  · intro h0; simp [Wrapping.RemoveKill, h0]
  · intro h0; simp [Wrapping.RemoveSelf, h0]
  · intro h0; simp [Wrapping.RemoveExplosion, h0]

/-- C17 fails on `topShooter`, whose counters are non-negative values of `int`:
after `AddShot` its shot counter is -9223372036854775808.  It also fails for
`AddKill` with the argument 9223372036854775807 on a player with 1 kill. -/
theorem C17_counterexample :
    topShooter.NonNeg ∧ topShooter.InRange ∧
    (Wrapping.AddShot topShooter).Shots = -9223372036854775808 ∧
    (Wrapping.AddKill (mkPlayer "cy" "green" 1) [9223372036854775807]).Kills =
      -9223372036854775808 := by
  refine ⟨?_, ?_, by decide, by decide⟩
  · unfold Player.NonNeg; decide
  · unfold Player.InRange; decide

/-- C17 on `midPlayer`, whose counters are 2, 1, 4, 1 and 0. -/
theorem C17_counters_nonNeg_witness :
    midPlayer.NonNeg ∧ midPlayer.InRange ∧ (Wrapping.RemoveSweep midPlayer).NonNeg ∧
      (Wrapping.AddSweep midPlayer).NonNeg ∧ Wrapping.RemoveExplosion midPlayer = midPlayer := by
  have h : midPlayer.NonNeg := by unfold Player.NonNeg midPlayer; decide
  have hr : midPlayer.InRange := by unfold Player.InRange; decide
  obtain ⟨⟨_, h2, _, _⟩, ⟨_, h6, _, _, _, _, _⟩, _, _, _, _, hx⟩ :=
    C17_counters_nonNeg midPlayer h hr
  exact ⟨h, hr, h2, h6 (by decide) (by decide) (by decide), hx rfl⟩

end Drunkenfall
